import Mathlib

/-!
# The session engine of `cram` (src/parser.c, src/rng.c, src/main.c)

A shallow embedding of `parse_session_file` and of the helpers it calls, of
the generator and its shuffles, and of the scheduler, followed by the
properties of the three that the specification states.

Conventions of the embedding.

* A byte is a natural number; every function below only compares bytes with
  constants, so nothing depends on the bound 256.
* `char *p` pointing into `session->buffer` is the offset of `p` in the buffer;
  a function that only reads through a pointer receives the bytes from that
  pointer on (`buffer.drop offset`).  Reading past the stored bytes yields 0;
  the parser never does so, it only touches the indices `0 .. buffer_len`.
* The arrays `groups[0 .. group_count)` and `items[0 .. item_count)` are lists;
  `group_count` and `item_count` are their lengths.
* The limits of `config.h` are the fields of `Config`.
* A failing call returns the text written to `err_buf`.
* `(uint32_t)` casts are `% 2 ^ 32`; `unsigned long` has 64 bits.
* Opening and reading the file stay outside: `parse_session_file` receives the
  bytes that `fread` delivered.  `isspace` is that of the "C" locale, which is
  in force since the program never calls `setlocale`.
* A `uint64_t` or `size_t` is a natural number reduced `% 2 ^ 64` where it can
  overflow.  The clock, the terminal, the screen and the log file are inputs of
  the scheduler: each call that leaves the program takes its outcome, failure
  included, from a `Tick`.
-/

namespace Cram

/-- The limits defined in `config.h`. -/
structure Config where
  MAX_FILE_BYTES : Nat
  MAX_LINE_LEN : Nat
  MAX_GROUPS : Nat
  MAX_ITEMS_TOTAL : Nat
  deriving Repr, DecidableEq

/-- `struct Item` of model.h. -/
structure Item where
  offset : Nat
  length : Nat
  deriving Repr, DecidableEq

/-- `struct Group` of model.h. -/
structure Group where
  name_offset : Nat
  name_length : Nat
  seconds : Nat
  item_start : Nat
  item_count : Nat
  deriving Repr, DecidableEq

/-- `struct Session` of model.h: `groups` and `items` hold the used part of
the two arrays. -/
structure Session where
  buffer : List Nat
  buffer_len : Nat
  groups : List Group
  items : List Item
  deriving Repr, DecidableEq

/-- The field `group_count`. -/
def Session.group_count (s : Session) : Nat := s.groups.length

/-- The field `item_count`. -/
def Session.item_count (s : Session) : Nat := s.items.length

/-- The cast `(uint32_t) n`. -/
def to_u32 (n : Nat) : Nat := n % 2 ^ 32

/-- `ULONG_MAX` for a 64-bit `unsigned long`. -/
def ULONG_MAX : Nat := 2 ^ 64 - 1

/-- `isspace` in the "C" locale: space, `\t`, `\n`, `\v`, `\f`, `\r`. -/
def isspace (c : Nat) : Bool := c == 32 || (9 ≤ c && c ≤ 13)

/-- `isdigit`. -/
def isdigit (c : Nat) : Bool := 48 ≤ c && c ≤ 57

/-- `set_error`: the text left in `err_buf`. -/
def set_error (msg : String) : String := msg

/-- `set_error_line`: the text `"Line %zu: %s"` left in `err_buf`. -/
def set_error_line (line_no : Nat) (msg : String) : String :=
  "Line " ++ toString line_no ++ ": " ++ msg

/-- The `for` loop of `trim_left_index`, with `fuel` iterations left and loop
variable `i`: the index of the first byte that is not a space, if the loop
finds one. -/
def trim_left_loop (line : List Nat) (line_len : Nat) : Nat → Nat → Option Nat
  | 0, _ => none
  | fuel + 1, i =>
    if i ≥ line_len then none
    else if !isspace (line.getD i 0) then some i
    else trim_left_loop line line_len fuel (i + 1)

/-- `trim_left_index`. -/
def trim_left_index (cfg : Config) (line : List Nat) (line_len : Nat) : Nat :=
  match trim_left_loop line line_len cfg.MAX_LINE_LEN 0 with
  | some start => start
  | none => line_len

/-- The `for` loop of `trim_right_index`, with `fuel` iterations left and the
current value of `end`. -/
def trim_right_loop (line : List Nat) (line_len start : Nat) : Nat → Nat → Nat
  | 0, e => e
  | fuel + 1, e =>
    if line_len = 0 ∨ e = start then e
    else if e = 0 then e
    else if !isspace (line.getD (e - 1) 0) then e
    else trim_right_loop line line_len start fuel (e - 1)

/-- `trim_right_index`. -/
def trim_right_index (cfg : Config) (line : List Nat) (line_len start : Nat) : Nat :=
  trim_right_loop line line_len start cfg.MAX_LINE_LEN line_len

/-- `is_blank_or_comment`. -/
def is_blank_or_comment (cfg : Config) (line : List Nat) (line_len : Nat) : Bool :=
  let start := trim_left_index cfg line line_len
  if start ≥ line_len then true else line.getD start 0 == 35

/-- The search for `'|'` in `parse_header_line`, with `fuel` iterations left
and loop variable `i`. -/
def find_pipe (line : List Nat) (line_len : Nat) : Nat → Nat → Option Nat
  | 0, _ => none
  | fuel + 1, i =>
    if i ≥ line_len - 1 then none
    else if line.getD i 0 = 124 then some i
    else find_pipe line line_len fuel (i + 1)

/-- The outcome of `strtoul(s, &endptr, 10)`: the value returned, the offset
of `endptr` from `s`, and whether `errno` was set to `ERANGE`. -/
structure StrtoulResult where
  value : Nat
  endptr : Nat
  erange : Bool
  deriving Repr, DecidableEq

/-- The number written by a sequence of decimal digits. -/
def digits_value (ds : List Nat) : Nat :=
  ds.foldl (fun acc c => acc * 10 + (c - 48)) 0

/-- The part of a string after an optional sign, and whether the sign is `'-'`. -/
def strip_sign : List Nat → Bool × List Nat
  | 43 :: u => (false, u)
  | 45 :: u => (true, u)
  | t => (false, t)

/-- `strtoul(s, &endptr, 10)` of the C library for a 64-bit `unsigned long`
(ISO C 7.22.1.4): white space is skipped, one sign is accepted, then the
longest run of digits is converted.  Without a digit nothing is converted and
`endptr` is `s`; a value above `ULONG_MAX` gives `ULONG_MAX` and `ERANGE`; a
leading `'-'` negates the value in the unsigned type.  `ERANGE` is the only
error recorded: where nothing is converted the value is 0, which the caller
rejects whatever `errno` holds. -/
def strtoul (s : List Nat) : StrtoulResult :=
  let t := s.dropWhile isspace
  let (neg, u) := strip_sign t
  let ds := u.takeWhile isdigit
  if ds = [] then { value := 0, endptr := 0, erange := false }
  else
    let v := digits_value ds
    let consumed := (s.length - u.length) + ds.length
    if v > ULONG_MAX then { value := ULONG_MAX, endptr := consumed, erange := true }
    else { value := if neg then (2 ^ 64 - v) % 2 ^ 64 else v, endptr := consumed, erange := false }

/-- `strlen`. -/
def strlen (s : List Nat) : Nat := (s.takeWhile (fun c => c != 0)).length

/-- The end of `parse_header_line`, from `errno = 0` on: `buf` is the buffer
after the four stores of `'\0'`, `name` and `sec` are the offsets in it of the
pointers `name` and `sec`. -/
def header_commit (cfg : Config) (session : Session) (buf : List Nat)
    (name sec line_no : Nat) : Except String Session :=
  let r := strtoul (buf.drop sec)
  if r.erange ∨ buf.getD (sec + r.endptr) 0 ≠ 0 ∨ r.value < 1 ∨ r.value > 86400 then
    .error (set_error_line line_no "invalid seconds value")
  else if session.groups.length ≥ cfg.MAX_GROUPS then
    .error (set_error_line line_no "too many groups")
  else
    let name_length := strlen (buf.drop name)
    if name_length > cfg.MAX_LINE_LEN then
      .error (set_error_line line_no "group name too long")
    else
      .ok { session with
            buffer := buf
            groups := session.groups ++
              [{ name_offset := to_u32 name
                 name_length := to_u32 name_length
                 seconds := to_u32 r.value
                 item_start := to_u32 session.items.length
                 item_count := 0 }] }

/-- The part of `parse_header_line` that trims the seconds field, from
`char *sec = line + pipe_index + 1` on: `buf` is the buffer after the first
three stores and `name` the offset of the trimmed name. -/
def header_seconds (cfg : Config) (session : Session) (buf : List Nat)
    (line_start line_len line_no pipe_index name : Nat) : Except String Session :=
  let sec := buf.drop (line_start + pipe_index + 1)
  let sec_len := (line_len - 1) - (pipe_index + 1)
  let sec_start := trim_left_index cfg sec sec_len
  let sec_end := trim_right_index cfg sec sec_len sec_start
  if sec_start ≥ sec_end then
    .error (set_error_line line_no "malformed header")
  else
    header_commit cfg session (buf.set (line_start + pipe_index + 1 + sec_end) 0) name
      (line_start + pipe_index + 1 + sec_start) line_no

/-- The part of `parse_header_line` that trims the name field, from the stores
`line[line_len - 1] = 0; line[pipe_index] = 0` on. -/
def header_name (cfg : Config) (session : Session)
    (line_start line_len line_no pipe_index : Nat) : Except String Session :=
  let buf1 :=
    (session.buffer.set (line_start + (line_len - 1)) 0).set (line_start + pipe_index) 0
  let name := buf1.drop (line_start + 1)
  let name_len := pipe_index - 1
  let name_start := trim_left_index cfg name name_len
  let name_end := trim_right_index cfg name name_len name_start
  if name_start ≥ name_end then
    .error (set_error_line line_no "malformed header")
  else
    header_seconds cfg session (buf1.set (line_start + 1 + name_end) 0) line_start line_len
      line_no pipe_index (line_start + 1 + name_start)

/-- `parse_header_line(session, line, line_len, line_no, ...)` where `line` is
`session->buffer + line_start`. -/
def parse_header_line (cfg : Config) (session : Session) (line_start line_len line_no : Nat) :
    Except String Session :=
  let line := session.buffer.drop line_start
  if line_len < 3 ∨ line.getD 0 0 ≠ 91 ∨ line.getD (line_len - 1) 0 ≠ 93 then
    .error (set_error_line line_no "malformed header")
  else
    match find_pipe line line_len (cfg.MAX_LINE_LEN - 1) 1 with
    | none => .error (set_error_line line_no "malformed header")
    | some pipe_index => header_name cfg session line_start line_len line_no pipe_index

/-- The local variables of the loop of `parse_session_file`; `current` is the
index in `groups` of the group `current` points to, `none` for `NULL`. -/
structure LoopState where
  session : Session
  line_start : Nat
  line_no : Nat
  current : Option Nat
  deriving Repr, DecidableEq

/-- The statement `current->item_count++` for `current = &groups[c]`. -/
def bump_item_count : List Group → Nat → List Group
  | [], _ => []
  | g :: gs, 0 => { g with item_count := to_u32 (g.item_count + 1) } :: gs
  | g :: gs, c + 1 => g :: bump_item_count gs c

/-- The test `current && current->item_count == 0`. -/
def current_is_empty (groups : List Group) : Option Nat → Bool
  | none => false
  | some c => (groups.getD c ⟨0, 0, 0, 0, 0⟩).item_count == 0

/-- The value of `line_len` at loop variable `i`, after the test for a
trailing `'\r'`. -/
def line_len_at (st : LoopState) (i : Nat) : Nat :=
  let line_len := i - st.line_start
  if line_len > 0 ∧ st.session.buffer.getD (st.line_start + line_len - 1) 0 = 13
  then line_len - 1 else line_len

/-- The session after the store `line[line_len] = 0`. -/
def terminate_line (st : LoopState) (i : Nat) : Session :=
  { st.session with buffer := st.session.buffer.set (st.line_start + line_len_at st i) 0 }

/-- The session after the four statements that record an item of the group
`groups[c]`. -/
def add_item (s : Session) (c line_start line_len : Nat) : Session :=
  { s with
    items := s.items ++ [{ offset := to_u32 line_start, length := to_u32 line_len }]
    groups := bump_item_count s.groups c }

/-- The body of `if (i == session->buffer_len || session->buffer[i] == '\n')`
in the loop of `parse_session_file`, up to and including `line_no++`. -/
def line_step (cfg : Config) (st : LoopState) (i : Nat) : Except String LoopState :=
  let line_len := line_len_at st i
  if line_len > cfg.MAX_LINE_LEN then
    .error (set_error_line st.line_no "line too long")
  else
    let s1 := terminate_line st i
    let line := s1.buffer.drop st.line_start
    if !is_blank_or_comment cfg line line_len then
      if line.getD 0 0 = 91 then
        if current_is_empty s1.groups st.current then
          .error (set_error_line st.line_no "previous group has no items")
        else
          match parse_header_line cfg s1 st.line_start line_len st.line_no with
          | .error e => .error e
          | .ok s2 =>
            .ok { session := s2, line_start := i + 1, line_no := st.line_no + 1,
                  current := some (s2.groups.length - 1) }
      else
        match st.current with
        | none => .error (set_error_line st.line_no "item before any group header")
        | some c =>
          if s1.items.length ≥ cfg.MAX_ITEMS_TOTAL then
            .error (set_error_line st.line_no "too many items")
          else
            .ok { session := add_item s1 c st.line_start line_len
                  line_start := i + 1, line_no := st.line_no + 1, current := some c }
    else
      .ok { session := s1, line_start := i + 1, line_no := st.line_no + 1,
            current := st.current }

/-- The loop `for (i = 0; i <= MAX_FILE_BYTES; i++)` of `parse_session_file`
from loop variable `i` on, with `fuel` iterations left. -/
def parse_loop (cfg : Config) : Nat → Nat → LoopState → Except String LoopState
  | 0, _, st => .ok st
  | fuel + 1, i, st =>
    if i = st.session.buffer_len ∨ st.session.buffer.getD i 0 = 10 then
      match line_step cfg st i with
      | .error e => .error e
      | .ok st1 => if i = st.session.buffer_len then .ok st1 else parse_loop cfg fuel (i + 1) st1
    else parse_loop cfg fuel (i + 1) st

/-- The session after `session_init`, `fread` and the two stores
`buffer_len = nread; buffer[nread] = 0`, for a file of at most
`MAX_FILE_BYTES` bytes. -/
def load (file : List Nat) : Session :=
  { buffer := file ++ [0], buffer_len := file.length, groups := [], items := [] }

/-- The loop state on entry to the loop. -/
def start_state (file : List Nat) : LoopState :=
  { session := load file, line_start := 0, line_no := 1, current := none }

/-- `parse_session_file` on a file that could be opened and read and whose
content is `file`: the parsed session, or the text of the error. -/
def parse_session_file (cfg : Config) (file : List Nat) : Except String Session :=
  if file.length > cfg.MAX_FILE_BYTES then
    .error (set_error "file exceeds MAX_FILE_BYTES")
  else
    match parse_loop cfg (cfg.MAX_FILE_BYTES + 1) 0 (start_state file) with
    | .error e => .error e
    | .ok st =>
      if st.session.groups.length = 0 then
        .error (set_error "no groups found")
      else if current_is_empty st.session.groups st.current then
        .error (set_error_line st.line_no "last group has no items")
      else .ok st.session

/-- The bytes of an ASCII text. -/
def ascii (s : String) : List Nat := s.toList.map Char.toNat

/-- Limits used in the examples. -/
def cfg0 : Config :=
  { MAX_FILE_BYTES := 65536, MAX_LINE_LEN := 1024, MAX_GROUPS := 64, MAX_ITEMS_TOTAL := 4096 }

/-- The groups `gs` cover the items `a .. n` by consecutive slices. -/
def chain : List Group → Nat → Nat → Prop
  | [], a, n => a = n
  | g :: gs, a, n => g.item_start = a ∧ chain gs (a + g.item_count) n

/-- The facts about `groups`, `items` and `current` that hold throughout the
loop of `parse_session_file`. -/
structure GInv (cfg : Config) (st : LoopState) : Prop where
  cur : st.current =
    if st.session.groups = [] then none else some (st.session.groups.length - 1)
  chained : chain st.session.groups 0 st.session.items.length
  filled : ∀ g ∈ st.session.groups.dropLast, 1 ≤ g.item_count
  secs : ∀ g ∈ st.session.groups, 1 ≤ g.seconds ∧ g.seconds ≤ 86400
  gcap : st.session.groups.length ≤ cfg.MAX_GROUPS
  icap : st.session.items.length ≤ cfg.MAX_ITEMS_TOTAL

/-- The bytes `b[off .. off + len)`. -/
def span (b : List Nat) (off len : Nat) : List Nat := (b.drop off).take len

/-- The line of `file` that starts at offset `off`: the bytes up to the next
`'\n'` or the end of the file. -/
def line_at (file : List Nat) (off : Nat) : List Nat :=
  (file.drop off).takeWhile (fun c => c != 10)

/-- A line without one trailing `'\r'`. -/
def strip_cr (l : List Nat) : List Nat :=
  if l.getLast? = some 13 then l.dropLast else l

/-- Offset `off` is where a line of `file` starts: the start of the file or
the byte after a `'\n'`. -/
def is_line_start (file : List Nat) (off : Nat) : Prop :=
  off = 0 ∨ (0 < off ∧ file[off - 1]? = some 10)

/-- What the parser guarantees about one item: its span is not empty, starts
a line of the file, holds that line without a trailing `'\r'`, lies inside the
file and was not written to. -/
structure ItemOK (file buffer : List Nat) (it : Item) : Prop where
  pos : 0 < it.length
  inside : it.offset + it.length ≤ file.length
  start : is_line_start file it.offset
  text : span file it.offset it.length = strip_cr (line_at file it.offset)
  kept : ∀ j, it.offset ≤ j → j < it.offset + it.length → buffer[j]? = file[j]?

/-- The facts about the buffer, the items and the line counter that hold at
the head of the loop of `parse_session_file` with loop variable `i`. -/
structure BInv (file : List Nat) (i : Nat) (st : LoopState) : Prop where
  blen : st.session.buffer_len = file.length
  bsize : st.session.buffer.length = file.length + 1
  ls_le : st.line_start ≤ i
  i_le : i ≤ file.length
  tail : ∀ j, st.line_start ≤ j → st.session.buffer[j]? = (file ++ [0])[j]?
  no_nl : ∀ j, st.line_start ≤ j → j < i → file[j]? ≠ some 10
  at_start : is_line_start file st.line_start
  items : ∀ it ∈ st.session.items,
    ItemOK file st.session.buffer it ∧ it.offset + it.length < st.line_start
  ordered : st.session.items.Pairwise (fun a b => a.offset + a.length < b.offset)
  lineno : st.line_no = (file.take st.line_start).count 10 + 1

/-- The facts that hold when the loop is left after the last line. -/
structure Final (file : List Nat) (st : LoopState) : Prop where
  blen : st.session.buffer_len = file.length
  bsize : st.session.buffer.length = file.length + 1
  items : ∀ it ∈ st.session.items, ItemOK file st.session.buffer it
  ordered : st.session.items.Pairwise (fun a b => a.offset + a.length < b.offset)
  lineno : st.line_no = file.count 10 + 2

/-- The loop stands at the start of the line `line` of `file`: the file is
`pre ++ line ++ post`, where `pre` is empty or ends with `'\n'`, `line` has no
`'\n'` and `post` is empty or begins with `'\n'`, and the loop, run over the
bytes of `pre`, has reported no error and has reached the state `st`. -/
structure AtLine (cfg : Config) (file pre line post : List Nat) (st : LoopState) : Prop where
  split : file = pre ++ line ++ post
  fits : file.length ≤ cfg.MAX_FILE_BYTES
  pre_ok : pre = [] ∨ ∃ p, pre = p ++ [10]
  line_ok : 10 ∉ line
  post_ok : post = [] ∨ ∃ q, post = 10 :: q
  run : parse_loop cfg pre.length 0 (start_state file) = .ok st

/-- The bytes `body` followed by `'\0'` are stored at offset `ls` of `b`. -/
def Stored (b : List Nat) (ls : Nat) (body : List Nat) : Prop :=
  ∀ k, k ≤ body.length → b[ls + k]? = (body ++ [0])[k]?

/-- The first byte of a line that is not a space, if there is one. -/
def first_nonspace (l : List Nat) : Option Nat := (l.dropWhile isspace).head?

/-- A field without its leading and trailing white space. -/
def trim (l : List Nat) : List Nat :=
  ((l.dropWhile isspace).reverse.dropWhile isspace).reverse

/-- Every byte of `w` is white space. -/
def all_space (w : List Nat) : Prop := ∀ x ∈ w, isspace x = true

/-- The bytes `t` begin and end with a byte that is not white space. -/
def Trimmed (t : List Nat) : Prop :=
  (∃ x, t.head? = some x ∧ isspace x = false) ∧ (∃ y, t.getLast? = some y ∧ isspace y = false)

/-- The buffer after the four stores of `parse_header_line`, for a name field
of `n` bytes and trimmed ends `e` and `d` of the two fields. -/
def header_buffer (b : List Nat) (ls len n e d : Nat) : List Nat :=
  (((b.set (ls + (len - 1)) 0).set (ls + (n + 1)) 0).set (ls + 1 + e) 0).set
    (ls + (n + 1) + 1 + d) 0

/-- The digits of a seconds field: the field without one leading `'+'`. -/
def sec_digits : List Nat → List Nat
  | 43 :: u => u
  | x => x

/-- A trimmed seconds field is valid: after one optional `'+'` it is a
non-empty sequence of decimal digits whose value lies in `[1, 86400]`. -/
def sec_valid (x : List Nat) : Prop :=
  sec_digits x ≠ [] ∧ (∀ c ∈ sec_digits x, isdigit c = true) ∧
    1 ≤ digits_value (sec_digits x) ∧ digits_value (sec_digits x) ≤ 86400

/-- The test of `parse_header_line` on the result of `strtoul`, passed. -/
def seconds_accepted (u : List Nat) : Prop :=
  ¬ ((strtoul (u ++ [0])).erange ∨
      (u ++ [0]).getD (strtoul (u ++ [0])).endptr 0 ≠ 0 ∨
      (strtoul (u ++ [0])).value < 1 ∨ (strtoul (u ++ [0])).value > 86400)

/-- The lines `ls`, each followed by `'\n'`. -/
def join_lines : List (List Nat) → List Nat
  | [] => []
  | l :: ls => l ++ 10 :: join_lines ls

/-- The file of the end-to-end example of the specification. -/
def greetings_file : List Nat :=
  ascii "[Greetings|5]\nHello\nBonjour\n[Numbers|5]\nOne\nTwo\n"

/-- The session parsed from `greetings_file`. -/
def greetings_session : Session :=
  { buffer :=
      ascii "[Greetings\x005\x00\x00Hello\x00Bonjour\x00[Numbers\x005\x00\x00One\x00Two\x00\x00"
    buffer_len := 48
    groups :=
      [{ name_offset := 1, name_length := 9, seconds := 5, item_start := 0, item_count := 2 },
       { name_offset := 29, name_length := 7, seconds := 5, item_start := 2, item_count := 2 }]
    items := [{ offset := 14, length := 5 }, { offset := 20, length := 7 },
              { offset := 40, length := 3 }, { offset := 44, length := 3 }] }

/-- Small limits, for the examples that reach a limit. -/
def cfg_small : Config :=
  { MAX_FILE_BYTES := 64, MAX_LINE_LEN := 8, MAX_GROUPS := 1, MAX_ITEMS_TOTAL := 2 }

/-- A file with a header on its third line. -/
def two_group_file : List Nat := ascii "[A|5]\nx\n[B|5]\ny"

/-- The loop state at the third line of `two_group_file`. -/
def two_group_state : LoopState :=
  { session :=
      { buffer := ascii "[A\x005\x00\x00x\x00[B|5]\ny\x00"
        buffer_len := 15
        groups :=
          [{ name_offset := 1, name_length := 1, seconds := 5, item_start := 0,
             item_count := 1 }]
        items := [{ offset := 6, length := 1 }] }
    line_start := 8
    line_no := 3
    current := some 0 }

/-- A file in which a header follows an empty group after a comment and a
blank line. -/
def empty_group_file : List Nat := ascii "[A|5]\n# c\n\n[B|5]\nx"

/-- The loop state at the fourth line of `empty_group_file`. -/
def empty_group_state : LoopState :=
  { session :=
      { buffer := ascii "[A\x005\x00\x00# c\x00\x00[B|5]\nx\x00"
        buffer_len := 18
        groups :=
          [{ name_offset := 1, name_length := 1, seconds := 5, item_start := 0,
             item_count := 0 }]
        items := [] }
    line_start := 11
    line_no := 4
    current := some 0 }

/-- A file whose fourth line is one item too many for `cfg_small`. -/
def full_file : List Nat := ascii "[A|5]\nx\ny\nz"

/-- The loop state at the fourth line of `full_file`. -/
def full_state : LoopState :=
  { session :=
      { buffer := ascii "[A\x005\x00\x00x\x00y\x00z\x00"
        buffer_len := 11
        groups :=
          [{ name_offset := 1, name_length := 1, seconds := 5, item_start := 0,
             item_count := 2 }]
        items := [{ offset := 6, length := 1 }, { offset := 8, length := 1 }] }
    line_start := 10
    line_no := 4
    current := some 0 }

/-- A file whose header has a sign in its seconds field. -/
def signed_file : List Nat := ascii "[A|+5]\nx"

/-- The session parsed from `signed_file`. -/
def signed_session : Session :=
  { buffer := ascii "[A\x00+5\x00\x00x\x00"
    buffer_len := 8
    groups :=
      [{ name_offset := 1, name_length := 1, seconds := 5, item_start := 0, item_count := 1 }]
    items := [{ offset := 7, length := 1 }] }

/-- A file of one group and one item. -/
def plain_file : List Nat := ascii "[A|5]\nx"

/-- A file whose header has white space around both fields and a carriage
return at the end of the line. -/
def padded_file : List Nat := ascii "[ A b |\t 0042 ]\r\nx"

/-- The loop state after the only line of `"[A|5]"`. -/
def lone_header_state : LoopState :=
  { session :=
      { buffer := ascii "[A\x005\x00\x00"
        buffer_len := 5
        groups :=
          [{ name_offset := 1, name_length := 1, seconds := 5, item_start := 0,
             item_count := 0 }]
        items := [] }
    line_start := 6
    line_no := 2
    current := some 0 }

/-- A file whose first line, a comment, is too long for `cfg_small`. -/
def long_comment_file : List Nat := ascii "# 3456789\n[A|5]\nx"

/-! ### Model of `rng.c`

A `uint64_t` (and a `size_t`) is a natural number below `U64`; every
operation that can leave that range is reduced modulo `U64`.  The generator
is passed by value and returned, so the null-pointer guards of the source
have no counterpart. -/

/-- Number of values of a `uint64_t`. -/
def U64 : Nat := 2 ^ 64

/-- The limits of `config.h` the generator and the scheduler use on top of the
parser's ones.  The header is not part of the sources, so they are parameters. -/
structure RunConfig extends Config where
  RNG_RETRY_LIMIT : Nat
  MAX_PROMPTS_PER_RUN : Nat
  MAX_WAIT_LOOPS : Nat
  deriving Repr, DecidableEq

/-- `struct Rng` of rng.h. -/
structure Rng where
  state : Nat
  deriving Repr, DecidableEq

/-- `mix64`. -/
def mix64 (x : Nat) : Nat :=
  let x := x ^^^ (x >>> 33)
  let x := (x * 0xff51afd7ed558ccd) % U64
  let x := x ^^^ (x >>> 33)
  let x := (x * 0xc4ceb9fe1a85ec53) % U64
  x ^^^ (x >>> 33)

/-- `rng_init`.  `entropy` is the word read from the entropy device, `none`
when the device cannot be opened or the read is short; `tv_sec`, `tv_nsec` and
`pid` are the words the fallback combines (zero clock when the clock fails). -/
def rng_init (entropy : Option Nat) (tv_sec tv_nsec pid : Nat) : Rng :=
  let seed := match entropy with
    | some w => w % U64
    | none => 0
  let seed := if seed == 0 then
      (tv_nsec % U64) ^^^ (((tv_sec % U64) <<< 32) % U64) ^^^ (pid % U64)
    else seed
  let state := mix64 seed
  if state == 0 then { state := 0x9e3779b97f4a7c15 } else { state := state }

/-- The three shift-and-xor lines of `rng_next_u64`, from the old state to the
new one. -/
def rng_next_state (x : Nat) : Nat :=
  let x := x ^^^ (x >>> 12)
  let x := x ^^^ ((x <<< 25) % U64)
  x ^^^ (x >>> 27)

/-- `rng_next_u64`: the returned word and the generator after the call. -/
def rng_next_u64 (rng : Rng) : Nat × Rng :=
  let x := rng_next_state rng.state
  ((x * 0x2545F4914F6CDD1D) % U64, { state := x })

/-- `rng_next_u32`. -/
def rng_next_u32 (rng : Rng) : Nat × Rng :=
  ((rng_next_u64 rng).1 >>> 32, (rng_next_u64 rng).2)

/-- The rejection threshold of `rng_range`: `(uint64_t)(-upper) % upper`. -/
def rng_threshold (upper : Nat) : Nat := ((U64 - upper % U64) % U64) % upper

/-- The retry loop of `rng_range` with the draw that follows it; the first
argument counts the iterations left. -/
def rng_range_loop (upper threshold : Nat) : Nat → Rng → Nat × Rng
  | 0, rng => ((rng_next_u64 rng).1 % upper, (rng_next_u64 rng).2)
  | fuel + 1, rng =>
    if (rng_next_u64 rng).1 ≥ threshold then
      ((rng_next_u64 rng).1 % upper, (rng_next_u64 rng).2)
    else rng_range_loop upper threshold fuel (rng_next_u64 rng).2

/-- `rng_range`. -/
def rng_range (cfg : RunConfig) (rng : Rng) (upper : Nat) : Nat × Rng :=
  if upper == 0 then (0, rng)
  else rng_range_loop upper (rng_threshold upper) cfg.RNG_RETRY_LIMIT rng

/-- The exchange of `values[i]` and `values[j]` in the shuffles. -/
def swap_values (values : List Nat) (i j : Nat) : List Nat :=
  let tmp := values.getD i 0
  let values := values.set i (values.getD j 0)
  values.set j tmp

/-- The loop of `rng_shuffle_groups` and `rng_shuffle_items`, from index `i`;
the first argument counts the iterations the loop bound still allows. -/
def shuffle_loop (cfg : RunConfig) (count : Nat) : Nat → Nat → Rng → List Nat → List Nat × Rng
  | 0, _, rng, values => (values, rng)
  | fuel + 1, i, rng, values =>
    if i ≥ count then (values, rng)
    else
      shuffle_loop cfg count fuel (i + 1) (rng_range cfg rng (i + 1)).2
        (swap_values values i (rng_range cfg rng (i + 1)).1)

/-- The body shared by the two shuffles, for the capacity `cap`. -/
def rng_shuffle (cfg : RunConfig) (cap : Nat) (rng : Rng) (values : List Nat) (count : Nat) :
    List Nat × Rng :=
  if count < 2 then (values, rng)
  else
    let count := if count > cap then cap else count
    shuffle_loop cfg count (cap - 1) 1 rng values

/-- `rng_shuffle_groups`. -/
def rng_shuffle_groups (cfg : RunConfig) (rng : Rng) (values : List Nat) (count : Nat) :
    List Nat × Rng :=
  rng_shuffle cfg cfg.MAX_GROUPS rng values count

/-- `rng_shuffle_items`. -/
def rng_shuffle_items (cfg : RunConfig) (rng : Rng) (values : List Nat) (count : Nat) :
    List Nat × Rng :=
  rng_shuffle cfg cfg.MAX_ITEMS_TOTAL rng values count

/-- Limits for the examples: the parser's small ones, three retries, three
prompts and two waits. -/
def run_small : RunConfig :=
  { MAX_FILE_BYTES := 64, MAX_LINE_LEN := 8, MAX_GROUPS := 4, MAX_ITEMS_TOTAL := 4,
    RNG_RETRY_LIMIT := 3, MAX_PROMPTS_PER_RUN := 3, MAX_WAIT_LOOPS := 2 }

/-- Number of 64-bit words `r` that `rng_range` accepts for `upper` (those at
or above the threshold) and maps to `k`. -/
def accepted_count (upper k : Nat) : Nat :=
  Nat.count (fun r => rng_threshold upper ≤ r ∧ r % upper = k) U64

/-- The generator after `n` calls of `rng_next_u64`. -/
def rng_after : Nat → Rng → Rng
  | 0, rng => rng
  | n + 1, rng => rng_after n (rng_next_u64 rng).2

/-- The words `n` successive calls of `rng_next_u64` return. -/
def rng_outputs : Nat → Rng → List Nat
  | 0, _ => []
  | n + 1, rng => (rng_next_u64 rng).1 :: rng_outputs n (rng_next_u64 rng).2

/-- A generator whose state is a nonzero 64-bit word. -/
def Rng.live (rng : Rng) : Prop := rng.state ≠ 0 ∧ rng.state < U64

/-! ### Model of the scheduler of `main.c`

The outside world (clock, terminal, log file, screen) is an input: every
call that leaves the program takes its answer from a `Tick`, one per pass of
the wait loop.  `session`, `rng` and the two orderings are set once by
`init_runtime` and are values here; `group` and `log` may be null. -/

/-- `struct Runtime` of main.c.  `group` is the group `rt->group` points to,
`log` says whether a log file is open. -/
structure Runtime where
  session : Session
  rng : Rng
  group_order : List Nat
  item_order : List Nat
  order_pos : Nat
  group_index : Nat
  group : Option Group
  item_pos : Nat
  item_index : Nat
  group_end : Nat
  pending_switch : Int
  log : Bool
  deriving Repr, DecidableEq

/-- What `select` and `read` give `term_read_key_timeout`: a failure, nothing
(a timeout or an interrupted call), or one byte. -/
inductive ReadEvent where
  | failure
  | nothing
  | byte (ch : Nat)
  deriving Repr, DecidableEq

/-- The answers of the outside world during one pass of the wait loop: the
clock read by `update_expiry` and by `update_group_timer` (`none` when the
clock fails), the terminal, whether each log write and the drawing of the
prompt succeed. -/
structure Tick where
  clock : Option Nat
  read : ReadEvent
  timer_clock : Option Nat
  draw_ok : Bool
  log_expired : Bool
  log_key : Bool
  log_shuffle_groups : Bool
  log_group : Bool
  log_shuffle_items : Bool
  log_prompt : Bool
  deriving Repr, DecidableEq

/-- `isalnum` of the C locale. -/
def isalnum (c : Nat) : Bool :=
  isdigit c || (65 ≤ c && c ≤ 90) || (97 ≤ c && c ≤ 122)

/-- `is_advance_key`. -/
def is_advance_key (key : Int) : Bool :=
  if key < 0 then false
  else if key == 32 || key == 13 || key == 10 then true
  else isalnum (key % 256).toNat

/-- `init_item_order`. -/
def init_item_order (cfg : RunConfig) (group : Group) (order : List Nat) : List Nat :=
  if group.item_count > cfg.MAX_ITEMS_TOTAL then order
  else
    (List.range cfg.MAX_ITEMS_TOTAL).foldl
      (fun o i => o.set i (if i < group.item_count then (group.item_start + i) % U64 else 0))
      order

/-- `select_next_group`; `log_ok` is the outcome of the log write. -/
def select_next_group (cfg : RunConfig) (rt : Runtime) (log_ok : Bool) : Int × Runtime :=
  if rt.session.group_count == 0 then (-1, rt)
  else if rt.order_pos ≥ rt.session.group_count then
    let sh := rng_shuffle_groups cfg rt.rng rt.group_order rt.session.group_count
    let rt1 := { rt with group_order := sh.1, rng := sh.2, order_pos := 0 }
    if rt1.log && !log_ok then (-1, rt1)
    else
      let gi := rt1.group_order.getD rt1.order_pos 0
      (0, { rt1 with group_index := gi, order_pos := (rt1.order_pos + 1) % U64,
                     group := some (rt1.session.groups.getD gi ⟨0, 0, 0, 0, 0⟩) })
  else
    let gi := rt.group_order.getD rt.order_pos 0
    (0, { rt with group_index := gi, order_pos := (rt.order_pos + 1) % U64,
                  group := some (rt.session.groups.getD gi ⟨0, 0, 0, 0, 0⟩) })

/-- `select_next_item`. -/
def select_next_item (rt : Runtime) : Int × Runtime :=
  match rt.group with
  | none => (-1, rt)
  | some g =>
    if g.item_count == 0 then (-1, rt)
    else
      let rt1 := if rt.item_pos ≥ g.item_count then { rt with item_pos := 0 } else rt
      (0, { rt1 with item_index := rt1.item_order.getD rt1.item_pos 0 })

/-- `update_group_timer`; `clock` is the answer of `now_ms`. -/
def update_group_timer (rt : Runtime) (clock : Option Nat) : Int × Runtime :=
  match rt.group with
  | none => (-1, rt)
  | some g =>
    if g.seconds == 0 then (-1, rt)
    else
      match clock with
      | none => (-1, { rt with group_end := 0 })
      | some now => (0, { rt with group_end := (now + g.seconds * 1000) % U64 })

/-- `draw_prompt`; `io_ok` says whether the writes to the screen succeed. -/
def draw_prompt (session : Session) (item : Item) (io_ok : Bool) : Int :=
  if item.length == 0 then -1
  else if item.offset + item.length > session.buffer_len then -1
  else if io_ok then 0 else -1

/-- The end of `advance_prompt`, common to both of its branches: choose the
item, draw it, log it. -/
def advance_show (rt : Runtime) (env : Tick) : Int × Runtime :=
  let s := select_next_item rt
  if s.1 != 0 then (-1, s.2)
  else if draw_prompt s.2.session (s.2.session.items.getD s.2.item_index ⟨0, 0⟩) env.draw_ok != 0
    then (-1, s.2)
  else if s.2.log && !env.log_prompt then (-1, s.2)
  else (0, s.2)

/-- `advance_prompt`. -/
def advance_prompt (cfg : RunConfig) (rt : Runtime) (due_to_switch : Int) (env : Tick) :
    Int × Runtime :=
  match rt.group with
  | none => (-1, rt)
  | some g =>
    if g.item_count == 0 then (-1, rt)
    else if due_to_switch != 0 then
      let sh := rng_shuffle_items cfg rt.rng (init_item_order cfg g rt.item_order) g.item_count
      let rt1 := { rt with item_order := sh.1, rng := sh.2, item_pos := 0 }
      let t := update_group_timer rt1 env.timer_clock
      if t.1 != 0 then (-1, t.2)
      else if t.2.log && !env.log_group then (-1, t.2)
      else advance_show t.2 env
    else
      let rt1 := { rt with item_pos := (rt.item_pos + 1) % U64 }
      if rt1.item_pos ≥ g.item_count then
        let sh := rng_shuffle_items cfg rt1.rng rt1.item_order g.item_count
        let rt2 := { rt1 with item_order := sh.1, rng := sh.2, item_pos := 0 }
        if rt2.log && !env.log_shuffle_items then (-1, rt2)
        else advance_show rt2 env
      else advance_show rt1 env

/-- `update_expiry`: the return code, the runtime and `*remaining_ms` after the
call; `remaining_ms` is the value before it. -/
def update_expiry (rt : Runtime) (remaining_ms : Nat) (clock : Option Nat) (log_ok : Bool) :
    Int × Runtime × Nat :=
  match rt.group with
  | none => (-1, rt, remaining_ms)
  | some _ =>
    if rt.pending_switch != 0 then (0, rt, 0)
    else
      match clock with
      | none => (-1, rt, 0)
      | some now =>
        if now ≥ rt.group_end then
          if rt.log && !log_ok then (-1, { rt with pending_switch := 1 }, 0)
          else (0, { rt with pending_switch := 1 }, 0)
        else (0, rt, rt.group_end - now)

/-- `term_read_key_timeout` of term.c: the return code and `*out_key` after
the call; `key` is the value before it.  The timeout decides only which event
the outside world produces. -/
def term_read_key_timeout (ev : ReadEvent) (key : Int) : Int × Int :=
  match ev with
  | .failure => (-1, key)
  | .nothing => (0, key)
  | .byte ch => (1, ((ch % 256 : Nat) : Int))

/-- `read_key`: the return code and `*key_out`. -/
def read_key (rt : Runtime) (remaining_ms : Nat) (key : Int) (ev : ReadEvent) : Int × Int :=
  if remaining_ms > 86400000 && rt.pending_switch == 0 then (-1, key)
  else
    let r := term_read_key_timeout ev key
    if r.1 < 0 then (-1, r.2) else r

/-- `handle_key`: the return code, the runtime and `*advanced` after the call;
`advanced` is the value before it. -/
def handle_key (cfg : RunConfig) (rt : Runtime) (key : Int) (advanced : Int) (env : Tick) :
    Int × Runtime × Int :=
  match rt.group with
  | none => (-1, rt, advanced)
  | some _ =>
    if rt.log && !env.log_key then (-1, rt, 0)
    else if key == 3 then (1, rt, 0)
    else if !is_advance_key key then (0, rt, 0)
    else if rt.pending_switch != 0 then
      let s := select_next_group cfg rt env.log_shuffle_groups
      if s.1 != 0 then (-1, s.2, 0)
      else
        let a := advance_prompt cfg { s.2 with pending_switch := 0 } 1 env
        if a.1 != 0 then (-1, a.2, 0) else (0, a.2, 1)
    else
      let a := advance_prompt cfg rt 0 env
      if a.1 != 0 then (-1, a.2, 0) else (0, a.2, 1)

/-- How the wait loop of `run_loop` ends: `run_loop` returns from inside it, or
the loop is left (by `break` or by its bound) with the flag `advanced`.  `t`
counts the passes made so far, over the whole run. -/
inductive WaitResult where
  | returned (rc : Int) (rt : Runtime) (t : Nat)
  | left (advanced : Int) (rt : Runtime) (t : Nat)
  deriving Repr, DecidableEq

/-- The inner `for` loop of `run_loop`; the first argument counts the passes
the bound `MAX_WAIT_LOOPS` still allows, `env t` answers pass number `t`. -/
def wait_loop (cfg : RunConfig) (env : Nat → Tick) : Nat → Nat → Runtime → Int → WaitResult
  | 0, t, rt, advanced => .left advanced rt t
  | fuel + 1, t, rt, advanced =>
    let u := update_expiry rt 0 (env t).clock (env t).log_expired
    if u.1 != 0 then .returned (-1) u.2.1 (t + 1)
    else
      let r := read_key u.2.1 u.2.2 0 (env t).read
      if r.1 < 0 then .returned (-1) u.2.1 (t + 1)
      else if r.1 == 0 then wait_loop cfg env fuel (t + 1) u.2.1 advanced
      else
        let h := handle_key cfg u.2.1 r.2 advanced (env t)
        if h.1 < 0 then .returned (-1) h.2.1 (t + 1)
        else if h.1 > 0 then .returned 0 h.2.1 (t + 1)
        else if h.2.2 != 0 then .left h.2.2 h.2.1 (t + 1)
        else wait_loop cfg env fuel (t + 1) h.2.1 h.2.2

/-- What `run_loop` leaves behind: its return code, the runtime, the number of
passes of the wait loop it made and the value of `step` on return. -/
structure LoopOutcome where
  rc : Int
  rt : Runtime
  ticks : Nat
  step : Nat
  deriving Repr, DecidableEq

/-- The outer `for` loop of `run_loop` from the value `step`; the first
argument counts the iterations the bound `MAX_PROMPTS_PER_RUN` still allows. -/
def run_steps (cfg : RunConfig) (env : Nat → Tick) : Nat → Nat → Nat → Runtime → LoopOutcome
  | 0, step, t, rt => ⟨0, rt, t, step⟩
  | n + 1, step, t, rt =>
    match wait_loop cfg env cfg.MAX_WAIT_LOOPS t rt 0 with
    | .returned rc rt1 t1 => ⟨rc, rt1, t1, step⟩
    | .left advanced rt1 t1 =>
      if advanced == 0 then ⟨-1, rt1, t1, step⟩
      else run_steps cfg env n (step + 1) t1 rt1

/-- `run_loop`. -/
def run_loop (cfg : RunConfig) (rt : Runtime) (env : Nat → Tick) : LoopOutcome :=
  run_steps cfg env (cfg.MAX_PROMPTS_PER_RUN - 1) 1 0 rt

/-- The key the last pass of the wait loop handed to `handle_key`, if that
pass read one. -/
def last_key (env : Nat → Tick) (out : LoopOutcome) : Option Int :=
  match out.ticks with
  | 0 => none
  | t + 1 =>
    match (env t).read with
    | .byte ch => some ((ch % 256 : Nat) : Int)
    | _ => none

/-- A session of one group with three one-byte items. -/
def three_item_session : Session :=
  { buffer := [91, 65, 0, 53, 0, 0, 120, 0, 121, 0, 122], buffer_len := 11,
    groups := [⟨1, 1, 5, 0, 3⟩], items := [⟨6, 1⟩, ⟨8, 1⟩, ⟨10, 1⟩] }

/-- A runtime showing the first item of `three_item_session`, no log open, the
group due at 5000 ms. -/
def three_item_runtime : Runtime :=
  { session := three_item_session, rng := { state := 1 }, group_order := [0, 0, 0, 0],
    item_order := [0, 1, 2, 0], order_pos := 1, group_index := 0,
    group := some ⟨1, 1, 5, 0, 3⟩, item_pos := 0, item_index := 0, group_end := 5000,
    pending_switch := 0, log := false }

/-- A pass in which the clock shows `now`, the terminal delivers the byte `ch`
and every write succeeds. -/
def key_tick (now ch : Nat) : Tick :=
  { clock := some now, read := .byte ch, timer_clock := some now, draw_ok := true,
    log_expired := true, log_key := true, log_shuffle_groups := true, log_group := true,
    log_shuffle_items := true, log_prompt := true }

/-- The pass `key_tick` with the write of the key to the log failing. -/
def unlogged_key_tick (now ch : Nat) : Tick :=
  { key_tick now ch with log_key := false }

/-- The runtime `three_item_runtime` with a log file open. -/
def logged_runtime : Runtime := { three_item_runtime with log := true }

/-- A session of one group with one one-byte item. -/
def one_item_session : Session :=
  { buffer := [91, 65, 0, 53, 0, 0, 120], buffer_len := 7,
    groups := [⟨1, 1, 5, 0, 1⟩], items := [⟨6, 1⟩] }

/-- A runtime showing the only item of `one_item_session`, no log open. -/
def one_item_runtime : Runtime :=
  { session := one_item_session, rng := { state := 1 }, group_order := [0, 0, 0, 0],
    item_order := [0, 0, 0, 0], order_pos := 1, group_index := 0,
    group := some ⟨1, 1, 5, 0, 1⟩, item_pos := 0, item_index := 0, group_end := 5000,
    pending_switch := 0, log := false }

/-- The fields of the runtime that say which group is shown and until when,
with the session and the log: `r` has them as `rt` has. -/
def GroupFrame (rt r : Runtime) : Prop :=
  r.session = rt.session ∧ r.log = rt.log ∧ r.group_index = rt.group_index ∧
    r.group = rt.group ∧ r.order_pos = rt.order_pos ∧ r.group_order = rt.group_order ∧
    r.group_end = rt.group_end ∧ r.pending_switch = rt.pending_switch

/-! ### More of `main.c`: the timeout of a read, `init_runtime` -/

/-- The cast `(int)remaining_ms` of a `uint64_t` to a 32-bit `int`. -/
def to_int (n : Nat) : Int :=
  if n % 2 ^ 32 < 2 ^ 31 then ((n % 2 ^ 32 : Nat) : Int) else ((n % 2 ^ 32 : Nat) : Int) - 2 ^ 32

/-- The timeout `read_key` hands to `term_read_key_timeout`; `none` when its
guard returns before the call. -/
def read_key_timeout (rt : Runtime) (remaining_ms : Nat) : Option Int :=
  if remaining_ms > 86400000 && rt.pending_switch == 0 then none
  else some (if rt.pending_switch != 0 then -1 else to_int remaining_ms)

/-- `init_group_order`. -/
def init_group_order (cfg : RunConfig) (session : Session) (order : List Nat) : List Nat :=
  if session.group_count > cfg.MAX_GROUPS then order
  else
    (List.range cfg.MAX_GROUPS).foldl
      (fun o i => o.set i (if i < session.group_count then i else 0)) order

/-- `init_runtime`: the return code and the runtime it fills in.  `rng`,
`group_order` and `item_order` are what the caller passes, `env` answers the
drawing of the first prompt, its log write and the clock. -/
def init_runtime (cfg : RunConfig) (session : Session) (rng : Rng)
    (group_order item_order : List Nat) (log : Bool) (env : Tick) : Int × Runtime :=
  let rt0 : Runtime :=
    { session := session, rng := rng, group_order := group_order, item_order := item_order,
      order_pos := 0, group_index := 0, group := none, item_pos := 0, item_index := 0,
      group_end := 0, pending_switch := 0, log := log }
  if session.group_count == 0 then (-1, rt0)
  else
    let sh := rng_shuffle_groups cfg rng (init_group_order cfg session group_order)
      session.group_count
    let s := select_next_group cfg { rt0 with group_order := sh.1, rng := sh.2 }
      env.log_shuffle_groups
    if s.1 != 0 then (-1, s.2)
    else
      match s.2.group with
      | none => (-1, s.2)
      | some g =>
        if g.item_count == 0 then (-1, s.2)
        else
          let si := rng_shuffle_items cfg s.2.rng (init_item_order cfg g s.2.item_order)
            g.item_count
          let i := select_next_item { s.2 with item_order := si.1, rng := si.2, item_pos := 0 }
          if i.1 != 0 then (-1, i.2)
          else if draw_prompt session (session.items.getD i.2.item_index ⟨0, 0⟩) env.draw_ok != 0
            then (-1, i.2)
          else if log && !env.log_prompt then (-1, i.2)
          else
            let t := update_group_timer i.2 env.timer_clock
            if t.1 != 0 then (-1, t.2) else (0, t.2)

/-- A pass of the wait loop is quiet when the terminal delivers nothing or a
byte that is neither an advancing key nor the interrupt byte. -/
def quiet_read (ev : ReadEvent) : Prop :=
  ev = ReadEvent.nothing ∨
    ∃ ch, ev = ReadEvent.byte ch ∧ is_advance_key ((ch % 256 : Nat) : Int) = false ∧ ch % 256 ≠ 3

/-- The limits of the examples that parse `greetings_file`. -/
def run_demo : RunConfig :=
  { MAX_FILE_BYTES := 64, MAX_LINE_LEN := 16, MAX_GROUPS := 4, MAX_ITEMS_TOTAL := 8,
    RNG_RETRY_LIMIT := 3, MAX_PROMPTS_PER_RUN := 8, MAX_WAIT_LOOPS := 2 }

/-- The loop of the shuffles with the draws given: `js` lists the index drawn
at `i`, at `i + 1`, and so on. -/
def shuffle_choices : List Nat → Nat → List Nat → List Nat
  | [], _, values => values
  | j :: js, i, values => shuffle_choices js (i + 1) (swap_values values i j)

/-- Every draw of `js`, made at `i`, `i + 1`, ..., is at most the index it is
made at. -/
def valid_choices : List Nat → Nat → Bool
  | [], _ => true
  | j :: js, i => decide (j ≤ i) && valid_choices js (i + 1)

/-- The indices `shuffle_loop` draws from the generator, in order. -/
def shuffle_draws (cfg : RunConfig) (count : Nat) : Nat → Nat → Rng → List Nat
  | 0, _, _ => []
  | fuel + 1, i, rng =>
    if i ≥ count then []
    else (rng_range cfg rng (i + 1)).1 ::
      shuffle_draws cfg count fuel (i + 1) (rng_range cfg rng (i + 1)).2

/-- Number of draws below the threshold of `upper` at the head of the first
`RNG_RETRY_LIMIT` draws from `rng`. -/
def leading_rejects (cfg : RunConfig) (rng : Rng) (upper : Nat) : Nat :=
  ((rng_outputs cfg.RNG_RETRY_LIMIT rng).takeWhile
    (fun r => decide (r < rng_threshold upper))).length

/-- What the scheduler uses of a successfully parsed session: there is a
group, groups and items fit their capacities, every group has items, a slice
inside the item sequence and a time between 1 and 86400 seconds, and every
item is a non-empty span inside the buffer. -/
structure SessionOK (cfg : RunConfig) (s : Session) : Prop where
  some_group : s.groups ≠ []
  gcap : s.groups.length ≤ cfg.MAX_GROUPS
  icap : s.items.length ≤ cfg.MAX_ITEMS_TOTAL
  gsmall : cfg.MAX_GROUPS < U64
  ismall : cfg.MAX_ITEMS_TOTAL < U64
  filled : ∀ g ∈ s.groups, 1 ≤ g.item_count ∧ g.item_start + g.item_count ≤ s.items.length
  secs : ∀ g ∈ s.groups, 1 ≤ g.seconds ∧ g.seconds ≤ 86400
  items : ∀ it ∈ s.items, 0 < it.length ∧ it.offset + it.length ≤ s.buffer_len

/-- The ordering invariant of the scheduler: the two arrays have their
capacities, the group ordering is a permutation of the group indices, the
active group is the one at `group_index`, the item ordering is a permutation
of its slice, and the cursors and the shown item agree with them. -/
structure RtInv (cfg : RunConfig) (rt : Runtime) : Prop where
  go_len : rt.group_order.length = cfg.MAX_GROUPS
  go_perm : (rt.group_order.take rt.session.group_count).Perm
    (List.range rt.session.group_count)
  io_len : rt.item_order.length = cfg.MAX_ITEMS_TOTAL
  pos_le : rt.order_pos ≤ rt.session.group_count
  gi_lt : rt.group_index < rt.session.group_count
  active : rt.group = rt.session.groups[rt.group_index]?
  io_perm : ∀ g, rt.group = some g →
    (rt.item_order.take g.item_count).Perm (List.range' g.item_start g.item_count)
  ip_lt : ∀ g, rt.group = some g → rt.item_pos < g.item_count
  shown : rt.item_index = rt.item_order.getD rt.item_pos 0

/-- The states of the scheduler on the session `s`: the one `init_runtime`
returns with code 0 for arrays of the two capacities, and the ones
`update_expiry` and `handle_key` lead to when they return without error, as
they do whenever `run_loop` goes on. -/
inductive Reachable (cfg : RunConfig) (s : Session) : Runtime → Prop where
  | init (rng : Rng) (group_order item_order : List Nat) (log : Bool) (env : Tick) :
      group_order.length = cfg.MAX_GROUPS → item_order.length = cfg.MAX_ITEMS_TOTAL →
      (init_runtime cfg s rng group_order item_order log env).1 = 0 →
      Reachable cfg s (init_runtime cfg s rng group_order item_order log env).2
  | expiry (rt : Runtime) (rem : Nat) (clock : Option Nat) (ok : Bool) :
      Reachable cfg s rt → (update_expiry rt rem clock ok).1 = 0 →
      Reachable cfg s (update_expiry rt rem clock ok).2.1
  | key (rt : Runtime) (key adv : Int) (env : Tick) :
      Reachable cfg s rt → 0 ≤ (handle_key cfg rt key adv env).1 →
      Reachable cfg s (handle_key cfg rt key adv env).2.1

/-- The group ordering `select_next_group` reads the next group from: the
reshuffled one when the cursor has reached the end, else the present one. -/
def next_group_order (cfg : RunConfig) (rt : Runtime) : List Nat :=
  if rt.order_pos ≥ rt.session.group_count then
    (rng_shuffle_groups cfg rt.rng rt.group_order rt.session.group_count).1
  else rt.group_order

/-- The generator after that step of `select_next_group`. -/
def next_group_rng (cfg : RunConfig) (rt : Runtime) : Rng :=
  if rt.order_pos ≥ rt.session.group_count then
    (rng_shuffle_groups cfg rt.rng rt.group_order rt.session.group_count).2
  else rt.rng

/-- The cursor `select_next_group` reads at: 0 after a reshuffle. -/
def next_cursor (rt : Runtime) : Nat :=
  if rt.order_pos ≥ rt.session.group_count then 0 else rt.order_pos

/-- The items shown by keys handled one after the other from `rt`, each with
its own answers of the outside world, and the runtime after the last; `none`
as soon as a key is not handled as an advance with return code 0. -/
def shown_items (cfg : RunConfig) : List (Int × Tick) → Runtime → Option (List Nat × Runtime)
  | [], rt => some ([], rt)
  | ke :: ks, rt =>
    if (handle_key cfg rt ke.1 0 ke.2).1 = 0 ∧ (handle_key cfg rt ke.1 0 ke.2).2.2 = 1 then
      match shown_items cfg ks (handle_key cfg rt ke.1 0 ke.2).2.1 with
      | some r => some ((handle_key cfg rt ke.1 0 ke.2).2.1.item_index :: r.1, r.2)
      | none => none
    else none

/-- The runtime `init_runtime` sets up on the session of `greetings_file`. -/
def greetings_runtime : Runtime :=
  (init_runtime run_demo greetings_session { state := 12345 } (List.replicate 4 0)
    (List.replicate 8 0) false (key_tick 0 32)).2

/-- The runtime `greetings_runtime` once its deadline has passed. -/
def greetings_expired : Runtime :=
  (update_expiry greetings_runtime 0 (some 5000) true).2.1

/-- One pass of the wait loop of `run_loop` after which the loop goes on with
`advanced` still 0: `update_expiry` returns 0 and either the read times out or
`handle_key` returns 0 without an advance; the value is the runtime after the
pass.  `none` for every other pass: a failing call, the interrupt byte, an
advance. -/
def quiet_pass (cfg : RunConfig) (rt : Runtime) (e : Tick) : Option Runtime :=
  let u := update_expiry rt 0 e.clock e.log_expired
  if u.1 != 0 then none
  else
    let r := read_key u.2.1 u.2.2 0 e.read
    if r.1 < 0 then none
    else if r.1 == 0 then some u.2.1
    else
      let h := handle_key cfg u.2.1 r.2 0 e
      if h.1 == 0 && h.2.2 == 0 then some h.2.1 else none

/-- The runtime after `k` passes of the wait loop from pass number `t`, each of
them a `quiet_pass`; `none` as soon as one of them is not. -/
def quiet_passes (cfg : RunConfig) (env : Nat → Tick) : Nat → Nat → Runtime → Option Runtime
  | 0, _, rt => some rt
  | k + 1, t, rt =>
    match quiet_pass cfg rt (env t) with
    | none => none
    | some rt1 => quiet_passes cfg env k (t + 1) rt1

/-- The pass `key_tick` with the write of the prompt to the screen failing. -/
def undrawn_key_tick (now ch : Nat) : Tick :=
  { key_tick now ch with draw_ok := false }

/-- ESC on pass 0, the space bar on every later pass, every call succeeding. -/
def esc_then_space (p : Nat) : Tick :=
  if p = 0 then key_tick 0 27 else key_tick 0 32

/-- ESC on pass 0, the space bar on every later pass, with the screen write of
the prompt failing there. -/
def esc_then_undrawn_space (p : Nat) : Tick :=
  if p = 0 then key_tick 0 27 else undrawn_key_tick 0 32

/-! ## Reading and writing the buffer -/

theorem getD_set_ne (b : List Nat) (k j v : Nat) (h : j ≠ k) :
    (b.set k v).getD j 0 = b.getD j 0 := by
  simp only [List.getD_eq_getElem?_getD]
  rw [List.getElem?_set_ne (Ne.symm h)]

theorem getD_set_eq (b : List Nat) (k v : Nat) (h : k < b.length) :
    (b.set k v).getD k 0 = v := by
  simp [List.getD_eq_getElem?_getD, List.getElem?_set, h]

theorem getD_drop (b : List Nat) (k j : Nat) :
    (b.drop k).getD j 0 = b.getD (k + j) 0 := by
  simp [List.getD_eq_getElem?_getD, List.getElem?_drop]

theorem to_u32_of_lt {n : Nat} (h : n < 2 ^ 32) : to_u32 n = n :=
  Nat.mod_eq_of_lt h

/-! ## What `parse_header_line` leaves behind -/

theorem trim_right_loop_le (line : List Nat) (line_len start : Nat) :
    ∀ fuel e, trim_right_loop line line_len start fuel e ≤ e := by
  intro fuel
  induction fuel with
  | zero => intro e; simp [trim_right_loop]
  | succ n ih =>
    intro e
    rw [trim_right_loop]
    split
    · exact le_rfl
    · split
      · exact le_rfl
      · split
        · exact le_rfl
        · exact le_trans (ih (e - 1)) (Nat.sub_le _ _)

theorem trim_right_index_le (cfg : Config) (line : List Nat) (line_len start : Nat) :
    trim_right_index cfg line line_len start ≤ line_len :=
  trim_right_loop_le line line_len start _ _

theorem find_pipe_some (line : List Nat) (line_len : Nat) :
    ∀ fuel i p, find_pipe line line_len fuel i = some p →
      i ≤ p ∧ p < line_len - 1 ∧ line.getD p 0 = 124 ∧
        ∀ j, i ≤ j → j < p → line.getD j 0 ≠ 124 := by
  intro fuel
  induction fuel with
  | zero => intro i p h; simp [find_pipe] at h
  | succ n ih =>
    intro i p h
    rw [find_pipe] at h
    split at h
    · cases h
    · rename_i hlt
      split at h
      · rename_i heq
        simp only [Option.some.injEq] at h
        subst h
        exact ⟨le_rfl, by omega, heq, fun j h1 h2 => by omega⟩
      · rename_i hne
        obtain ⟨h1, h2, h3, h4⟩ := ih (i + 1) p h
        refine ⟨by omega, h2, h3, fun j hj1 hj2 => ?_⟩
        by_cases hji : j = i
        · subst hji; exact hne
        · exact h4 j (by omega) hj2

theorem header_commit_ok {cfg : Config} {s s' : Session} {buf : List Nat} {name sec no : Nat}
    (h : header_commit cfg s buf name sec no = .ok s') :
    (∃ g, s'.groups = s.groups ++ [g] ∧ g.item_count = 0 ∧
        g.item_start = to_u32 s.items.length ∧ 1 ≤ g.seconds ∧ g.seconds ≤ 86400) ∧
      s.groups.length < cfg.MAX_GROUPS ∧ s'.items = s.items ∧
      s'.buffer_len = s.buffer_len ∧ s'.buffer = buf := by
  unfold header_commit at h
  simp only at h
  split at h
  · cases h
  · rename_i hv
    split at h
    · cases h
    · split at h
      · cases h
      · simp only [not_or, not_lt, not_le, Decidable.not_not] at hv
        injection h with h
        subst h
        refine ⟨⟨_, rfl, rfl, rfl, ?_, ?_⟩, ?_, rfl, rfl, rfl⟩
        · rw [to_u32_of_lt (lt_of_le_of_lt hv.2.2.2 (by norm_num))]; exact hv.2.2.1
        · exact le_trans (Nat.mod_le _ _) hv.2.2.2
        · omega

/-- What a successful `parse_header_line` went through. -/
theorem parse_header_line_stages {cfg : Config} {s s' : Session} {ls len no : Nat}
    (h : parse_header_line cfg s ls len no = .ok s') :
    3 ≤ len ∧ ∃ p ne se name sec,
      find_pipe (s.buffer.drop ls) len (cfg.MAX_LINE_LEN - 1) 1 = some p ∧
      ne ≤ p - 1 ∧ se ≤ len - 1 - (p + 1) ∧
      header_commit cfg s
        ((((s.buffer.set (ls + (len - 1)) 0).set (ls + p) 0).set (ls + 1 + ne) 0).set
          (ls + p + 1 + se) 0) name sec no = .ok s' := by
  unfold parse_header_line at h
  simp only at h
  split at h
  · cases h
  · rename_i h3
    refine ⟨by omega, ?_⟩
    split at h
    · cases h
    · rename_i p hp
      unfold header_name at h
      simp only at h
      split at h
      · cases h
      · unfold header_seconds at h
        simp only at h
        split at h
        · cases h
        · exact ⟨p, _, _, _, _, hp, trim_right_index_le _ _ _ _, trim_right_index_le _ _ _ _, h⟩

theorem parse_header_line_ok {cfg : Config} {s s' : Session} {ls len no : Nat}
    (h : parse_header_line cfg s ls len no = .ok s') :
    (∃ g, s'.groups = s.groups ++ [g] ∧ g.item_count = 0 ∧
        g.item_start = to_u32 s.items.length ∧ 1 ≤ g.seconds ∧ g.seconds ≤ 86400) ∧
      s.groups.length < cfg.MAX_GROUPS ∧ s'.items = s.items ∧
      s'.buffer_len = s.buffer_len ∧ s'.buffer.length = s.buffer.length := by
  obtain ⟨-, p, ne, se, name, sec, -, -, -, hc⟩ := parse_header_line_stages h
  obtain ⟨h1, h2, h3, h4, h5⟩ := header_commit_ok hc
  exact ⟨h1, h2, h3, h4, by rw [h5]; simp⟩

/-! ## The steps of the loop -/

/-- The three ways in which `line_step` succeeds. -/
theorem line_step_ok {cfg : Config} {st st' : LoopState} {i : Nat}
    (h : line_step cfg st i = .ok st') :
    line_len_at st i ≤ cfg.MAX_LINE_LEN ∧ st'.line_start = i + 1 ∧
      st'.line_no = st.line_no + 1 ∧
      ((is_blank_or_comment cfg ((terminate_line st i).buffer.drop st.line_start)
            (line_len_at st i) = true ∧
          st'.session = terminate_line st i ∧ st'.current = st.current) ∨
        (is_blank_or_comment cfg ((terminate_line st i).buffer.drop st.line_start)
            (line_len_at st i) = false ∧
          ((terminate_line st i).buffer.drop st.line_start).getD 0 0 = 91 ∧
          current_is_empty st.session.groups st.current = false ∧
          parse_header_line cfg (terminate_line st i) st.line_start (line_len_at st i)
            st.line_no = .ok st'.session ∧
          st'.current = some (st'.session.groups.length - 1)) ∨
        (is_blank_or_comment cfg ((terminate_line st i).buffer.drop st.line_start)
            (line_len_at st i) = false ∧
          ((terminate_line st i).buffer.drop st.line_start).getD 0 0 ≠ 91 ∧
          ∃ c, st.current = some c ∧ st.session.items.length < cfg.MAX_ITEMS_TOTAL ∧
            st'.session = add_item (terminate_line st i) c st.line_start (line_len_at st i) ∧
            st'.current = some c)) := by
  unfold line_step at h
  simp only at h
  split at h
  · cases h
  · rename_i hlen
    refine ⟨by omega, ?_⟩
    split at h
    · rename_i hb
      simp only [Bool.not_eq_true', ] at hb
      split at h
      · rename_i h91
        split at h
        · cases h
        · rename_i hce
          split at h
          · cases h
          · rename_i s2 hs2
            injection h with h
            subst h
            refine ⟨rfl, rfl, Or.inr (Or.inl ⟨hb, h91, ?_, hs2, rfl⟩)⟩
            simpa [terminate_line] using hce
      · rename_i h91
        split at h
        · cases h
        · rename_i c hc
          split at h
          · cases h
          · rename_i hcap
            injection h with h
            subst h
            refine ⟨rfl, rfl, Or.inr (Or.inr ⟨hb, h91, c, hc, ?_, rfl, rfl⟩)⟩
            simpa [terminate_line] using hcap
    · rename_i hb
      simp only [Bool.not_eq_true', Bool.not_eq_false] at hb
      injection h with h
      subst h
      exact ⟨rfl, rfl, Or.inl ⟨hb, rfl, rfl⟩⟩

/-! ## Groups and items during the loop -/

theorem chain_snoc (gs : List Group) (g : Group) (a n : Nat) :
    chain (gs ++ [g]) a n ↔ ∃ m, chain gs a m ∧ g.item_start = m ∧ m + g.item_count = n := by
  induction gs generalizing a with
  | nil =>
    simp only [List.nil_append, chain]
    constructor
    · rintro ⟨h1, h2⟩; exact ⟨a, rfl, h1, h2⟩
    · rintro ⟨m, h1, h2, h3⟩; subst h1; exact ⟨h2, h3⟩
  | cons x xs ih =>
    show (x.item_start = a ∧ chain (xs ++ [g]) (a + x.item_count) n) ↔
      ∃ m, (x.item_start = a ∧ chain xs (a + x.item_count) m) ∧ g.item_start = m ∧
        m + g.item_count = n
    rw [ih]
    constructor
    · rintro ⟨h1, m, h2, h3, h4⟩; exact ⟨m, ⟨h1, h2⟩, h3, h4⟩
    · rintro ⟨m, ⟨h1, h2⟩, h3, h4⟩; exact ⟨h1, m, h2, h3, h4⟩

theorem bump_item_count_snoc (gs : List Group) (g : Group) :
    bump_item_count (gs ++ [g]) gs.length =
      gs ++ [{ g with item_count := to_u32 (g.item_count + 1) }] := by
  induction gs with
  | nil => rfl
  | cons x xs ih => simp [bump_item_count, ih]

theorem GInv_start (cfg : Config) (file : List Nat) : GInv cfg (start_state file) := by
  constructor <;> simp [start_state, load, chain]

theorem current_is_empty_snoc (gs : List Group) (g : Group) :
    current_is_empty (gs ++ [g]) (some gs.length) = (g.item_count == 0) := by
  simp [current_is_empty, List.getD_eq_getElem?_getD]

theorem GInv_step {cfg : Config} (hI : cfg.MAX_ITEMS_TOTAL < 2 ^ 32) {st st' : LoopState}
    {i : Nat} (hinv : GInv cfg st) (h : line_step cfg st i = .ok st') : GInv cfg st' := by
  obtain ⟨-, -, -, h | h | h⟩ := line_step_ok h
  · obtain ⟨-, hs, hc⟩ := h
    constructor
    · rw [hc, hs]; exact hinv.cur
    · rw [hs]; exact hinv.chained
    · rw [hs]; exact hinv.filled
    · rw [hs]; exact hinv.secs
    · rw [hs]; exact hinv.gcap
    · rw [hs]; exact hinv.icap
  · obtain ⟨-, -, hce, hp, hc⟩ := h
    obtain ⟨⟨g, hg, hg0, hgs, hsec1, hsec2⟩, hcap, hitems, -, -⟩ := parse_header_line_ok hp
    have hg' : st'.session.groups = st.session.groups ++ [g] := hg
    have hit' : st'.session.items = st.session.items := hitems
    have hcap' : st.session.groups.length < cfg.MAX_GROUPS := hcap
    have hgs' : g.item_start = st.session.items.length := by
      rw [hgs]; exact to_u32_of_lt (lt_of_le_of_lt hinv.icap hI)
    have hall : ∀ x ∈ st.session.groups, 1 ≤ x.item_count := by
      rcases List.eq_nil_or_concat st.session.groups with hnil | ⟨L, b, hL⟩
      · simp [hnil]
      · rw [List.concat_eq_append] at hL
        have hcur := hinv.cur
        have hf := hinv.filled
        rw [hL] at hcur hf
        simp only [List.append_eq_nil, List.cons_ne_self, and_false, ↓reduceIte,
          List.length_append, List.length_singleton, Nat.add_sub_cancel] at hcur
        rw [hcur, hL, current_is_empty_snoc] at hce
        rw [List.dropLast_concat] at hf
        intro x hx
        rw [hL] at hx
        rcases List.mem_append.1 hx with hx | hx
        · exact hf x hx
        · simp only [List.mem_singleton] at hx
          subst hx
          simp only [beq_eq_false_iff_ne, ne_eq] at hce
          omega
    constructor
    · rw [hc, hg']; simp
    · rw [hg', hit', chain_snoc]
      exact ⟨_, hinv.chained, hgs', by omega⟩
    · rw [hg', List.dropLast_concat]; exact hall
    · rw [hg']
      intro x hx
      rcases List.mem_append.1 hx with hx | hx
      · exact hinv.secs x hx
      · simp only [List.mem_singleton] at hx
        subst hx
        exact ⟨hsec1, hsec2⟩
    · rw [hg']; simp; omega
    · rw [hit']; exact hinv.icap
  · obtain ⟨-, -, c, hcur, hcap, hs, hc⟩ := h
    have hcur0 := hinv.cur
    rw [hcur] at hcur0
    rcases List.eq_nil_or_concat st.session.groups with hnil | ⟨L, b, hL⟩
    · simp [hnil] at hcur0
    · rw [List.concat_eq_append] at hL
      rw [hL] at hcur0
      simp only [List.append_eq_nil, List.cons_ne_self, and_false, ↓reduceIte,
        List.length_append, List.length_singleton, Nat.add_sub_cancel, Option.some.injEq] at hcur0
      subst hcur0
      have hch := hinv.chained
      rw [hL, chain_snoc] at hch
      obtain ⟨m, hm1, hm2, hm3⟩ := hch
      have hb : to_u32 (b.item_count + 1) = b.item_count + 1 :=
        to_u32_of_lt (by omega)
      have hgr : st'.session.groups = L ++ [{ b with item_count := b.item_count + 1 }] := by
        rw [hs]
        simp only [add_item, terminate_line]
        rw [hL, bump_item_count_snoc, hb]
      have hit : st'.session.items = st.session.items ++
          [{ offset := to_u32 st.line_start, length := to_u32 (line_len_at st i) }] := by
        rw [hs]; rfl
      have hf := hinv.filled
      rw [hL, List.dropLast_concat] at hf
      have hsec := hinv.secs
      rw [hL] at hsec
      have hgc := hinv.gcap
      rw [hL] at hgc
      constructor
      · rw [hc, hgr]; simp
      · rw [hgr, hit, chain_snoc]
        refine ⟨m, hm1, hm2, ?_⟩
        simp only [List.length_append, List.length_singleton]
        omega
      · rw [hgr, List.dropLast_concat]; exact hf
      · rw [hgr]
        intro x hx
        rcases List.mem_append.1 hx with hx | hx
        · exact hsec x (List.mem_append_left _ hx)
        · simp only [List.mem_singleton] at hx
          subst hx
          exact hsec b (by simp)
      · rw [hgr]; simpa using hgc
      · rw [hit]; simp; omega

/-- What a successful call of `parse_session_file` went through. -/
theorem parse_session_file_ok {cfg : Config} {file : List Nat} {s : Session}
    (h : parse_session_file cfg file = .ok s) :
    file.length ≤ cfg.MAX_FILE_BYTES ∧
      ∃ st, parse_loop cfg (cfg.MAX_FILE_BYTES + 1) 0 (start_state file) = .ok st ∧
        st.session = s ∧ s.groups ≠ [] ∧ current_is_empty s.groups st.current = false := by
  unfold parse_session_file at h
  split at h
  · cases h
  · rename_i hlen
    refine ⟨by omega, ?_⟩
    split at h
    · cases h
    · rename_i st hst
      split at h
      · cases h
      · rename_i hg
        split at h
        · cases h
        · rename_i hce
          simp only [Except.ok.injEq] at h
          subst h
          refine ⟨st, hst, rfl, ?_, by simpa using hce⟩
          intro hnil
          exact hg (by simp [hnil])

theorem chain_head {g : Group} {gs : List Group} {a n : Nat} (h : chain (g :: gs) a n) :
    g.item_start = a := h.1

theorem chain_next {gs : List Group} {a n k : Nat} {g g' : Group} (h : chain gs a n)
    (hk : gs[k]? = some g) (hk' : gs[k + 1]? = some g') :
    g'.item_start = g.item_start + g.item_count := by
  induction gs generalizing a k with
  | nil => simp at hk
  | cons x xs ih =>
    cases k with
    | zero =>
      simp only [List.getElem?_cons_zero, Option.some.injEq] at hk
      subst hk
      cases xs with
      | nil => simp at hk'
      | cons y ys =>
        simp only [zero_add, List.getElem?_cons_succ, List.getElem?_cons_zero,
          Option.some.injEq] at hk'
        subst hk'
        rw [h.2.1, h.1]
    | succ m =>
      simp only [List.getElem?_cons_succ] at hk hk'
      exact ih h.2 hk hk'

theorem chain_last {gs : List Group} {a n : Nat} {g : Group} (h : chain gs a n)
    (hl : gs.getLast? = some g) : g.item_start + g.item_count = n := by
  rcases List.eq_nil_or_concat gs with hnil | ⟨L, b, hL⟩
  · simp [hnil] at hl
  · rw [List.concat_eq_append] at hL
    subst hL
    rw [List.getLast?_concat] at hl
    simp only [Option.some.injEq] at hl
    subst hl
    obtain ⟨m, -, h2, h3⟩ := (chain_snoc _ _ _ _).1 h
    omega

theorem getElem?_set_ne' (b : List Nat) (k j v : Nat) (h : j ≠ k) :
    (b.set k v)[j]? = b[j]? :=
  List.getElem?_set_ne (Ne.symm h)

/-- `parse_header_line` writes only inside the line. -/
theorem parse_header_line_frame {cfg : Config} {s s' : Session} {ls len no : Nat}
    (h : parse_header_line cfg s ls len no = .ok s') :
    ∀ j, (j < ls ∨ ls + len ≤ j) → s'.buffer[j]? = s.buffer[j]? := by
  obtain ⟨h3, p, ne, se, name, sec, hp, hne, hse, hc⟩ := parse_header_line_stages h
  obtain ⟨-, -, -, -, h5⟩ := header_commit_ok hc
  obtain ⟨hp1, hp2, -, -⟩ := find_pipe_some _ _ _ _ _ hp
  intro j hj
  rw [h5, getElem?_set_ne', getElem?_set_ne', getElem?_set_ne', getElem?_set_ne'] <;> omega

theorem line_len_at_cases (st : LoopState) (i : Nat) :
    (line_len_at st i = i - st.line_start ∧
        ¬ (0 < i - st.line_start ∧
          st.session.buffer.getD (st.line_start + (i - st.line_start) - 1) 0 = 13)) ∨
      (line_len_at st i = i - st.line_start - 1 ∧ 0 < i - st.line_start ∧
        st.session.buffer.getD (st.line_start + (i - st.line_start) - 1) 0 = 13) := by
  unfold line_len_at
  simp only
  split
  · rename_i h; exact Or.inr ⟨rfl, h.1, h.2⟩
  · rename_i h; exact Or.inl ⟨rfl, h⟩

theorem line_len_at_le (st : LoopState) (i : Nat) : line_len_at st i ≤ i - st.line_start := by
  rcases line_len_at_cases st i with h | h <;> omega

theorem not_blank_pos {cfg : Config} {line : List Nat} {line_len : Nat}
    (h : is_blank_or_comment cfg line line_len = false) : 0 < line_len := by
  unfold is_blank_or_comment at h
  simp only at h
  split at h
  · cases h
  · omega

/-- A successful `line_step` leaves `buffer_len` and the size of the buffer
alone and writes only at the indices `line_start .. i`. -/
theorem line_step_frame {cfg : Config} {st st' : LoopState} {i : Nat}
    (hle : st.line_start ≤ i) (h : line_step cfg st i = .ok st') :
    st'.session.buffer_len = st.session.buffer_len ∧
      st'.session.buffer.length = st.session.buffer.length ∧
      ∀ j, (j < st.line_start ∨ i < j) → st'.session.buffer[j]? = st.session.buffer[j]? := by
  have hl := line_len_at_le st i
  have ht : ∀ j, (j < st.line_start ∨ i < j) →
      (terminate_line st i).buffer[j]? = st.session.buffer[j]? := by
    intro j hj
    simp only [terminate_line]
    rw [getElem?_set_ne']
    omega
  obtain ⟨-, -, -, h | h | h⟩ := line_step_ok h
  · obtain ⟨-, hs, -⟩ := h
    rw [hs]
    exact ⟨rfl, by simp [terminate_line], ht⟩
  · obtain ⟨-, -, -, hp, -⟩ := h
    obtain ⟨-, -, -, h1, h2⟩ := parse_header_line_ok hp
    refine ⟨h1, by rw [h2]; simp [terminate_line], fun j hj => ?_⟩
    rw [parse_header_line_frame hp j (by omega), ht j hj]
  · obtain ⟨-, -, c, -, -, hs, -⟩ := h
    rw [hs]
    exact ⟨rfl, by simp [terminate_line, add_item], ht⟩

theorem span_getElem? (b : List Nat) (off len k : Nat) :
    (span b off len)[k]? = if k < len then b[off + k]? else none := by
  simp [span, List.getElem?_take, List.getElem?_drop]

theorem span_length {b : List Nat} {off len : Nat} (h : off + len ≤ b.length) :
    (span b off len).length = len := by
  simp [span, List.length_take, List.length_drop]; omega

theorem span_congr {b b' : List Nat} {off len : Nat}
    (h : ∀ j, off ≤ j → j < off + len → b[j]? = b'[j]?) :
    span b off len = span b' off len := by
  apply List.ext_getElem?
  intro k
  rw [span_getElem?, span_getElem?]
  split
  · exact h _ (by omega) (by omega)
  · rfl

theorem span_append_drop (b : List Nat) (off len : Nat) :
    span b off len ++ b.drop (off + len) = b.drop off := by
  have := List.take_append_drop len (b.drop off)
  rwa [List.drop_drop] at this

theorem line_at_eq_span {file : List Nat} {ls i : Nat} (h1 : ls ≤ i)
    (h3 : ∀ j, ls ≤ j → j < i → file[j]? ≠ some 10)
    (h4 : i = file.length ∨ file[i]? = some 10) :
    line_at file ls = span file ls (i - ls) := by
  unfold line_at
  rw [← span_append_drop file ls (i - ls)]
  have hi : ls + (i - ls) = i := by omega
  rw [hi, List.takeWhile_append_of_pos]
  · have : List.takeWhile (fun c => c != 10) (List.drop i file) = [] := by
      rcases h4 with h4 | h4
      · rw [h4, List.drop_length]; rfl
      · obtain ⟨hlt, hv⟩ := List.getElem?_eq_some.1 h4
        rw [List.drop_eq_getElem_cons hlt, hv]
        rfl
    rw [this, List.append_nil]
  · intro a ha
    obtain ⟨k, hk⟩ := List.mem_iff_getElem?.1 ha
    rw [span_getElem?] at hk
    split at hk
    · have := h3 (ls + k) (by omega) (by omega)
      rw [hk] at this
      simp only [ne_eq, Option.some.injEq] at this
      simpa using this
    · cases hk

theorem strip_cr_span {file : List Nat} {off n : Nat} (h : off + n ≤ file.length) :
    strip_cr (span file off n) =
      if 0 < n ∧ file[off + n - 1]? = some 13 then span file off (n - 1)
      else span file off n := by
  unfold strip_cr
  have hl : (span file off n).getLast? = if 0 < n then file[off + n - 1]? else none := by
    rw [List.getLast?_eq_getElem?, span_length h, span_getElem?]
    by_cases hn : 0 < n
    · have : off + (n - 1) = off + n - 1 := by omega
      simp [hn, this]
    · simp [hn]
  have hd : (span file off n).dropLast = span file off (n - 1) := by
    rw [List.dropLast_eq_take, span_length h]
    simp only [span, List.take_take]
    congr 1
    omega
  rw [hl, hd]
  by_cases hn : 0 < n
  · simp [hn]
  · simp [hn]

theorem BInv_start (file : List Nat) : BInv file 0 (start_state file) := by
  constructor <;> simp [start_state, load, is_line_start]

theorem file_getElem?_of_lt {file : List Nat} {j : Nat} (h : j < file.length) :
    (file ++ [0])[j]? = file[j]? :=
  List.getElem?_append_left h

/-- The loop test `buffer[i] == '\n'` read on the file. -/
theorem BInv_newline {file : List Nat} {i : Nat} {st : LoopState} (hinv : BInv file i st)
    (h : st.session.buffer.getD i 0 = 10) : i < file.length ∧ file[i]? = some 10 := by
  rw [List.getD_eq_getElem?_getD, hinv.tail i hinv.ls_le] at h
  have hi := hinv.i_le
  rcases Nat.lt_or_ge i file.length with hlt | hge
  · refine ⟨hlt, ?_⟩
    rw [file_getElem?_of_lt hlt] at h
    obtain ⟨x, hx⟩ : ∃ x, file[i]? = some x := ⟨file[i], List.getElem?_eq_getElem hlt⟩
    rw [hx] at h ⊢
    simpa using h
  · have : i = file.length := by omega
    subst this
    simp at h

theorem count_take_no_nl {file : List Nat} {ls : Nat} :
    ∀ i, ls ≤ i → (∀ j, ls ≤ j → j < i → file[j]? ≠ some 10) →
      (file.take i).count 10 = (file.take ls).count 10 := by
  intro i
  induction i with
  | zero => intro h _; simp at h; subst h; rfl
  | succ n ih =>
    intro h hno
    rcases Nat.eq_or_lt_of_le h with heq | hlt
    · rw [heq]
    · rw [List.take_succ, List.count_append, ih (by omega) (fun j h1 h2 => hno j h1 (by omega))]
      have := hno n (by omega) (by omega)
      cases hx : file[n]? with
      | none => simp
      | some x =>
        rw [hx] at this
        simp only [ne_eq, Option.some.injEq] at this
        simp [List.count_singleton, this]

theorem BInv_cr_test {file : List Nat} {i : Nat} {st : LoopState} (hinv : BInv file i st)
    (hpos : 0 < i - st.line_start) :
    st.session.buffer.getD (st.line_start + (i - st.line_start) - 1) 0 = 13 ↔
      file[st.line_start + (i - st.line_start) - 1]? = some 13 := by
  have hi := hinv.i_le
  have hj : st.line_start + (i - st.line_start) - 1 < file.length := by omega
  rw [List.getD_eq_getElem?_getD, hinv.tail _ (by omega), file_getElem?_of_lt hj,
    List.getElem?_eq_getElem hj]
  simp

theorem BInv_line_step {cfg : Config} (hF : cfg.MAX_FILE_BYTES < 2 ^ 32) {file : List Nat}
    (hfile : file.length ≤ cfg.MAX_FILE_BYTES) {i : Nat} {st st' : LoopState}
    (hinv : BInv file i st) (hend : i = file.length ∨ file[i]? = some 10)
    (h : line_step cfg st i = .ok st') :
    st'.session.buffer_len = file.length ∧ st'.session.buffer.length = file.length + 1 ∧
      st'.line_start = i + 1 ∧
      (∀ j, i + 1 ≤ j → st'.session.buffer[j]? = (file ++ [0])[j]?) ∧
      (∀ it ∈ st'.session.items,
        ItemOK file st'.session.buffer it ∧ it.offset + it.length < i + 1) ∧
      st'.session.items.Pairwise (fun a b => a.offset + a.length < b.offset) ∧
      st'.line_no = st.line_no + 1 := by
  obtain ⟨hb1, hb2, hfr⟩ := line_step_frame hinv.ls_le h
  obtain ⟨-, hls, hno, hcases⟩ := line_step_ok h
  have hle := hinv.ls_le
  have hi := hinv.i_le
  have hold : ∀ it ∈ st.session.items,
      ItemOK file st'.session.buffer it ∧ it.offset + it.length < i + 1 := by
    intro it hit
    obtain ⟨hok, hlt⟩ := hinv.items it hit
    refine ⟨⟨hok.pos, hok.inside, hok.start, hok.text, fun j h1 h2 => ?_⟩, by omega⟩
    rw [hfr j (Or.inl (by omega))]
    exact hok.kept j h1 h2
  refine ⟨by rw [hb1]; exact hinv.blen, by rw [hb2]; exact hinv.bsize, hls,
    fun j hj => by rw [hfr j (Or.inr (by omega))]; exact hinv.tail j (by omega), ?_, ?_, hno⟩
  · rcases hcases with hc | hc | hc
    · obtain ⟨-, hs, -⟩ := hc
      have : st'.session.items = st.session.items := by rw [hs]; rfl
      rw [this]; exact hold
    · obtain ⟨-, -, -, hp, -⟩ := hc
      obtain ⟨-, -, hitems, -, -⟩ := parse_header_line_ok hp
      have : st'.session.items = st.session.items := hitems
      rw [this]; exact hold
    · obtain ⟨hnb, -, c, -, -, hs, -⟩ := hc
      have hL := line_len_at_le st i
      have hpos := not_blank_pos hnb
      have hitems : st'.session.items = st.session.items ++
          [{ offset := st.line_start, length := line_len_at st i }] := by
        rw [hs]
        simp only [add_item, terminate_line]
        rw [to_u32_of_lt (by omega), to_u32_of_lt (by omega)]
      have hbuf : st'.session.buffer =
          st.session.buffer.set (st.line_start + line_len_at st i) 0 := by
        rw [hs]; rfl
      rw [hitems]
      intro it hit
      rcases List.mem_append.1 hit with hit | hit
      · exact hold it hit
      · simp only [List.mem_singleton] at hit
        subst hit
        refine ⟨⟨hpos, by simp only; omega, hinv.at_start, ?_, ?_⟩, by simp only; omega⟩
        · simp only
          rw [line_at_eq_span hle hinv.no_nl hend, strip_cr_span (by omega)]
          rcases line_len_at_cases st i with ⟨h1, h2⟩ | ⟨h1, h2, h3⟩
          · rw [h1, if_neg]
            rintro ⟨h4, h5⟩
            exact h2 ⟨h4, (BInv_cr_test hinv h4).2 h5⟩
          · rw [h1, if_pos ⟨h2, (BInv_cr_test hinv h2).1 h3⟩]
        · intro j h1 h2
          simp only at h1 h2
          rw [hbuf, getElem?_set_ne' _ _ _ _ (by omega), hinv.tail j h1,
            file_getElem?_of_lt (by omega)]
  · rcases hcases with hc | hc | hc
    · obtain ⟨-, hs, -⟩ := hc
      have : st'.session.items = st.session.items := by rw [hs]; rfl
      rw [this]; exact hinv.ordered
    · obtain ⟨-, -, -, hp, -⟩ := hc
      obtain ⟨-, -, hitems, -, -⟩ := parse_header_line_ok hp
      have : st'.session.items = st.session.items := hitems
      rw [this]; exact hinv.ordered
    · obtain ⟨hnb, -, c, -, -, hs, -⟩ := hc
      have hL := line_len_at_le st i
      have hitems : st'.session.items = st.session.items ++
          [{ offset := st.line_start, length := line_len_at st i }] := by
        rw [hs]
        simp only [add_item, terminate_line]
        rw [to_u32_of_lt (by omega), to_u32_of_lt (by omega)]
      rw [hitems, List.pairwise_append]
      refine ⟨hinv.ordered, List.pairwise_singleton _ _, fun a ha b hb => ?_⟩
      simp only [List.mem_singleton] at hb
      subst hb
      exact (hinv.items a ha).2

/-- An iteration that finds `'\n'` re-establishes the invariant. -/
theorem BInv_next {cfg : Config} (hF : cfg.MAX_FILE_BYTES < 2 ^ 32) {file : List Nat}
    (hfile : file.length ≤ cfg.MAX_FILE_BYTES) {i : Nat} {st st' : LoopState}
    (hinv : BInv file i st) (hnl : file[i]? = some 10)
    (h : line_step cfg st i = .ok st') : BInv file (i + 1) st' := by
  obtain ⟨h1, h2, h3, h4, h5, h6, h7⟩ := BInv_line_step hF hfile hinv (Or.inr hnl) h
  obtain ⟨hlt, -⟩ := List.getElem?_eq_some.1 hnl
  refine ⟨h1, h2, by omega, by omega, fun j hj => h4 j (by omega), fun j hj1 hj2 => by omega,
    ?_, fun it hit => ?_, h6, ?_⟩
  · rw [h3]; exact Or.inr ⟨by omega, by simpa using hnl⟩
  · rw [h3]; exact h5 it hit
  · rw [h7, h3, hinv.lineno, List.take_succ, List.count_append,
      count_take_no_nl i hinv.ls_le hinv.no_nl, hnl]
    simp

/-- The iteration at the end of the buffer establishes the final facts. -/
theorem BInv_last {cfg : Config} (hF : cfg.MAX_FILE_BYTES < 2 ^ 32) {file : List Nat}
    (hfile : file.length ≤ cfg.MAX_FILE_BYTES) {i : Nat} {st st' : LoopState}
    (hinv : BInv file i st) (hi : i = file.length)
    (h : line_step cfg st i = .ok st') : Final file st' := by
  obtain ⟨h1, h2, h3, h4, h5, h6, h7⟩ := BInv_line_step hF hfile hinv (Or.inl hi) h
  refine ⟨h1, h2, fun it hit => (h5 it hit).1, h6, ?_⟩
  rw [h7, hinv.lineno, ← count_take_no_nl i hinv.ls_le hinv.no_nl, hi, List.take_length]

theorem BInv_scan {file : List Nat} {i : Nat} {st : LoopState} (hinv : BInv file i st)
    (h1 : i ≠ st.session.buffer_len) (h2 : st.session.buffer.getD i 0 ≠ 10) :
    BInv file (i + 1) st := by
  have hi := hinv.i_le
  rw [hinv.blen] at h1
  refine ⟨hinv.blen, hinv.bsize, by have := hinv.ls_le; omega, by omega, hinv.tail, ?_,
    hinv.at_start, hinv.items, hinv.ordered, hinv.lineno⟩
  intro j hj1 hj2
  rcases Nat.lt_or_ge j i with hlt | hge
  · exact hinv.no_nl j hj1 hlt
  · have hji : j = i := by omega
    subst hji
    intro hc
    apply h2
    rw [List.getD_eq_getElem?_getD, hinv.tail j hj1, file_getElem?_of_lt (by omega), hc]
    rfl

theorem line_step_buffer_len {cfg : Config} {st st' : LoopState} {i : Nat}
    (h : line_step cfg st i = .ok st') :
    st'.session.buffer_len = st.session.buffer_len := by
  obtain ⟨-, -, -, h | h | h⟩ := line_step_ok h
  · obtain ⟨-, hs, -⟩ := h
    rw [hs]; rfl
  · obtain ⟨-, -, -, hp, -⟩ := h
    obtain ⟨-, -, -, h1, -⟩ := parse_header_line_ok hp
    exact h1
  · obtain ⟨-, -, c, -, -, hs, -⟩ := h
    rw [hs]; rfl

/-- The loop of `parse_session_file` keeps an invariant `Q` of its head and
ends in `R`: leaving the loop without an error, either the iterations ran out
with `Q` at the loop variable reached, or the loop variable reached the end of
the buffer, the line there was processed and `R` holds. -/
theorem parse_loop_run {cfg : Config} (Q : Nat → LoopState → Prop) (R : LoopState → Prop)
    (hscan : ∀ i st, Q i st → i ≠ st.session.buffer_len →
      st.session.buffer.getD i 0 ≠ 10 → Q (i + 1) st)
    (hline : ∀ i st st', Q i st → i ≠ st.session.buffer_len →
      st.session.buffer.getD i 0 = 10 → line_step cfg st i = .ok st' → Q (i + 1) st')
    (hlast : ∀ i st st', Q i st → i = st.session.buffer_len →
      line_step cfg st i = .ok st' → R st') :
    ∀ fuel i st st', Q i st → parse_loop cfg fuel i st = .ok st' →
      Q (i + fuel) st' ∨ (R st' ∧ st.session.buffer_len < i + fuel) := by
  intro fuel
  induction fuel with
  | zero =>
    intro i st st' hq h
    simp only [parse_loop, Except.ok.injEq] at h
    subst h
    exact Or.inl hq
  | succ n ih =>
    intro i st st' hq h
    rw [parse_loop] at h
    have hi : i + (n + 1) = i + 1 + n := by omega
    rw [hi]
    split at h
    · rename_i hc
      split at h
      · cases h
      · rename_i st1 h1
        split at h
        · rename_i hlen
          simp only [Except.ok.injEq] at h
          subst h
          exact Or.inr ⟨hlast i st st1 hq hlen h1, by omega⟩
        · rename_i hlen
          have h10 : st.session.buffer.getD i 0 = 10 := by
            rcases hc with hc | hc
            · exact absurd hc hlen
            · exact hc
          have := ih (i + 1) st1 st' (hline i st st1 hq hlen h10 h1) h
          rw [line_step_buffer_len h1] at this
          exact this
    · rename_i hc
      simp only [not_or] at hc
      exact ih (i + 1) st st' (hscan i st hq hc.1 hc.2) h

/-- The invariant of the buffer holds wherever the loop stops short of the end
of the file, and the final facts hold once it has passed the end. -/
theorem parse_loop_BInv {cfg : Config} (hF : cfg.MAX_FILE_BYTES < 2 ^ 32) {file : List Nat}
    (hfile : file.length ≤ cfg.MAX_FILE_BYTES) {fuel i : Nat} {st st' : LoopState}
    (hinv : BInv file i st) (h : parse_loop cfg fuel i st = .ok st') :
    BInv file (i + fuel) st' ∨ (Final file st' ∧ file.length < i + fuel) := by
  have := parse_loop_run (BInv file) (Final file)
    (fun _ _ hq h1 h2 => BInv_scan hq h1 h2)
    (fun _ _ _ hq _ h2 hs => BInv_next hF hfile hq (BInv_newline hq h2).2 hs)
    (fun _ _ _ hq h1 hs => BInv_last hF hfile hq (by rw [h1, hq.blen]) hs)
    fuel i st st' hinv h
  rw [hinv.blen] at this
  exact this

theorem parse_loop_GInv {cfg : Config} (hI : cfg.MAX_ITEMS_TOTAL < 2 ^ 32)
    {fuel i : Nat} {st st' : LoopState} (hinv : GInv cfg st)
    (h : parse_loop cfg fuel i st = .ok st') : GInv cfg st' := by
  rcases parse_loop_run (fun _ st => GInv cfg st) (GInv cfg)
    (fun _ _ hq _ _ => hq) (fun _ _ _ hq _ _ hs => GInv_step hI hq hs)
    (fun _ _ _ hq _ hs => GInv_step hI hq hs) fuel i st st' hinv h with h | h
  · exact h
  · exact h.1

/-- The state of groups and items after a successful parse. -/
theorem parse_session_file_GInv {cfg : Config} (hI : cfg.MAX_ITEMS_TOTAL < 2 ^ 32)
    {file : List Nat} {s : Session} (h : parse_session_file cfg file = .ok s) :
    chain s.groups 0 s.items.length ∧ (∀ g ∈ s.groups, 1 ≤ g.item_count) ∧
      (∀ g ∈ s.groups, 1 ≤ g.seconds ∧ g.seconds ≤ 86400) ∧
      s.groups ≠ [] ∧ s.groups.length ≤ cfg.MAX_GROUPS ∧
      s.items.length ≤ cfg.MAX_ITEMS_TOTAL := by
  obtain ⟨-, st, hst, hs, hne, hce⟩ := parse_session_file_ok h
  have hinv := parse_loop_GInv hI (GInv_start cfg file) hst
  subst hs
  refine ⟨hinv.chained, ?_, hinv.secs, hne, hinv.gcap, hinv.icap⟩
  rcases List.eq_nil_or_concat st.session.groups with hnil | ⟨L, b, hL⟩
  · exact absurd hnil hne
  · rw [List.concat_eq_append] at hL
    have hcur := hinv.cur
    have hf := hinv.filled
    rw [hL] at hcur hf
    simp only [List.append_eq_nil, List.cons_ne_self, and_false, ↓reduceIte,
      List.length_append, List.length_singleton, Nat.add_sub_cancel] at hcur
    rw [hcur, hL, current_is_empty_snoc] at hce
    rw [List.dropLast_concat] at hf
    intro x hx
    rw [hL] at hx
    rcases List.mem_append.1 hx with hx | hx
    · exact hf x hx
    · simp only [List.mem_singleton] at hx
      subst hx
      simp only [beq_eq_false_iff_ne, ne_eq] at hce
      omega

/-- The state of buffer and items after a successful parse. -/
theorem parse_session_file_Final {cfg : Config} (hF : cfg.MAX_FILE_BYTES < 2 ^ 32)
    {file : List Nat} {s : Session} (h : parse_session_file cfg file = .ok s) :
    ∃ st, st.session = s ∧ Final file st := by
  obtain ⟨hfile, st, hst, hs, -, -⟩ := parse_session_file_ok h
  refine ⟨st, hs, ?_⟩
  rcases parse_loop_BInv hF hfile (BInv_start file) hst with h | h
  · have := h.i_le
    omega
  · exact h.1

/-! ## The scanning helpers -/

theorem trim_left_loop_some (line : List Nat) (line_len : Nat) :
    ∀ fuel i r, trim_left_loop line line_len fuel i = some r →
      i ≤ r ∧ r < line_len ∧ isspace (line.getD r 0) = false ∧
        ∀ j, i ≤ j → j < r → isspace (line.getD j 0) = true := by
  intro fuel
  induction fuel with
  | zero => intro i r h; simp [trim_left_loop] at h
  | succ n ih =>
    intro i r h
    rw [trim_left_loop] at h
    split at h
    · cases h
    · rename_i hlt
      split at h
      · rename_i hsp
        simp only [Option.some.injEq] at h
        subst h
        exact ⟨le_rfl, by omega, by simpa using hsp, fun j h1 h2 => by omega⟩
      · rename_i hsp
        obtain ⟨h1, h2, h3, h4⟩ := ih (i + 1) r h
        refine ⟨by omega, h2, h3, fun j hj1 hj2 => ?_⟩
        by_cases hji : j = i
        · subst hji; simpa using hsp
        · exact h4 j (by omega) hj2

theorem trim_left_loop_none (line : List Nat) (line_len : Nat) :
    ∀ fuel i, trim_left_loop line line_len fuel i = none →
      ∀ j, i ≤ j → j < line_len → j < i + fuel → isspace (line.getD j 0) = true := by
  intro fuel
  induction fuel with
  | zero => intro i _ j h1 _ h3; omega
  | succ n ih =>
    intro i h j h1 h2 h3
    rw [trim_left_loop] at h
    split at h
    · omega
    · split at h
      · cases h
      · rename_i hsp
        by_cases hji : j = i
        · subst hji; simpa using hsp
        · exact ih (i + 1) h j (by omega) h2 (by omega)

/-- `trim_left_index` returns the index of the first byte of the line that is
not a space, or `line_len` when there is none. -/
theorem trim_left_index_spec (cfg : Config) (line : List Nat) (line_len : Nat)
    (hlen : line_len ≤ cfg.MAX_LINE_LEN) :
    trim_left_index cfg line line_len ≤ line_len ∧
      (∀ j, j < trim_left_index cfg line line_len → isspace (line.getD j 0) = true) ∧
      (trim_left_index cfg line line_len < line_len →
        isspace (line.getD (trim_left_index cfg line line_len) 0) = false) := by
  unfold trim_left_index
  split
  · rename_i r hr
    obtain ⟨-, h2, h3, h4⟩ := trim_left_loop_some _ _ _ _ _ hr
    exact ⟨by omega, fun j hj => h4 j (Nat.zero_le _) hj, fun _ => h3⟩
  · rename_i hr
    have := trim_left_loop_none _ _ _ _ hr
    exact ⟨le_rfl, fun j hj => this j (Nat.zero_le _) hj (by omega), fun h => absurd h (lt_irrefl _)⟩

theorem trim_right_loop_spec (line : List Nat) (line_len start : Nat) :
    ∀ fuel e, start ≤ e → e ≤ line_len → e ≤ start + fuel →
      start ≤ trim_right_loop line line_len start fuel e ∧
        (∀ j, trim_right_loop line line_len start fuel e ≤ j → j < e →
          isspace (line.getD j 0) = true) ∧
        (start < trim_right_loop line line_len start fuel e →
          isspace (line.getD (trim_right_loop line line_len start fuel e - 1) 0) = false) := by
  intro fuel
  induction fuel with
  | zero =>
    intro e h1 h2 h3
    simp only [trim_right_loop]
    exact ⟨h1, fun j hj1 hj2 => by omega, fun h => by omega⟩
  | succ n ih =>
    intro e h1 h2 h3
    rw [trim_right_loop]
    split
    · rename_i hc
      exact ⟨h1, fun j hj1 hj2 => by omega, fun h => by omega⟩
    · rename_i hc
      split
      · exact ⟨h1, fun j hj1 hj2 => by omega, fun h => by omega⟩
      · split
        · rename_i hsp
          exact ⟨h1, fun j hj1 hj2 => by omega, fun _ => by simpa using hsp⟩
        · rename_i hsp
          obtain ⟨h4, h5, h6⟩ := ih (e - 1) (by omega) (by omega) (by omega)
          refine ⟨h4, fun j hj1 hj2 => ?_, h6⟩
          by_cases hje : j = e - 1
          · subst hje; simpa using hsp
          · exact h5 j hj1 (by omega)

/-- `trim_right_index` returns the index after the last byte of the line, from
`start` on, that is not a space. -/
theorem trim_right_index_spec (cfg : Config) (line : List Nat) (line_len start : Nat)
    (hlen : line_len ≤ cfg.MAX_LINE_LEN) (hs : start ≤ line_len) :
    start ≤ trim_right_index cfg line line_len start ∧
      trim_right_index cfg line line_len start ≤ line_len ∧
      (∀ j, trim_right_index cfg line line_len start ≤ j → j < line_len →
        isspace (line.getD j 0) = true) ∧
      (start < trim_right_index cfg line line_len start →
        isspace (line.getD (trim_right_index cfg line line_len start - 1) 0) = false) := by
  obtain ⟨h1, h2, h3⟩ :=
    trim_right_loop_spec line line_len start cfg.MAX_LINE_LEN line_len hs le_rfl (by omega)
  exact ⟨h1, trim_right_index_le cfg line line_len start, h2, h3⟩

theorem find_pipe_none (line : List Nat) (line_len : Nat) :
    ∀ fuel i, find_pipe line line_len fuel i = none →
      ∀ j, i ≤ j → j < line_len - 1 → j < i + fuel → line.getD j 0 ≠ 124 := by
  intro fuel
  induction fuel with
  | zero => intro i _ j h1 _ h3; omega
  | succ n ih =>
    intro i h j h1 h2 h3
    rw [find_pipe] at h
    split at h
    · omega
    · split at h
      · cases h
      · rename_i hne
        by_cases hji : j = i
        · subst hji; exact hne
        · exact ih (i + 1) h j (by omega) h2 (by omega)

/-- A line whose first byte is neither a space nor `'#'` is not blank and not a
comment. -/
theorem not_blank_of_first {cfg : Config} {line : List Nat} {line_len : Nat}
    (hlen : line_len ≤ cfg.MAX_LINE_LEN) (hpos : 0 < line_len)
    (h1 : isspace (line.getD 0 0) = false) (h2 : line.getD 0 0 ≠ 35) :
    is_blank_or_comment cfg line line_len = false := by
  obtain ⟨-, hb, -⟩ := trim_left_index_spec cfg line line_len hlen
  have h0 : trim_left_index cfg line line_len = 0 := by
    by_contra hne
    have := hb 0 (Nat.pos_of_ne_zero hne)
    rw [h1] at this
    cases this
  unfold is_blank_or_comment
  simp only [h0]
  rw [if_neg (by omega)]
  simpa using h2

theorem getElem?_mid (a b : List Nat) (x : Nat) : (a ++ x :: b)[a.length]? = some x := by
  rw [List.getElem?_append_right le_rfl]
  simp

theorem parse_loop_buffer_len {cfg : Config} :
    ∀ fuel i st st', parse_loop cfg fuel i st = .ok st' →
      st'.session.buffer_len = st.session.buffer_len := by
  intro fuel i st st' h
  rcases parse_loop_run (fun _ s => s.session.buffer_len = st.session.buffer_len)
    (fun s => s.session.buffer_len = st.session.buffer_len)
    (fun _ _ hq _ _ => hq)
    (fun _ _ _ hq _ _ hs => (line_step_buffer_len hs).trans hq)
    (fun _ _ _ hq _ hs => (line_step_buffer_len hs).trans hq)
    fuel i st st' rfl h with h | h
  · exact h
  · exact h.1

/-- Running the loop for `k + m` iterations is running it for `k` iterations
and then for `m` more, when the first `k` stay before the end of the buffer. -/
theorem parse_loop_split {cfg : Config} (m : Nat) :
    ∀ k i st, i + k ≤ st.session.buffer_len →
      parse_loop cfg (k + m) i st =
        match parse_loop cfg k i st with
        | .error e => .error e
        | .ok st' => parse_loop cfg m (i + k) st' := by
  intro k
  induction k with
  | zero => intro i st _; simp [parse_loop]
  | succ n ih =>
    intro i st hle
    have hk : n + 1 + m = (n + m) + 1 := by omega
    have hi : i + (n + 1) = i + 1 + n := by omega
    rw [hk, parse_loop, parse_loop, hi]
    have hne : i ≠ st.session.buffer_len := by omega
    split
    · cases hs : line_step cfg st i with
      | error e => rfl
      | ok st1 =>
        simp only [hne, if_false]
        exact ih (i + 1) st1 (by rw [line_step_buffer_len hs]; omega)
    · exact ih (i + 1) st (by omega)

/-- Iterations over bytes that are not `'\n'` leave the state alone. -/
theorem parse_loop_scan {cfg : Config} (m : Nat) (st : LoopState) :
    ∀ n i, i + n ≤ st.session.buffer_len →
      (∀ j, i ≤ j → j < i + n → st.session.buffer.getD j 0 ≠ 10) →
      parse_loop cfg (n + m) i st = parse_loop cfg m (i + n) st := by
  intro n
  induction n with
  | zero => intro i _ _; simp
  | succ n ih =>
    intro i hle hno
    have hk : n + 1 + m = (n + m) + 1 := by omega
    have hi : i + (n + 1) = i + 1 + n := by omega
    rw [hk, parse_loop, hi]
    have hne : i ≠ st.session.buffer_len := by omega
    have h10 := hno i le_rfl (by omega)
    rw [if_neg (fun hc => hc.elim hne h10)]
    exact ih (i + 1) (by omega) (fun j h1 h2 => hno j (by omega) (by omega))

theorem AtLine.file_at {cfg : Config} {file pre line post : List Nat} {st : LoopState}
    (h : AtLine cfg file pre line post st) (k : Nat) :
    (file ++ [0])[pre.length + k]? = (line ++ (post ++ [0]))[k]? := by
  rw [h.split, List.append_assoc, List.append_assoc,
    List.getElem?_append_right (Nat.le_add_right _ _), Nat.add_sub_cancel_left]

theorem AtLine.reach {cfg : Config} (hF : cfg.MAX_FILE_BYTES < 2 ^ 32)
    (hI : cfg.MAX_ITEMS_TOTAL < 2 ^ 32) {file pre line post : List Nat} {st : LoopState}
    (h : AtLine cfg file pre line post st) :
    BInv file pre.length st ∧ GInv cfg st ∧ st.line_start = pre.length ∧
      st.line_no = pre.count 10 + 1 := by
  have hlen : pre.length ≤ file.length := by rw [h.split]; simp
  have hb : BInv file pre.length st := by
    rcases parse_loop_BInv hF h.fits (BInv_start file) h.run with hb | hb
    · simpa using hb
    · omega
  have hls : st.line_start = pre.length := by
    have h1 := hb.ls_le
    rcases h.pre_ok with hp | ⟨p, hp⟩
    · rw [hp] at h1 ⊢; simpa using h1
    · by_contra hne
      have h2 := hb.no_nl (pre.length - 1) (by rw [hp] at h1 hne ⊢; simp at h1 hne ⊢; omega)
        (by rw [hp]; simp)
      apply h2
      rw [h.split, hp]
      simp only [List.append_assoc, List.length_append, List.length_singleton,
        Nat.add_sub_cancel, List.singleton_append]
      exact getElem?_mid _ _ _
  refine ⟨hb, parse_loop_GInv hI (GInv_start cfg file) h.run, hls, ?_⟩
  rw [hb.lineno, hls, h.split, List.append_assoc, List.take_left]

theorem AtLine.step {cfg : Config} (hF : cfg.MAX_FILE_BYTES < 2 ^ 32)
    (hI : cfg.MAX_ITEMS_TOTAL < 2 ^ 32) {file pre line post : List Nat} {st : LoopState}
    (h : AtLine cfg file pre line post st) (m : Nat) :
    parse_loop cfg (pre.length + (line.length + (m + 1))) 0 (start_state file) =
      match line_step cfg st (pre.length + line.length) with
      | .error e => .error e
      | .ok st1 =>
        if post = [] then .ok st1 else parse_loop cfg m (pre.length + line.length + 1) st1 := by
  obtain ⟨hb, -, hls, -⟩ := h.reach hF hI
  have hflen : file.length = pre.length + line.length + post.length := by
    rw [h.split]; simp; omega
  have hsl : (start_state file).session.buffer_len = file.length := rfl
  rw [parse_loop_split _ pre.length 0 (start_state file) (by rw [hsl]; omega), h.run]
  simp only [zero_add]
  have hbl := hb.blen
  rw [parse_loop_scan (m + 1) st line.length pre.length (by rw [hbl]; omega) ?_]
  · rw [parse_loop]
    have hcond : pre.length + line.length = st.session.buffer_len ∨
        st.session.buffer.getD (pre.length + line.length) 0 = 10 := by
      rcases h.post_ok with hp | ⟨q, hp⟩
      · left; rw [hbl, hflen, hp]; simp
      · right
        rw [List.getD_eq_getElem?_getD, hb.tail _ (by omega), h.file_at, hp,
          List.cons_append, getElem?_mid]
        rfl
    rw [if_pos hcond]
    cases hs : line_step cfg st (pre.length + line.length) with
    | error e => rfl
    | ok st1 =>
      simp only
      rcases h.post_ok with hp | ⟨q, hp⟩
      · rw [if_pos (by rw [hbl, hflen, hp]; simp), if_pos hp]
      · rw [if_neg (by rw [hbl, hflen, hp]; simp), if_neg (by rw [hp]; simp)]
  · intro j h1 h2
    rw [List.getD_eq_getElem?_getD, hb.tail _ (by omega)]
    obtain ⟨k, rfl⟩ : ∃ k, j = pre.length + k := ⟨j - pre.length, by omega⟩
    rw [h.file_at, List.getElem?_append_left (by omega)]
    have hk : k < line.length := by omega
    rw [List.getElem?_eq_getElem hk]
    simp only [Option.getD_some, ne_eq]
    intro hc
    exact h.line_ok (hc ▸ List.getElem_mem hk)

/-- An error of `line_step` on the line the loop stands at is the error of
`parse_session_file`. -/
theorem AtLine.parse_error {cfg : Config} (hF : cfg.MAX_FILE_BYTES < 2 ^ 32)
    (hI : cfg.MAX_ITEMS_TOTAL < 2 ^ 32) {file pre line post : List Nat} {st : LoopState}
    (h : AtLine cfg file pre line post st) {e : String}
    (he : line_step cfg st (pre.length + line.length) = .error e) :
    parse_session_file cfg file = .error e := by
  have hflen : file.length = pre.length + line.length + post.length := by
    rw [h.split]; simp; omega
  have hfit := h.fits
  have hfuel : cfg.MAX_FILE_BYTES + 1 =
      pre.length + (line.length + ((cfg.MAX_FILE_BYTES - pre.length - line.length) + 1)) := by
    omega
  unfold parse_session_file
  rw [if_neg (by omega), hfuel, h.step hF hI, he]

/-- The state after the line the loop stands at, when more lines follow. -/
theorem AtLine.next {cfg : Config} (hF : cfg.MAX_FILE_BYTES < 2 ^ 32)
    (hI : cfg.MAX_ITEMS_TOTAL < 2 ^ 32) {file pre line q : List Nat} {st : LoopState}
    (h : AtLine cfg file pre line (10 :: q) st) :
    parse_loop cfg (pre ++ line ++ [10]).length 0 (start_state file) =
      line_step cfg st (pre.length + line.length) := by
  have hl : (pre ++ line ++ [10]).length = pre.length + (line.length + (0 + 1)) := by
    simp
  rw [hl, h.step hF hI]
  cases line_step cfg st (pre.length + line.length) with
  | error e => rfl
  | ok st1 => simp [parse_loop]

theorem Stored.getD {b body : List Nat} {ls : Nat} (h : Stored b ls body) {k : Nat}
    (hk : k < body.length) : (b.drop ls).getD k 0 = body.getD k 0 := by
  rw [getD_drop, List.getD_eq_getElem?_getD, h k (by omega), List.getElem?_append_left hk,
    List.getD_eq_getElem?_getD]

theorem Stored.nul {b body : List Nat} {ls : Nat} (h : Stored b ls body) :
    b[ls + body.length]? = some 0 := by
  rw [h _ le_rfl, List.getElem?_append_right le_rfl]
  simp

theorem Stored.get {b body : List Nat} {ls : Nat} (h : Stored b ls body) {k : Nat}
    (hk : k < body.length) : b[ls + k]? = body[k]? := by
  rw [h k (by omega), List.getElem?_append_left hk]

theorem trim_left_loop_congr {l l' : List Nat} {len : Nat}
    (h : ∀ j, j < len → l.getD j 0 = l'.getD j 0) :
    ∀ fuel i, trim_left_loop l len fuel i = trim_left_loop l' len fuel i := by
  intro fuel
  induction fuel with
  | zero => intro i; rfl
  | succ n ih =>
    intro i
    rw [trim_left_loop, trim_left_loop]
    split
    · rfl
    · rw [h i (by omega), ih]

theorem trim_left_index_congr (cfg : Config) {l l' : List Nat} {len : Nat}
    (h : ∀ j, j < len → l.getD j 0 = l'.getD j 0) :
    trim_left_index cfg l len = trim_left_index cfg l' len := by
  unfold trim_left_index
  rw [trim_left_loop_congr h]

theorem trim_right_loop_congr {l l' : List Nat} {len start : Nat}
    (h : ∀ j, j < len → l.getD j 0 = l'.getD j 0) :
    ∀ fuel e, e ≤ len → trim_right_loop l len start fuel e = trim_right_loop l' len start fuel e := by
  intro fuel
  induction fuel with
  | zero => intro e _; rfl
  | succ n ih =>
    intro e he
    rw [trim_right_loop, trim_right_loop]
    split
    · rfl
    · split
      · rfl
      · rw [h (e - 1) (by omega), ih (e - 1) (by omega)]

theorem trim_right_index_congr (cfg : Config) {l l' : List Nat} {len : Nat} (start : Nat)
    (h : ∀ j, j < len → l.getD j 0 = l'.getD j 0) :
    trim_right_index cfg l len start = trim_right_index cfg l' len start :=
  trim_right_loop_congr h _ _ le_rfl

theorem dropWhile_eq_drop :
    ∀ (l : List Nat) (r : Nat), r ≤ l.length →
      (∀ j, j < r → isspace (l.getD j 0) = true) →
      (r < l.length → isspace (l.getD r 0) = false) →
      l.dropWhile isspace = l.drop r := by
  intro l
  induction l with
  | nil => intro r _ _ _; simp
  | cons x xs ih =>
    intro r hr h1 h2
    cases r with
    | zero =>
      have := h2 (by simp)
      simp only [List.getD_cons_zero] at this
      simp [List.dropWhile_cons, this]
    | succ n =>
      have := h1 0 (by omega)
      simp only [List.getD_cons_zero] at this
      rw [List.dropWhile_cons, if_pos this, List.drop_succ_cons]
      apply ih n (by simpa using hr)
      · intro j hj
        have := h1 (j + 1) (by omega)
        simpa using this
      · intro hn
        have := h2 (by simpa using hn)
        simpa using this

/-- `is_blank_or_comment` on a stored line: the line has no byte that is not a
space, or the first such byte is `'#'`. -/
theorem is_blank_or_comment_eq {cfg : Config} {l body : List Nat}
    (hlen : body.length ≤ cfg.MAX_LINE_LEN)
    (h : ∀ j, j < body.length → l.getD j 0 = body.getD j 0) :
    is_blank_or_comment cfg l body.length =
      match first_nonspace body with
      | none => true
      | some c => c == 35 := by
  obtain ⟨h1, h2, h3⟩ := trim_left_index_spec cfg body body.length hlen
  unfold is_blank_or_comment
  simp only
  rw [trim_left_index_congr cfg h]
  have hd := dropWhile_eq_drop body _ h1 h2 h3
  unfold first_nonspace
  rw [hd, List.head?_drop]
  split
  · rename_i hge
    rw [List.getElem?_eq_none (by omega)]
  · rename_i hlt
    simp only [not_le] at hlt
    rw [h _ hlt, List.getElem?_eq_getElem hlt, List.getD_eq_getElem?_getD,
      List.getElem?_eq_getElem hlt]
    rfl

theorem strip_cr_cases (l : List Nat) :
    (strip_cr l = l ∧ l.getLast? ≠ some 13) ∨ (l = strip_cr l ++ [13] ∧ l.getLast? = some 13) := by
  unfold strip_cr
  split
  · rename_i h
    right
    refine ⟨?_, h⟩
    rcases List.eq_nil_or_concat l with hnil | ⟨L, b, hL⟩
    · simp [hnil] at h
    · rw [List.concat_eq_append] at hL
      subst hL
      rw [List.getLast?_concat] at h
      simp only [Option.some.injEq] at h
      subst h
      simp
  · rename_i h
    exact Or.inl ⟨rfl, h⟩

theorem first_nonspace_strip_cr (l : List Nat) :
    first_nonspace (strip_cr l) = first_nonspace l := by
  rcases strip_cr_cases l with ⟨h, -⟩ | ⟨h, -⟩
  · rw [h]
  · generalize strip_cr l = b at h
    subst h
    unfold first_nonspace
    rw [List.dropWhile_append]
    split
    · rename_i he
      have : List.dropWhile isspace b = [] := by simpa using he
      rw [this]
      rfl
    · rename_i he
      cases hb : List.dropWhile isspace b with
      | nil => simp [hb] at he
      | cons x xs => rfl

theorem head?_strip_cr {l : List Nat} (h : l.head? = some 91) :
    (strip_cr l).head? = some 91 := by
  rcases strip_cr_cases l with ⟨h1, -⟩ | ⟨h1, -⟩
  · rw [h1]; exact h
  · generalize strip_cr l = b at h1
    subst h1
    cases b with
    | nil => simp at h
    | cons x xs => simpa using h

theorem head?_strip_cr_ne {l : List Nat} (h : l.head? ≠ some 91) :
    (strip_cr l).head? ≠ some 91 := by
  rcases strip_cr_cases l with ⟨h1, -⟩ | ⟨h1, -⟩
  · rw [h1]; exact h
  · generalize strip_cr l = b at h1
    subst h1
    cases b with
    | nil => simp
    | cons x xs => simpa using h

/-- At the line the loop stands at, `line_len` is the length of the line
without its trailing `'\r'`, and after `line[line_len] = 0` the buffer holds
that line, terminated, at `line_start`. -/
theorem AtLine.view {cfg : Config} (hF : cfg.MAX_FILE_BYTES < 2 ^ 32)
    (hI : cfg.MAX_ITEMS_TOTAL < 2 ^ 32) {file pre ln post : List Nat} {st : LoopState}
    (h : AtLine cfg file pre ln post st) :
    line_len_at st (pre.length + ln.length) = (strip_cr ln).length ∧
      Stored (terminate_line st (pre.length + ln.length)).buffer pre.length
        (strip_cr ln) := by
  obtain ⟨hb, -, hls, -⟩ := h.reach hF hI
  have hflen : file.length = pre.length + ln.length + post.length := by
    rw [h.split]; simp; omega
  have hget : ∀ k, k < ln.length → st.session.buffer[pre.length + k]? = ln[k]? := by
    intro k hk
    rw [hb.tail _ (by omega), h.file_at, List.getElem?_append_left hk]
  have hlast : 0 < ln.length →
      (st.session.buffer.getD (pre.length + ln.length - 1) 0 = 13 ↔
        ln.getLast? = some 13) := by
    intro hpos
    have : pre.length + ln.length - 1 = pre.length + (ln.length - 1) := by omega
    rw [this, List.getD_eq_getElem?_getD, hget _ (by omega), List.getLast?_eq_getElem?,
      List.getElem?_eq_getElem (by omega)]
    simp
  have hL : line_len_at st (pre.length + ln.length) = (strip_cr ln).length := by
    unfold line_len_at
    simp only [hls, Nat.add_sub_cancel_left]
    rcases strip_cr_cases ln with ⟨h1, h2⟩ | ⟨h1, h2⟩
    · rw [h1, if_neg]
      rintro ⟨h3, h4⟩
      exact h2 ((hlast h3).1 h4)
    · have hpos : 0 < ln.length := by
        cases ln with
        | nil => simp at h2
        | cons x xs => simp
      rw [if_pos ⟨hpos, (hlast hpos).2 h2⟩]
      conv_lhs => rw [h1]
      simp
  refine ⟨hL, ?_⟩
  have hble : (strip_cr ln).length ≤ ln.length := by
    rcases strip_cr_cases ln with ⟨h1, -⟩ | ⟨h1, -⟩
    · rw [h1]
    · conv_rhs => rw [h1]
      simp
  have hpre : ∀ k, k < (strip_cr ln).length → ln[k]? = (strip_cr ln)[k]? := by
    intro k hk
    rcases strip_cr_cases ln with ⟨h1, -⟩ | ⟨h1, -⟩
    · rw [h1]
    · conv_lhs => rw [h1]
      rw [List.getElem?_append_left hk]
  intro k hk
  simp only [terminate_line, hL, hls]
  rcases Nat.lt_or_ge k (strip_cr ln).length with hlt | hge
  · rw [getElem?_set_ne' _ _ _ _ (by omega), hget k (by omega), hpre k hlt,
      List.getElem?_append_left hlt]
  · have hk' : k = (strip_cr ln).length := by omega
    subst hk'
    rw [List.getElem?_set_self (by rw [hb.bsize]; omega), List.getElem?_append_right le_rfl]
    simp

/-- A line longer than `MAX_LINE_LEN` stops the parse. -/
theorem AtLine.too_long {cfg : Config} (hF : cfg.MAX_FILE_BYTES < 2 ^ 32)
    (hI : cfg.MAX_ITEMS_TOTAL < 2 ^ 32) {file pre ln post : List Nat} {st : LoopState}
    (h : AtLine cfg file pre ln post st)
    (hlong : cfg.MAX_LINE_LEN < (strip_cr ln).length) :
    line_step cfg st (pre.length + ln.length) =
      .error (set_error_line (pre.count 10 + 1) "line too long") := by
  obtain ⟨-, -, -, hno⟩ := h.reach hF hI
  obtain ⟨hL, -⟩ := h.view hF hI
  unfold line_step
  simp only [hL, hno]
  rw [if_pos hlong]

/-- A line that is blank or a comment only moves the loop on. -/
theorem AtLine.blank_step {cfg : Config} (hF : cfg.MAX_FILE_BYTES < 2 ^ 32)
    (hI : cfg.MAX_ITEMS_TOTAL < 2 ^ 32) {file pre ln post : List Nat} {st : LoopState}
    (h : AtLine cfg file pre ln post st)
    (hlen : (strip_cr ln).length ≤ cfg.MAX_LINE_LEN)
    (hb : first_nonspace ln = none ∨ first_nonspace ln = some 35) :
    line_step cfg st (pre.length + ln.length) =
      .ok { session := terminate_line st (pre.length + ln.length)
            line_start := pre.length + ln.length + 1
            line_no := pre.count 10 + 2
            current := st.current } := by
  obtain ⟨-, -, hls, hno⟩ := h.reach hF hI
  obtain ⟨hL, hv⟩ := h.view hF hI
  have hbl : is_blank_or_comment cfg
      ((terminate_line st (pre.length + ln.length)).buffer.drop pre.length)
      (strip_cr ln).length = true := by
    rw [is_blank_or_comment_eq hlen (fun j hj => hv.getD hj), first_nonspace_strip_cr]
    rcases hb with hb | hb
    · rw [hb]
    · rw [hb]; rfl
  unfold line_step
  simp only [hL, hno, hls]
  rw [if_neg (by omega), hbl]
  rfl

/-- A line whose first byte is `'['` goes to `parse_header_line`, unless the
group opened before it is still empty. -/
theorem AtLine.header_step {cfg : Config} (hF : cfg.MAX_FILE_BYTES < 2 ^ 32)
    (hI : cfg.MAX_ITEMS_TOTAL < 2 ^ 32) {file pre ln post : List Nat} {st : LoopState}
    (h : AtLine cfg file pre ln post st)
    (hlen : (strip_cr ln).length ≤ cfg.MAX_LINE_LEN) (h91 : ln.head? = some 91) :
    line_step cfg st (pre.length + ln.length) =
      if current_is_empty st.session.groups st.current then
        .error (set_error_line (pre.count 10 + 1) "previous group has no items")
      else
        match parse_header_line cfg (terminate_line st (pre.length + ln.length)) pre.length
          (strip_cr ln).length (pre.count 10 + 1) with
        | .error e => .error e
        | .ok s2 =>
          .ok { session := s2, line_start := pre.length + ln.length + 1
                line_no := pre.count 10 + 2, current := some (s2.groups.length - 1) } := by
  obtain ⟨-, -, hls, hno⟩ := h.reach hF hI
  obtain ⟨hL, hv⟩ := h.view hF hI
  have h91' := head?_strip_cr h91
  have hpos : 0 < (strip_cr ln).length := by
    cases hs : strip_cr ln with
    | nil => rw [hs] at h91'; simp at h91'
    | cons x xs => simp
  have h0 : ((terminate_line st (pre.length + ln.length)).buffer.drop pre.length).getD 0 0
      = 91 := by
    rw [hv.getD hpos]
    cases hs : strip_cr ln with
    | nil => rw [hs] at h91'; simp at h91'
    | cons x xs => rw [hs] at h91'; simpa using h91'
  have hbl : is_blank_or_comment cfg
      ((terminate_line st (pre.length + ln.length)).buffer.drop pre.length)
      (strip_cr ln).length = false :=
    not_blank_of_first hlen hpos (by rw [h0]; rfl) (by rw [h0]; decide)
  unfold line_step
  simp only [hL, hno, hls]
  rw [if_neg (by omega), hbl]
  simp only [Bool.not_false, if_true, h0]
  rfl

/-- A line that is not blank, not a comment and does not begin with `'['` is an
item line: it needs an open group and room for one more item. -/
theorem AtLine.item_step {cfg : Config} (hF : cfg.MAX_FILE_BYTES < 2 ^ 32)
    (hI : cfg.MAX_ITEMS_TOTAL < 2 ^ 32) {file pre ln post : List Nat} {st : LoopState}
    (h : AtLine cfg file pre ln post st)
    (hlen : (strip_cr ln).length ≤ cfg.MAX_LINE_LEN) {c : Nat}
    (hc : first_nonspace ln = some c) (hc35 : c ≠ 35) (h91 : ln.head? ≠ some 91) :
    line_step cfg st (pre.length + ln.length) =
      match st.current with
      | none => .error (set_error_line (pre.count 10 + 1) "item before any group header")
      | some g =>
        if st.session.items.length ≥ cfg.MAX_ITEMS_TOTAL then
          .error (set_error_line (pre.count 10 + 1) "too many items")
        else
          .ok { session := add_item (terminate_line st (pre.length + ln.length)) g pre.length
                  (strip_cr ln).length
                line_start := pre.length + ln.length + 1
                line_no := pre.count 10 + 2, current := some g } := by
  obtain ⟨-, -, hls, hno⟩ := h.reach hF hI
  obtain ⟨hL, hv⟩ := h.view hF hI
  have hbl : is_blank_or_comment cfg
      ((terminate_line st (pre.length + ln.length)).buffer.drop pre.length)
      (strip_cr ln).length = false := by
    rw [is_blank_or_comment_eq hlen (fun j hj => hv.getD hj), first_nonspace_strip_cr, hc]
    simpa using hc35
  have hpos := not_blank_pos hbl
  have h0 : ((terminate_line st (pre.length + ln.length)).buffer.drop pre.length).getD 0 0
      ≠ 91 := by
    rw [hv.getD hpos]
    have := head?_strip_cr_ne h91
    cases hs : strip_cr ln with
    | nil => rw [hs] at hpos; simp at hpos
    | cons x xs => rw [hs] at this; simpa using this
  unfold line_step
  simp only [hL, hno, hls]
  rw [if_neg (by omega), hbl]
  simp only [Bool.not_false, if_true, h0, if_false]
  rfl

theorem getD_mem {l : List Nat} {j : Nat} (h : j < l.length) : l.getD j 0 ∈ l := by
  rw [List.getD_eq_getElem?_getD, List.getElem?_eq_getElem h]
  exact List.getElem_mem h

theorem dropWhile_space_append {w m : List Nat} {x : Nat} (hw : all_space w)
    (hm : m.head? = some x) (hx : isspace x = false) :
    (w ++ m).dropWhile isspace = m := by
  induction w with
  | nil =>
    cases m with
    | nil => simp at hm
    | cons y ys =>
      simp only [List.head?_cons, Option.some.injEq] at hm
      subst hm
      simp [List.dropWhile_cons, hx]
  | cons y ys ih =>
    have hy : isspace y = true := hw y (by simp)
    rw [List.cons_append, List.dropWhile_cons, if_pos hy]
    exact ih (fun z hz => hw z (by simp [hz]))

theorem trim_of_decomp {wl t wr : List Nat} (hl : all_space wl) (hr : all_space wr)
    (ht : Trimmed t) : trim (wl ++ t ++ wr) = t := by
  obtain ⟨⟨x, hx1, hx2⟩, ⟨y, hy1, hy2⟩⟩ := ht
  unfold trim
  have h1 : (t ++ wr).head? = some x := by
    cases t with
    | nil => simp at hx1
    | cons a as => simpa using hx1
  rw [List.append_assoc, dropWhile_space_append hl h1 hx2, List.reverse_append,
    dropWhile_space_append (fun z hz => hr z (List.mem_reverse.1 hz))
      (by rw [List.head?_reverse]; exact hy1) hy2, List.reverse_reverse]

theorem trim_decomp (l : List Nat) (h : trim l ≠ []) :
    ∃ wl wr, l = wl ++ trim l ++ wr ∧ all_space wl ∧ all_space wr ∧ Trimmed (trim l) := by
  have h1 := List.takeWhile_append_dropWhile isspace l
  have h2 := List.takeWhile_append_dropWhile isspace (l.dropWhile isspace).reverse
  have hne : (l.dropWhile isspace).reverse.dropWhile isspace ≠ [] := by
    intro hc
    apply h
    unfold trim
    rw [hc]
    rfl
  have hne' : l.dropWhile isspace ≠ [] := by
    intro hc
    rw [hc] at hne
    exact hne rfl
  refine ⟨l.takeWhile isspace, ((l.dropWhile isspace).reverse.takeWhile isspace).reverse,
    ?_, fun x hx => List.mem_takeWhile_imp hx,
    fun x hx => List.mem_takeWhile_imp (List.mem_reverse.1 hx), ?_, ?_⟩
  · have h3 : l.dropWhile isspace =
        trim l ++ ((l.dropWhile isspace).reverse.takeWhile isspace).reverse := by
      have := congrArg List.reverse h2
      rw [List.reverse_append, List.reverse_reverse] at this
      exact this.symm
    rw [List.append_assoc, ← h3, h1]
  · have h3 : l.dropWhile isspace =
        trim l ++ ((l.dropWhile isspace).reverse.takeWhile isspace).reverse := by
      have := congrArg List.reverse h2
      rw [List.reverse_append, List.reverse_reverse] at this
      exact this.symm
    have hh := List.head_dropWhile_not isspace l hne'
    refine ⟨(l.dropWhile isspace).head hne', ?_, hh⟩
    have : (trim l).head? = (l.dropWhile isspace).head? := by
      conv_rhs => rw [h3]
      rw [List.head?_append_of_ne_nil _ h]
    rw [this, List.head?_eq_head hne']
  · have hh := List.head_dropWhile_not isspace _ hne
    refine ⟨((l.dropWhile isspace).reverse.dropWhile isspace).head hne, ?_, hh⟩
    unfold trim
    rw [List.getLast?_reverse, List.head?_eq_head hne]

theorem trim_eq_nil {l : List Nat} (h : trim l = []) : all_space l := by
  unfold trim at h
  have h1 : (l.dropWhile isspace).reverse.dropWhile isspace = [] := by
    have := congrArg List.reverse h
    simpa using this
  have h2 : ∀ x ∈ l.dropWhile isspace, isspace x = true := fun x hx =>
    List.dropWhile_eq_nil_iff.1 h1 x (List.mem_reverse.2 hx)
  have h3 : l.dropWhile isspace = [] := by
    by_contra hne
    have := List.head_dropWhile_not isspace l hne
    rw [h2 _ (List.head_mem hne)] at this
    cases this
  exact List.dropWhile_eq_nil_iff.1 h3

theorem Trimmed.ne_nil {t : List Nat} (h : Trimmed t) : t ≠ [] := by
  obtain ⟨⟨x, hx, -⟩, -⟩ := h
  intro hc
  rw [hc] at hx
  cases hx

theorem getD_decomp_left {wl t wr : List Nat} {j : Nat} (h : j < wl.length) :
    (wl ++ t ++ wr).getD j 0 = wl.getD j 0 := by
  rw [List.append_assoc, List.getD_append _ _ _ _ h]

theorem getD_decomp_mid {wl t wr : List Nat} {j : Nat} (h : j < t.length) :
    (wl ++ t ++ wr).getD (wl.length + j) 0 = t.getD j 0 := by
  rw [List.append_assoc, List.getD_append_right _ _ _ _ (by omega), Nat.add_sub_cancel_left,
    List.getD_append _ _ _ _ h]

theorem getD_decomp_right {wl t wr : List Nat} {j : Nat} (_h : j < wr.length) :
    (wl ++ t ++ wr).getD (wl.length + t.length + j) 0 = wr.getD j 0 := by
  rw [List.getD_append_right _ _ _ _ (by simp), List.length_append, Nat.add_sub_cancel_left]

theorem Trimmed.first {t : List Nat} (h : Trimmed t) : isspace (t.getD 0 0) = false := by
  obtain ⟨⟨x, hx1, hx2⟩, -⟩ := h
  cases t with
  | nil => simp at hx1
  | cons a as =>
    simp only [List.head?_cons, Option.some.injEq] at hx1
    subst hx1
    simpa using hx2

theorem Trimmed.last {t : List Nat} (h : Trimmed t) :
    isspace (t.getD (t.length - 1) 0) = false := by
  obtain ⟨-, ⟨y, hy1, hy2⟩⟩ := h
  rw [List.getLast?_eq_getElem?] at hy1
  rw [List.getD_eq_getElem?_getD, hy1]
  exact hy2

/-- On a field made of white space, a trimmed core and white space,
`trim_left_index` is the length of the leading white space. -/
theorem trim_left_index_decomp (cfg : Config) {wl t wr : List Nat}
    (hlen : (wl ++ t ++ wr).length ≤ cfg.MAX_LINE_LEN) (hl : all_space wl) (ht : Trimmed t) :
    trim_left_index cfg (wl ++ t ++ wr) (wl ++ t ++ wr).length = wl.length := by
  obtain ⟨h1, h2, h3⟩ := trim_left_index_spec cfg (wl ++ t ++ wr) _ hlen
  have htl : 0 < t.length := List.length_pos.2 ht.ne_nil
  have hlen' : (wl ++ t ++ wr).length = wl.length + t.length + wr.length := by
    simp; omega
  rcases Nat.lt_trichotomy (trim_left_index cfg (wl ++ t ++ wr) (wl ++ t ++ wr).length)
    wl.length with hlt | heq | hgt
  · have := h3 (by omega)
    rw [getD_decomp_left hlt, hl _ (getD_mem hlt)] at this
    cases this
  · exact heq
  · have := h2 wl.length hgt
    have h0 := @getD_decomp_mid wl t wr 0 htl
    rw [Nat.add_zero] at h0
    rw [h0, ht.first] at this
    cases this

/-- On such a field `trim_right_index` is the end of the trimmed core. -/
theorem trim_right_index_decomp (cfg : Config) {wl t wr : List Nat}
    (hlen : (wl ++ t ++ wr).length ≤ cfg.MAX_LINE_LEN) (hr : all_space wr) (ht : Trimmed t) :
    trim_right_index cfg (wl ++ t ++ wr) (wl ++ t ++ wr).length wl.length =
      wl.length + t.length := by
  have hlen' : (wl ++ t ++ wr).length = wl.length + t.length + wr.length := by
    simp; omega
  obtain ⟨h1, h2, h3, h4⟩ :=
    trim_right_index_spec cfg (wl ++ t ++ wr) _ wl.length hlen (by omega)
  have htl : 0 < t.length := List.length_pos.2 ht.ne_nil
  generalize trim_right_index cfg (wl ++ t ++ wr) (wl ++ t ++ wr).length wl.length = r
    at h1 h2 h3 h4 ⊢
  rcases Nat.lt_trichotomy r (wl.length + t.length) with hlt | heq | hgt
  · have := h3 (wl.length + (t.length - 1)) (by omega) (by omega)
    rw [getD_decomp_mid (by omega), ht.last] at this
    cases this
  · exact heq
  · have := h4 (by omega)
    have hj : r - 1 = wl.length + t.length + (r - 1 - (wl.length + t.length)) := by omega
    rw [hj, getD_decomp_right (by omega), hr _ (getD_mem (by omega))] at this
    cases this

theorem trim_left_index_all_space (cfg : Config) {l : List Nat}
    (hlen : l.length ≤ cfg.MAX_LINE_LEN) (hl : all_space l) :
    trim_left_index cfg l l.length = l.length := by
  obtain ⟨h1, -, h3⟩ := trim_left_index_spec cfg l l.length hlen
  by_contra hne
  have hlt : trim_left_index cfg l l.length < l.length := by omega
  have := h3 hlt
  rw [hl _ (getD_mem hlt)] at this
  cases this

/-! ## `parse_header_line` on a stored line of the form `[name|seconds]` -/

theorem header_body_length (nm sc : List Nat) :
    (91 :: (nm ++ 124 :: (sc ++ [93]))).length = nm.length + sc.length + 3 := by
  simp; omega

theorem header_body_name (nm sc : List Nat) {j : Nat} (h : j < nm.length) :
    (91 :: (nm ++ 124 :: (sc ++ [93])))[1 + j]? = nm[j]? := by
  rw [Nat.add_comm, List.getElem?_cons_succ, List.getElem?_append_left h]

theorem header_body_pipe (nm sc : List Nat) :
    (91 :: (nm ++ 124 :: (sc ++ [93])))[nm.length + 1]? = some 124 := by
  rw [List.getElem?_cons_succ, getElem?_mid]

theorem header_body_sec (nm sc : List Nat) {j : Nat} (h : j < sc.length) :
    (91 :: (nm ++ 124 :: (sc ++ [93])))[nm.length + 2 + j]? = sc[j]? := by
  have : nm.length + 2 + j = (nm.length + (1 + j)) + 1 := by omega
  rw [this, List.getElem?_cons_succ, List.getElem?_append_right (by omega),
    Nat.add_sub_cancel_left, Nat.add_comm 1 j, List.getElem?_cons_succ,
    List.getElem?_append_left h]

theorem header_body_last (nm sc : List Nat) :
    (91 :: (nm ++ 124 :: (sc ++ [93])))[nm.length + sc.length + 2]? = some 93 := by
  have : nm.length + sc.length + 2 = (nm.length + (sc.length + 1)) + 1 := by omega
  rw [this, List.getElem?_cons_succ, List.getElem?_append_right (by omega),
    Nat.add_sub_cancel_left, List.getElem?_cons_succ, getElem?_mid]

theorem getD_of_getElem? {l : List Nat} {j v : Nat} (h : l[j]? = some v) : l.getD j 0 = v := by
  rw [List.getD_eq_getElem?_getD, h]; rfl

theorem getElem?_eq_some_getD {l : List Nat} {j : Nat} (h : j < l.length) :
    l[j]? = some (l.getD j 0) := by
  rw [List.getD_eq_getElem?_getD, List.getElem?_eq_getElem h]; rfl

/-- The search for `'|'` finds the first `'|'` of the line. -/
theorem find_pipe_header {cfg : Config} {s : Session} {ls : Nat} {nm sc : List Nat}
    (hst : Stored s.buffer ls (91 :: (nm ++ 124 :: (sc ++ [93]))))
    (hlen : (91 :: (nm ++ 124 :: (sc ++ [93]))).length ≤ cfg.MAX_LINE_LEN)
    (hnm : 124 ∉ nm) :
    find_pipe (s.buffer.drop ls) (91 :: (nm ++ 124 :: (sc ++ [93]))).length
      (cfg.MAX_LINE_LEN - 1) 1 = some (nm.length + 1) := by
  have hl := header_body_length nm sc
  have hq : (s.buffer.drop ls).getD (nm.length + 1) 0 = 124 := by
    rw [hst.getD (by omega)]
    exact getD_of_getElem? (header_body_pipe nm sc)
  cases hf : find_pipe (s.buffer.drop ls) (91 :: (nm ++ 124 :: (sc ++ [93]))).length
      (cfg.MAX_LINE_LEN - 1) 1 with
  | none =>
    exact absurd hq (find_pipe_none _ _ _ _ hf (nm.length + 1) (by omega) (by omega) (by omega))
  | some p =>
    obtain ⟨h1, h2, h3, h4⟩ := find_pipe_some _ _ _ _ _ hf
    rcases Nat.lt_trichotomy p (nm.length + 1) with hlt | heq | hgt
    · exfalso
      apply hnm
      have hp : p = 1 + (p - 1) := by omega
      rw [hst.getD (by omega), hp,
        getD_of_getElem? ((header_body_name nm sc (by omega)).trans
          (getElem?_eq_some_getD (by omega)))] at h3
      rw [← h3]
      exact getD_mem (by omega)
    · rw [heq]
    · exact absurd hq (h4 _ (by omega) hgt)

theorem header_name_eval {cfg : Config} {s : Session} {ls no : Nat} {nm sc : List Nat}
    (hst : Stored s.buffer ls (91 :: (nm ++ 124 :: (sc ++ [93]))))
    (hlen : (91 :: (nm ++ 124 :: (sc ++ [93]))).length ≤ cfg.MAX_LINE_LEN) :
    header_name cfg s ls (91 :: (nm ++ 124 :: (sc ++ [93]))).length no (nm.length + 1) =
      if trim_left_index cfg nm nm.length ≥
          trim_right_index cfg nm nm.length (trim_left_index cfg nm nm.length) then
        .error (set_error_line no "malformed header")
      else if trim_left_index cfg sc sc.length ≥
          trim_right_index cfg sc sc.length (trim_left_index cfg sc sc.length) then
        .error (set_error_line no "malformed header")
      else
        header_commit cfg s
          (header_buffer s.buffer ls (91 :: (nm ++ 124 :: (sc ++ [93]))).length nm.length
            (trim_right_index cfg nm nm.length (trim_left_index cfg nm nm.length))
            (trim_right_index cfg sc sc.length (trim_left_index cfg sc sc.length)))
          (ls + 1 + trim_left_index cfg nm nm.length)
          (ls + (nm.length + 1) + 1 + trim_left_index cfg sc sc.length) no := by
  have hl := header_body_length nm sc
  generalize hbody : (91 :: (nm ++ 124 :: (sc ++ [93]))) = body at hst hlen hl
  have hname : ∀ j, j < nm.length →
      (((s.buffer.set (ls + (body.length - 1)) 0).set (ls + (nm.length + 1)) 0).drop
        (ls + 1)).getD j 0 = nm.getD j 0 := by
    intro j hj
    rw [getD_drop, getD_set_ne _ _ _ _ (by omega), getD_set_ne _ _ _ _ (by omega)]
    have := hst.get (k := 1 + j) (by omega)
    rw [← hbody, header_body_name nm sc hj, ← Nat.add_assoc] at this
    rw [List.getD_eq_getElem?_getD, this, List.getD_eq_getElem?_getD]
  have hn1 : nm.length + 1 - 1 = nm.length := by omega
  unfold header_name
  simp only [hn1]
  rw [trim_left_index_congr cfg hname, trim_right_index_congr cfg _ hname]
  obtain ⟨ha, -, -⟩ := trim_left_index_spec cfg nm nm.length (by omega)
  generalize trim_left_index cfg nm nm.length = a at ha ⊢
  have he := trim_right_index_le cfg nm nm.length a
  generalize trim_right_index cfg nm nm.length a = e at he ⊢
  split
  · rfl
  · have hsec : ∀ j, j < sc.length →
        ((((s.buffer.set (ls + (body.length - 1)) 0).set (ls + (nm.length + 1)) 0).set
          (ls + 1 + e) 0).drop (ls + (nm.length + 1) + 1)).getD j 0 = sc.getD j 0 := by
      intro j hj
      rw [getD_drop, getD_set_ne _ _ _ _ (by omega), getD_set_ne _ _ _ _ (by omega),
        getD_set_ne _ _ _ _ (by omega)]
      have := hst.get (k := nm.length + 2 + j) (by omega)
      rw [← hbody, header_body_sec nm sc hj] at this
      have hidx : ls + (nm.length + 1) + 1 + j = ls + (nm.length + 2 + j) := by omega
      rw [hidx, List.getD_eq_getElem?_getD, this, List.getD_eq_getElem?_getD]
    have hs1 : body.length - 1 - (nm.length + 1 + 1) = sc.length := by omega
    unfold header_seconds
    simp only [hs1]
    rw [trim_left_index_congr cfg hsec, trim_right_index_congr cfg _ hsec]
    rfl

/-- `parse_header_line` on a stored line `[name|seconds]` whose name has no
`'|'`: the two fields are trimmed and the rest is left to `header_commit`. -/
theorem parse_header_line_eval {cfg : Config} {s : Session} {ls no : Nat} {nm sc : List Nat}
    (hst : Stored s.buffer ls (91 :: (nm ++ 124 :: (sc ++ [93]))))
    (hlen : (91 :: (nm ++ 124 :: (sc ++ [93]))).length ≤ cfg.MAX_LINE_LEN)
    (hnm : 124 ∉ nm) :
    parse_header_line cfg s ls (91 :: (nm ++ 124 :: (sc ++ [93]))).length no =
      if trim_left_index cfg nm nm.length ≥
          trim_right_index cfg nm nm.length (trim_left_index cfg nm nm.length) then
        .error (set_error_line no "malformed header")
      else if trim_left_index cfg sc sc.length ≥
          trim_right_index cfg sc sc.length (trim_left_index cfg sc sc.length) then
        .error (set_error_line no "malformed header")
      else
        header_commit cfg s
          (header_buffer s.buffer ls (91 :: (nm ++ 124 :: (sc ++ [93]))).length nm.length
            (trim_right_index cfg nm nm.length (trim_left_index cfg nm nm.length))
            (trim_right_index cfg sc sc.length (trim_left_index cfg sc sc.length)))
          (ls + 1 + trim_left_index cfg nm nm.length)
          (ls + (nm.length + 1) + 1 + trim_left_index cfg sc sc.length) no := by
  have hl := header_body_length nm sc
  have h0 : (s.buffer.drop ls).getD 0 0 = 91 := by
    rw [hst.getD (by omega)]; rfl
  have hlast : (s.buffer.drop ls).getD ((91 :: (nm ++ 124 :: (sc ++ [93]))).length - 1) 0
      = 93 := by
    rw [hst.getD (by omega)]
    have : (91 :: (nm ++ 124 :: (sc ++ [93]))).length - 1 = nm.length + sc.length + 2 := by
      omega
    rw [this]
    exact getD_of_getElem? (header_body_last nm sc)
  rw [← header_name_eval hst hlen]
  unfold parse_header_line
  simp only [h0, hlast, find_pipe_header hst hlen hnm]
  rw [if_neg (by omega)]

theorem Stored.drop {b x : List Nat} {p : Nat} (h : Stored b p x) :
    b.drop p = x ++ 0 :: b.drop (p + x.length + 1) := by
  have hnul := h.nul
  obtain ⟨hlt, hv⟩ := List.getElem?_eq_some.1 hnul
  rw [← span_append_drop b p x.length, List.drop_eq_getElem_cons hlt, hv]
  congr 1
  apply List.ext_getElem?
  intro k
  rw [span_getElem?]
  split
  · rename_i hk
    exact h.get hk
  · rename_i hk
    rw [List.getElem?_eq_none (by omega)]

theorem takeWhile_append_nul {p : Nat → Bool} (hp : p 0 = false) (x y : List Nat) :
    (x ++ 0 :: y).takeWhile p = x.takeWhile p := by
  rw [List.takeWhile_append]
  split
  · rename_i h
    have hx : x.takeWhile p = x := by
      have := List.takeWhile_append_dropWhile p x
      have hd : (x.dropWhile p).length = 0 := by
        have := congrArg List.length this
        simp only [List.length_append] at this
        omega
      rw [List.length_eq_zero] at hd
      rw [hd, List.append_nil] at this
      exact this
    rw [hx, List.takeWhile_cons, if_neg (by simp [hp]), List.append_nil]
  · rfl

theorem dropWhile_append_nul {p : Nat → Bool} (hp : p 0 = false) (x y : List Nat) :
    (x ++ 0 :: y).dropWhile p = x.dropWhile p ++ 0 :: y := by
  rw [List.dropWhile_append]
  split
  · rename_i h
    have : x.dropWhile p = [] := by simpa using h
    rw [this, List.dropWhile_cons, if_neg (by simp [hp]), List.nil_append]
  · rfl

theorem strip_sign_other {a : Nat} (u : List Nat) (h1 : a ≠ 43) (h2 : a ≠ 45) :
    strip_sign (a :: u) = (false, a :: u) := by
  unfold strip_sign
  split
  · rename_i h
    simp only [List.cons.injEq] at h
    exact absurd h.1 h1
  · rename_i h
    simp only [List.cons.injEq] at h
    exact absurd h.1 h2
  · rfl

theorem strip_sign_append_nul (x y : List Nat) :
    strip_sign (x ++ 0 :: y) = ((strip_sign x).1, (strip_sign x).2 ++ 0 :: y) := by
  cases x with
  | nil => rfl
  | cons a as =>
    by_cases h1 : a = 43
    · subst h1; rfl
    · by_cases h2 : a = 45
      · subst h2; rfl
      · rw [List.cons_append, strip_sign_other _ h1 h2, strip_sign_other _ h1 h2]
        rfl

theorem strip_sign_length (x : List Nat) : (strip_sign x).2.length ≤ x.length := by
  unfold strip_sign
  split <;> simp

/-- `strtoul` reads a string up to its first `'\0'`. -/
theorem strtoul_nul (x y : List Nat) : strtoul (x ++ 0 :: y) = strtoul (x ++ [0]) := by
  have key : ∀ z, strtoul (x ++ 0 :: z) =
      (if (strip_sign (x.dropWhile isspace)).2.takeWhile isdigit = [] then
        { value := 0, endptr := 0, erange := false }
      else if digits_value ((strip_sign (x.dropWhile isspace)).2.takeWhile isdigit) >
          ULONG_MAX then
        { value := ULONG_MAX
          endptr := (x.length - (strip_sign (x.dropWhile isspace)).2.length) +
            ((strip_sign (x.dropWhile isspace)).2.takeWhile isdigit).length
          erange := true }
      else
        { value :=
            if (strip_sign (x.dropWhile isspace)).1 then
              (2 ^ 64 -
                digits_value ((strip_sign (x.dropWhile isspace)).2.takeWhile isdigit)) % 2 ^ 64
            else digits_value ((strip_sign (x.dropWhile isspace)).2.takeWhile isdigit)
          endptr := (x.length - (strip_sign (x.dropWhile isspace)).2.length) +
            ((strip_sign (x.dropWhile isspace)).2.takeWhile isdigit).length
          erange := false } : StrtoulResult) := by
    intro z
    have h1 := strip_sign_length (x.dropWhile isspace)
    have h2 : (x.dropWhile isspace).length ≤ x.length := by
      have := congrArg List.length (List.takeWhile_append_dropWhile isspace x)
      simp only [List.length_append] at this
      omega
    unfold strtoul
    simp only [dropWhile_append_nul (p := isspace) rfl, strip_sign_append_nul,
      takeWhile_append_nul (p := isdigit) rfl, List.length_append, List.length_cons]
    have : x.length + (z.length + 1) - ((strip_sign (x.dropWhile isspace)).2.length +
        (z.length + 1)) = x.length - (strip_sign (x.dropWhile isspace)).2.length := by omega
    rw [this]
  rw [key y, key []]

theorem strtoul_endptr_le (x : List Nat) : (strtoul (x ++ [0])).endptr ≤ x.length := by
  have h1 := strip_sign_length (x.dropWhile isspace)
  have h2 : (x.dropWhile isspace).length ≤ x.length := by
    have := congrArg List.length (List.takeWhile_append_dropWhile isspace x)
    simp only [List.length_append] at this
    omega
  have h3 : ((strip_sign (x.dropWhile isspace)).2.takeWhile isdigit).length ≤
      (strip_sign (x.dropWhile isspace)).2.length := by
    have := congrArg List.length
      (List.takeWhile_append_dropWhile isdigit (strip_sign (x.dropWhile isspace)).2)
    simp only [List.length_append] at this
    omega
  unfold strtoul
  simp only [dropWhile_append_nul (p := isspace) rfl, strip_sign_append_nul,
    takeWhile_append_nul (p := isdigit) rfl, List.length_append, List.length_cons,
    List.length_nil]
  split
  · simp
  · split <;> simp only <;> omega

theorem strlen_nul (x y : List Nat) : strlen (x ++ 0 :: y) = strlen (x ++ [0]) := by
  unfold strlen
  rw [takeWhile_append_nul rfl, takeWhile_append_nul rfl]

theorem strlen_le (x : List Nat) : strlen (x ++ [0]) ≤ x.length := by
  unfold strlen
  rw [takeWhile_append_nul rfl]
  have := congrArg List.length (List.takeWhile_append_dropWhile (fun c => c != 0) x)
  simp only [List.length_append] at this
  omega

theorem strlen_no_nul {x : List Nat} (h : 0 ∉ x) : strlen (x ++ [0]) = x.length := by
  unfold strlen
  rw [takeWhile_append_nul rfl]
  have : x.takeWhile (fun c => c != 0) = x := by
    rw [List.takeWhile_eq_self_iff]
    intro c hc
    simp only [bne_iff_ne, ne_eq]
    intro h0
    exact h (h0 ▸ hc)
  rw [this]

/-- `header_commit` when the buffer holds the trimmed name `tn` and the trimmed
seconds `ts`, each followed by `'\0'`. -/
theorem header_commit_eval {cfg : Config} {s : Session} {buf tn ts : List Nat}
    {name sec no : Nat} (hn : Stored buf name tn) (hs : Stored buf sec ts)
    (hlen : tn.length ≤ cfg.MAX_LINE_LEN) :
    header_commit cfg s buf name sec no =
      if (strtoul (ts ++ [0])).erange ∨
          (ts ++ [0]).getD (strtoul (ts ++ [0])).endptr 0 ≠ 0 ∨
          (strtoul (ts ++ [0])).value < 1 ∨ (strtoul (ts ++ [0])).value > 86400 then
        .error (set_error_line no "invalid seconds value")
      else if s.groups.length ≥ cfg.MAX_GROUPS then
        .error (set_error_line no "too many groups")
      else
        .ok { s with
              buffer := buf
              groups := s.groups ++
                [{ name_offset := to_u32 name
                   name_length := to_u32 (strlen (tn ++ [0]))
                   seconds := to_u32 (strtoul (ts ++ [0])).value
                   item_start := to_u32 s.items.length
                   item_count := 0 }] } := by
  have he := strtoul_endptr_le ts
  have hend : buf.getD (sec + (strtoul (ts ++ [0])).endptr) 0 =
      (ts ++ [0]).getD (strtoul (ts ++ [0])).endptr 0 := by
    rw [List.getD_eq_getElem?_getD, hs _ he, List.getD_eq_getElem?_getD]
  have hsl := strlen_le tn
  unfold header_commit
  simp only [hs.drop, hn.drop, strtoul_nul ts, strlen_nul tn, hend]
  split
  · rfl
  · split
    · rfl
    · rw [if_neg (by omega)]

theorem header_buffer_length (b : List Nat) (ls len n e d : Nat) :
    (header_buffer b ls len n e d).length = b.length := by
  simp [header_buffer]

theorem header_buffer_name {s : Session} {ls d : Nat} {wl t wr sc : List Nat}
    (hst : Stored s.buffer ls (91 :: ((wl ++ t ++ wr) ++ 124 :: (sc ++ [93])))) :
    Stored
      (header_buffer s.buffer ls (91 :: ((wl ++ t ++ wr) ++ 124 :: (sc ++ [93]))).length
        (wl ++ t ++ wr).length (wl.length + t.length) d)
      (ls + 1 + wl.length) t := by
  have hl := header_body_length (wl ++ t ++ wr) sc
  have hn : (wl ++ t ++ wr).length = wl.length + t.length + wr.length := by simp; omega
  have hnul := hst.nul
  obtain ⟨hlt, -⟩ := List.getElem?_eq_some.1 hnul
  intro k hk
  rcases Nat.lt_or_ge k t.length with hk' | hk'
  · unfold header_buffer
    rw [getElem?_set_ne' _ _ _ _ (by omega), getElem?_set_ne' _ _ _ _ (by omega),
      getElem?_set_ne' _ _ _ _ (by omega), getElem?_set_ne' _ _ _ _ (by omega)]
    have h1 := hst.get (k := 1 + (wl.length + k)) (by omega)
    rw [header_body_name _ sc (by omega), List.append_assoc,
      List.getElem?_append_right (by omega), Nat.add_sub_cancel_left,
      List.getElem?_append_left hk'] at h1
    have hidx : ls + 1 + wl.length + k = ls + (1 + (wl.length + k)) := by omega
    rw [hidx, h1, List.getElem?_append_left hk']
  · have hk2 : k = t.length := by omega
    subst hk2
    unfold header_buffer
    have hidx : ls + 1 + wl.length + t.length = ls + 1 + (wl.length + t.length) := by omega
    rw [hidx, getElem?_set_ne' _ _ _ _ (by omega), List.getElem?_set_self (by simp; omega),
      List.getElem?_append_right le_rfl]
    simp

theorem header_buffer_sec {s : Session} {ls e : Nat} {nm vl u vr : List Nat}
    (hst : Stored s.buffer ls (91 :: (nm ++ 124 :: ((vl ++ u ++ vr) ++ [93]))))
    (he : e ≤ nm.length) :
    Stored
      (header_buffer s.buffer ls (91 :: (nm ++ 124 :: ((vl ++ u ++ vr) ++ [93]))).length
        nm.length e (vl.length + u.length))
      (ls + (nm.length + 1) + 1 + vl.length) u := by
  have hl := header_body_length nm (vl ++ u ++ vr)
  have hn : (vl ++ u ++ vr).length = vl.length + u.length + vr.length := by simp; omega
  have hnul := hst.nul
  obtain ⟨hlt, -⟩ := List.getElem?_eq_some.1 hnul
  intro k hk
  rcases Nat.lt_or_ge k u.length with hk' | hk'
  · unfold header_buffer
    rw [getElem?_set_ne' _ _ _ _ (by omega), getElem?_set_ne' _ _ _ _ (by omega),
      getElem?_set_ne' _ _ _ _ (by omega), getElem?_set_ne' _ _ _ _ (by omega)]
    have h1 := hst.get (k := nm.length + 2 + (vl.length + k)) (by omega)
    rw [header_body_sec nm _ (by omega), List.append_assoc,
      List.getElem?_append_right (by omega), Nat.add_sub_cancel_left,
      List.getElem?_append_left hk'] at h1
    have hidx : ls + (nm.length + 1) + 1 + vl.length + k =
        ls + (nm.length + 2 + (vl.length + k)) := by omega
    rw [hidx, h1, List.getElem?_append_left hk']
  · have hk2 : k = u.length := by omega
    subst hk2
    unfold header_buffer
    have hidx : ls + (nm.length + 1) + 1 + vl.length + u.length =
        ls + (nm.length + 1) + 1 + (vl.length + u.length) := by omega
    rw [hidx, List.getElem?_set_self (by simp; omega), List.getElem?_append_right le_rfl]
    simp

/-- `parse_header_line` on a stored line `[name|seconds]` both of whose
fields have a trimmed core: the seconds are converted from the core `u`, and
the group, if there is room for it, is named by the core `t`. -/
theorem parse_header_line_fields {cfg : Config} {s : Session} {ls no : Nat}
    {wl t wr vl u vr : List Nat}
    (hst : Stored s.buffer ls (91 :: ((wl ++ t ++ wr) ++ 124 :: ((vl ++ u ++ vr) ++ [93]))))
    (hlen : (91 :: ((wl ++ t ++ wr) ++ 124 :: ((vl ++ u ++ vr) ++ [93]))).length ≤
      cfg.MAX_LINE_LEN)
    (hpipe : 124 ∉ wl ++ t ++ wr) (hwl : all_space wl) (hwr : all_space wr) (ht : Trimmed t)
    (hvl : all_space vl) (hvr : all_space vr) (hu : Trimmed u) :
    parse_header_line cfg s ls
        (91 :: ((wl ++ t ++ wr) ++ 124 :: ((vl ++ u ++ vr) ++ [93]))).length no =
      if (strtoul (u ++ [0])).erange ∨
          (u ++ [0]).getD (strtoul (u ++ [0])).endptr 0 ≠ 0 ∨
          (strtoul (u ++ [0])).value < 1 ∨ (strtoul (u ++ [0])).value > 86400 then
        .error (set_error_line no "invalid seconds value")
      else if s.groups.length ≥ cfg.MAX_GROUPS then
        .error (set_error_line no "too many groups")
      else
        .ok { s with
              buffer := header_buffer s.buffer ls
                (91 :: ((wl ++ t ++ wr) ++ 124 :: ((vl ++ u ++ vr) ++ [93]))).length
                (wl ++ t ++ wr).length (wl.length + t.length) (vl.length + u.length)
              groups := s.groups ++
                [{ name_offset := to_u32 (ls + 1 + wl.length)
                   name_length := to_u32 (strlen (t ++ [0]))
                   seconds := to_u32 (strtoul (u ++ [0])).value
                   item_start := to_u32 s.items.length
                   item_count := 0 }] } := by
  have hl := header_body_length (wl ++ t ++ wr) (vl ++ u ++ vr)
  have hn : (wl ++ t ++ wr).length = wl.length + t.length + wr.length := by simp; omega
  have htl : 0 < t.length := List.length_pos.2 ht.ne_nil
  have hul : 0 < u.length := List.length_pos.2 hu.ne_nil
  rw [parse_header_line_eval hst hlen hpipe,
    trim_left_index_decomp cfg (by omega) hwl ht, trim_right_index_decomp cfg (by omega) hwr ht,
    trim_left_index_decomp cfg (by omega) hvl hu, trim_right_index_decomp cfg (by omega) hvr hu,
    if_neg (by omega), if_neg (by omega),
    header_commit_eval (header_buffer_name hst) (header_buffer_sec hst (by omega)) (by omega)]

theorem sec_digits_length (x : List Nat) : (sec_digits x).length ≤ x.length := by
  unfold sec_digits
  split <;> simp

theorem strip_sign_eq_sec_digits {u : List Nat} (h : u.head? ≠ some 45) :
    strip_sign u = (false, sec_digits u) := by
  cases u with
  | nil => rfl
  | cons a as =>
    by_cases h1 : a = 43
    · subst h1; rfl
    · have h2 : a ≠ 45 := by
        intro hc
        apply h
        rw [hc]
        rfl
      rw [strip_sign_other _ h1 h2]
      unfold sec_digits
      split
      · rename_i heq
        simp only [List.cons.injEq] at heq
        exact absurd heq.1 h1
      · rfl

theorem dropWhile_trimmed {u : List Nat} (hu : Trimmed u) : u.dropWhile isspace = u := by
  obtain ⟨⟨x, hx1, hx2⟩, -⟩ := hu
  have := dropWhile_space_append (w := []) (m := u) (fun _ h => by simp at h) hx1 hx2
  simpa using this

/-- `strtoul` on a trimmed string without a leading `'-'`. -/
theorem strtoul_trimmed {u : List Nat} (hu : Trimmed u) (hminus : u.head? ≠ some 45) :
    strtoul (u ++ [0]) =
      if (sec_digits u).takeWhile isdigit = [] then
        { value := 0, endptr := 0, erange := false }
      else if digits_value ((sec_digits u).takeWhile isdigit) > ULONG_MAX then
        { value := ULONG_MAX
          endptr := (u.length - (sec_digits u).length) +
            ((sec_digits u).takeWhile isdigit).length
          erange := true }
      else
        { value := digits_value ((sec_digits u).takeWhile isdigit)
          endptr := (u.length - (sec_digits u).length) +
            ((sec_digits u).takeWhile isdigit).length
          erange := false } := by
  have h1 := sec_digits_length u
  unfold strtoul
  simp only [dropWhile_append_nul (p := isspace) rfl, strip_sign_append_nul,
    takeWhile_append_nul (p := isdigit) rfl, List.length_append, List.length_cons,
    List.length_nil, dropWhile_trimmed hu, strip_sign_eq_sec_digits hminus]
  have : u.length + (0 + 1) - ((sec_digits u).length + (0 + 1)) =
      u.length - (sec_digits u).length := by omega
  rw [this]
  rfl

theorem takeWhile_length_eq_iff (p : Nat → Bool) (l : List Nat) :
    (l.takeWhile p).length = l.length ↔ ∀ c ∈ l, p c = true := by
  rw [← List.takeWhile_eq_self_iff]
  constructor
  · intro h
    have h1 := List.takeWhile_append_dropWhile p l
    have hd : (l.dropWhile p).length = 0 := by
      have := congrArg List.length h1
      simp only [List.length_append] at this
      omega
    rw [List.length_eq_zero] at hd
    rw [hd, List.append_nil] at h1
    exact h1
  · intro h
    rw [h]

/-- The test on the seconds passes exactly for the valid fields, among the
trimmed fields without `'\0'` and without a leading `'-'`; the value converted
is then the value of the digits. -/
theorem seconds_accepted_iff {u : List Nat} (hu : Trimmed u) (hnul : 0 ∉ u)
    (hminus : u.head? ≠ some 45) :
    (seconds_accepted u ↔ sec_valid u) ∧
      (sec_valid u → (strtoul (u ++ [0])).value = digits_value (sec_digits u)) := by
  have h1 := sec_digits_length u
  have hle : ((sec_digits u).takeWhile isdigit).length ≤ (sec_digits u).length := by
    have := congrArg List.length (List.takeWhile_append_dropWhile isdigit (sec_digits u))
    simp only [List.length_append] at this
    omega
  have hend : ∀ e, e ≤ u.length → ((u ++ [0]).getD e 0 = 0 ↔ e = u.length) := by
    intro e he
    constructor
    · intro h0
      by_contra hne
      have hlt : e < u.length := by omega
      rw [List.getD_append _ _ _ _ hlt] at h0
      exact hnul (h0 ▸ getD_mem hlt)
    · intro h0
      rw [h0, List.getD_append_right _ _ _ _ le_rfl]
      simp
  unfold seconds_accepted sec_valid
  rw [strtoul_trimmed hu hminus]
  by_cases hds : (sec_digits u).takeWhile isdigit = []
  · rw [if_pos hds]
    refine ⟨⟨fun h => absurd (Or.inr (Or.inr (Or.inl (by decide)))) h, ?_⟩, ?_⟩
    · rintro ⟨h2, h3, -, -⟩
      exfalso
      apply h2
      rw [← List.takeWhile_eq_self_iff.2 h3]
      exact hds
    · rintro ⟨h2, h3, -, -⟩
      exfalso
      apply h2
      rw [← List.takeWhile_eq_self_iff.2 h3]
      exact hds
  · rw [if_neg hds]
    by_cases hov : digits_value ((sec_digits u).takeWhile isdigit) > ULONG_MAX
    · rw [if_pos hov]
      refine ⟨⟨fun h => absurd (Or.inl rfl) h, ?_⟩, ?_⟩
      · rintro ⟨-, h3, -, h5⟩
        rw [List.takeWhile_eq_self_iff.2 h3] at hov
        unfold ULONG_MAX at hov
        omega
      · rintro ⟨-, h3, -, h5⟩
        rw [List.takeWhile_eq_self_iff.2 h3] at hov
        unfold ULONG_MAX at hov
        omega
    · rw [if_neg hov]
      simp only [Bool.false_eq_true, false_or, not_or, not_lt, Decidable.not_not, gt_iff_lt]
      refine ⟨⟨?_, ?_⟩, ?_⟩
      · rintro ⟨h2, h3, h4⟩
        have h5 := (hend _ (by omega)).1 h2
        have h6 : ((sec_digits u).takeWhile isdigit).length = (sec_digits u).length := by
          omega
        have h7 := (takeWhile_length_eq_iff isdigit _).1 h6
        rw [List.takeWhile_eq_self_iff.2 h7] at h3 h4 hds
        exact ⟨hds, h7, h3, h4⟩
      · rintro ⟨h2, h3, h4, h5⟩
        rw [List.takeWhile_eq_self_iff.2 h3]
        exact ⟨(hend _ (by omega)).2 (by omega), h4, h5⟩
      · rintro ⟨h2, h3, h4, h5⟩
        rw [List.takeWhile_eq_self_iff.2 h3]

theorem isdigit_not_space {c : Nat} (h : isdigit c = true) : isspace c = false := by
  unfold isdigit at h
  unfold isspace
  simp only [Bool.and_eq_true, decide_eq_true_eq] at h
  simp only [Bool.or_eq_false_iff, beq_eq_false_iff_ne, ne_eq, Bool.and_eq_false_imp,
    decide_eq_true_eq, decide_eq_false_iff_not, not_le]
  omega

/-- A non-empty sequence of digits is a trimmed field without `'\0'`, `'+'`
or `'-'` in front. -/
theorem digits_trimmed {ds : List Nat} (hne : ds ≠ []) (hd : ∀ c ∈ ds, isdigit c = true) :
    Trimmed ds ∧ 0 ∉ ds ∧ ds.head? ≠ some 45 ∧ sec_digits ds = ds := by
  have hh : ds.head hne ∈ ds := List.head_mem hne
  have hl : ds.getLast hne ∈ ds := List.getLast_mem hne
  refine ⟨⟨⟨_, List.head?_eq_head hne, isdigit_not_space (hd _ hh)⟩,
    ⟨_, List.getLast?_eq_getLast _ hne, isdigit_not_space (hd _ hl)⟩⟩, ?_, ?_, ?_⟩
  · intro h0
    have := hd 0 h0
    simp [isdigit] at this
  · intro h45
    rw [List.head?_eq_head hne] at h45
    simp only [Option.some.injEq] at h45
    have := hd _ hh
    rw [h45] at this
    simp [isdigit] at this
  · unfold sec_digits
    split
    · have := hd 43 (by simp)
      simp [isdigit] at this
    · rfl

/-! ## Lines in their context -/

/-- A run of the loop that reports no error has reported none before. -/
theorem parse_loop_split_ok {cfg : Config} {file : List Nat} {k m : Nat} {st : LoopState}
    (hk : k ≤ file.length)
    (h : parse_loop cfg (k + m) 0 (start_state file) = .ok st) :
    ∃ stk, parse_loop cfg k 0 (start_state file) = .ok stk ∧
      parse_loop cfg m k stk = .ok st := by
  rw [parse_loop_split m k 0 (start_state file) (by simpa [start_state, load] using hk)] at h
  cases hs : parse_loop cfg k 0 (start_state file) with
  | error e => rw [hs] at h; cases h
  | ok stk =>
    rw [hs] at h
    simp only [zero_add] at h
    exact ⟨stk, rfl, h⟩

/-- A line whose first byte is `'['`, when accepted, opens one group, which
has no item yet, and adds no item. -/
theorem AtLine.header_opens {cfg : Config} (hF : cfg.MAX_FILE_BYTES < 2 ^ 32)
    (hI : cfg.MAX_ITEMS_TOTAL < 2 ^ 32) {file pre ln post : List Nat} {st st1 : LoopState}
    (h : AtLine cfg file pre ln post st) (h91 : ln.head? = some 91)
    (hs : line_step cfg st (pre.length + ln.length) = .ok st1) :
    ∃ g, st1.session.groups = st.session.groups ++ [g] ∧
      st1.session.items = st.session.items ∧ g.item_count = 0 ∧
      current_is_empty st1.session.groups st1.current = true := by
  have hlen : (strip_cr ln).length ≤ cfg.MAX_LINE_LEN := by
    by_contra hc
    rw [h.too_long hF hI (by omega)] at hs
    cases hs
  rw [h.header_step hF hI hlen h91] at hs
  split at hs
  · cases hs
  · split at hs
    · cases hs
    · rename_i s2 hp
      obtain ⟨⟨g, hg, hg0, -, -, -⟩, -, hitems, -, -⟩ := parse_header_line_ok hp
      simp only [Except.ok.injEq] at hs
      subst hs
      refine ⟨g, hg, hitems, hg0, ?_⟩
      simp only
      rw [hg]
      simp only [List.length_append, List.length_singleton, Nat.add_sub_cancel]
      rw [current_is_empty_snoc, hg0]
      rfl

/-- Blank lines and comments leave the groups, the items and `current` as they
are. -/
theorem blank_lines_keep {cfg : Config} (hF : cfg.MAX_FILE_BYTES < 2 ^ 32)
    (hI : cfg.MAX_ITEMS_TOTAL < 2 ^ 32) {file : List Nat}
    (hfile : file.length ≤ cfg.MAX_FILE_BYTES) :
    ∀ (bl : List (List Nat)) (pre rest : List Nat) (st0 st1 : LoopState),
      file = pre ++ join_lines bl ++ rest → (pre = [] ∨ ∃ p, pre = p ++ [10]) →
      (∀ l ∈ bl, 10 ∉ l ∧ (first_nonspace l = none ∨ first_nonspace l = some 35)) →
      parse_loop cfg pre.length 0 (start_state file) = .ok st0 →
      parse_loop cfg (pre ++ join_lines bl).length 0 (start_state file) = .ok st1 →
      st1.session.groups = st0.session.groups ∧ st1.session.items = st0.session.items ∧
        st1.current = st0.current := by
  intro bl
  induction bl with
  | nil =>
    intro pre rest st0 st1 _ _ _ h0 h1
    simp only [join_lines, List.append_nil] at h1
    rw [h0] at h1
    simp only [Except.ok.injEq] at h1
    subst h1
    exact ⟨rfl, rfl, rfl⟩
  | cons l bl ih =>
    intro pre rest st0 st1 hsplit hpre hbl h0 h1
    obtain ⟨hl10, hlb⟩ := hbl l (by simp)
    have hat : AtLine cfg file pre l (10 :: (join_lines bl ++ rest)) st0 :=
      ⟨by rw [hsplit]; simp [join_lines], hfile, hpre, hl10, Or.inr ⟨_, rfl⟩, h0⟩
    have hlen1 : (pre ++ join_lines (l :: bl)).length =
        (pre ++ l ++ [10]).length + (join_lines bl).length := by
      simp [join_lines]; omega
    have hle : (pre ++ l ++ [10]).length ≤ file.length := by
      rw [hsplit]; simp [join_lines]
    rw [hlen1] at h1
    obtain ⟨stm, hm1, -⟩ := parse_loop_split_ok hle h1
    have hstep := hm1
    rw [hat.next hF hI] at hstep
    have hlen : (strip_cr l).length ≤ cfg.MAX_LINE_LEN := by
      by_contra hc
      rw [hat.too_long hF hI (by omega)] at hstep
      cases hstep
    rw [hat.blank_step hF hI hlen hlb] at hstep
    simp only [Except.ok.injEq] at hstep
    have hih := ih (pre ++ l ++ [10]) rest stm st1
      (by rw [hsplit]; simp [join_lines]) (Or.inr ⟨pre ++ l, rfl⟩)
      (fun x hx => hbl x (by simp [hx])) hm1
      (by
        have : (pre ++ l ++ [10] ++ join_lines bl).length =
            (pre ++ l ++ [10]).length + (join_lines bl).length := by simp; omega
        rw [this]; exact h1)
    rw [← hstep] at hih
    exact hih

theorem empty_group_at_line :
    AtLine cfg0 empty_group_file
      ([] ++ ascii "[A|5]" ++ 10 :: join_lines [ascii "# c", []]) (ascii "[B|5]")
      (ascii "\nx") empty_group_state :=
  ⟨by decide, by decide, Or.inr ⟨ascii "[A|5]\n# c\n", by decide⟩, by decide,
    Or.inr ⟨ascii "x", by decide⟩, rfl⟩

/-- A header line of fewer than three bytes or without `']'` at its end is
malformed. -/
theorem parse_header_line_bad_end {cfg : Config} {s : Session} {ls no : Nat}
    {body : List Nat} (hst : Stored s.buffer ls body)
    (h : body.length < 3 ∨ body.getLast? ≠ some 93) :
    parse_header_line cfg s ls body.length no =
      .error (set_error_line no "malformed header") := by
  unfold parse_header_line
  simp only
  rw [if_pos]
  by_cases h3 : body.length < 3
  · exact Or.inl h3
  · right; right
    have hl : body.getLast? ≠ some 93 := by
      rcases h with h | h
      · exact absurd h h3
      · exact h
    rw [hst.getD (by omega)]
    intro hc
    apply hl
    rw [List.getLast?_eq_getElem?, getElem?_eq_some_getD (by omega), hc]

/-- A header line without `'|'` strictly between its first and its last byte
is malformed. -/
theorem parse_header_line_no_pipe {cfg : Config} {s : Session} {ls no : Nat}
    {body : List Nat} (hst : Stored s.buffer ls body)
    (h : ∀ k, 0 < k → k + 1 < body.length → body.getD k 0 ≠ 124) :
    parse_header_line cfg s ls body.length no =
      .error (set_error_line no "malformed header") := by
  unfold parse_header_line
  simp only
  split
  · rfl
  · split
    · rfl
    · rename_i p hp
      obtain ⟨h1, h2, h3, -⟩ := find_pipe_some _ _ _ _ _ hp
      rw [hst.getD (by omega)] at h3
      exact absurd h3 (h p (by omega) (by omega))

/-- A header line whose name or seconds field is empty after trimming is
malformed. -/
theorem parse_header_line_empty_field {cfg : Config} {s : Session} {ls no : Nat}
    {nm sc : List Nat}
    (hst : Stored s.buffer ls (91 :: (nm ++ 124 :: (sc ++ [93]))))
    (hlen : (91 :: (nm ++ 124 :: (sc ++ [93]))).length ≤ cfg.MAX_LINE_LEN)
    (hnm : 124 ∉ nm) (h : trim nm = [] ∨ trim sc = []) :
    parse_header_line cfg s ls (91 :: (nm ++ 124 :: (sc ++ [93]))).length no =
      .error (set_error_line no "malformed header") := by
  have hl := header_body_length nm sc
  rw [parse_header_line_eval hst hlen hnm]
  split
  · rfl
  · rename_i hname
    rcases h with h | h
    · exfalso
      apply hname
      rw [trim_left_index_all_space cfg (by omega) (trim_eq_nil h)]
      exact trim_right_index_le _ _ _ _
    · rw [if_pos]
      rw [trim_left_index_all_space cfg (by omega) (trim_eq_nil h)]
      exact trim_right_index_le _ _ _ _

theorem bad_at_line :
    AtLine cfg0 (ascii "[Bad]") [] (ascii "[Bad]") [] (start_state (ascii "[Bad]")) :=
  ⟨by decide, by decide, Or.inl rfl, by decide, Or.inl rfl, rfl⟩

theorem Stored.span {b x : List Nat} {p : Nat} (h : Stored b p x) : span b p x.length = x := by
  unfold Cram.span
  rw [h.drop, List.take_left]

theorem head?_of_strip_cr {l : List Nat} (h : (strip_cr l).head? = some 91) :
    l.head? = some 91 := by
  rcases strip_cr_cases l with ⟨h1, -⟩ | ⟨h1, -⟩
  · rw [h1] at h; exact h
  · generalize strip_cr l = b at h h1
    subst h1
    cases b with
    | nil => simp at h
    | cons x xs => simpa using h

theorem strip_cr_length_le (l : List Nat) : (strip_cr l).length ≤ l.length := by
  rcases strip_cr_cases l with ⟨h1, -⟩ | ⟨h1, -⟩
  · rw [h1]
  · conv_rhs => rw [h1]
    simp

/-- A header line `[name|seconds]` whose fields have the trimmed cores `t` and
`u`, reached when no empty group is open: what `line_step` does with it. -/
theorem AtLine.header_fields {cfg : Config} (hF : cfg.MAX_FILE_BYTES < 2 ^ 32)
    (hI : cfg.MAX_ITEMS_TOTAL < 2 ^ 32) {file pre ln post : List Nat} {st : LoopState}
    (hat : AtLine cfg file pre ln post st) {wl t wr vl u vr : List Nat}
    (hbody : strip_cr ln = 91 :: ((wl ++ t ++ wr) ++ 124 :: ((vl ++ u ++ vr) ++ [93])))
    (hlen : (strip_cr ln).length ≤ cfg.MAX_LINE_LEN)
    (hpipe : 124 ∉ wl ++ t ++ wr) (hwl : all_space wl) (hwr : all_space wr) (ht : Trimmed t)
    (hvl : all_space vl) (hvr : all_space vr) (hu : Trimmed u)
    (hprev : current_is_empty st.session.groups st.current = false) :
    (¬ seconds_accepted u → line_step cfg st (pre.length + ln.length) =
        .error (set_error_line (pre.count 10 + 1) "invalid seconds value")) ∧
      (seconds_accepted u → cfg.MAX_GROUPS ≤ st.session.groups.length →
        line_step cfg st (pre.length + ln.length) =
          .error (set_error_line (pre.count 10 + 1) "too many groups")) ∧
      (seconds_accepted u → st.session.groups.length < cfg.MAX_GROUPS → 0 ∉ t →
        ∃ st1 g, line_step cfg st (pre.length + ln.length) = .ok st1 ∧
          st1.session.groups = st.session.groups ++ [g] ∧
          st1.session.items = st.session.items ∧
          g.name_offset = pre.length + 1 + wl.length ∧ g.name_length = t.length ∧
          span st1.session.buffer g.name_offset g.name_length = t ∧
          g.seconds = (strtoul (u ++ [0])).value ∧ 1 ≤ g.seconds ∧ g.seconds ≤ 86400) := by
  obtain ⟨-, hv⟩ := hat.view hF hI
  have h91 : ln.head? = some 91 := head?_of_strip_cr (by rw [hbody]; rfl)
  have hstep := hat.header_step hF hI hlen h91
  rw [hprev] at hstep
  simp only [Bool.false_eq_true, if_false] at hstep
  rw [hbody] at hv hlen hstep
  rw [parse_header_line_fields hv hlen hpipe hwl hwr ht hvl hvr hu] at hstep
  have hflen : pre.length + ln.length ≤ file.length := by
    rw [hat.split]; simp
  have hbl := strip_cr_length_le ln
  rw [hbody] at hbl
  have hl := header_body_length (wl ++ t ++ wr) (vl ++ u ++ vr)
  have hn : (wl ++ t ++ wr).length = wl.length + t.length + wr.length := by simp; omega
  have hfit := hat.fits
  refine ⟨fun hrej => ?_, fun hacc hfull => ?_, fun hacc hroom hnul => ?_⟩
  · rw [hstep, if_pos (by unfold seconds_accepted at hrej; exact not_not.1 hrej)]
  · rw [hstep, if_neg (by unfold seconds_accepted at hacc; exact hacc),
      if_pos (show (terminate_line st (pre.length + ln.length)).groups.length ≥
        cfg.MAX_GROUPS from hfull)]
  · have hacc' := hacc
    unfold seconds_accepted at hacc'
    simp only [not_or, not_lt, Decidable.not_not] at hacc'
    rw [if_neg (by unfold seconds_accepted at hacc; exact hacc),
      if_neg (show ¬ (terminate_line st (pre.length + ln.length)).groups.length ≥
        cfg.MAX_GROUPS from by
          show ¬ st.session.groups.length ≥ cfg.MAX_GROUPS
          omega)] at hstep
    have hsec : to_u32 (strtoul (u ++ [0])).value = (strtoul (u ++ [0])).value :=
      to_u32_of_lt (lt_of_le_of_lt hacc'.2.2.2 (by norm_num))
    refine ⟨_, _, hstep, rfl, rfl, ?_, ?_, ?_, hsec, ?_, ?_⟩
    · exact to_u32_of_lt (by omega)
    · show to_u32 (strlen (t ++ [0])) = t.length
      rw [strlen_no_nul hnul]
      exact to_u32_of_lt (by omega)
    · show Cram.span _ (to_u32 (pre.length + 1 + wl.length)) (to_u32 (strlen (t ++ [0]))) = t
      have h1 : to_u32 t.length = t.length := to_u32_of_lt (by omega)
      have h2 : to_u32 (pre.length + 1 + wl.length) = pre.length + 1 + wl.length :=
        to_u32_of_lt (by omega)
      rw [strlen_no_nul hnul, h1, h2]
      exact (header_buffer_name hv).span
    · show 1 ≤ to_u32 (strtoul (u ++ [0])).value
      rw [hsec]; exact hacc'.2.2.1
    · show to_u32 (strtoul (u ++ [0])).value ≤ 86400
      rw [hsec]; exact hacc'.2.2.2

theorem chain_nil_items {n : Nat} (h : chain [] 0 n) : n = 0 := h.symm

theorem full_at_line :
    AtLine cfg_small full_file (ascii "[A|5]\nx\ny\n") (ascii "z") [] full_state :=
  ⟨by decide, by decide, Or.inr ⟨ascii "[A|5]\nx\ny", by decide⟩, by decide, Or.inl rfl, rfl⟩

theorem plain_at_line :
    AtLine cfg0 plain_file [] (ascii "[A|5]") (ascii "\nx") (start_state plain_file) :=
  ⟨by decide, by decide, Or.inl rfl, by decide, Or.inr ⟨ascii "x", by decide⟩, rfl⟩

theorem padded_at_line :
    AtLine cfg0 padded_file [] (ascii "[ A b |\t 0042 ]\r") (ascii "\nx")
      (start_state padded_file) :=
  ⟨by decide, by decide, Or.inl rfl, by decide, Or.inr ⟨ascii "x", by decide⟩, rfl⟩

theorem all_space_append {a b : List Nat} (ha : all_space a) (hb : all_space b) :
    all_space (a ++ b) := by
  intro x hx
  rcases List.mem_append.1 hx with h | h
  · exact ha x h
  · exact hb x h

theorem not_mem_all_space {w : List Nat} {c : Nat} (hw : all_space w)
    (hc : isspace c = false) : c ∉ w := by
  intro h
  rw [hw c h] at hc
  cases hc

theorem long_comment_at_line :
    AtLine cfg_small long_comment_file [] (ascii "# 3456789") (ascii "\n[A|5]\nx")
      (start_state long_comment_file) :=
  ⟨by decide, by decide, Or.inl rfl, by decide, Or.inr ⟨ascii "[A|5]\nx", by decide⟩, rfl⟩

theorem two_group_at_line_small :
    AtLine cfg_small two_group_file (ascii "[A|5]\nx\n") (ascii "[B|5]") (ascii "\ny")
      two_group_state :=
  ⟨by decide, by decide, Or.inr ⟨ascii "[A|5]\nx", by decide⟩, by decide,
    Or.inr ⟨ascii "y", by decide⟩, rfl⟩

/-! ### The generator: range, threshold, bijectivity, nonzero state, shuffles -/



theorem rng_range_loop_lt (upper threshold : Nat) (h : 0 < upper) :
    ∀ (fuel : Nat) (rng : Rng), (rng_range_loop upper threshold fuel rng).1 < upper := by
  intro fuel
  induction fuel with
  | zero => intro rng; exact Nat.mod_lt _ h
  | succ n ih =>
    intro rng
    unfold rng_range_loop
    split
    · exact Nat.mod_lt _ h
    · exact ih _

theorem rng_range_lt (cfg : RunConfig) (rng : Rng) (upper : Nat) (h : 0 < upper) :
    (rng_range cfg rng upper).1 < upper := by
  unfold rng_range
  have h0 : (upper == 0) = false := by simp; omega
  rw [h0]
  exact rng_range_loop_lt upper _ h _ _

theorem rng_threshold_eq (upper : Nat) (h1 : 1 ≤ upper) (h2 : upper < U64) :
    rng_threshold upper = U64 % upper := by
  unfold rng_threshold
  rw [Nat.mod_eq_of_lt h2, Nat.mod_eq_of_lt (show U64 - upper < U64 by omega)]
  conv_rhs => rw [show U64 = (U64 - upper) + upper by omega]
  rw [Nat.add_mod_right]

theorem count_split (q : Nat → Prop) [DecidablePred q] (t n : Nat) (h : t ≤ n) :
    Nat.count (fun r => t ≤ r ∧ q r) n + Nat.count q t = Nat.count q n := by
  induction n with
  | zero =>
    have : t = 0 := by omega
    subst this; simp
  | succ n ih =>
    rcases Nat.lt_or_ge n t with hlt | hge
    · have : t = n + 1 := by omega
      subst this
      have hz : Nat.count (fun r => n + 1 ≤ r ∧ q r) (n + 1) = 0 := by
        rw [Nat.count_eq_card_filter_range]
        rw [Finset.card_eq_zero, Finset.filter_eq_empty_iff]
        intro x hx
        simp at hx
        omega
      rw [hz, Nat.zero_add]
    · have := ih hge
      rw [Nat.count_succ, Nat.count_succ q n]
      simp only [hge, true_and]
      omega

theorem accepted_count_eq (upper k : Nat) (h1 : 1 ≤ upper) (h2 : upper < U64) (hk : k < upper) :
    accepted_count upper k = (U64 - rng_threshold upper) / upper := by
  unfold accepted_count
  have hT := rng_threshold_eq upper h1 h2
  have hTl : rng_threshold upper < upper := by rw [hT]; exact Nat.mod_lt _ h1
  have hs := count_split (fun r => r % upper = k) (rng_threshold upper) U64 (by omega)
  beta_reduce at hs
  have e : ∀ n, Nat.count (fun r => r % upper = k) n
      = n / upper + if k % upper < n % upper then 1 else 0 := by
    intro n
    rw [← Nat.count_modEq_card n h1 k]
    congr 1
    funext r
    simp [Nat.ModEq, Nat.mod_eq_of_lt hk]
  rw [e, e] at hs
  rw [Nat.mod_eq_of_lt hk, Nat.mod_eq_of_lt hTl, Nat.div_eq_of_lt hTl, ← hT] at hs
  have hd : (U64 - rng_threshold upper) / upper = U64 / upper := by
    have h3 := Nat.div_add_mod U64 upper
    rw [← hT] at h3
    have e2 : U64 - rng_threshold upper = upper * (U64 / upper) := by omega
    rw [e2, Nat.mul_div_cancel_left _ h1]
  rw [hd]
  split_ifs at hs <;> omega



theorem xor_shiftRight (x y k : Nat) : (x ^^^ y) >>> k = (x >>> k) ^^^ (y >>> k) := by
  apply Nat.eq_of_testBit_eq
  intro i
  simp [Nat.testBit_shiftRight, Nat.testBit_xor]

theorem xor_shiftLeft_mod (x y k n : Nat) :
    ((x ^^^ y) <<< k) % 2 ^ n = ((x <<< k) % 2 ^ n) ^^^ ((y <<< k) % 2 ^ n) := by
  apply Nat.eq_of_testBit_eq
  intro i
  simp only [Nat.testBit_mod_two_pow, Nat.testBit_shiftLeft, Nat.testBit_xor]
  by_cases h1 : i < n <;> by_cases h2 : i ≥ k <;> simp [h1, h2]

theorem xor_swap_inner (a b c d : Nat) : a ^^^ b ^^^ (c ^^^ d) = (a ^^^ c) ^^^ (b ^^^ d) := by
  apply Nat.eq_of_testBit_eq
  intro i
  simp only [Nat.testBit_xor]
  cases a.testBit i <;> cases b.testBit i <;> cases c.testBit i <;> cases d.testBit i <;> rfl

theorem shiftRight_fixed (d k : Nat) (hk : 0 < k) (h : d = d >>> k) : d = 0 := by
  by_contra hd
  have h2 : d >>> k < d := by
    rw [Nat.shiftRight_eq_div_pow]
    exact Nat.div_lt_self (Nat.pos_of_ne_zero hd) (Nat.one_lt_two_pow (by omega))
  omega

theorem xor_shiftRight_inj (k : Nat) (hk : 0 < k) (x y : Nat)
    (h : x ^^^ (x >>> k) = y ^^^ (y >>> k)) : x = y := by
  have h1 : (x ^^^ y) ^^^ ((x ^^^ y) >>> k) = 0 := by
    rw [xor_shiftRight]
    rw [xor_swap_inner, h, Nat.xor_self]
  exact Nat.xor_eq_zero.mp (shiftRight_fixed _ k hk (Nat.xor_eq_zero.mp h1))

theorem shiftLeft_fixed (d k : Nat) (hk : 0 < k) (hd : d < U64)
    (h : d = (d <<< k) % U64) : d = 0 := by
  have h0 : d % U64 = d := Nat.mod_eq_of_lt hd
  have h1 : d * 1 ≡ d * 2 ^ k [MOD U64] := by
    unfold Nat.ModEq
    rw [Nat.mul_one, h0, ← Nat.shiftLeft_eq]
    exact h
  have h2 : U64 ∣ d * 2 ^ k - d * 1 :=
    (Nat.modEq_iff_dvd' (Nat.mul_le_mul_left d (Nat.one_le_two_pow))).mp h1
  rw [← Nat.mul_sub] at h2
  have hc : Nat.Coprime U64 (2 ^ k - 1) := by
    unfold U64
    apply Nat.Coprime.pow_left
    rw [Nat.coprime_two_left]
    have : 1 ≤ 2 ^ k := Nat.one_le_two_pow
    have h3 : Even (2 ^ k) := (Nat.even_pow.mpr ⟨even_two, by omega⟩)
    exact Nat.Even.sub_odd this h3 odd_one
  have h3 := hc.dvd_of_dvd_mul_right h2
  exact Nat.eq_zero_of_dvd_of_lt h3 hd

theorem xor_shiftLeft_inj (k : Nat) (hk : 0 < k) (x y : Nat) (hx : x < U64) (hy : y < U64)
    (h : x ^^^ ((x <<< k) % U64) = y ^^^ ((y <<< k) % U64)) : x = y := by
  have hd : x ^^^ y < U64 := Nat.xor_lt_two_pow hx hy
  have h1 : (x ^^^ y) ^^^ (((x ^^^ y) <<< k) % U64) = 0 := by
    unfold U64
    rw [xor_shiftLeft_mod]
    rw [xor_swap_inner]
    unfold U64 at h
    rw [h, Nat.xor_self]
  exact Nat.xor_eq_zero.mp (shiftLeft_fixed _ k hk hd (Nat.xor_eq_zero.mp h1))

theorem xor_shiftRight_lt (x k : Nat) (hx : x < U64) : x ^^^ (x >>> k) < U64 := by
  apply Nat.xor_lt_two_pow hx
  rw [Nat.shiftRight_eq_div_pow]
  exact Nat.lt_of_le_of_lt (Nat.div_le_self _ _) hx

theorem xor_shiftLeft_lt (x k : Nat) (hx : x < U64) : x ^^^ ((x <<< k) % U64) < U64 := by
  apply Nat.xor_lt_two_pow hx
  exact Nat.mod_lt _ (by unfold U64; positivity)

theorem rng_next_state_lt (x : Nat) (hx : x < U64) : rng_next_state x < U64 := by
  unfold rng_next_state
  exact xor_shiftRight_lt _ 27 (xor_shiftLeft_lt _ 25 (xor_shiftRight_lt _ 12 hx))

theorem rng_next_state_inj (x y : Nat) (hx : x < U64) (hy : y < U64)
    (h : rng_next_state x = rng_next_state y) : x = y := by
  unfold rng_next_state at h
  have h1 := xor_shiftRight_inj 27 (by decide) _ _ h
  have h2 := xor_shiftLeft_inj 25 (by decide) _ _ (xor_shiftRight_lt _ 12 hx)
    (xor_shiftRight_lt _ 12 hy) h1
  exact xor_shiftRight_inj 12 (by decide) _ _ h2

theorem word_bijOn (f : Nat → Nat) (hm : ∀ x, x < U64 → f x < U64)
    (hi : ∀ x y, x < U64 → y < U64 → f x = f y → x = y) :
    Set.BijOn f {x | x < U64} {x | x < U64} := by
  refine ⟨fun x hx => hm x hx, fun x hx y hy h => hi x y hx hy h, ?_⟩
  intro b hb
  have hs := Finset.surj_on_of_inj_on_of_card_le (s := Finset.range U64) (t := Finset.range U64)
    (fun a _ => f a)
    (fun a ha => Finset.mem_range.mpr (hm a (Finset.mem_range.mp ha)))
    (fun a b ha hb h => hi a b (Finset.mem_range.mp ha) (Finset.mem_range.mp hb) h)
    (le_refl _) b (Finset.mem_range.mpr hb)
  obtain ⟨a, ha, hab⟩ := hs
  exact ⟨a, Finset.mem_range.mp ha, hab.symm⟩

theorem mul_odd_inj (m : Nat) (hm : Nat.Coprime U64 m) (x y : Nat) (hx : x < U64) (hy : y < U64)
    (h : (x * m) % U64 = (y * m) % U64) : x = y := by
  have h1 : x ≡ y [MOD U64] := Nat.ModEq.cancel_right_of_coprime hm h
  unfold Nat.ModEq at h1
  rwa [Nat.mod_eq_of_lt hx, Nat.mod_eq_of_lt hy] at h1

theorem star_coprime : Nat.Coprime U64 0x2545F4914F6CDD1D := by
  unfold U64
  apply Nat.Coprime.pow_left
  rw [Nat.coprime_two_left]
  decide



theorem rng_next_state_zero : rng_next_state 0 = 0 := by decide

theorem rng_next_u64_zero : rng_next_u64 { state := 0 } = (0, { state := 0 }) := by decide

theorem rng_next_live (rng : Rng) (h : rng.live) : (rng_next_u64 rng).2.live := by
  obtain ⟨h0, h1⟩ := h
  refine ⟨?_, rng_next_state_lt _ h1⟩
  intro hz
  apply h0
  apply rng_next_state_inj _ _ h1 (by decide)
  rw [rng_next_state_zero]
  exact hz

theorem mix64_lt (x : Nat) : mix64 x < U64 := by
  unfold mix64
  exact xor_shiftRight_lt _ 33 (Nat.mod_lt _ (by decide))

theorem rng_init_tail_live (seed : Nat) :
    Rng.live (if mix64 seed == 0 then { state := 0x9e3779b97f4a7c15 } else { state := mix64 seed }) := by
  by_cases h : mix64 seed = 0
  · simp only [h, beq_self_eq_true, if_true]
    exact ⟨by decide, by decide⟩
  · have hb : (mix64 seed == 0) = false := by simpa using h
    rw [hb]
    exact ⟨h, mix64_lt _⟩

theorem rng_init_live (entropy : Option Nat) (tv_sec tv_nsec pid : Nat) :
    (rng_init entropy tv_sec tv_nsec pid).live := by
  unfold rng_init
  exact rng_init_tail_live _

theorem rng_after_zero (n : Nat) : rng_after n { state := 0 } = { state := 0 } := by
  induction n with
  | zero => rfl
  | succ n ih => simp only [rng_after, rng_next_u64_zero, ih]

theorem rng_outputs_zero (n : Nat) : rng_outputs n { state := 0 } = List.replicate n 0 := by
  induction n with
  | zero => rfl
  | succ n ih => simp only [rng_outputs, rng_next_u64_zero, ih, List.replicate_succ]

theorem rng_range_loop_live (upper threshold : Nat) :
    ∀ (fuel : Nat) (rng : Rng), rng.live → (rng_range_loop upper threshold fuel rng).2.live := by
  intro fuel
  induction fuel with
  | zero => intro rng h; exact rng_next_live rng h
  | succ n ih =>
    intro rng h
    unfold rng_range_loop
    split
    · exact rng_next_live rng h
    · exact ih _ (rng_next_live rng h)

theorem rng_range_live (cfg : RunConfig) (rng : Rng) (upper : Nat) (h : rng.live) :
    (rng_range cfg rng upper).2.live := by
  unfold rng_range
  split
  · exact h
  · exact rng_range_loop_live _ _ _ _ h

theorem shuffle_loop_live (cfg : RunConfig) (count : Nat) :
    ∀ (fuel i : Nat) (rng : Rng) (values : List Nat), rng.live →
      (shuffle_loop cfg count fuel i rng values).2.live := by
  intro fuel
  induction fuel with
  | zero => intro i rng values h; exact h
  | succ n ih =>
    intro i rng values h
    unfold shuffle_loop
    split
    · exact h
    · exact ih _ _ _ (rng_range_live cfg rng _ h)

theorem rng_shuffle_live (cfg : RunConfig) (cap : Nat) (rng : Rng) (values : List Nat)
    (count : Nat) (h : rng.live) : (rng_shuffle cfg cap rng values count).2.live := by
  unfold rng_shuffle
  split
  · exact h
  · exact shuffle_loop_live cfg _ _ _ _ _ h



theorem swap_values_length (v : List Nat) (i j : Nat) : (swap_values v i j).length = v.length := by
  simp [swap_values]

theorem swap_values_perm (v : List Nat) (i j : Nat) (hi : i < v.length) (hj : j < v.length) :
    (swap_values v i j).Perm v := by
  rw [List.perm_iff_count]
  intro b
  unfold swap_values
  simp only []
  have hj1 : j < (v.set i (v.getD j 0)).length := by simpa using hj
  rw [List.count_set _ _ _ _ hj1, List.count_set _ _ _ _ hi]
  have e1 : (v.set i (v.getD j 0))[j] = v.getD j 0 := by
    rw [List.getElem_set]
    split
    · rfl
    · exact (List.getD_eq_getElem _ _ hj).symm
  have e2 : v.getD i 0 = v[i] := List.getD_eq_getElem _ _ hi
  rw [e1, e2]
  have hle : (if v[i] == b then 1 else 0) ≤ v.count b := by
    split
    · rename_i hb
      have hb2 : v[i] = b := by simpa using hb
      exact List.count_pos_iff.mpr (hb2 ▸ List.getElem_mem hi)
    · exact Nat.zero_le _
  generalize (if (v[i] == b) = true then 1 else 0) = p at hle ⊢
  generalize (if (v.getD j 0 == b) = true then 1 else 0) = q
  omega

theorem swap_values_frame (v : List Nat) (i j k : Nat) (hi : i ≠ k) (hj : j ≠ k) :
    (swap_values v i j)[k]? = v[k]? := by
  unfold swap_values
  simp only []
  rw [List.getElem?_set_ne hj, List.getElem?_set_ne hi]

theorem shuffle_loop_spec (cfg : RunConfig) (count : Nat) :
    ∀ (fuel i : Nat) (rng : Rng) (v : List Nat), count ≤ v.length →
      (shuffle_loop cfg count fuel i rng v).1.length = v.length ∧
      (shuffle_loop cfg count fuel i rng v).1.Perm v ∧
      ∀ k, count ≤ k → (shuffle_loop cfg count fuel i rng v).1[k]? = v[k]? := by
  intro fuel
  induction fuel with
  | zero => intro i rng v _; exact ⟨rfl, List.Perm.refl _, fun _ _ => rfl⟩
  | succ n ih =>
    intro i rng v hc
    unfold shuffle_loop
    split
    · exact ⟨rfl, List.Perm.refl _, fun _ _ => rfl⟩
    · rename_i hic
      have hj := rng_range_lt cfg rng (i + 1) (by omega)
      obtain ⟨h1, h2, h3⟩ := ih (i + 1) (rng_range cfg rng (i + 1)).2
        (swap_values v i (rng_range cfg rng (i + 1)).1) (by rw [swap_values_length]; exact hc)
      rw [swap_values_length] at h1
      refine ⟨h1, h2.trans (swap_values_perm v i _ (by omega) (by omega)), ?_⟩
      intro k hk
      rw [h3 k hk]
      exact swap_values_frame v i _ k (by omega) (by omega)

theorem perm_take_of_frame (out v : List Nat) (count : Nat)
    (hp : out.Perm v) (hf : ∀ k, count ≤ k → out[k]? = v[k]?) :
    (out.take count).Perm (v.take count) ∧ out.drop count = v.drop count := by
  have hd : out.drop count = v.drop count := by
    apply List.ext_getElem?
    intro k
    rw [List.getElem?_drop, List.getElem?_drop]
    exact hf _ (by omega)
  refine ⟨?_, hd⟩
  have h1 : (out.take count ++ out.drop count).Perm (v.take count ++ v.drop count) := by
    rw [List.take_append_drop, List.take_append_drop]
    exact hp
  rw [hd] at h1
  exact (List.perm_append_right_iff _).mp h1

theorem rng_shuffle_spec (cfg : RunConfig) (cap : Nat) (rng : Rng) (v : List Nat) (count : Nat)
    (hc : count ≤ v.length) :
    (rng_shuffle cfg cap rng v count).1.length = v.length ∧
    ((rng_shuffle cfg cap rng v count).1.take count).Perm (v.take count) ∧
    (rng_shuffle cfg cap rng v count).1.drop count = v.drop count := by
  unfold rng_shuffle
  split
  · exact ⟨rfl, List.Perm.refl _, rfl⟩
  · simp only []
    by_cases hcap : count > cap
    · rw [if_pos hcap]
      obtain ⟨h1, h2, h3⟩ := shuffle_loop_spec cfg cap (cap - 1) 1 rng v (by omega)
      obtain ⟨h4, h5⟩ := perm_take_of_frame _ v count h2 (fun k hk => h3 k (by omega))
      exact ⟨h1, h4, h5⟩
    · rw [if_neg hcap]
      obtain ⟨h1, h2, h3⟩ := shuffle_loop_spec cfg count (cap - 1) 1 rng v hc
      obtain ⟨h4, h5⟩ := perm_take_of_frame _ v count h2 h3
      exact ⟨h1, h4, h5⟩

theorem rng_shuffle_small (cfg : RunConfig) (cap : Nat) (rng : Rng) (v : List Nat) (count : Nat)
    (hc : count < 2) : rng_shuffle cfg cap rng v count = (v, rng) := by
  unfold rng_shuffle
  rw [if_pos hc]

theorem rng_range_accept (cfg : RunConfig) (rng : Rng) (upper : Nat) (h1 : 1 ≤ upper)
    (hl : 0 < cfg.RNG_RETRY_LIMIT) (ha : rng_threshold upper ≤ (rng_next_u64 rng).1) :
    rng_range cfg rng upper = ((rng_next_u64 rng).1 % upper, (rng_next_u64 rng).2) := by
  unfold rng_range
  have h0 : (upper == 0) = false := by simp; omega
  rw [h0]
  obtain ⟨n, hn⟩ : ∃ n, cfg.RNG_RETRY_LIMIT = n + 1 := ⟨cfg.RNG_RETRY_LIMIT - 1, by omega⟩
  rw [hn]
  unfold rng_range_loop
  rw [if_pos ha]
  rfl

/-! ### The scheduler: keys, frames, expiry, the run loop -/

theorem is_advance_key_byte (k : Nat) (hk : k < 256) :
    is_advance_key (k : Int) = true ↔
      (k = 32 ∨ k = 13 ∨ k = 10 ∨ (48 ≤ k ∧ k ≤ 57) ∨ (65 ≤ k ∧ k ≤ 90) ∨ (97 ≤ k ∧ k ≤ 122)) := by
  have e : ((k : Int) % 256).toNat = k := by omega
  unfold is_advance_key isalnum isdigit
  rw [e]
  have h0 : ¬ ((k : Int) < 0) := by omega
  simp only [h0, if_false]
  by_cases h1 : k = 32 ∨ k = 13 ∨ k = 10
  · rcases h1 with h | h | h <;> subst h <;> simp
  · have h2 : ((k : Int) == 32 || (k : Int) == 13 || (k : Int) == 10) = false := by
      simp; omega
    rw [h2]
    simp
    omega

theorem is_advance_key_neg (key : Int) (h : key < 0) : is_advance_key key = false := by
  unfold is_advance_key
  rw [if_pos h]

theorem is_advance_key_interrupt : is_advance_key 3 = false := by decide

theorem handle_key_ignored (cfg : RunConfig) (rt : Runtime) (key adv : Int) (env : Tick)
    (hk : is_advance_key key = false) : (handle_key cfg rt key adv env).2.1 = rt := by
  unfold handle_key
  split
  · rfl
  · split
    · rfl
    · split
      · rfl
      · simp [hk]

theorem handle_key_ignored_rc (cfg : RunConfig) (rt : Runtime) (key adv : Int) (env : Tick)
    (hg : rt.group ≠ none) (hlog : rt.log = false ∨ env.log_key = true) (h3 : key ≠ 3)
    (hk : is_advance_key key = false) : handle_key cfg rt key adv env = (0, rt, 0) := by
  unfold handle_key
  split
  · rename_i h; exact absurd h hg
  · have hl : (rt.log && !env.log_key) = false := by
      rcases hlog with h | h <;> simp [h]
    simp [hl, h3, hk]

theorem handle_key_interrupt (cfg : RunConfig) (rt : Runtime) (adv : Int) (env : Tick)
    (hg : rt.group ≠ none) (hlog : rt.log = false ∨ env.log_key = true) :
    handle_key cfg rt 3 adv env = (1, rt, 0) := by
  unfold handle_key
  split
  · rename_i h; exact absurd h hg
  · have hl : (rt.log && !env.log_key) = false := by
      rcases hlog with h | h <;> simp [h]
    simp [hl]

theorem handle_key_rc_pos (cfg : RunConfig) (rt : Runtime) (key adv : Int) (env : Tick)
    (h : 0 < (handle_key cfg rt key adv env).1) : key = 3 := by
  unfold handle_key at h
  split at h
  · simp at h
  · split at h
    · simp at h
    · split at h
      · rename_i hk; simpa using hk
      · split at h
        · simp at h
        · split at h
          · dsimp only at h
            split at h
            · simp at h
            · split at h <;> simp at h
          · dsimp only at h
            split at h <;> simp at h

theorem advance_show_runtime (rt : Runtime) (env : Tick) :
    (advance_show rt env).2 = (select_next_item rt).2 := by
  unfold advance_show
  dsimp only
  split
  · rfl
  · split
    · rfl
    · split <;> rfl

theorem select_next_item_frame (rt : Runtime) :
    GroupFrame rt (select_next_item rt).2 ∧ (select_next_item rt).2.item_order = rt.item_order ∧
      (select_next_item rt).2.rng = rt.rng := by
  unfold select_next_item GroupFrame
  split
  · simp
  · split
    · simp
    · dsimp only
      split <;> simp

theorem advance_prompt_frame (cfg : RunConfig) (rt : Runtime) (env : Tick) :
    GroupFrame rt (advance_prompt cfg rt 0 env).2 := by
  unfold advance_prompt
  split
  · simp [GroupFrame]
  · split
    · simp [GroupFrame]
    · simp only [bne_self_eq_false, Bool.false_eq_true, if_false]
      split
      · split
        · simp [GroupFrame]
        · rw [advance_show_runtime]
          exact (select_next_item_frame _).1
      · rw [advance_show_runtime]
        exact (select_next_item_frame _).1

theorem advance_prompt_no_wrap (cfg : RunConfig) (rt : Runtime) (env : Tick) (g : Group)
    (hg : rt.group = some g) (hw : (rt.item_pos + 1) % U64 < g.item_count) :
    (advance_prompt cfg rt 0 env).2.item_order = rt.item_order ∧
      (advance_prompt cfg rt 0 env).2.rng = rt.rng := by
  unfold advance_prompt
  rw [hg]
  dsimp only
  have h0 : (g.item_count == 0) = false := by simp; omega
  simp only [h0, Bool.false_eq_true, if_false, bne_self_eq_false]
  rw [if_neg (by omega)]
  rw [advance_show_runtime]
  exact (select_next_item_frame _).2

theorem handle_key_frame (cfg : RunConfig) (rt : Runtime) (key adv : Int) (env : Tick)
    (hp : rt.pending_switch = 0) : GroupFrame rt (handle_key cfg rt key adv env).2.1 := by
  unfold handle_key
  split
  · simp [GroupFrame]
  · split
    · simp [GroupFrame]
    · split
      · simp [GroupFrame]
      · split
        · simp [GroupFrame]
        · simp only [hp, bne_self_eq_false, Bool.false_eq_true, if_false]
          split <;> exact advance_prompt_frame cfg rt env

theorem handle_key_no_wrap (cfg : RunConfig) (rt : Runtime) (key adv : Int) (env : Tick)
    (g : Group) (hp : rt.pending_switch = 0) (hg : rt.group = some g)
    (hw : (rt.item_pos + 1) % U64 < g.item_count) :
    (handle_key cfg rt key adv env).2.1.item_order = rt.item_order ∧
      (handle_key cfg rt key adv env).2.1.rng = rt.rng := by
  unfold handle_key
  split
  · simp
  · split
    · simp
    · split
      · simp
      · split
        · simp
        · simp only [hp, bne_self_eq_false, Bool.false_eq_true, if_false]
          split <;> exact advance_prompt_no_wrap cfg rt env g hg hw

theorem update_expiry_due (rt : Runtime) (g : Group) (rem now : Nat) (log_ok : Bool)
    (hg : rt.group = some g) (hp : rt.pending_switch = 0) (hn : rt.group_end ≤ now) :
    (update_expiry rt rem (some now) log_ok).2 = ({ rt with pending_switch := 1 }, 0) := by
  unfold update_expiry
  rw [hg]
  simp only [hp, bne_self_eq_false, Bool.false_eq_true, if_false]
  rw [if_pos hn]
  split <;> rfl

theorem update_expiry_early (rt : Runtime) (g : Group) (rem now : Nat) (log_ok : Bool)
    (hg : rt.group = some g) (hp : rt.pending_switch = 0) (hn : now < rt.group_end) :
    update_expiry rt rem (some now) log_ok = (0, rt, rt.group_end - now) := by
  unfold update_expiry
  rw [hg]
  simp only [hp, bne_self_eq_false, Bool.false_eq_true, if_false]
  rw [if_neg (by omega)]

theorem update_expiry_pending (rt : Runtime) (rem : Nat) (clock : Option Nat) (log_ok : Bool)
    (hp : rt.pending_switch ≠ 0) : (update_expiry rt rem clock log_ok).2.1 = rt := by
  unfold update_expiry
  split
  · rfl
  · have : (rt.pending_switch != 0) = true := by simpa using hp
    rw [if_pos this]

theorem update_expiry_pending_rc (rt : Runtime) (rem : Nat) (clock : Option Nat) (log_ok : Bool)
    (hg : rt.group ≠ none) (hp : rt.pending_switch ≠ 0) :
    update_expiry rt rem clock log_ok = (0, rt, 0) := by
  unfold update_expiry
  split
  · rename_i h; exact absurd h hg
  · have : (rt.pending_switch != 0) = true := by simpa using hp
    rw [if_pos this]

theorem update_group_timer_arm (rt : Runtime) (g : Group) (t : Nat) (hg : rt.group = some g)
    (hs : 0 < g.seconds) (hw : t + 1000 * g.seconds < U64) :
    update_group_timer rt (some t) = (0, { rt with group_end := t + 1000 * g.seconds }) := by
  unfold update_group_timer
  rw [hg]
  have h0 : (g.seconds == 0) = false := by simp; omega
  simp only [h0, Bool.false_eq_true, if_false]
  rw [Nat.mul_comm g.seconds 1000, Nat.mod_eq_of_lt hw]

theorem wait_loop_timeout (cfg : RunConfig) (env : Nat → Tick) (fuel t : Nat) (rt : Runtime)
    (a : Int) (hg : rt.group ≠ none) (hp : rt.pending_switch ≠ 0)
    (hr : (env t).read = ReadEvent.nothing) :
    wait_loop cfg env (fuel + 1) t rt a = wait_loop cfg env fuel (t + 1) rt a := by
  have hpb : (rt.pending_switch == 0) = false := by simpa using hp
  rw [wait_loop]
  simp [update_expiry_pending_rc rt 0 _ _ hg hp, read_key, term_read_key_timeout, hr, hpb]

theorem read_key_pos (rt : Runtime) (rem : Nat) (key : Int) (ev : ReadEvent)
    (h : 0 < (read_key rt rem key ev).1) :
    ∃ ch, ev = ReadEvent.byte ch ∧ (read_key rt rem key ev).2 = ((ch % 256 : Nat) : Int) := by
  unfold read_key at h ⊢
  split at h
  · simp at h
  · split
    · rename_i hc; exact absurd hc ‹_›
    · cases ev with
      | failure => simp [term_read_key_timeout] at h
      | nothing => simp [term_read_key_timeout] at h
      | byte ch => exact ⟨ch, rfl, by simp [term_read_key_timeout]⟩

theorem wait_loop_returned_zero (cfg : RunConfig) (env : Nat → Tick) :
    ∀ (fuel t : Nat) (rt : Runtime) (a : Int) (rt1 : Runtime) (t1 : Nat),
      wait_loop cfg env fuel t rt a = WaitResult.returned 0 rt1 t1 →
      ∃ t0 ch, t1 = t0 + 1 ∧ (env t0).read = ReadEvent.byte ch ∧ ((ch % 256 : Nat) : Int) = 3 := by
  intro fuel
  induction fuel with
  | zero => intro t rt a rt1 t1 h; simp [wait_loop] at h
  | succ n ih =>
    intro t rt a rt1 t1 h
    rw [wait_loop] at h
    dsimp only at h
    split at h
    · simp at h
    · split at h
      · simp at h
      · rename_i hr
        split at h
        · exact ih _ _ _ _ _ h
        · rename_i hr0
          have hpos : 0 < (read_key (update_expiry rt 0 (env t).clock (env t).log_expired).2.1
              (update_expiry rt 0 (env t).clock (env t).log_expired).2.2 0 (env t).read).1 := by
            have hr0b : ¬ (read_key (update_expiry rt 0 (env t).clock (env t).log_expired).2.1
              (update_expiry rt 0 (env t).clock (env t).log_expired).2.2 0 (env t).read).1 = 0 := by
              simpa using hr0
            omega
          obtain ⟨ch, hev, hkey⟩ := read_key_pos _ _ _ _ hpos
          split at h
          · simp at h
          · split at h
            · rename_i hh
              have h3 := handle_key_rc_pos _ _ _ _ _ hh
              simp only [WaitResult.returned.injEq] at h
              exact ⟨t, ch, h.2.2.symm, hev, by rw [← hkey, h3]⟩
            · split at h
              · simp at h
              · exact ih _ _ _ _ _ h

theorem run_steps_zero (cfg : RunConfig) (env : Nat → Tick) :
    ∀ (n step t : Nat) (rt : Runtime), (run_steps cfg env n step t rt).rc = 0 →
      last_key env (run_steps cfg env n step t rt) = some 3 ∨
        (run_steps cfg env n step t rt).step = step + n := by
  intro n
  induction n with
  | zero => intro step t rt _; right; rfl
  | succ n ih =>
    intro step t rt h
    rw [run_steps] at h ⊢
    cases hw : wait_loop cfg env cfg.MAX_WAIT_LOOPS t rt 0 with
    | returned rc rt1 t1 =>
      rw [hw] at h
      simp only at h
      subst h
      obtain ⟨t0, ch, ht, hev, hch⟩ := wait_loop_returned_zero cfg env _ _ _ _ _ _ hw
      left
      subst ht
      simp only [last_key, hev, hch]
    | left advanced rt1 t1 =>
      rw [hw] at h
      simp only at h ⊢
      split at h
      · simp at h
      · rename_i ha
        rw [if_neg ha]
        rcases ih _ _ _ h with h1 | h1
        · left; exact h1
        · right; rw [h1]; omega

theorem run_loop_zero (cfg : RunConfig) (rt : Runtime) (env : Nat → Tick)
    (h : (run_loop cfg rt env).rc = 0) :
    last_key env (run_loop cfg rt env) = some 3 ∨
      ¬ (run_loop cfg rt env).step < cfg.MAX_PROMPTS_PER_RUN := by
  unfold run_loop at h ⊢
  rcases run_steps_zero cfg env _ _ _ _ h with h1 | h1
  · left; exact h1
  · right; rw [h1]; omega

theorem wait_loop_interrupt (cfg : RunConfig) (env : Nat → Tick) (fuel t rem : Nat)
    (rt0 rt : Runtime) (a : Int)
    (hu : update_expiry rt0 0 (env t).clock (env t).log_expired = (0, rt, rem))
    (hr : read_key rt rem 0 (env t).read = (1, 3))
    (hg : rt.group ≠ none) (hlog : rt.log = false ∨ (env t).log_key = true) :
    wait_loop cfg env (fuel + 1) t rt0 a = WaitResult.returned 0 rt (t + 1) := by
  rw [wait_loop]
  simp [hu, hr, handle_key_interrupt cfg rt a (env t) hg hlog]

theorem run_steps_interrupt (cfg : RunConfig) (env : Nat → Tick) (n step t rem : Nat)
    (rt0 rt : Runtime) (hw : 0 < cfg.MAX_WAIT_LOOPS)
    (hu : update_expiry rt0 0 (env t).clock (env t).log_expired = (0, rt, rem))
    (hr : read_key rt rem 0 (env t).read = (1, 3))
    (hg : rt.group ≠ none) (hlog : rt.log = false ∨ (env t).log_key = true) :
    run_steps cfg env (n + 1) step t rt0 = ⟨0, rt, t + 1, step⟩ := by
  obtain ⟨w, hw1⟩ : ∃ w, cfg.MAX_WAIT_LOOPS = w + 1 := ⟨cfg.MAX_WAIT_LOOPS - 1, by omega⟩
  rw [run_steps, hw1, wait_loop_interrupt cfg env w t rem rt0 rt 0 hu hr hg hlog]

theorem one_item_advance (cfg : RunConfig) (fuel t : Nat) :
    wait_loop cfg (fun _ => key_tick 0 32) (fuel + 1) t one_item_runtime 0
      = WaitResult.left 1 one_item_runtime (t + 1) := by
  rw [wait_loop]
  rfl

theorem one_item_run (cfg : RunConfig) (hw : 0 < cfg.MAX_WAIT_LOOPS) :
    ∀ (n step t : Nat), run_steps cfg (fun _ => key_tick 0 32) n step t one_item_runtime
      = ⟨0, one_item_runtime, t + n, step + n⟩ := by
  obtain ⟨w, hw1⟩ : ∃ w, cfg.MAX_WAIT_LOOPS = w + 1 := ⟨cfg.MAX_WAIT_LOOPS - 1, by omega⟩
  intro n
  induction n with
  | zero => intro step t; rfl
  | succ n ih =>
    intro step t
    rw [run_steps, hw1, one_item_advance]
    simp only [ih]
    simp
    omega

/-! ### The generator: draws of `rng_range`, caps of the shuffles, choice sequences -/

theorem rng_after_succ (n : Nat) (rng : Rng) :
    rng_after (n + 1) rng = (rng_next_u64 (rng_after n rng)).2 := by
  induction n generalizing rng with
  | zero => rfl
  | succ n ih =>
    rw [rng_after, ih (rng_next_u64 rng).2]
    rfl

theorem rng_range_loop_draws (upper threshold : Nat) :
    ∀ (limit : Nat) (rng : Rng),
      ((rng_outputs limit rng).takeWhile (fun r => decide (r < threshold))).length ≤ limit ∧
      rng_range_loop upper threshold limit rng =
        ((rng_next_u64 (rng_after
            ((rng_outputs limit rng).takeWhile (fun r => decide (r < threshold))).length
            rng)).1 % upper,
          rng_after
            (((rng_outputs limit rng).takeWhile (fun r => decide (r < threshold))).length + 1)
            rng) := by
  intro limit
  induction limit with
  | zero => intro rng; exact ⟨Nat.le_refl _, rfl⟩
  | succ n ih =>
    intro rng
    obtain ⟨h1, h2⟩ := ih (rng_next_u64 rng).2
    rw [rng_outputs, rng_range_loop]
    by_cases hacc : (rng_next_u64 rng).1 ≥ threshold
    · have hd : decide ((rng_next_u64 rng).1 < threshold) = false := by
        simp [Nat.not_lt.mpr hacc]
      rw [if_pos hacc, List.takeWhile_cons, hd]
      exact ⟨Nat.zero_le _, rfl⟩
    · have hd : decide ((rng_next_u64 rng).1 < threshold) = true := by
        simp; omega
      rw [if_neg hacc, List.takeWhile_cons, hd]
      simp only [if_true, List.length_cons]
      refine ⟨by omega, ?_⟩
      rw [h2]
      rfl

theorem shuffle_loop_fuel (cfg : RunConfig) (count : Nat) :
    ∀ (fuel fuel2 i : Nat) (rng : Rng) (v : List Nat), count ≤ i + fuel → count ≤ i + fuel2 →
      shuffle_loop cfg count fuel i rng v = shuffle_loop cfg count fuel2 i rng v := by
  intro fuel
  induction fuel with
  | zero =>
    intro fuel2 i rng v h1 _
    cases fuel2 with
    | zero => rfl
    | succ m => rw [shuffle_loop, shuffle_loop, if_pos (by omega)]
  | succ n ih =>
    intro fuel2 i rng v h1 h2
    by_cases hi : i ≥ count
    · cases fuel2 with
      | zero => rw [shuffle_loop, shuffle_loop, if_pos hi]
      | succ m => rw [shuffle_loop, shuffle_loop, if_pos hi, if_pos hi]
    · cases fuel2 with
      | zero => omega
      | succ m =>
        rw [shuffle_loop, shuffle_loop, if_neg hi, if_neg hi]
        exact ih m (i + 1) _ _ (by omega) (by omega)

theorem rng_shuffle_cap (cfg : RunConfig) (cap cap2 : Nat) (rng : Rng) (v : List Nat)
    (count : Nat) (h1 : count ≤ cap) (h2 : count ≤ cap2) :
    rng_shuffle cfg cap rng v count = rng_shuffle cfg cap2 rng v count := by
  unfold rng_shuffle
  split
  · rfl
  · simp only []
    rw [if_neg (by omega), if_neg (by omega)]
    exact shuffle_loop_fuel cfg count _ _ 1 rng v (by omega) (by omega)

theorem rng_shuffle_above (cfg : RunConfig) (cap : Nat) (rng : Rng) (v : List Nat) (count : Nat)
    (hc : cap < count) (hl : cap ≤ v.length) :
    (rng_shuffle cfg cap rng v count).1.length = v.length ∧
      ((rng_shuffle cfg cap rng v count).1.take cap).Perm (v.take cap) ∧
      (rng_shuffle cfg cap rng v count).1.drop cap = v.drop cap := by
  unfold rng_shuffle
  split
  · exact ⟨rfl, List.Perm.refl _, rfl⟩
  · simp only [gt_iff_lt, hc, if_true]
    obtain ⟨h1, h2, h3⟩ := shuffle_loop_spec cfg cap (cap - 1) 1 rng v hl
    obtain ⟨h4, h5⟩ := perm_take_of_frame _ v cap h2 h3
    exact ⟨h1, h4, h5⟩

theorem shuffle_choices_append (js ks : List Nat) :
    ∀ (i : Nat) (v : List Nat),
      shuffle_choices (js ++ ks) i v = shuffle_choices ks (i + js.length) (shuffle_choices js i v) := by
  induction js with
  | nil => intro i v; rfl
  | cons j js ih =>
    intro i v
    show shuffle_choices (js ++ ks) (i + 1) (swap_values v i j) =
      shuffle_choices ks (i + (js.length + 1)) (shuffle_choices js (i + 1) (swap_values v i j))
    rw [ih, Nat.add_right_comm i 1 js.length, Nat.add_assoc]

theorem valid_choices_append (js ks : List Nat) :
    ∀ i : Nat, valid_choices (js ++ ks) i =
      (valid_choices js i && valid_choices ks (i + js.length)) := by
  induction js with
  | nil => intro i; simp [valid_choices]
  | cons j js ih =>
    intro i
    show (decide (j ≤ i) && valid_choices (js ++ ks) (i + 1)) =
      ((decide (j ≤ i) && valid_choices js (i + 1)) && valid_choices ks (i + (js.length + 1)))
    rw [ih, Nat.add_right_comm i 1 js.length, Nat.add_assoc, Bool.and_assoc]

theorem shuffle_choices_length (js : List Nat) :
    ∀ (i : Nat) (v : List Nat), (shuffle_choices js i v).length = v.length := by
  induction js with
  | nil => intro i v; rfl
  | cons j js ih => intro i v; rw [shuffle_choices, ih, swap_values_length]

theorem shuffle_choices_perm (js : List Nat) :
    ∀ (i : Nat) (v : List Nat), valid_choices js i = true → i + js.length ≤ v.length →
      (shuffle_choices js i v).Perm v := by
  induction js with
  | nil => intro i v _ _; exact List.Perm.refl _
  | cons j js ih =>
    intro i v hv hl
    simp only [valid_choices, Bool.and_eq_true, decide_eq_true_eq] at hv
    simp only [List.length_cons] at hl
    rw [shuffle_choices]
    exact (ih (i + 1) _ hv.2 (by rw [swap_values_length]; omega)).trans
      (swap_values_perm v i j (by omega) (by omega))

theorem swap_values_getElem? (p : List Nat) (i j k : Nat) (hi : i < p.length)
    (hj : j < p.length) :
    (swap_values p i j)[k]? =
      if k = j then some (p.getD i 0) else if k = i then some (p.getD j 0) else p[k]? := by
  unfold swap_values
  simp only []
  by_cases hkj : k = j
  · subst hkj
    rw [if_pos rfl, List.getElem?_set_self (by simpa using hj)]
  · rw [if_neg hkj, List.getElem?_set_ne (Ne.symm hkj)]
    by_cases hki : k = i
    · subst hki
      rw [if_pos rfl, List.getElem?_set_self hi]
    · rw [if_neg hki, List.getElem?_set_ne (Ne.symm hki)]

theorem getD_of_lt (p : List Nat) (i : Nat) (hi : i < p.length) : some (p.getD i 0) = p[i]? := by
  rw [List.getD_eq_getElem _ _ hi, List.getElem?_eq_getElem hi]

theorem swap_values_involutive (p : List Nat) (i j : Nat) (hi : i < p.length)
    (hj : j < p.length) : swap_values (swap_values p i j) i j = p := by
  apply List.ext_getElem?
  intro k
  have hl := swap_values_length p i j
  rw [swap_values_getElem? _ i j k (by omega) (by omega)]
  by_cases hkj : k = j
  · subst hkj
    rw [if_pos rfl, getD_of_lt _ i (by omega), swap_values_getElem? p i k i hi hj]
    by_cases hik : i = k
    · subst hik; rw [if_pos rfl]; exact getD_of_lt p i hi
    · rw [if_neg hik, if_pos rfl]; exact getD_of_lt p k hj
  · rw [if_neg hkj]
    by_cases hki : k = i
    · subst hki
      rw [if_pos rfl, getD_of_lt _ j (by omega), swap_values_getElem? p k j j hi hj,
        if_pos rfl]
      exact getD_of_lt p k hi
    · rw [if_neg hki, swap_values_getElem? p i j k hi hj, if_neg hkj, if_neg hki]

theorem swap_values_append (w t : List Nat) (i j : Nat) (hi : i < w.length) (hj : j < w.length) :
    swap_values (w ++ t) i j = swap_values w i j ++ t := by
  apply List.ext_getElem?
  intro k
  have hl := swap_values_length w i j
  rw [swap_values_getElem? _ i j k (by simp; omega) (by simp; omega)]
  by_cases hk : k < w.length
  · rw [List.getElem?_append_left (show k < (swap_values w i j).length by omega),
      swap_values_getElem? w i j k hi hj, List.getElem?_append_left hk]
    have e1 : (w ++ t).getD i 0 = w.getD i 0 := by
      rw [List.getD_eq_getElem _ _ (by simp; omega), List.getD_eq_getElem _ _ hi,
        List.getElem_append_left hi]
    have e2 : (w ++ t).getD j 0 = w.getD j 0 := by
      rw [List.getD_eq_getElem _ _ (by simp; omega), List.getD_eq_getElem _ _ hj,
        List.getElem_append_left hj]
    rw [e1, e2]
  · rw [if_neg (by omega), if_neg (by omega), List.getElem?_append_right (by omega),
      List.getElem?_append_right (by omega), hl]

theorem shuffle_choices_prefix (js : List Nat) (t : List Nat) :
    ∀ (i : Nat) (w : List Nat), valid_choices js i = true → i + js.length ≤ w.length →
      shuffle_choices js i (w ++ t) = shuffle_choices js i w ++ t := by
  induction js with
  | nil => intro i w _ _; rfl
  | cons j js ih =>
    intro i w hv hl
    simp only [valid_choices, Bool.and_eq_true, decide_eq_true_eq] at hv
    simp only [List.length_cons] at hl
    rw [shuffle_choices, shuffle_choices, swap_values_append w t i j (by omega) (by omega)]
    exact ih (i + 1) _ hv.2 (by rw [swap_values_length]; omega)

theorem shuffle_loop_choices (cfg : RunConfig) (count : Nat) :
    ∀ (fuel i : Nat) (rng : Rng) (v : List Nat),
      (shuffle_loop cfg count fuel i rng v).1 =
          shuffle_choices (shuffle_draws cfg count fuel i rng) i v ∧
        valid_choices (shuffle_draws cfg count fuel i rng) i = true ∧
        (count ≤ i + fuel → (shuffle_draws cfg count fuel i rng).length = count - i) := by
  intro fuel
  induction fuel with
  | zero => intro i rng v; exact ⟨rfl, rfl, fun h => by simp [shuffle_draws]; omega⟩
  | succ n ih =>
    intro i rng v
    rw [shuffle_loop, shuffle_draws]
    by_cases hi : i ≥ count
    · rw [if_pos hi, if_pos hi]
      exact ⟨rfl, rfl, fun _ => by simp; omega⟩
    · rw [if_neg hi, if_neg hi]
      obtain ⟨h1, h2, h3⟩ := ih (i + 1) (rng_range cfg rng (i + 1)).2
        (swap_values v i (rng_range cfg rng (i + 1)).1)
      have hj := rng_range_lt cfg rng (i + 1) (by omega)
      refine ⟨by rw [h1]; rfl, ?_, fun h => ?_⟩
      · simp only [valid_choices, Bool.and_eq_true, decide_eq_true_eq]
        exact ⟨by omega, h2⟩
      · simp only [List.length_cons]
        rw [h3 (by omega)]
        omega

theorem eq_take_append_last (l : List Nat) (m x : Nat) (hl : l.length = m + 1)
    (hx : l[m]? = some x) : l = l.take m ++ [x] := by
  apply List.ext_getElem?
  intro k
  rcases Nat.lt_trichotomy k m with h | h | h
  · rw [List.getElem?_append_left (by simp; omega), List.getElem?_take_of_lt h]
  · subst h
    rw [List.getElem?_append_right (by simp), hx]
    simp [hl]
  · rw [List.getElem?_eq_none (by omega), List.getElem?_eq_none (by simp; omega)]

theorem shuffle_last_step (js : List Nat) (j x : Nat) (w : List Nat)
    (hl : js.length = w.length - 1) (hw : 1 ≤ w.length) (hv : valid_choices js 1 = true) :
    shuffle_choices (js ++ [j]) 1 (w ++ [x]) =
      swap_values (shuffle_choices js 1 w ++ [x]) w.length j := by
  rw [shuffle_choices_append, shuffle_choices_prefix js [x] 1 w hv (by omega)]
  have e : 1 + js.length = w.length := by omega
  rw [e]
  rfl

theorem shuffle_choices_unique (v : List Nat) (hv : v.Nodup) :
    ∀ p : List Nat, p.Perm v →
      ∃! js, js.length = v.length - 1 ∧ valid_choices js 1 = true ∧
        shuffle_choices js 1 v = p := by
  induction v using List.reverseRecOn with
  | nil =>
    intro p hp
    have hpn : p = [] := hp.eq_nil
    subst hpn
    refine ⟨[], ⟨rfl, rfl, rfl⟩, ?_⟩
    rintro y ⟨hy, -, -⟩
    exact List.length_eq_zero.mp hy
  | append_singleton w x ih =>
    intro p hp
    by_cases hw0 : w.length = 0
    · have hwn : w = [] := List.length_eq_zero.mp hw0
      subst hwn
      have hpx : p = [x] := by simpa using hp
      subst hpx
      refine ⟨[], ⟨rfl, rfl, rfl⟩, ?_⟩
      rintro y ⟨hy, -, -⟩
      exact List.length_eq_zero.mp hy
    · have hm : 1 ≤ w.length := by omega
      have hplen : p.length = w.length + 1 := by rw [hp.length_eq]; simp
      have hpnd : p.Nodup := hp.nodup_iff.mpr hv
      have hxp : x ∈ p := hp.mem_iff.mpr (by simp)
      obtain ⟨j, hjx⟩ := List.getElem?_of_mem hxp
      have hj : j < p.length := by
        by_contra hc
        rw [List.getElem?_eq_none (by omega)] at hjx
        cases hjx
      have hsl := swap_values_length p w.length j
      have hlast : (swap_values p w.length j)[w.length]? = some x := by
        rw [swap_values_getElem? p w.length j w.length (by omega) hj]
        by_cases hmj : w.length = j
        · rw [if_pos hmj, getD_of_lt p w.length (by omega), hmj, hjx]
        · rw [if_neg hmj, if_pos rfl, getD_of_lt p j hj, hjx]
      have hsplit := eq_take_append_last (swap_values p w.length j) w.length x (by omega) hlast
      have hq : ((swap_values p w.length j).take w.length).Perm w := by
        have h1 : (swap_values p w.length j).Perm (w ++ [x]) :=
          (swap_values_perm p w.length j (by omega) hj).trans hp
        rw [hsplit] at h1
        exact (List.perm_append_right_iff [x]).mp h1
      obtain ⟨js, ⟨hl1, hv1, hs1⟩, huniq⟩ := ih hv.of_append_left _ hq
      have hres : ∀ (y : List Nat) (k : Nat), y.length = w.length - 1 →
          valid_choices y 1 = true →
          shuffle_choices (y ++ [k]) 1 (w ++ [x]) =
            swap_values (shuffle_choices y 1 w ++ [x]) w.length k :=
        fun y k hy hvy => shuffle_last_step y k x w hy hm hvy
      refine ⟨js ++ [j], ⟨?_, ?_, ?_⟩, ?_⟩
      · simp; omega
      · rw [valid_choices_append, hv1]
        simp only [valid_choices, Bool.and_true, Bool.true_and, decide_eq_true_eq]
        omega
      · rw [hres js j hl1 hv1, hs1, ← hsplit]
        exact swap_values_involutive p w.length j (by omega) hj
      · rintro y ⟨hy1, hy2, hy3⟩
        have hylen : y.length = w.length := by simpa using hy1
        rcases List.eq_nil_or_concat y with hyn | ⟨y0, j0, hyc⟩
        · rw [hyn] at hylen; simp at hylen; omega
        · rw [List.concat_eq_append] at hyc
          subst hyc
          have hy0len : y0.length = w.length - 1 := by simp at hylen; omega
          rw [valid_choices_append] at hy2
          simp only [valid_choices, Bool.and_true, Bool.and_eq_true, decide_eq_true_eq] at hy2
          obtain ⟨hy2a, hy2b⟩ := hy2
          have hj0 : j0 ≤ w.length := by omega
          rw [hres y0 j0 hy0len hy2a] at hy3
          have hq0len : (shuffle_choices y0 1 w ++ [x]).length = w.length + 1 := by
            simp [shuffle_choices_length]
          have hpj0 : p[j0]? = some x := by
            rw [← hy3, swap_values_getElem? _ w.length j0 j0 (by omega) (by omega), if_pos rfl,
              getD_of_lt _ w.length (by omega),
              List.getElem?_append_right (by rw [shuffle_choices_length])]
            simp [shuffle_choices_length]
          have hjj : j0 = j :=
            List.getElem?_inj (by omega) hpnd (hpj0.trans hjx.symm)
          subst hjj
          have hback : shuffle_choices y0 1 w ++ [x] = swap_values p w.length j0 := by
            rw [← hy3]
            exact (swap_values_involutive _ w.length j0 (by omega) (by omega)).symm
          rw [hsplit] at hback
          have hq0 := List.append_cancel_right hback
          rw [huniq y0 ⟨hy0len, hy2a, hq0⟩]

theorem rng_range_draws (cfg : RunConfig) (rng : Rng) (upper : Nat) (h : 0 < upper) :
    leading_rejects cfg rng upper ≤ cfg.RNG_RETRY_LIMIT ∧
      rng_range cfg rng upper =
        ((rng_next_u64 (rng_after (leading_rejects cfg rng upper) rng)).1 % upper,
          rng_after (leading_rejects cfg rng upper + 1) rng) := by
  unfold rng_range leading_rejects
  have h0 : (upper == 0) = false := by simp; omega
  rw [h0]
  exact rng_range_loop_draws upper (rng_threshold upper) cfg.RNG_RETRY_LIMIT rng

theorem rng_shuffle_choices (cfg : RunConfig) (cap : Nat) (rng : Rng) (v : List Nat)
    (hc : v.length ≤ cap) :
    (rng_shuffle cfg cap rng v v.length).1 =
        shuffle_choices (shuffle_draws cfg v.length (cap - 1) 1 rng) 1 v ∧
      valid_choices (shuffle_draws cfg v.length (cap - 1) 1 rng) 1 = true ∧
      (shuffle_draws cfg v.length (cap - 1) 1 rng).length = v.length - 1 := by
  obtain ⟨h1, h2, h3⟩ := shuffle_loop_choices cfg v.length (cap - 1) 1 rng v
  unfold rng_shuffle
  by_cases hs : v.length < 2
  · rw [if_pos hs]
    have hd : shuffle_draws cfg v.length (cap - 1) 1 rng = [] := by
      cases hcap : cap - 1 with
      | zero => rfl
      | succ n => rw [shuffle_draws, if_pos (by omega)]
    rw [hd]
    exact ⟨rfl, rfl, by simp; omega⟩
  · rw [if_neg hs]
    simp only []
    rw [if_neg (by omega)]
    exact ⟨h1, h2, h3 (by omega)⟩

theorem takeWhile_length_lt_getElem? (l : List Nat) (p : Nat → Bool)
    (h : (l.takeWhile p).length < l.length) :
    ∃ x, l[(l.takeWhile p).length]? = some x ∧ p x = false := by
  induction l with
  | nil => simp at h
  | cons a t ih =>
    rw [List.takeWhile_cons] at h ⊢
    cases hp : p a with
    | true =>
      rw [hp] at h
      simp only [if_true, List.length_cons] at h ⊢
      obtain ⟨x, hx, hpx⟩ := ih (by omega)
      exact ⟨x, by simpa using hx, hpx⟩
    | false => exact ⟨a, by simp, hp⟩

theorem rng_outputs_length (n : Nat) : ∀ rng : Rng, (rng_outputs n rng).length = n := by
  induction n with
  | zero => intro rng; rfl
  | succ n ih => intro rng; simp [rng_outputs, ih]

theorem rng_outputs_getElem? (n : Nat) :
    ∀ (rng : Rng) (k : Nat), k < n →
      (rng_outputs n rng)[k]? = some (rng_next_u64 (rng_after k rng)).1 := by
  induction n with
  | zero => intro rng k hk; omega
  | succ n ih =>
    intro rng k hk
    cases k with
    | zero => simp [rng_outputs, rng_after]
    | succ k =>
      rw [rng_outputs, List.getElem?_cons_succ, ih _ k (by omega)]
      rfl

theorem leading_rejects_accept (cfg : RunConfig) (rng : Rng) (upper : Nat)
    (hk : leading_rejects cfg rng upper < cfg.RNG_RETRY_LIMIT) :
    rng_threshold upper ≤ (rng_next_u64 (rng_after (leading_rejects cfg rng upper) rng)).1 := by
  unfold leading_rejects at hk ⊢
  obtain ⟨x, hx, hpx⟩ := takeWhile_length_lt_getElem? (rng_outputs cfg.RNG_RETRY_LIMIT rng)
    (fun r => decide (r < rng_threshold upper)) (by rw [rng_outputs_length]; exact hk)
  rw [rng_outputs_getElem? _ _ _ hk] at hx
  cases hx
  simpa using hpx

theorem shuffle_choices_perm_full (v js : List Nat) (hl : js.length = v.length - 1)
    (hj : valid_choices js 1 = true) : (shuffle_choices js 1 v).Perm v := by
  rcases Nat.eq_zero_or_pos v.length with h | h
  · rw [h] at hl
    have hjs := List.length_eq_zero.mp hl
    subst hjs
    exact List.Perm.refl _
  · exact shuffle_choices_perm js 1 v hj (by omega)

/-! ### The scheduler: timeouts, the liveness guard, the ordering invariant -/

theorem to_int_small (n : Nat) (h : n < 2 ^ 31) : to_int n = (n : Int) := by
  unfold to_int
  have e : n % 2 ^ 32 = n := Nat.mod_eq_of_lt (by omega)
  rw [e, if_pos h]

theorem read_key_timeout_spec (rt : Runtime) (rem : Nat) (τ : Int)
    (h : read_key_timeout rt rem = some τ) :
    (τ = -1 ↔ rt.pending_switch ≠ 0) ∧ (rt.pending_switch = 0 → τ = (rem : Int)) := by
  unfold read_key_timeout at h
  by_cases hp : rt.pending_switch = 0
  · have hb : (rt.pending_switch == 0) = true := by simpa using hp
    have hb2 : (rt.pending_switch != 0) = false := by simpa using hp
    by_cases hr : rem > 86400000
    · simp [hr, hb] at h
    · have hd : (decide (rem > 86400000) && (rt.pending_switch == 0)) = false := by simp [hr]
      rw [hd] at h
      simp only [Bool.false_eq_true, if_false, hb2, Option.some.injEq] at h
      rw [to_int_small rem (by omega)] at h
      subst h
      refine ⟨⟨fun h1 => by omega, fun h1 => absurd hp h1⟩, fun _ => rfl⟩
  · have hb : (rt.pending_switch == 0) = false := by simpa using hp
    have hb2 : (rt.pending_switch != 0) = true := by simpa using hp
    simp only [hb, Bool.and_false, Bool.false_eq_true, if_false, hb2, if_true,
      Option.some.injEq] at h
    subst h
    exact ⟨⟨fun _ => hp, fun _ => rfl⟩, fun h0 => absurd h0 hp⟩

theorem read_key_timeout_pending (rt : Runtime) (rem : Nat) (hp : rt.pending_switch ≠ 0) :
    read_key_timeout rt rem = some (-1) := by
  unfold read_key_timeout
  have hb : (rt.pending_switch == 0) = false := by simpa using hp
  have hb2 : (rt.pending_switch != 0) = true := by simpa using hp
  simp [hb, hb2]

theorem armed_remaining (g : Group) (t now : Nat) (hs : g.seconds ≤ 86400) (ht : t ≤ now)
    (hn : now < U64) (hlt : now < (t + g.seconds * 1000) % U64) :
    (t + g.seconds * 1000) % U64 = t + g.seconds * 1000 ∧
      0 < t + g.seconds * 1000 - now ∧ t + g.seconds * 1000 - now ≤ 1000 * g.seconds ∧
      1000 * g.seconds ≤ 86400000 := by
  have hU : U64 = 18446744073709551616 := by decide
  have hfit : t + g.seconds * 1000 < U64 := by
    by_contra hc
    have h2 : (t + g.seconds * 1000) % U64 = t + g.seconds * 1000 - U64 := by
      rw [Nat.mod_eq_sub_mod (by omega), Nat.mod_eq_of_lt (by omega)]
    omega
  rw [Nat.mod_eq_of_lt hfit] at hlt ⊢
  omega

theorem read_key_open (rt : Runtime) (rem : Nat) (key : Int) (ev : ReadEvent)
    (h : rem ≤ 86400000) :
    read_key rt rem key ev =
      if (term_read_key_timeout ev key).1 < 0 then (-1, (term_read_key_timeout ev key).2)
      else term_read_key_timeout ev key := by
  unfold read_key
  have hd : (decide (rem > 86400000) && (rt.pending_switch == 0)) = false := by
    simp; intro hc; omega
  rw [hd]
  rfl

theorem handle_key_quiet (cfg : RunConfig) (rt : Runtime) (key adv : Int) (env : Tick)
    (hk : is_advance_key key = false) (h3 : key ≠ 3) :
    (handle_key cfg rt key adv env).1 ≤ 0 ∧
      ((handle_key cfg rt key adv env).1 = 0 → (handle_key cfg rt key adv env).2.2 = 0) := by
  unfold handle_key
  split
  · simp
  · split
    · simp
    · simp [h3, hk]

theorem handle_key_advancing (cfg : RunConfig) (rt : Runtime) (key adv : Int) (env : Tick)
    (hk : is_advance_key key = true) :
    (handle_key cfg rt key adv env).1 ≤ 0 ∧
      ((handle_key cfg rt key adv env).1 = 0 → (handle_key cfg rt key adv env).2.2 = 1) := by
  have h3 : key ≠ 3 := by
    intro h; rw [h] at hk; exact absurd hk (by decide)
  unfold handle_key
  split
  · simp
  · split
    · simp
    · simp only [h3, beq_iff_eq, if_false, hk, Bool.not_true, Bool.false_eq_true]
      split
      · split
        · simp
        · split <;> simp
      · split <;> simp

theorem read_key_quiet (rt : Runtime) (rem : Nat) (ev : ReadEvent) (hq : quiet_read ev) :
    (read_key rt rem 0 ev).1 ≤ 0 ∨
      (is_advance_key (read_key rt rem 0 ev).2 = false ∧ (read_key rt rem 0 ev).2 ≠ 3) := by
  unfold read_key
  split
  · left; simp
  · rcases hq with h | ⟨ch, h, h1, h2⟩
    · left; subst h; simp [term_read_key_timeout]
    · right
      subst h
      simp only [term_read_key_timeout]
      refine ⟨by simpa using h1, ?_⟩
      simp only [Int.reduceLT, if_false]
      intro hc
      apply h2
      exact_mod_cast hc

theorem read_key_byte (rt : Runtime) (rem : Nat) (ch : Nat) :
    (read_key rt rem 0 (ReadEvent.byte ch)).1 < 0 ∨
      read_key rt rem 0 (ReadEvent.byte ch) = (1, ((ch % 256 : Nat) : Int)) := by
  unfold read_key
  split
  · left; simp
  · right; simp [term_read_key_timeout]

theorem wait_loop_quiet (cfg : RunConfig) (env : Nat → Tick) :
    ∀ (fuel t : Nat) (rt : Runtime),
      (∀ p, t ≤ p → p < t + fuel → quiet_read (env p).read) →
      (∃ rt1 t1, wait_loop cfg env fuel t rt 0 = WaitResult.returned (-1) rt1 t1) ∨
        ∃ rt1, wait_loop cfg env fuel t rt 0 = WaitResult.left 0 rt1 (t + fuel) := by
  intro fuel
  induction fuel with
  | zero => intro t rt _; right; exact ⟨rt, rfl⟩
  | succ n ih =>
    intro t rt hq
    have hnext : ∀ rt2, (∃ rt1 t1, wait_loop cfg env n (t + 1) rt2 0
        = WaitResult.returned (-1) rt1 t1) ∨
        ∃ rt1, wait_loop cfg env n (t + 1) rt2 0 = WaitResult.left 0 rt1 (t + (n + 1)) := by
      intro rt2
      have := ih (t + 1) rt2 (fun p h1 h2 => hq p (by omega) (by omega))
      rwa [Nat.add_assoc, Nat.add_comm 1 n] at this
    rw [wait_loop]
    dsimp only
    split
    · left; exact ⟨_, _, rfl⟩
    · split
      · left; exact ⟨_, _, rfl⟩
      · rename_i hr
        split
        · exact hnext _
        · rename_i hr0
          rcases read_key_quiet (update_expiry rt 0 (env t).clock (env t).log_expired).2.1
            (update_expiry rt 0 (env t).clock (env t).log_expired).2.2 (env t).read
            (hq t (Nat.le_refl _) (by omega)) with h | ⟨hk, h3⟩
          · exfalso
            have hr0b : ¬ (read_key (update_expiry rt 0 (env t).clock (env t).log_expired).2.1
              (update_expiry rt 0 (env t).clock (env t).log_expired).2.2 0 (env t).read).1 = 0 := by
              simpa using hr0
            omega
          · obtain ⟨hle, hz⟩ := handle_key_quiet cfg
              (update_expiry rt 0 (env t).clock (env t).log_expired).2.1 _ 0 (env t) hk h3
            split
            · left; exact ⟨_, _, rfl⟩
            · split
              · omega
              · have h0 := hz (by omega)
                rw [h0]
                simp only [bne_self_eq_false, Bool.false_eq_true, if_false]
                exact hnext _

theorem run_steps_quiet (cfg : RunConfig) (env : Nat → Tick) (n step t : Nat) (rt : Runtime)
    (hq : ∀ p, t ≤ p → p < t + cfg.MAX_WAIT_LOOPS → quiet_read (env p).read) :
    (run_steps cfg env (n + 1) step t rt).rc = -1 := by
  rw [run_steps]
  rcases wait_loop_quiet cfg env cfg.MAX_WAIT_LOOPS t rt hq with ⟨rt1, t1, h⟩ | ⟨rt1, h⟩
  · rw [h]
  · rw [h]; rfl

theorem wait_loop_advancing (cfg : RunConfig) (env : Nat → Tick) :
    ∀ (k fuel t : Nat) (rt : Runtime) (ch : Nat), k < fuel →
      (∀ p, t ≤ p → p < t + k → quiet_read (env p).read) →
      (env (t + k)).read = ReadEvent.byte ch → is_advance_key ((ch % 256 : Nat) : Int) = true →
      (∃ rt1 t1, wait_loop cfg env fuel t rt 0 = WaitResult.returned (-1) rt1 t1) ∨
        ∃ rt1, wait_loop cfg env fuel t rt 0 = WaitResult.left 1 rt1 (t + k + 1) := by
  intro k
  induction k with
  | zero =>
    intro fuel t rt ch hk _ hread hadv
    obtain ⟨f, hf⟩ : ∃ f, fuel = f + 1 := ⟨fuel - 1, by omega⟩
    subst hf
    rw [Nat.add_zero] at hread
    rw [wait_loop]
    dsimp only
    split
    · left; exact ⟨_, _, rfl⟩
    · rw [hread]
      rcases read_key_byte (update_expiry rt 0 (env t).clock (env t).log_expired).2.1
        (update_expiry rt 0 (env t).clock (env t).log_expired).2.2 ch with h | h
      · rw [if_pos h]; left; exact ⟨_, _, rfl⟩
      · rw [h]
        simp only [Int.reduceLT, if_false, Int.reduceEq, beq_iff_eq]
        obtain ⟨hle, h1⟩ := handle_key_advancing cfg
          (update_expiry rt 0 (env t).clock (env t).log_expired).2.1 _ 0 (env t) hadv
        split
        · left; exact ⟨_, _, rfl⟩
        · split
          · omega
          · have h0 := h1 (by omega)
            rw [h0]
            right
            exact ⟨_, rfl⟩
  | succ k ih =>
    intro fuel t rt ch hk hq hread hadv
    obtain ⟨f, hf⟩ : ∃ f, fuel = f + 1 := ⟨fuel - 1, by omega⟩
    subst hf
    have hnext : ∀ rt2, (∃ rt1 t1, wait_loop cfg env f (t + 1) rt2 0
        = WaitResult.returned (-1) rt1 t1) ∨
        ∃ rt1, wait_loop cfg env f (t + 1) rt2 0 = WaitResult.left 1 rt1 (t + (k + 1) + 1) := by
      intro rt2
      have := ih f (t + 1) rt2 ch (by omega) (fun p h1 h2 => hq p (by omega) (by omega))
        (by rw [Nat.add_assoc, Nat.add_comm 1 k]; exact hread) hadv
      rwa [Nat.add_assoc t 1 k, Nat.add_comm 1 k] at this
    rw [wait_loop]
    dsimp only
    split
    · left; exact ⟨_, _, rfl⟩
    · split
      · left; exact ⟨_, _, rfl⟩
      · split
        · exact hnext _
        · rename_i hr0
          rcases read_key_quiet (update_expiry rt 0 (env t).clock (env t).log_expired).2.1
            (update_expiry rt 0 (env t).clock (env t).log_expired).2.2 (env t).read
            (hq t (Nat.le_refl _) (by omega)) with h | ⟨hkq, h3⟩
          · exfalso
            have hr0b : ¬ (read_key (update_expiry rt 0 (env t).clock (env t).log_expired).2.1
              (update_expiry rt 0 (env t).clock (env t).log_expired).2.2 0 (env t).read).1 = 0 := by
              simpa using hr0
            omega
          · obtain ⟨hle, hz⟩ := handle_key_quiet cfg
              (update_expiry rt 0 (env t).clock (env t).log_expired).2.1 _ 0 (env t) hkq h3
            split
            · left; exact ⟨_, _, rfl⟩
            · split
              · omega
              · have h0 := hz (by omega)
                rw [h0]
                simp only [bne_self_eq_false, Bool.false_eq_true, if_false]
                exact hnext _

theorem fold_set_range (f : Nat → Nat) :
    ∀ (n : Nat) (order : List Nat), n ≤ order.length →
      (List.range n).foldl (fun o i => o.set i (f i)) order =
        (List.range n).map f ++ order.drop n := by
  intro n
  induction n with
  | zero => intro order _; simp
  | succ n ih =>
    intro order hn
    rw [List.range_succ, List.foldl_append, ih order (by omega)]
    simp only [List.foldl_cons, List.foldl_nil, List.map_append, List.map_cons, List.map_nil]
    apply List.ext_getElem?
    intro k
    have hlen : ((List.range n).map f).length = n := by simp
    rcases Nat.lt_trichotomy k n with h | h | h
    · rw [List.getElem?_set_ne (by omega), List.getElem?_append_left (by omega),
        List.append_assoc, List.getElem?_append_left (by omega)]
    · subst h
      rw [List.getElem?_set_self (by simp; omega), List.append_assoc,
        List.getElem?_append_right (by omega), hlen]
      simp
    · rw [List.getElem?_set_ne (by omega), List.getElem?_append_right (by omega),
        List.append_assoc, List.getElem?_append_right (by omega), hlen,
        List.getElem?_drop, List.getElem?_append_right (by simp; omega)]
      simp only [List.length_singleton, List.getElem?_drop]
      congr 1
      omega

theorem fold_set_range_full (f : Nat → Nat) (order : List Nat) :
    (List.range order.length).foldl (fun o i => o.set i (f i)) order =
      (List.range order.length).map f := by
  rw [fold_set_range f order.length order (Nat.le_refl _), List.drop_length, List.append_nil]

theorem take_map_range (f : Nat → Nat) (n c : Nat) (h : c ≤ n) :
    ((List.range n).map f).take c = (List.range c).map f := by
  rw [← List.map_take]
  congr 1
  apply List.ext_getElem?
  intro k
  by_cases hk : k < c
  · rw [List.getElem?_take_of_lt hk, List.getElem?_range (by omega), List.getElem?_range hk]
  · rw [List.getElem?_eq_none (by simp; omega), List.getElem?_eq_none (by simp; omega)]

theorem init_item_order_spec (cfg : RunConfig) (g : Group) (order : List Nat)
    (hl : order.length = cfg.MAX_ITEMS_TOTAL) (hc : g.item_count ≤ cfg.MAX_ITEMS_TOTAL)
    (hs : g.item_start + g.item_count ≤ U64) :
    (init_item_order cfg g order).length = cfg.MAX_ITEMS_TOTAL ∧
      (init_item_order cfg g order).take g.item_count =
        List.range' g.item_start g.item_count := by
  unfold init_item_order
  rw [if_neg (by omega), ← hl, fold_set_range_full]
  refine ⟨by simp, ?_⟩
  rw [take_map_range _ _ _ (by omega)]
  apply List.ext_getElem?
  intro k
  by_cases hk : k < g.item_count
  · rw [List.getElem?_map, List.getElem?_range hk, List.getElem?_range' _ _ hk]
    simp only [Option.map_some', if_pos hk, Nat.one_mul]
    rw [Nat.mod_eq_of_lt (by omega)]
  · rw [List.getElem?_eq_none (by simp; omega), List.getElem?_eq_none (by simp; omega)]

theorem init_group_order_spec (cfg : RunConfig) (s : Session) (order : List Nat)
    (hl : order.length = cfg.MAX_GROUPS) (hc : s.group_count ≤ cfg.MAX_GROUPS) :
    (init_group_order cfg s order).length = cfg.MAX_GROUPS ∧
      (init_group_order cfg s order).take s.group_count = List.range s.group_count := by
  unfold init_group_order
  rw [if_neg (by omega), ← hl, fold_set_range_full]
  refine ⟨by simp, ?_⟩
  rw [take_map_range _ _ _ (by omega)]
  apply List.ext_getElem?
  intro k
  by_cases hk : k < s.group_count
  · rw [List.getElem?_map, List.getElem?_range hk]
    simp [hk]
  · rw [List.getElem?_eq_none (by simp; omega), List.getElem?_eq_none (by simp; omega)]

theorem perm_take_getD_mem (l r : List Nat) (n k : Nat) (hp : (l.take n).Perm r)
    (hk : k < n) (hn : n ≤ l.length) : l.getD k 0 ∈ r := by
  apply hp.mem_iff.mp
  rw [List.getD_eq_getElem _ _ (by omega), List.mem_iff_getElem?]
  exact ⟨k, by rw [List.getElem?_take_of_lt hk, List.getElem?_eq_getElem (by omega)]⟩

theorem chain_slice : ∀ (gs : List Group) (a n : Nat), chain gs a n →
    ∀ g ∈ gs, a ≤ g.item_start ∧ g.item_start + g.item_count ≤ n := by
  intro gs
  induction gs with
  | nil => intro a n _ g hg; cases hg
  | cons x xs ih =>
    intro a n h g hg
    obtain ⟨h1, h2⟩ := h
    have hend : ∀ (ys : List Group) (b : Nat), chain ys b n → b ≤ n := by
      intro ys
      induction ys with
      | nil => intro b hb; exact Nat.le_of_eq hb
      | cons y ys ihy => intro b hb; have := ihy _ hb.2; omega
    rcases List.mem_cons.mp hg with hgx | hgx
    · subst hgx
      have := hend xs _ h2
      omega
    · have := ih _ _ h2 g hgx
      omega

theorem session_ok_of_parse (cfg : RunConfig) (file : List Nat) (s : Session)
    (hF : cfg.MAX_FILE_BYTES < 2 ^ 32) (hI : cfg.MAX_ITEMS_TOTAL < 2 ^ 32)
    (hG : cfg.MAX_GROUPS < U64) (h : parse_session_file cfg.toConfig file = .ok s) :
    SessionOK cfg s := by
  obtain ⟨hch, hfill, hsec, hne, hgc, hic⟩ := parse_session_file_GInv hI h
  obtain ⟨st, hst, hfin⟩ := parse_session_file_Final hF h
  subst hst
  refine ⟨hne, hgc, hic, hG, ?_, ?_, hsec, ?_⟩
  · have : (2 : Nat) ^ 32 < U64 := by decide
    omega
  · intro g hg
    exact ⟨hfill g hg, (chain_slice _ _ _ hch g hg).2⟩
  · intro it hit
    have hok := hfin.items it hit
    exact ⟨hok.pos, by rw [hfin.blen]; exact hok.inside⟩

theorem select_next_group_ok (cfg : RunConfig) (rt : Runtime) (ok : Bool)
    (h : (select_next_group cfg rt ok).1 = 0) :
    (select_next_group cfg rt ok).2 =
      { rt with
        group_order := next_group_order cfg rt, rng := next_group_rng cfg rt,
        group_index := (next_group_order cfg rt).getD (next_cursor rt) 0,
        order_pos := (next_cursor rt + 1) % U64,
        group := some (rt.session.groups.getD
          ((next_group_order cfg rt).getD (next_cursor rt) 0) ⟨0, 0, 0, 0, 0⟩) } := by
  unfold select_next_group at h ⊢
  unfold next_group_order next_group_rng next_cursor
  split at h
  · simp at h
  · rename_i h0
    rw [if_neg h0]
    by_cases hp : rt.order_pos ≥ rt.session.group_count
    · rw [if_pos hp] at h ⊢
      dsimp only at h ⊢
      split at h
      · simp at h
      · rename_i hl
        rw [if_neg hl]
        simp [hp]
    · rw [if_neg hp] at h ⊢
      simp [hp]

theorem select_next_item_ok (rt : Runtime) (g : Group) (hg : rt.group = some g)
    (hc : g.item_count ≠ 0) (hp : rt.item_pos < g.item_count) :
    select_next_item rt = (0, { rt with item_index := rt.item_order.getD rt.item_pos 0 }) := by
  unfold select_next_item
  split
  · rename_i hn; rw [hg] at hn; cases hn
  · rename_i g1 hg1
    rw [hg] at hg1
    cases hg1
    have h0 : (g.item_count == 0) = false := by simpa using hc
    simp only [h0, Bool.false_eq_true, if_false]
    rw [if_neg (by omega)]

theorem advance_show_ok (rt : Runtime) (env : Tick) (g : Group) (hg : rt.group = some g)
    (hc : g.item_count ≠ 0) (hp : rt.item_pos < g.item_count) :
    (advance_show rt env).2 = { rt with item_index := rt.item_order.getD rt.item_pos 0 } := by
  rw [advance_show_runtime, select_next_item_ok rt g hg hc hp]

theorem update_group_timer_some (g : Group) (now : Nat) (hs : g.seconds ≠ 0) (rt : Runtime)
    (hg : rt.group = some g) :
    update_group_timer rt (some now) =
      (0, { rt with group_end := (now + g.seconds * 1000) % U64 }) := by
  unfold update_group_timer
  split
  · rename_i hn; rw [hg] at hn; cases hn
  · rename_i g1 hg1
    rw [hg] at hg1
    cases hg1
    have h0 : (g.seconds == 0) = false := by simpa using hs
    simp only [h0, Bool.false_eq_true, if_false]

theorem update_group_timer_zero (g : Group) (hs : g.seconds = 0) (rt : Runtime)
    (clock : Option Nat) (hg : rt.group = some g) :
    (update_group_timer rt clock).1 = -1 := by
  unfold update_group_timer
  split
  · rfl
  · rename_i g1 hg1
    rw [hg] at hg1
    cases hg1
    simp [hs]

theorem advance_prompt_some (cfg : RunConfig) (rt : Runtime) (d : Int) (env : Tick) (g : Group)
    (hg : rt.group = some g) (hc : g.item_count ≠ 0) :
    advance_prompt cfg rt d env =
      if d != 0 then
        if (update_group_timer
            { rt with
              item_order := (rng_shuffle_items cfg rt.rng (init_item_order cfg g rt.item_order)
                g.item_count).1,
              rng := (rng_shuffle_items cfg rt.rng (init_item_order cfg g rt.item_order)
                g.item_count).2,
              item_pos := 0 } env.timer_clock).1 != 0 then
          (-1, (update_group_timer
            { rt with
              item_order := (rng_shuffle_items cfg rt.rng (init_item_order cfg g rt.item_order)
                g.item_count).1,
              rng := (rng_shuffle_items cfg rt.rng (init_item_order cfg g rt.item_order)
                g.item_count).2,
              item_pos := 0 } env.timer_clock).2)
        else if rt.log && !env.log_group then
          (-1, (update_group_timer
            { rt with
              item_order := (rng_shuffle_items cfg rt.rng (init_item_order cfg g rt.item_order)
                g.item_count).1,
              rng := (rng_shuffle_items cfg rt.rng (init_item_order cfg g rt.item_order)
                g.item_count).2,
              item_pos := 0 } env.timer_clock).2)
        else advance_show (update_group_timer
            { rt with
              item_order := (rng_shuffle_items cfg rt.rng (init_item_order cfg g rt.item_order)
                g.item_count).1,
              rng := (rng_shuffle_items cfg rt.rng (init_item_order cfg g rt.item_order)
                g.item_count).2,
              item_pos := 0 } env.timer_clock).2 env
      else if (rt.item_pos + 1) % U64 ≥ g.item_count then
        if rt.log && !env.log_shuffle_items then
          (-1, { rt with
            item_pos := 0,
            item_order := (rng_shuffle_items cfg rt.rng rt.item_order g.item_count).1,
            rng := (rng_shuffle_items cfg rt.rng rt.item_order g.item_count).2 })
        else advance_show { rt with
            item_pos := 0,
            item_order := (rng_shuffle_items cfg rt.rng rt.item_order g.item_count).1,
            rng := (rng_shuffle_items cfg rt.rng rt.item_order g.item_count).2 } env
      else advance_show { rt with item_pos := (rt.item_pos + 1) % U64 } env := by
  unfold advance_prompt
  split
  · rename_i hn; rw [hg] at hn; cases hn
  · rename_i g1 hg1
    rw [hg] at hg1
    cases hg1
    have h0 : (g.item_count == 0) = false := by simpa using hc
    simp only [h0, Bool.false_eq_true, if_false]
    split
    · have hlog : ∀ r : Runtime, (update_group_timer r env.timer_clock).2.log = r.log := by
        intro r
        unfold update_group_timer
        split
        · rfl
        · split
          · rfl
          · split <;> rfl
      simp only [hlog]
    · rfl

theorem advance_prompt_count (cfg : RunConfig) (rt : Runtime) (d : Int) (env : Tick) (g : Group)
    (hg : rt.group = some g) (h : (advance_prompt cfg rt d env).1 = 0) : g.item_count ≠ 0 := by
  intro hc
  unfold advance_prompt at h
  split at h
  · simp at h
  · rename_i g1 hg1
    rw [hg] at hg1
    cases hg1
    simp [hc] at h

theorem advance_prompt_switch_ok (cfg : RunConfig) (rt : Runtime) (env : Tick) (g : Group)
    (now : Nat) (hg : rt.group = some g) (hclock : env.timer_clock = some now)
    (h : (advance_prompt cfg rt 1 env).1 = 0) :
    (advance_prompt cfg rt 1 env).2 =
      { rt with
        item_order :=
          (rng_shuffle_items cfg rt.rng (init_item_order cfg g rt.item_order) g.item_count).1,
        rng :=
          (rng_shuffle_items cfg rt.rng (init_item_order cfg g rt.item_order) g.item_count).2,
        item_pos := 0,
        group_end := (now + g.seconds * 1000) % U64,
        item_index :=
          (rng_shuffle_items cfg rt.rng (init_item_order cfg g rt.item_order)
            g.item_count).1.getD 0 0 } := by
  have hc := advance_prompt_count cfg rt 1 env g hg h
  rw [advance_prompt_some cfg rt 1 env g hg hc] at h ⊢
  have h1 : ((1 : Int) != 0) = true := by decide
  rw [if_pos h1] at h ⊢
  rw [hclock] at h ⊢
  by_cases hs : g.seconds = 0
  · exfalso
    rw [update_group_timer_zero g hs] at h
    · simp at h
    · exact hg
  · rw [update_group_timer_some g now hs] at h ⊢
    · simp only [bne_self_eq_false, Bool.false_eq_true, if_false] at h ⊢
      split at h
      · simp at h
      · rename_i hl
        rw [if_neg hl]
        exact advance_show_ok _ env g hg hc (Nat.pos_of_ne_zero hc)
    · exact hg
    · exact hg

theorem advance_prompt_next_ok (cfg : RunConfig) (rt : Runtime) (env : Tick) (g : Group)
    (hg : rt.group = some g) (hc : g.item_count ≠ 0)
    (hw : (rt.item_pos + 1) % U64 < g.item_count) :
    (advance_prompt cfg rt 0 env).2 =
      { rt with item_pos := (rt.item_pos + 1) % U64,
                item_index := rt.item_order.getD ((rt.item_pos + 1) % U64) 0 } := by
  rw [advance_prompt_some cfg rt 0 env g hg hc]
  simp only [bne_self_eq_false, Bool.false_eq_true, if_false]
  rw [if_neg (by omega)]
  exact advance_show_ok _ env g hg hc hw

theorem advance_prompt_wrap_ok (cfg : RunConfig) (rt : Runtime) (env : Tick) (g : Group)
    (hg : rt.group = some g) (hw : g.item_count ≤ (rt.item_pos + 1) % U64)
    (h : (advance_prompt cfg rt 0 env).1 = 0) :
    (advance_prompt cfg rt 0 env).2 =
      { rt with
        item_pos := 0,
        item_order := (rng_shuffle_items cfg rt.rng rt.item_order g.item_count).1,
        rng := (rng_shuffle_items cfg rt.rng rt.item_order g.item_count).2,
        item_index := (rng_shuffle_items cfg rt.rng rt.item_order g.item_count).1.getD 0 0 } := by
  have hc := advance_prompt_count cfg rt 0 env g hg h
  rw [advance_prompt_some cfg rt 0 env g hg hc] at h ⊢
  simp only [bne_self_eq_false, Bool.false_eq_true, if_false] at h ⊢
  rw [if_pos hw] at h ⊢
  split at h
  · simp at h
  · rename_i hl
    rw [if_neg hl]
    exact advance_show_ok _ env g hg hc (Nat.pos_of_ne_zero hc)

theorem handle_key_none (cfg : RunConfig) (rt : Runtime) (key adv : Int) (env : Tick)
    (hg : rt.group = none) : handle_key cfg rt key adv env = (-1, rt, adv) := by
  unfold handle_key
  split
  · rfl
  · rename_i g1 hg1; rw [hg] at hg1; cases hg1

theorem handle_key_some (cfg : RunConfig) (rt : Runtime) (key adv : Int) (env : Tick)
    (g : Group) (hg : rt.group = some g) :
    handle_key cfg rt key adv env =
      if rt.log && !env.log_key then (-1, rt, 0)
      else if key == 3 then (1, rt, 0)
      else if !is_advance_key key then (0, rt, 0)
      else if rt.pending_switch != 0 then
        if (select_next_group cfg rt env.log_shuffle_groups).1 != 0 then
          (-1, (select_next_group cfg rt env.log_shuffle_groups).2, 0)
        else if (advance_prompt cfg
            { (select_next_group cfg rt env.log_shuffle_groups).2 with pending_switch := 0 }
            1 env).1 != 0 then
          (-1, (advance_prompt cfg
            { (select_next_group cfg rt env.log_shuffle_groups).2 with pending_switch := 0 }
            1 env).2, 0)
        else
          (0, (advance_prompt cfg
            { (select_next_group cfg rt env.log_shuffle_groups).2 with pending_switch := 0 }
            1 env).2, 1)
      else if (advance_prompt cfg rt 0 env).1 != 0 then (-1, (advance_prompt cfg rt 0 env).2, 0)
      else (0, (advance_prompt cfg rt 0 env).2, 1) := by
  unfold handle_key
  split
  · rename_i hn; rw [hg] at hn; cases hn
  · rfl

theorem handle_key_nonneg (cfg : RunConfig) (rt : Runtime) (key adv : Int) (env : Tick)
    (h : 0 ≤ (handle_key cfg rt key adv env).1) :
    (handle_key cfg rt key adv env).2.1 = rt ∨
      (is_advance_key key = true ∧ (handle_key cfg rt key adv env).1 = 0 ∧
        (handle_key cfg rt key adv env).2.2 = 1 ∧
        ((rt.pending_switch = 0 ∧ (advance_prompt cfg rt 0 env).1 = 0 ∧
            (handle_key cfg rt key adv env).2.1 = (advance_prompt cfg rt 0 env).2) ∨
          (rt.pending_switch ≠ 0 ∧
            (select_next_group cfg rt env.log_shuffle_groups).1 = 0 ∧
            (advance_prompt cfg
              { (select_next_group cfg rt env.log_shuffle_groups).2 with pending_switch := 0 }
              1 env).1 = 0 ∧
            (handle_key cfg rt key adv env).2.1 =
              (advance_prompt cfg
                { (select_next_group cfg rt env.log_shuffle_groups).2 with pending_switch := 0 }
                1 env).2))) := by
  cases hg : rt.group with
  | none => left; rw [handle_key_none cfg rt key adv env hg]
  | some g =>
    rw [handle_key_some cfg rt key adv env g hg] at h ⊢
    by_cases c1 : (rt.log && !env.log_key) = true
    · left; rw [if_pos c1]
    · rw [if_neg c1] at h ⊢
      by_cases c2 : (key == 3) = true
      · left; rw [if_pos c2]
      · rw [if_neg c2] at h ⊢
        by_cases c3 : (!is_advance_key key) = true
        · left; rw [if_pos c3]
        · rw [if_neg c3] at h ⊢
          have hk : is_advance_key key = true := by simpa using c3
          right
          by_cases c4 : (rt.pending_switch != 0) = true
          · have hp : rt.pending_switch ≠ 0 := by simpa using c4
            rw [if_pos c4] at h ⊢
            by_cases c5 : ((select_next_group cfg rt env.log_shuffle_groups).1 != 0) = true
            · rw [if_pos c5] at h; simp at h
            · rw [if_neg c5] at h ⊢
              have hs : (select_next_group cfg rt env.log_shuffle_groups).1 = 0 := by
                simpa using c5
              by_cases c6 : ((advance_prompt cfg
                  { (select_next_group cfg rt env.log_shuffle_groups).2 with
                    pending_switch := 0 } 1 env).1 != 0) = true
              · rw [if_pos c6] at h; simp at h
              · rw [if_neg c6]
                have ha : (advance_prompt cfg
                    { (select_next_group cfg rt env.log_shuffle_groups).2 with
                      pending_switch := 0 } 1 env).1 = 0 := by simpa using c6
                exact ⟨hk, rfl, rfl, Or.inr ⟨hp, hs, ha, rfl⟩⟩
          · have hp : rt.pending_switch = 0 := by simpa using c4
            rw [if_neg c4] at h ⊢
            by_cases c6 : ((advance_prompt cfg rt 0 env).1 != 0) = true
            · rw [if_pos c6] at h; simp at h
            · rw [if_neg c6]
              have ha : (advance_prompt cfg rt 0 env).1 = 0 := by simpa using c6
              exact ⟨hk, rfl, rfl, Or.inl ⟨hp, ha, rfl⟩⟩

theorem update_expiry_runtime (rt : Runtime) (rem : Nat) (clock : Option Nat) (ok : Bool) :
    (update_expiry rt rem clock ok).2.1 = rt ∨
      (update_expiry rt rem clock ok).2.1 = { rt with pending_switch := 1 } := by
  unfold update_expiry
  split
  · left; rfl
  · split
    · left; rfl
    · split
      · left; rfl
      · split
        · split <;> (right; rfl)
        · left; rfl

theorem RtInv.pending (cfg : RunConfig) (rt : Runtime) (p : Int) (h : RtInv cfg rt) :
    RtInv cfg { rt with pending_switch := p } :=
  ⟨h.go_len, h.go_perm, h.io_len, h.pos_le, h.gi_lt, h.active, h.io_perm, h.ip_lt, h.shown⟩

theorem RtInv.update_expiry (cfg : RunConfig) (rt : Runtime) (rem : Nat) (clock : Option Nat)
    (ok : Bool) (h : RtInv cfg rt) : RtInv cfg (update_expiry rt rem clock ok).2.1 := by
  rcases update_expiry_runtime rt rem clock ok with e | e
  · rw [e]; exact h
  · rw [e]; exact h.pending cfg rt 1

theorem RtInv.group_mem (cfg : RunConfig) (rt : Runtime) (g : Group) (h : RtInv cfg rt)
    (hg : rt.group = some g) : g ∈ rt.session.groups := by
  have := h.active
  rw [hg] at this
  exact List.getElem?_mem this.symm

theorem next_group_order_spec (cfg : RunConfig) (rt : Runtime) (hs : SessionOK cfg rt.session)
    (hgl : rt.group_order.length = cfg.MAX_GROUPS)
    (hgp : (rt.group_order.take rt.session.group_count).Perm
      (List.range rt.session.group_count)) :
    (next_group_order cfg rt).length = cfg.MAX_GROUPS ∧
      ((next_group_order cfg rt).take rt.session.group_count).Perm
        (List.range rt.session.group_count) ∧
      next_cursor rt < rt.session.group_count ∧
      (next_group_order cfg rt).getD (next_cursor rt) 0 < rt.session.group_count := by
  have hgc : 0 < rt.session.group_count := List.length_pos.mpr hs.some_group
  have hcap : rt.session.group_count ≤ cfg.MAX_GROUPS := hs.gcap
  have hcur : next_cursor rt < rt.session.group_count := by
    unfold next_cursor
    split
    · exact hgc
    · omega
  have hperm : (next_group_order cfg rt).length = cfg.MAX_GROUPS ∧
      ((next_group_order cfg rt).take rt.session.group_count).Perm
        (List.range rt.session.group_count) := by
    unfold next_group_order
    split
    · obtain ⟨h1, h2, -⟩ := rng_shuffle_spec cfg cfg.MAX_GROUPS rt.rng rt.group_order
        rt.session.group_count (by rw [hgl]; exact hcap)
      exact ⟨by rw [rng_shuffle_groups, h1, hgl], h2.trans hgp⟩
    · exact ⟨hgl, hgp⟩
  refine ⟨hperm.1, hperm.2, hcur, ?_⟩
  have hm := perm_take_getD_mem _ _ _ _ hperm.2 hcur (by rw [hperm.1]; exact hcap)
  exact List.mem_range.mp hm

theorem shuffled_items_spec (cfg : RunConfig) (rng : Rng) (order : List Nat) (g : Group)
    (hl : order.length = cfg.MAX_ITEMS_TOTAL) (hc : g.item_count ≤ cfg.MAX_ITEMS_TOTAL)
    (hp : (order.take g.item_count).Perm (List.range' g.item_start g.item_count)) :
    (rng_shuffle_items cfg rng order g.item_count).1.length = cfg.MAX_ITEMS_TOTAL ∧
      ((rng_shuffle_items cfg rng order g.item_count).1.take g.item_count).Perm
        (List.range' g.item_start g.item_count) := by
  obtain ⟨h1, h2, -⟩ := rng_shuffle_spec cfg cfg.MAX_ITEMS_TOTAL rng order g.item_count
    (by rw [hl]; exact hc)
  exact ⟨by rw [rng_shuffle_items, h1, hl], h2.trans hp⟩

theorem RtInv.advance (cfg : RunConfig) (rt : Runtime) (g : Group)
    (h : RtInv cfg rt) (hg : rt.group = some g) (hw : (rt.item_pos + 1) % U64 < g.item_count) :
    RtInv cfg { rt with item_pos := (rt.item_pos + 1) % U64,
                        item_index := rt.item_order.getD ((rt.item_pos + 1) % U64) 0 } :=
  ⟨h.go_len, h.go_perm, h.io_len, h.pos_le, h.gi_lt, h.active, h.io_perm,
    fun g1 hg1 => by
      have e : g1 = g := by
        have h2 : rt.group = some g1 := hg1
        rw [hg] at h2; cases h2; rfl
      subst e; exact hw,
    rfl⟩

theorem RtInv.wrap (cfg : RunConfig) (rt : Runtime) (g : Group) (hs : SessionOK cfg rt.session)
    (h : RtInv cfg rt) (hg : rt.group = some g) :
    RtInv cfg { rt with
      item_pos := 0,
      item_order := (rng_shuffle_items cfg rt.rng rt.item_order g.item_count).1,
      rng := (rng_shuffle_items cfg rt.rng rt.item_order g.item_count).2,
      item_index := (rng_shuffle_items cfg rt.rng rt.item_order g.item_count).1.getD 0 0 } := by
  have hmem := h.group_mem cfg rt g hg
  have hcnt : g.item_count ≤ cfg.MAX_ITEMS_TOTAL := by
    have := (hs.filled g hmem).2
    have := hs.icap
    omega
  obtain ⟨h1, h2⟩ := shuffled_items_spec cfg rt.rng rt.item_order g h.io_len hcnt
    (h.io_perm g hg)
  refine ⟨h.go_len, h.go_perm, h1, h.pos_le, h.gi_lt, h.active, ?_, ?_, rfl⟩
  · intro g1 hg1
    have e : g1 = g := by
      have h3 : rt.group = some g1 := hg1
      rw [hg] at h3; cases h3; rfl
    subst e; exact h2
  · intro g1 hg1
    have e : g1 = g := by
      have h3 : rt.group = some g1 := hg1
      rw [hg] at h3; cases h3; rfl
    subst e
    exact (hs.filled g1 hmem).1

theorem switch_state (cfg : RunConfig) (rt : Runtime) (env : Tick) (now : Nat)
    (hs : SessionOK cfg rt.session) (h : RtInv cfg rt)
    (hsel : (select_next_group cfg rt env.log_shuffle_groups).1 = 0)
    (ha : (advance_prompt cfg
      { (select_next_group cfg rt env.log_shuffle_groups).2 with pending_switch := 0 }
      1 env).1 = 0)
    (hclock : env.timer_clock = some now) :
    ∃ g, rt.session.groups[(next_group_order cfg rt).getD (next_cursor rt) 0]? = some g ∧
      (advance_prompt cfg
        { (select_next_group cfg rt env.log_shuffle_groups).2 with pending_switch := 0 }
        1 env).2 =
      { rt with
        group_order := next_group_order cfg rt,
        group_index := (next_group_order cfg rt).getD (next_cursor rt) 0,
        order_pos := next_cursor rt + 1,
        group := some g,
        pending_switch := 0,
        item_order := (rng_shuffle_items cfg (next_group_rng cfg rt)
          (init_item_order cfg g rt.item_order) g.item_count).1,
        rng := (rng_shuffle_items cfg (next_group_rng cfg rt)
          (init_item_order cfg g rt.item_order) g.item_count).2,
        item_pos := 0,
        group_end := (now + g.seconds * 1000) % U64,
        item_index := (rng_shuffle_items cfg (next_group_rng cfg rt)
          (init_item_order cfg g rt.item_order) g.item_count).1.getD 0 0 } := by
  obtain ⟨-, -, hcur, hgi⟩ := next_group_order_spec cfg rt hs h.go_len h.go_perm
  have hgi' : (next_group_order cfg rt).getD (next_cursor rt) 0 < rt.session.groups.length := hgi
  have hmod : (next_cursor rt + 1) % U64 = next_cursor rt + 1 := by
    apply Nat.mod_eq_of_lt
    have h1 := hs.gcap
    have h2 := hs.gsmall
    have h3 : rt.session.group_count = rt.session.groups.length := rfl
    omega
  refine ⟨rt.session.groups.getD ((next_group_order cfg rt).getD (next_cursor rt) 0)
    ⟨0, 0, 0, 0, 0⟩, ?_, ?_⟩
  · rw [List.getD_eq_getElem _ _ hgi', List.getElem?_eq_getElem hgi']
  · rw [select_next_group_ok cfg rt _ hsel] at ha ⊢
    rw [advance_prompt_switch_ok cfg _ env _ now rfl hclock ha, hmod]

theorem switch_clock (cfg : RunConfig) (rt : Runtime) (env : Tick)
    (ha : (advance_prompt cfg rt 1 env).1 = 0) : ∃ now, env.timer_clock = some now := by
  cases hc : env.timer_clock with
  | some now => exact ⟨now, rfl⟩
  | none =>
    exfalso
    cases hg : rt.group with
    | none =>
      unfold advance_prompt at ha
      rw [hg] at ha
      simp at ha
    | some g =>
      have hcnt := advance_prompt_count cfg rt 1 env g hg ha
      rw [advance_prompt_some cfg rt 1 env g hg hcnt] at ha
      have h1 : ((1 : Int) != 0) = true := by decide
      rw [if_pos h1, hc] at ha
      have ht : ∀ r : Runtime, (update_group_timer r none).1 = -1 := by
        intro r
        unfold update_group_timer
        split
        · rfl
        · split <;> rfl
      rw [ht] at ha
      simp at ha

theorem RtInv.switch (cfg : RunConfig) (rt : Runtime) (g : Group) (e : Nat)
    (hs : SessionOK cfg rt.session) (hgl : rt.group_order.length = cfg.MAX_GROUPS)
    (hgp : (rt.group_order.take rt.session.group_count).Perm
      (List.range rt.session.group_count))
    (hil : rt.item_order.length = cfg.MAX_ITEMS_TOTAL)
    (hg : rt.session.groups[(next_group_order cfg rt).getD (next_cursor rt) 0]? = some g) :
    RtInv cfg { rt with
        group_order := next_group_order cfg rt,
        group_index := (next_group_order cfg rt).getD (next_cursor rt) 0,
        order_pos := next_cursor rt + 1,
        group := some g,
        pending_switch := 0,
        item_order := (rng_shuffle_items cfg (next_group_rng cfg rt)
          (init_item_order cfg g rt.item_order) g.item_count).1,
        rng := (rng_shuffle_items cfg (next_group_rng cfg rt)
          (init_item_order cfg g rt.item_order) g.item_count).2,
        item_pos := 0,
        group_end := e,
        item_index := (rng_shuffle_items cfg (next_group_rng cfg rt)
          (init_item_order cfg g rt.item_order) g.item_count).1.getD 0 0 } := by
  obtain ⟨hlen, hperm, hcur, hgi⟩ := next_group_order_spec cfg rt hs hgl hgp
  have hmem : g ∈ rt.session.groups := List.getElem?_mem hg
  have hfill := hs.filled g hmem
  have hcnt : g.item_count ≤ cfg.MAX_ITEMS_TOTAL := by
    have := hs.icap
    omega
  obtain ⟨hi1, hi2⟩ := init_item_order_spec cfg g rt.item_order hil hcnt (by
    have := hs.icap
    have := hs.ismall
    omega)
  obtain ⟨h1, h2⟩ := shuffled_items_spec cfg (next_group_rng cfg rt)
    (init_item_order cfg g rt.item_order) g hi1 hcnt (by rw [hi2])
  refine ⟨hlen, hperm, h1, hcur, hgi, hg.symm, ?_, ?_, rfl⟩
  · intro g1 hg1
    have e1 : g1 = g := by
      have h3 : some g = some g1 := hg1
      cases h3; rfl
    subst e1; exact h2
  · intro g1 hg1
    have e1 : g1 = g := by
      have h3 : some g = some g1 := hg1
      cases h3; rfl
    subst e1
    exact hfill.1

theorem RtInv.has_group (cfg : RunConfig) (rt : Runtime) (h : RtInv cfg rt) :
    ∃ g, rt.group = some g ∧ g ∈ rt.session.groups := by
  have hlt : rt.group_index < rt.session.groups.length := h.gi_lt
  have ha := h.active
  rw [List.getElem?_eq_getElem hlt] at ha
  exact ⟨_, ha, h.group_mem cfg rt _ ha⟩

theorem handle_key_inv (cfg : RunConfig) (rt : Runtime) (key adv : Int) (env : Tick)
    (hs : SessionOK cfg rt.session) (h : RtInv cfg rt)
    (hrc : 0 ≤ (handle_key cfg rt key adv env).1) :
    RtInv cfg (handle_key cfg rt key adv env).2.1 ∧
      (handle_key cfg rt key adv env).2.1.session = rt.session := by
  obtain ⟨g, hg, hmem⟩ := h.has_group cfg rt
  rcases handle_key_nonneg cfg rt key adv env hrc with e | ⟨-, -, -, hcase⟩
  · rw [e]; exact ⟨h, rfl⟩
  · rcases hcase with ⟨-, ha, e⟩ | ⟨-, hsel, ha, e⟩
    · rw [e]
      have hc := advance_prompt_count cfg rt 0 env g hg ha
      by_cases hw : (rt.item_pos + 1) % U64 < g.item_count
      · rw [advance_prompt_next_ok cfg rt env g hg hc hw]
        exact ⟨h.advance cfg rt g hg hw, rfl⟩
      · rw [advance_prompt_wrap_ok cfg rt env g hg (by omega) ha]
        exact ⟨h.wrap cfg rt g hs hg, rfl⟩
    · rw [e]
      obtain ⟨now, hclock⟩ := switch_clock cfg _ env ha
      obtain ⟨g1, hg1, e1⟩ := switch_state cfg rt env now hs h hsel ha hclock
      rw [e1]
      exact ⟨RtInv.switch cfg rt g1 _ hs h.go_len h.go_perm h.io_len hg1, rfl⟩

theorem init_runtime_ok (cfg : RunConfig) (s : Session) (rng : Rng) (go io : List Nat)
    (log : Bool) (env : Tick) (h : (init_runtime cfg s rng go io log env).1 = 0) :
    ∃ g now,
      (init_runtime cfg s rng go io log env).2 =
        { session := s,
          rng := (rng_shuffle_items cfg
            (rng_shuffle_groups cfg rng (init_group_order cfg s go) s.group_count).2
            (init_item_order cfg g io) g.item_count).2,
          group_order := (rng_shuffle_groups cfg rng (init_group_order cfg s go) s.group_count).1,
          item_order := (rng_shuffle_items cfg
            (rng_shuffle_groups cfg rng (init_group_order cfg s go) s.group_count).2
            (init_item_order cfg g io) g.item_count).1,
          order_pos := 1,
          group_index :=
            (rng_shuffle_groups cfg rng (init_group_order cfg s go) s.group_count).1.getD 0 0,
          group := some g,
          item_pos := 0,
          item_index := (rng_shuffle_items cfg
            (rng_shuffle_groups cfg rng (init_group_order cfg s go) s.group_count).2
            (init_item_order cfg g io) g.item_count).1.getD 0 0,
          group_end := (now + g.seconds * 1000) % U64,
          pending_switch := 0,
          log := log } ∧
      g = s.groups.getD
        ((rng_shuffle_groups cfg rng (init_group_order cfg s go) s.group_count).1.getD 0 0)
        ⟨0, 0, 0, 0, 0⟩ ∧
      s.group_count ≠ 0 ∧ env.timer_clock = some now := by
  unfold init_runtime at h ⊢
  dsimp only at h ⊢
  generalize rng_shuffle_groups cfg rng (init_group_order cfg s go) s.group_count = G at h ⊢
  by_cases c0 : (s.group_count == 0) = true
  · rw [if_pos c0] at h; simp at h
  · rw [if_neg c0] at h ⊢
    have hgc : s.group_count ≠ 0 := by simpa using c0
    have hsel : ∀ r : Runtime, r.session = s → r.order_pos = 0 →
        select_next_group cfg r env.log_shuffle_groups =
          (0, { r with group_index := r.group_order.getD 0 0, order_pos := 1,
                       group := some (s.groups.getD (r.group_order.getD 0 0) ⟨0, 0, 0, 0, 0⟩) }) := by
      intro r hr1 hr2
      unfold select_next_group
      rw [hr1, hr2, if_neg c0, if_neg (by omega)]
      have : (0 + 1) % U64 = 1 := by decide
      rw [this]
    rw [hsel _ rfl rfl] at h ⊢
    dsimp only at h ⊢
    simp only [bne_self_eq_false, Bool.false_eq_true, if_false] at h ⊢
    generalize s.groups.getD (G.1.getD 0 0) ⟨0, 0, 0, 0, 0⟩ = g at h ⊢
    by_cases c1 : (g.item_count == 0) = true
    · rw [if_pos c1] at h; simp at h
    · rw [if_neg c1] at h ⊢
      have hc : g.item_count ≠ 0 := by simpa using c1
      rw [select_next_item_ok _ _ rfl hc (Nat.pos_of_ne_zero hc)] at h ⊢
      dsimp only at h ⊢
      simp only [bne_self_eq_false, Bool.false_eq_true, if_false] at h ⊢
      split at h
      · simp at h
      · rename_i c2
        rw [if_neg c2]
        split at h
        · simp at h
        · rename_i c3
          rw [if_neg c3]
          cases hclock : env.timer_clock with
          | none =>
            exfalso
            rw [hclock] at h
            have ht : ∀ r : Runtime, (update_group_timer r none).1 = -1 := by
              intro r
              unfold update_group_timer
              split
              · rfl
              · split <;> rfl
            rw [ht] at h
            simp at h
          | some now =>
            rw [hclock] at h
            by_cases hsec : g.seconds = 0
            · exfalso
              rw [update_group_timer_zero _ hsec] at h
              · simp at h
              · rfl
            · rw [update_group_timer_some _ now hsec]
              · exact ⟨_, now, rfl, rfl, hgc, rfl⟩
              · rfl

theorem init_runtime_inv (cfg : RunConfig) (s : Session) (rng : Rng) (go io : List Nat)
    (log : Bool) (env : Tick) (hs : SessionOK cfg s) (hgo : go.length = cfg.MAX_GROUPS)
    (hio : io.length = cfg.MAX_ITEMS_TOTAL)
    (h : (init_runtime cfg s rng go io log env).1 = 0) :
    RtInv cfg (init_runtime cfg s rng go io log env).2 ∧
      (init_runtime cfg s rng go io log env).2.session = s := by
  obtain ⟨g, now, e, hg, hgc, -⟩ := init_runtime_ok cfg s rng go io log env h
  rw [e]
  refine ⟨?_, rfl⟩
  obtain ⟨hi1, hi2⟩ := init_group_order_spec cfg s go hgo hs.gcap
  obtain ⟨hG1, hG2, -⟩ := rng_shuffle_spec cfg cfg.MAX_GROUPS rng (init_group_order cfg s go)
    s.group_count (by rw [hi1]; exact hs.gcap)
  rw [hi2] at hG2
  have hGlen : (rng_shuffle_groups cfg rng (init_group_order cfg s go) s.group_count).1.length
      = cfg.MAX_GROUPS := by rw [rng_shuffle_groups, hG1, hi1]
  have hgi : (rng_shuffle_groups cfg rng (init_group_order cfg s go) s.group_count).1.getD 0 0
      < s.group_count :=
    List.mem_range.mp (perm_take_getD_mem _ _ _ _ hG2 (Nat.pos_of_ne_zero hgc)
      (by rw [hGlen]; exact hs.gcap))
  have hgi' : (rng_shuffle_groups cfg rng (init_group_order cfg s go) s.group_count).1.getD 0 0
      < s.groups.length := hgi
  have hact : s.groups[(rng_shuffle_groups cfg rng (init_group_order cfg s go)
      s.group_count).1.getD 0 0]? = some g := by
    rw [hg, List.getD_eq_getElem _ _ hgi', List.getElem?_eq_getElem hgi']
  have hmem : g ∈ s.groups := List.getElem?_mem hact
  have hfill := hs.filled g hmem
  have hcnt : g.item_count ≤ cfg.MAX_ITEMS_TOTAL := by
    have := hs.icap
    omega
  obtain ⟨hj1, hj2⟩ := init_item_order_spec cfg g io hio hcnt (by
    have := hs.icap
    have := hs.ismall
    omega)
  obtain ⟨h1, h2⟩ := shuffled_items_spec cfg
    (rng_shuffle_groups cfg rng (init_group_order cfg s go) s.group_count).2
    (init_item_order cfg g io) g hj1 hcnt (by rw [hj2])
  refine ⟨hGlen, hG2, h1, Nat.pos_of_ne_zero hgc, hgi, hact.symm, ?_, ?_, rfl⟩
  · intro g1 hg1
    have e1 : g1 = g := by
      have h3 : some g = some g1 := hg1
      cases h3; rfl
    subst e1; exact h2
  · intro g1 hg1
    have e1 : g1 = g := by
      have h3 : some g = some g1 := hg1
      cases h3; rfl
    subst e1
    exact hfill.1

theorem reach_inv (cfg : RunConfig) (s : Session) (rt : Runtime) (hs : SessionOK cfg s)
    (h : Reachable cfg s rt) : RtInv cfg rt ∧ rt.session = s := by
  induction h with
  | init rng go io log env hgo hio hrc => exact init_runtime_inv cfg s rng go io log env hs hgo hio hrc
  | expiry rt rem clock ok _ _ ih =>
    refine ⟨ih.1.update_expiry cfg rt rem clock ok, ?_⟩
    rcases update_expiry_runtime rt rem clock ok with e | e
    · rw [e]; exact ih.2
    · rw [e]; exact ih.2
  | key rt key adv env _ hrc ih =>
    have hs' : SessionOK cfg rt.session := by rw [ih.2]; exact hs
    obtain ⟨h1, h2⟩ := handle_key_inv cfg rt key adv env hs' ih.1 hrc
    exact ⟨h1, h2.trans ih.2⟩

theorem handle_key_advanced (cfg : RunConfig) (rt : Runtime) (key : Int) (env : Tick)
    (hp : rt.pending_switch = 0)
    (h : (handle_key cfg rt key 0 env).1 = 0 ∧ (handle_key cfg rt key 0 env).2.2 = 1) :
    is_advance_key key = true ∧ (advance_prompt cfg rt 0 env).1 = 0 ∧
      (handle_key cfg rt key 0 env).2.1 = (advance_prompt cfg rt 0 env).2 := by
  obtain ⟨h1, h2⟩ := h
  cases hg : rt.group with
  | none =>
    rw [handle_key_none cfg rt key 0 env hg] at h1
    simp at h1
  | some g =>
    rw [handle_key_some cfg rt key 0 env g hg] at h1 h2 ⊢
    have hpb : (rt.pending_switch != 0) = false := by simpa using hp
    by_cases c1 : (rt.log && !env.log_key) = true
    · rw [if_pos c1] at h1; simp at h1
    · rw [if_neg c1] at h1 h2 ⊢
      by_cases c2 : (key == 3) = true
      · rw [if_pos c2] at h1; simp at h1
      · rw [if_neg c2] at h1 h2 ⊢
        by_cases c3 : (!is_advance_key key) = true
        · rw [if_pos c3] at h2; simp at h2
        · rw [if_neg c3] at h1 h2 ⊢
          have hk : is_advance_key key = true := by simpa using c3
          rw [hpb] at h1 h2 ⊢
          simp only [Bool.false_eq_true, if_false] at h1 h2 ⊢
          by_cases c4 : ((advance_prompt cfg rt 0 env).1 != 0) = true
          · rw [if_pos c4] at h1; simp at h1
          · rw [if_neg c4]
            exact ⟨hk, by simpa using c4, rfl⟩

theorem shown_items_run (cfg : RunConfig) (g : Group) :
    ∀ (keys : List (Int × Tick)) (rt : Runtime) (r : List Nat × Runtime),
      SessionOK cfg rt.session → RtInv cfg rt → rt.pending_switch = 0 → rt.group = some g →
      rt.item_pos + keys.length < g.item_count → shown_items cfg keys rt = some r →
      r.1 = (rt.item_order.drop (rt.item_pos + 1)).take keys.length ∧
        RtInv cfg r.2 ∧ r.2.session = rt.session ∧ r.2.pending_switch = 0 ∧
        r.2.group = some g ∧ r.2.group_index = rt.group_index ∧
        r.2.item_pos = rt.item_pos + keys.length ∧
        r.2.item_order = rt.item_order ∧ r.2.rng = rt.rng := by
  intro keys
  induction keys with
  | nil =>
    intro rt r _ hinv hp hg _ h
    simp only [shown_items, Option.some.injEq] at h
    subst h
    exact ⟨by simp, hinv, rfl, hp, hg, rfl, rfl, rfl, rfl⟩
  | cons ke ks ih =>
    intro rt r hs hinv hp hg hlen h
    simp only [List.length_cons] at hlen
    rw [shown_items] at h
    split at h
    · rename_i hok
      obtain ⟨-, ha, e⟩ := handle_key_advanced cfg rt ke.1 ke.2 hp hok
      have hmem := hinv.group_mem cfg rt g hg
      have hfill := hs.filled g hmem
      have hU : g.item_count < U64 := by
        have := hs.icap
        have := hs.ismall
        omega
      have hmod : (rt.item_pos + 1) % U64 = rt.item_pos + 1 := Nat.mod_eq_of_lt (by omega)
      have hc : g.item_count ≠ 0 := by omega
      have hnext := advance_prompt_next_ok cfg rt ke.2 g hg hc (by omega)
      rw [hmod] at hnext
      rw [e, hnext] at h
      have hinv1 := hinv.advance cfg rt g hg (by omega)
      rw [hmod] at hinv1
      generalize hrt1 : ({ rt with
          item_pos := rt.item_pos + 1,
          item_index := rt.item_order.getD (rt.item_pos + 1) 0 } : Runtime) = rt1 at h hinv1
      have f1 : rt1.session = rt.session := by rw [← hrt1]
      have f2 : rt1.pending_switch = 0 := by rw [← hrt1]; exact hp
      have f3 : rt1.group = some g := by rw [← hrt1]; exact hg
      have f4 : rt1.item_pos = rt.item_pos + 1 := by rw [← hrt1]
      have f5 : rt1.item_order = rt.item_order := by rw [← hrt1]
      have f6 : rt1.rng = rt.rng := by rw [← hrt1]
      have f7 : rt1.group_index = rt.group_index := by rw [← hrt1]
      have f8 : rt1.item_index = rt.item_order.getD (rt.item_pos + 1) 0 := by rw [← hrt1]
      cases hrec : shown_items cfg ks rt1 with
      | none => rw [hrec] at h; cases h
      | some r1 =>
        rw [hrec] at h
        simp only [Option.some.injEq] at h
        subst h
        obtain ⟨a1, a2, a3, a4, a5, a6, a7, a8, a9⟩ := ih rt1 r1 (by rw [f1]; exact hs) hinv1 f2 f3
          (by rw [f4]; omega) hrec
        have hlt : rt.item_pos + 1 < rt.item_order.length := by
          rw [hinv.io_len]
          have := hs.icap
          omega
        refine ⟨?_, a2, a3.trans f1, a4, a5, a6.trans f7, ?_, a8.trans f5, a9.trans f6⟩
        · show rt1.item_index :: r1.1 = _
          rw [a1, f8, f4, f5, List.length_cons, List.drop_eq_getElem_cons hlt,
            List.take_succ_cons, List.getD_eq_getElem _ _ hlt]
        · rw [a7, f4, List.length_cons]
          omega
    · cases h

theorem take_eq_head_cons (l : List Nat) (n : Nat) (h : 0 < l.length) :
    l.take (n + 1) = l.getD 0 0 :: (l.drop 1).take n := by
  cases l with
  | nil => simp at h
  | cons a t => simp

theorem handle_key_wrap (cfg : RunConfig) (rt : Runtime) (key : Int) (env : Tick) (g : Group)
    (hp : rt.pending_switch = 0) (hg : rt.group = some g)
    (hw : g.item_count ≤ (rt.item_pos + 1) % U64)
    (h : (handle_key cfg rt key 0 env).1 = 0 ∧ (handle_key cfg rt key 0 env).2.2 = 1) :
    (handle_key cfg rt key 0 env).2.1 =
      { rt with
        item_pos := 0,
        item_order := (rng_shuffle_items cfg rt.rng rt.item_order g.item_count).1,
        rng := (rng_shuffle_items cfg rt.rng rt.item_order g.item_count).2,
        item_index := (rng_shuffle_items cfg rt.rng rt.item_order g.item_count).1.getD 0 0 } := by
  obtain ⟨-, ha, e⟩ := handle_key_advanced cfg rt key env hp h
  rw [e, advance_prompt_wrap_ok cfg rt env g hg hw ha]

theorem handle_key_switched (cfg : RunConfig) (rt : Runtime) (key adv : Int) (env : Tick)
    (g : Group) (hg : rt.group = some g) (hp : rt.pending_switch ≠ 0)
    (hk : is_advance_key key = true) (h : (handle_key cfg rt key adv env).1 = 0) :
    (select_next_group cfg rt env.log_shuffle_groups).1 = 0 ∧
      (advance_prompt cfg
        { (select_next_group cfg rt env.log_shuffle_groups).2 with pending_switch := 0 }
        1 env).1 = 0 ∧
      (handle_key cfg rt key adv env).2.1 =
        (advance_prompt cfg
          { (select_next_group cfg rt env.log_shuffle_groups).2 with pending_switch := 0 }
          1 env).2 ∧
      (handle_key cfg rt key adv env).2.2 = 1 := by
  have h3 : (key == 3) = false := by
    apply beq_false_of_ne
    intro hc
    rw [hc] at hk
    exact absurd hk (by decide)
  have hpb : (rt.pending_switch != 0) = true := by simpa using hp
  rw [handle_key_some cfg rt key adv env g hg] at h ⊢
  by_cases c1 : (rt.log && !env.log_key) = true
  · rw [if_pos c1] at h; simp at h
  · rw [if_neg c1] at h ⊢
    simp only [h3, hk, hpb, Bool.false_eq_true, if_false, Bool.not_true, if_true] at h ⊢
    by_cases c5 : ((select_next_group cfg rt env.log_shuffle_groups).1 != 0) = true
    · rw [if_pos c5] at h; simp at h
    · rw [if_neg c5] at h ⊢
      by_cases c6 : ((advance_prompt cfg
          { (select_next_group cfg rt env.log_shuffle_groups).2 with
            pending_switch := 0 } 1 env).1 != 0) = true
      · rw [if_pos c6] at h; simp at h
      · rw [if_neg c6]
        exact ⟨by simpa using c5, by simpa using c6, rfl, rfl⟩

theorem update_expiry_open (rt : Runtime) (g : Group) (now : Nat) (ok : Bool)
    (hg : rt.group = some g) (hp : rt.pending_switch = 0)
    (h : (update_expiry rt 0 (some now) ok).2.1.pending_switch = 0) :
    now < rt.group_end ∧ update_expiry rt 0 (some now) ok = (0, rt, rt.group_end - now) := by
  by_cases hn : rt.group_end ≤ now
  · exfalso
    rw [update_expiry_due rt g 0 now ok hg hp hn] at h
    have h1 : (1 : Int) = 0 := h
    exact absurd h1 (by decide)
  · exact ⟨by omega, update_expiry_early rt g 0 now ok hg hp (by omega)⟩

theorem greetings_session_ok : SessionOK run_demo greetings_session :=
  session_ok_of_parse run_demo greetings_file greetings_session (by decide) (by decide)
    (by decide) rfl

theorem greetings_reachable : Reachable run_demo greetings_session greetings_runtime :=
  Reachable.init { state := 12345 } (List.replicate 4 0) (List.replicate 8 0) false
    (key_tick 0 32) rfl rfl (by decide)

theorem greetings_expired_reachable : Reachable run_demo greetings_session greetings_expired :=
  Reachable.expiry greetings_runtime 0 (some 5000) true greetings_reachable (by decide)

theorem greetings_inv : RtInv run_demo greetings_runtime :=
  (reach_inv run_demo greetings_session greetings_runtime greetings_session_ok
    greetings_reachable).1

theorem greetings_expired_inv : RtInv run_demo greetings_expired :=
  (reach_inv run_demo greetings_session greetings_expired greetings_session_ok
    greetings_expired_reachable).1

theorem quiet_pass_wait (cfg : RunConfig) (env : Nat → Tick) (fuel t : Nat) (rt rt1 : Runtime)
    (h : quiet_pass cfg rt (env t) = some rt1) :
    wait_loop cfg env (fuel + 1) t rt 0 = wait_loop cfg env fuel (t + 1) rt1 0 := by
  unfold quiet_pass at h
  dsimp only at h
  rw [wait_loop]
  dsimp only
  split at h
  · exact absurd h (by simp)
  · rename_i hu
    rw [if_neg hu]
    split at h
    · exact absurd h (by simp)
    · rename_i hr
      rw [if_neg hr]
      split at h
      · rename_i hr0
        rw [if_pos hr0]
        cases h
        rfl
      · rename_i hr0
        rw [if_neg hr0]
        split at h
        · rename_i hh
          simp only [Bool.and_eq_true, beq_iff_eq] at hh
          cases h
          rw [if_neg (by omega), if_neg (by omega), hh.2]
          simp
        · exact absurd h (by simp)

theorem quiet_passes_wait (cfg : RunConfig) (env : Nat → Tick) :
    ∀ (k fuel t : Nat) (rt rtk : Runtime), quiet_passes cfg env k t rt = some rtk →
      wait_loop cfg env (k + fuel) t rt 0 = wait_loop cfg env fuel (t + k) rtk 0 := by
  intro k
  induction k with
  | zero =>
    intro fuel t rt rtk h
    simp only [quiet_passes, Option.some.injEq] at h
    subst h
    simp
  | succ k ih =>
    intro fuel t rt rtk h
    rw [quiet_passes] at h
    split at h
    · exact absurd h (by simp)
    · rename_i rt1 h1
      have e : k + 1 + fuel = (k + fuel) + 1 := by omega
      rw [e, quiet_pass_wait cfg env (k + fuel) t rt rt1 h1, ih fuel (t + 1) rt1 rtk h]
      have e2 : t + 1 + k = t + (k + 1) := by omega
      rw [e2]

theorem quiet_pass_read (cfg : RunConfig) (rt rt1 : Runtime) (e : Tick)
    (h : quiet_pass cfg rt e = some rt1) : quiet_read e.read := by
  unfold quiet_pass at h
  dsimp only at h
  split at h
  · exact absurd h (by simp)
  · split at h
    · exact absurd h (by simp)
    · rename_i hr
      split at h
      · rename_i hr0
        left
        unfold read_key at hr0
        split at hr0
        · simp at hr0
        · cases hev : e.read with
          | failure => rw [hev] at hr0; simp [term_read_key_timeout] at hr0
          | nothing => rfl
          | byte ch => rw [hev] at hr0; simp [term_read_key_timeout] at hr0
      · rename_i hr0
        split at h
        · rename_i hh
          simp only [Bool.and_eq_true, beq_iff_eq] at hh
          cases hev : e.read with
          | failure =>
            rw [hev] at hr
            exfalso
            apply hr
            unfold read_key
            split <;> simp [term_read_key_timeout]
          | nothing =>
            left; rfl
          | byte ch =>
            right
            rw [hev] at hh hr
            rcases read_key_byte (update_expiry rt 0 e.clock e.log_expired).2.1
              (update_expiry rt 0 e.clock e.log_expired).2.2 ch with hb | hb
            · exact absurd hb hr
            · rw [hb] at hh
              refine ⟨ch, rfl, ?_, ?_⟩
              · cases hk : is_advance_key ((ch % 256 : Nat) : Int) with
                | false => rfl
                | true =>
                  have := (handle_key_advancing cfg _ _ 0 e hk).2 hh.1
                  rw [this] at hh
                  exact absurd hh.2 (by decide)
              · intro h3
                have h3i : ((ch % 256 : Nat) : Int) = 3 := by omega
                rw [h3i] at hh
                have hrc := hh.1
                unfold handle_key at hrc
                split at hrc
                · simp at hrc
                · split at hrc
                  · simp at hrc
                  · simp at hrc
        · exact absurd h (by simp)

theorem quiet_passes_read (cfg : RunConfig) (env : Nat → Tick) :
    ∀ (k t : Nat) (rt rtk : Runtime), quiet_passes cfg env k t rt = some rtk →
      ∀ p, t ≤ p → p < t + k → quiet_read (env p).read := by
  intro k
  induction k with
  | zero => intro t rt rtk _ p h1 h2; omega
  | succ k ih =>
    intro t rt rtk h p h1 h2
    rw [quiet_passes] at h
    split at h
    · exact absurd h (by simp)
    · rename_i rt1 hq
      by_cases hp : p = t
      · subst hp
        exact quiet_pass_read cfg rt rt1 (env p) hq
      · exact ih (t + 1) rt1 rtk h p (by omega) (by omega)

theorem wait_loop_advance_pass (cfg : RunConfig) (env : Nat → Tick) (fuel t : Nat) (rt : Runtime)
    (key : Int)
    (hu : (update_expiry rt 0 (env t).clock (env t).log_expired).1 = 0)
    (hr : read_key (update_expiry rt 0 (env t).clock (env t).log_expired).2.1
      (update_expiry rt 0 (env t).clock (env t).log_expired).2.2 0 (env t).read = (1, key))
    (hk : is_advance_key key = true)
    (hh : (handle_key cfg (update_expiry rt 0 (env t).clock (env t).log_expired).2.1 key 0
      (env t)).1 = 0) :
    wait_loop cfg env (fuel + 1) t rt 0 =
      WaitResult.left 1
        (handle_key cfg (update_expiry rt 0 (env t).clock (env t).log_expired).2.1 key 0
          (env t)).2.1 (t + 1) := by
  have ha := (handle_key_advancing cfg _ key 0 (env t) hk).2 hh
  rw [wait_loop]
  dsimp only
  rw [hr]
  dsimp only
  rw [hu, hh, ha]
  simp

/-! ## The claims of the specification -/

/-- C1: whenever `parse_session_file` succeeds, the session has at least one
group and every group `groups[k]`, `k < group_count`, has at least one item
(for limits whose item count fits the 32-bit fields of `struct Group`). -/
theorem C1_every_group_has_items (cfg : Config) (file : List Nat) (s : Session)
    (hI : cfg.MAX_ITEMS_TOTAL < 2 ^ 32) (h : parse_session_file cfg file = .ok s) :
    1 ≤ s.group_count ∧
      ∀ k g, k < s.group_count → s.groups[k]? = some g → 1 ≤ g.item_count := by
  obtain ⟨-, hall, -, hne, -, -⟩ := parse_session_file_GInv hI h
  refine ⟨?_, fun k g _ hk => hall g (List.getElem?_mem hk)⟩
  exact List.length_pos.2 hne

theorem C1_every_group_has_items_witness :
    parse_session_file cfg0 greetings_file = .ok greetings_session ∧
      1 ≤ greetings_session.group_count ∧
      ∀ k g, k < greetings_session.group_count → greetings_session.groups[k]? = some g →
        1 ≤ g.item_count :=
  ⟨rfl, C1_every_group_has_items cfg0 greetings_file greetings_session (by decide) rfl⟩

/-- C2: after a successful parse every item `i < item_count` has a non-empty
span inside the buffer, its offset is the start of a line of the file, and the
bytes of the parsed buffer in the span are, unchanged, the bytes of the file in
that span, which are that line without one trailing carriage return; the items
follow one another in the order of their lines (for limits under which offsets
fit the 32-bit fields of `struct Item`). -/
theorem C2_item_text_round_trip (cfg : Config) (file : List Nat) (s : Session)
    (hF : cfg.MAX_FILE_BYTES < 2 ^ 32) (h : parse_session_file cfg file = .ok s) :
    (∀ k it, k < s.item_count → s.items[k]? = some it →
      0 < it.length ∧ it.offset + it.length ≤ s.buffer_len ∧
        is_line_start file it.offset ∧
        span s.buffer it.offset it.length = span file it.offset it.length ∧
        span s.buffer it.offset it.length = strip_cr (line_at file it.offset)) ∧
      s.items.Pairwise (fun a b => a.offset + a.length < b.offset) := by
  obtain ⟨st, hs, hfin⟩ := parse_session_file_Final hF h
  subst hs
  refine ⟨fun k it _ hk => ?_, hfin.ordered⟩
  have hok := hfin.items it (List.getElem?_mem hk)
  have hsp : span st.session.buffer it.offset it.length = span file it.offset it.length :=
    span_congr hok.kept
  refine ⟨hok.pos, by rw [hfin.blen]; exact hok.inside, hok.start, hsp, ?_⟩
  rw [hsp]; exact hok.text

theorem C2_item_text_round_trip_witness :
    parse_session_file cfg0 greetings_file = .ok greetings_session ∧
      (∀ k it, k < greetings_session.item_count → greetings_session.items[k]? = some it →
        0 < it.length ∧ it.offset + it.length ≤ greetings_session.buffer_len ∧
          is_line_start greetings_file it.offset ∧
          span greetings_session.buffer it.offset it.length =
            span greetings_file it.offset it.length ∧
          span greetings_session.buffer it.offset it.length =
            strip_cr (line_at greetings_file it.offset)) ∧
      greetings_session.items.Pairwise (fun a b => a.offset + a.length < b.offset) :=
  ⟨rfl, C2_item_text_round_trip cfg0 greetings_file greetings_session (by decide) rfl⟩

/-- C3: after a successful parse the groups cut the item sequence into
consecutive slices in file order: the first group starts at item 0, every
further group starts where the one before it ends, and the last group ends at
`item_count`; the example file of the specification parses to two groups of two
items each, starting at items 0 and 2, and four items (for limits whose item
count fits the 32-bit fields of `struct Group`). -/
theorem C3_groups_cut_items (cfg : Config) (file : List Nat) (s : Session)
    (hI : cfg.MAX_ITEMS_TOTAL < 2 ^ 32) (h : parse_session_file cfg file = .ok s) :
    (∀ g, s.groups[0]? = some g → g.item_start = 0) ∧
      (∀ k g g', k + 1 < s.group_count → s.groups[k]? = some g → s.groups[k + 1]? = some g' →
        g'.item_start = g.item_start + g.item_count) ∧
      (∀ g, s.groups[s.group_count - 1]? = some g →
        g.item_start + g.item_count = s.item_count) ∧
      (parse_session_file cfg0 greetings_file).toOption.map
          (fun r => (r.group_count, r.item_count,
            r.groups.map (fun g => (g.item_start, g.item_count)))) =
        some (2, 4, [(0, 2), (2, 2)]) := by
  obtain ⟨hch, -, -, hne, -, -⟩ := parse_session_file_GInv hI h
  refine ⟨fun g hg => ?_, fun k g g' _ hk hk' => chain_next hch hk hk', fun g hg => ?_, rfl⟩
  · cases hgs : s.groups with
    | nil => exact absurd hgs hne
    | cons x xs =>
      rw [hgs] at hch hg
      simp only [List.getElem?_cons_zero, Option.some.injEq] at hg
      subst hg
      exact chain_head hch
  · refine chain_last hch ?_
    rw [List.getLast?_eq_getElem?]
    exact hg

theorem C3_groups_cut_items_witness :
    parse_session_file cfg0 greetings_file = .ok greetings_session ∧
      (∀ g, greetings_session.groups[0]? = some g → g.item_start = 0) ∧
      (∀ k g g', k + 1 < greetings_session.group_count →
        greetings_session.groups[k]? = some g → greetings_session.groups[k + 1]? = some g' →
        g'.item_start = g.item_start + g.item_count) ∧
      (∀ g, greetings_session.groups[greetings_session.group_count - 1]? = some g →
        g.item_start + g.item_count = greetings_session.item_count) ∧
      (parse_session_file cfg0 greetings_file).toOption.map
          (fun r => (r.group_count, r.item_count,
            r.groups.map (fun g => (g.item_start, g.item_count)))) =
        some (2, 4, [(0, 2), (2, 2)]) :=
  ⟨rfl, C3_groups_cut_items cfg0 greetings_file greetings_session (by decide) rfl⟩

/-- C4 (as stated, refuted): the seconds field `"+5"` does not consist solely
of decimal digits, yet the header `"[A|+5]"` is accepted, with 5 seconds.  Two
more fields that are not digit strings are accepted with 5 seconds:
`"-18446744073709551611"`, which `strtoul` negates in `unsigned long`, and
`"5"` followed by `'\0'` and `"z"`, which `strtoul` reads up to the `'\0'`. -/
theorem C4_signed_seconds_accepted :
    parse_session_file cfg0 signed_file = .ok signed_session ∧
      signed_session.groups.map (fun g => g.seconds) = [5] ∧
      ¬ (∀ c ∈ ascii "+5", isdigit c = true) ∧
      (parse_session_file cfg0 (ascii "[A|-18446744073709551611]\nx")).toOption.map
          (fun s => s.groups.map (fun g => g.seconds)) = some [5] ∧
      (parse_session_file cfg0 (ascii "[A|5\x00z]\nx")).toOption.map
          (fun s => s.groups.map (fun g => g.seconds)) = some [5] :=
  ⟨rfl, rfl, by decide, rfl, rfl⟩

/-- C4 (amended): let the line `[name|S]` be reached without an earlier error,
with a name that has no `'|'` and is not empty after trimming, at most
`MAX_LINE_LEN` bytes, no empty group open and fewer than `MAX_GROUPS` groups,
and let the trimmed `S` have no `'\0'` and no leading `'-'`.  The line is
accepted if and only if the trimmed `S`, after one optional `'+'`, is a
non-empty sequence of decimal digits whose value lies in `[1, 86400]`; then the
new group has that value as its seconds; otherwise the parse fails at that line,
with `"invalid seconds value"` when the trimmed `S` is not empty and with
`"malformed header"` when it is.  Every group of a parsed session has
`1 ≤ seconds ≤ 86400`. -/
theorem C4_seconds_validation (cfg : Config) (file pre ln post : List Nat) (st : LoopState)
    (nm sc : List Nat) (hF : cfg.MAX_FILE_BYTES < 2 ^ 32) (hI : cfg.MAX_ITEMS_TOTAL < 2 ^ 32)
    (hat : AtLine cfg file pre ln post st)
    (hbody : strip_cr ln = 91 :: (nm ++ 124 :: (sc ++ [93])))
    (hpipe : 124 ∉ nm) (hname : trim nm ≠ [])
    (hlen : (strip_cr ln).length ≤ cfg.MAX_LINE_LEN)
    (hprev : current_is_empty st.session.groups st.current = false)
    (hroom : st.session.groups.length < cfg.MAX_GROUPS)
    (hnul : 0 ∉ trim sc) (hminus : (trim sc).head? ≠ some 45) :
    ((∃ st1, line_step cfg st (pre.length + ln.length) = .ok st1) ↔ sec_valid (trim sc)) ∧
      (∀ st1, line_step cfg st (pre.length + ln.length) = .ok st1 →
        ∃ g, st1.session.groups = st.session.groups ++ [g] ∧
          g.seconds = digits_value (sec_digits (trim sc))) ∧
      (¬ sec_valid (trim sc) →
        parse_session_file cfg file =
          .error (set_error_line (pre.count 10 + 1)
            (if trim sc = [] then "malformed header" else "invalid seconds value"))) ∧
      (∀ s, parse_session_file cfg file = .ok s →
        ∀ g ∈ s.groups, 1 ≤ g.seconds ∧ g.seconds ≤ 86400) := by
  have hlast : ∀ s, parse_session_file cfg file = .ok s →
      ∀ g ∈ s.groups, 1 ≤ g.seconds ∧ g.seconds ≤ 86400 := fun s hs =>
    (parse_session_file_GInv hI hs).2.2.1
  obtain ⟨-, hv⟩ := hat.view hF hI
  have h91 : ln.head? = some 91 := head?_of_strip_cr (by rw [hbody]; rfl)
  by_cases hsc : trim sc = []
  · have hnv : ¬ sec_valid (trim sc) := by
      rw [hsc]
      intro h
      exact h.1 rfl
    have hstep : line_step cfg st (pre.length + ln.length) =
        .error (set_error_line (pre.count 10 + 1) "malformed header") := by
      rw [hat.header_step hF hI hlen h91, hprev]
      simp only [Bool.false_eq_true, if_false]
      rw [hbody] at hv hlen ⊢
      rw [parse_header_line_empty_field hv hlen hpipe (Or.inr hsc)]
    refine ⟨⟨fun ⟨st1, h1⟩ => ?_, fun h => absurd h hnv⟩, fun st1 h1 => ?_, fun _ => ?_, hlast⟩
    · rw [hstep] at h1; cases h1
    · rw [hstep] at h1; cases h1
    · rw [if_pos hsc]; exact hat.parse_error hF hI hstep
  · obtain ⟨wl, wr, hnm, hwl, hwr, ht⟩ := trim_decomp nm hname
    obtain ⟨vl, vr, hsce, hvl, hvr, hu⟩ := trim_decomp sc hsc
    generalize trim nm = t at hnm ht hname
    generalize trim sc = u at hsce hu hsc hnul hminus ⊢
    subst hnm hsce
    obtain ⟨hiff, hval⟩ := seconds_accepted_iff hu hnul hminus
    obtain ⟨hrej, -, hok⟩ :=
      hat.header_fields hF hI hbody hlen hpipe hwl hwr ht hvl hvr hu hprev
    by_cases hvalid : sec_valid u
    · have hacc := hiff.2 hvalid
      have hstep : ∃ st1 g, line_step cfg st (pre.length + ln.length) = .ok st1 ∧
          st1.session.groups = st.session.groups ++ [g] ∧
          g.seconds = digits_value (sec_digits u) := by
        cases hs : line_step cfg st (pre.length + ln.length) with
        | error e =>
          exfalso
          have hstep' := hat.header_step hF hI hlen h91
          rw [hprev, hs] at hstep'
          simp only [Bool.false_eq_true, if_false] at hstep'
          rw [hbody] at hv hlen hstep'
          rw [parse_header_line_fields hv hlen hpipe hwl hwr ht hvl hvr hu,
            if_neg (by unfold seconds_accepted at hacc; exact hacc),
            if_neg (show ¬ (terminate_line st (pre.length + ln.length)).groups.length ≥
              cfg.MAX_GROUPS from by
                show ¬ st.session.groups.length ≥ cfg.MAX_GROUPS
                omega)] at hstep'
          cases hstep'
        | ok st1 =>
          have hstep' := hat.header_step hF hI hlen h91
          rw [hprev, hs] at hstep'
          simp only [Bool.false_eq_true, if_false] at hstep'
          rw [hbody] at hv hlen hstep'
          rw [parse_header_line_fields hv hlen hpipe hwl hwr ht hvl hvr hu,
            if_neg (by unfold seconds_accepted at hacc; exact hacc),
            if_neg (show ¬ (terminate_line st (pre.length + ln.length)).groups.length ≥
              cfg.MAX_GROUPS from by
                show ¬ st.session.groups.length ≥ cfg.MAX_GROUPS
                omega)] at hstep'
          simp only [Except.ok.injEq] at hstep'
          subst hstep'
          have hacc' := hacc
          unfold seconds_accepted at hacc'
          simp only [not_or, not_lt, Decidable.not_not] at hacc'
          refine ⟨_, _, rfl, rfl, ?_⟩
          show to_u32 (strtoul (u ++ [0])).value = digits_value (sec_digits u)
          rw [to_u32_of_lt (lt_of_le_of_lt hacc'.2.2.2 (by norm_num)), hval hvalid]
      obtain ⟨st1, g, hs, hg, hsec⟩ := hstep
      refine ⟨⟨fun _ => hvalid, fun _ => ⟨st1, hs⟩⟩, fun st2 h2 => ?_,
        fun h => absurd hvalid h, hlast⟩
      rw [hs] at h2
      simp only [Except.ok.injEq] at h2
      subst h2
      exact ⟨g, hg, hsec⟩
    · have hstep := hrej (fun h => hvalid (hiff.1 h))
      refine ⟨⟨fun ⟨st1, h1⟩ => ?_, fun h => absurd h hvalid⟩, fun st1 h1 => ?_, fun _ => ?_,
        hlast⟩
      · rw [hstep] at h1; cases h1
      · rw [hstep] at h1; cases h1
      · rw [if_neg hsc]; exact hat.parse_error hF hI hstep

theorem C4_seconds_validation_witness :
    AtLine cfg0 plain_file [] (ascii "[A|5]") (ascii "\nx") (start_state plain_file) ∧
    (((∃ st1, line_step cfg0 (start_state plain_file)
          (([] : List Nat).length + (ascii "[A|5]").length) = .ok st1) ↔
        sec_valid (trim (ascii "5"))) ∧
      (∀ st1, line_step cfg0 (start_state plain_file)
          (([] : List Nat).length + (ascii "[A|5]").length) = .ok st1 →
        ∃ g, st1.session.groups = (start_state plain_file).session.groups ++ [g] ∧
          g.seconds = digits_value (sec_digits (trim (ascii "5")))) ∧
      (¬ sec_valid (trim (ascii "5")) →
        parse_session_file cfg0 plain_file =
          .error (set_error_line (([] : List Nat).count 10 + 1)
            (if trim (ascii "5") = [] then "malformed header" else "invalid seconds value"))) ∧
      (∀ s, parse_session_file cfg0 plain_file = .ok s →
        ∀ g ∈ s.groups, 1 ≤ g.seconds ∧ g.seconds ≤ 86400)) :=
  ⟨plain_at_line,
    C4_seconds_validation cfg0 plain_file [] (ascii "[A|5]") (ascii "\nx")
      (start_state plain_file) (ascii "A") (ascii "5") (by decide) (by decide) plain_at_line
      (by decide) (by decide) (by decide) (by decide) rfl (by decide) (by decide)
      (by decide)⟩

/-- C5 (as stated, refuted): in `"[A|5]\n[Bad]"` line 2 is the first erroneous
line, starts with `'['` and has no `'|'`, yet the error is
`"Line 2: previous group has no items"`; and with `MAX_LINE_LEN = 8` the line
`"[BadBadBad"`, which does not end with `']'`, fails with
`"Line 1: line too long"`. -/
theorem C5_empty_group_reported_first :
    parse_session_file cfg0 (ascii "[A|5]\n[Bad]") =
        .error "Line 2: previous group has no items" ∧
      parse_session_file cfg0 (ascii "[A|5]\n[Bad]") ≠
        .error (set_error_line 2 "malformed header") ∧
      parse_session_file cfg_small (ascii "[BadBadBad") = .error "Line 1: line too long" := by
  have h : parse_session_file cfg0 (ascii "[A|5]\n[Bad]") =
      .error "Line 2: previous group has no items" := rfl
  refine ⟨h, fun hc => ?_, rfl⟩
  rw [h] at hc
  exact absurd (Except.error.inj hc) (by decide)

/-- C5 (amended): let line N be reached without an earlier error, have at most
`MAX_LINE_LEN` bytes without its trailing carriage return, come when no group
is open or the open group has an item, and start with `'['`.  If it does not
end with `']'`, or has no `'|'` strictly between its first and last byte, or has
a name or a seconds field that is empty after trimming, `parse_session_file`
fails with `"Line N: malformed header"`; the file `"[Bad]"` fails with
`"Line 1: malformed header"`. -/
theorem C5_malformed_header (cfg : Config) (file pre ln post : List Nat) (st : LoopState)
    (hF : cfg.MAX_FILE_BYTES < 2 ^ 32) (hI : cfg.MAX_ITEMS_TOTAL < 2 ^ 32)
    (hat : AtLine cfg file pre ln post st)
    (hlen : (strip_cr ln).length ≤ cfg.MAX_LINE_LEN)
    (hprev : current_is_empty st.session.groups st.current = false)
    (h91 : ln.head? = some 91)
    (hbad : (strip_cr ln).getLast? ≠ some 93 ∨
      (∀ k, 0 < k → k + 1 < (strip_cr ln).length → (strip_cr ln).getD k 0 ≠ 124) ∨
      (∃ nm sc, strip_cr ln = 91 :: (nm ++ 124 :: (sc ++ [93])) ∧ 124 ∉ nm ∧
        (trim nm = [] ∨ trim sc = []))) :
    parse_session_file cfg file =
        .error (set_error_line (pre.count 10 + 1) "malformed header") ∧
      parse_session_file cfg0 (ascii "[Bad]") = .error "Line 1: malformed header" := by
  refine ⟨?_, rfl⟩
  obtain ⟨-, hv⟩ := hat.view hF hI
  apply hat.parse_error hF hI
  rw [hat.header_step hF hI hlen h91, hprev]
  simp only [Bool.false_eq_true, if_false]
  have hp : parse_header_line cfg (terminate_line st (pre.length + ln.length)) pre.length
      (strip_cr ln).length (pre.count 10 + 1) =
      .error (set_error_line (pre.count 10 + 1) "malformed header") := by
    rcases hbad with hb | hb | ⟨nm, sc, hb, hnm, hf⟩
    · exact parse_header_line_bad_end hv (Or.inr hb)
    · exact parse_header_line_no_pipe hv hb
    · rw [hb] at hv hlen ⊢
      exact parse_header_line_empty_field hv hlen hnm hf
  rw [hp]

theorem C5_malformed_header_witness :
    AtLine cfg0 (ascii "[Bad]") [] (ascii "[Bad]") [] (start_state (ascii "[Bad]")) ∧
      parse_session_file cfg0 (ascii "[Bad]") =
        .error (set_error_line (([] : List Nat).count 10 + 1) "malformed header") ∧
      parse_session_file cfg0 (ascii "[Bad]") = .error "Line 1: malformed header" :=
  ⟨bad_at_line,
    C5_malformed_header cfg0 (ascii "[Bad]") [] (ascii "[Bad]") [] (start_state (ascii "[Bad]"))
      (by decide) (by decide) bad_at_line (by decide) rfl (by decide)
      (Or.inr (Or.inl (fun k h1 h2 => by
        have h3 : k + 1 < 5 := h2
        have h4 : k < 4 := by omega
        clear h2 h3
        interval_cases k <;> decide)))⟩

/-- C7 (as stated, refuted): with `MAX_LINE_LEN = 8`, the header of line 1 is
followed at once by a line 2 that starts with `'['` and has 12 bytes; the error
is `"Line 2: line too long"`, not `"Line 2: previous group has no items"`. -/
theorem C7_long_line_reported_first :
    parse_session_file cfg_small (ascii "[A|5]\n[BBBBBBBB|5]") =
        .error "Line 2: line too long" ∧
      parse_session_file cfg_small (ascii "[A|5]\n[BBBBBBBB|5]") ≠
        .error (set_error_line 2 "previous group has no items") := by
  have h : parse_session_file cfg_small (ascii "[A|5]\n[BBBBBBBB|5]") =
      .error "Line 2: line too long" := rfl
  refine ⟨h, fun hc => ?_⟩
  rw [h] at hc
  exact absurd (Except.error.inj hc) (by decide)

/-- C7 (amended): if the line `hdr` at line M starts with `'['`, only blank
lines and comments `bl` stand between it and the next line `ln` that starts with
`'['`, no error occurs before that line N, and line N without its trailing
carriage return has at most `MAX_LINE_LEN` bytes, then `parse_session_file`
fails with `"Line N: previous group has no items"`, whatever else line N
holds. -/
theorem C7_empty_group_before_header (cfg : Config) (file pre hdr : List Nat)
    (bl : List (List Nat)) (ln post : List Nat) (st : LoopState)
    (hF : cfg.MAX_FILE_BYTES < 2 ^ 32) (hI : cfg.MAX_ITEMS_TOTAL < 2 ^ 32)
    (hat : AtLine cfg file (pre ++ hdr ++ 10 :: join_lines bl) ln post st)
    (hpre : pre = [] ∨ ∃ p, pre = p ++ [10]) (hhdr : 10 ∉ hdr) (hh91 : hdr.head? = some 91)
    (hbl : ∀ l ∈ bl, 10 ∉ l ∧ (first_nonspace l = none ∨ first_nonspace l = some 35))
    (h91 : ln.head? = some 91) (hlen : (strip_cr ln).length ≤ cfg.MAX_LINE_LEN) :
    parse_session_file cfg file =
      .error (set_error_line ((pre ++ hdr ++ 10 :: join_lines bl).count 10 + 1)
        "previous group has no items") := by
  have hsplit := hat.split
  have hl1 : (pre ++ hdr ++ 10 :: join_lines bl).length =
      (pre ++ hdr ++ [10]).length + (join_lines bl).length := by simp; omega
  have hle1 : (pre ++ hdr ++ [10]).length ≤ file.length := by
    rw [hsplit]; simp
  have hrun := hat.run
  rw [hl1] at hrun
  obtain ⟨sth, hh1, -⟩ := parse_loop_split_ok hle1 hrun
  have hl2 : (pre ++ hdr ++ [10]).length = pre.length + (hdr.length + 1) := by simp
  have hh2 := hh1
  rw [hl2] at hh2
  obtain ⟨st0, h0, -⟩ := parse_loop_split_ok (by rw [hsplit]; simp) hh2
  have hat0 : AtLine cfg file pre hdr (10 :: (join_lines bl ++ ln ++ post)) st0 :=
    ⟨by rw [hsplit]; simp, hat.fits, hpre, hhdr, Or.inr ⟨_, rfl⟩, h0⟩
  have hstep := hh1
  rw [hat0.next hF hI] at hstep
  obtain ⟨g, -, -, -, hce⟩ := hat0.header_opens hF hI hh91 hstep
  obtain ⟨hk1, -, hk3⟩ := blank_lines_keep hF hI hat.fits bl (pre ++ hdr ++ [10])
    (ln ++ post) sth st (by rw [hsplit]; simp) (Or.inr ⟨_, rfl⟩) hbl hh1
    (by
      have : pre ++ hdr ++ [10] ++ join_lines bl = pre ++ hdr ++ 10 :: join_lines bl := by
        simp
      rw [this]; exact hat.run)
  apply hat.parse_error hF hI
  rw [hat.header_step hF hI hlen h91, hk1, hk3, hce]
  rfl

theorem C7_empty_group_before_header_witness :
    AtLine cfg0 empty_group_file
        ([] ++ ascii "[A|5]" ++ 10 :: join_lines [ascii "# c", []]) (ascii "[B|5]")
        (ascii "\nx") empty_group_state ∧
      parse_session_file cfg0 empty_group_file =
        .error (set_error_line
          (([] ++ ascii "[A|5]" ++ 10 :: join_lines [ascii "# c", []]).count 10 + 1)
          "previous group has no items") :=
  ⟨empty_group_at_line,
    C7_empty_group_before_header cfg0 empty_group_file [] (ascii "[A|5]")
      [ascii "# c", []] (ascii "[B|5]") (ascii "\nx") empty_group_state (by decide)
      (by decide) empty_group_at_line (Or.inl rfl) (by decide) (by decide)
      (by decide) (by decide) (by decide)⟩

/-- C8 (the code): when the loop has run over the whole file without an error
and the group opened last is still empty, the error names line
`(number of '\n' in the file) + 2`, one more than the number of
`'\n'`-separated lines: the counter is advanced past the last line before the
loop is left.  For the one-line file `"[A|5]"` the error names line 2, for
`"[A|5]\n"` line 3. -/
theorem C8_line_number_past_last_line (cfg : Config) (file : List Nat) (st : LoopState)
    (hF : cfg.MAX_FILE_BYTES < 2 ^ 32) (hfile : file.length ≤ cfg.MAX_FILE_BYTES)
    (hrun : parse_loop cfg (cfg.MAX_FILE_BYTES + 1) 0 (start_state file) = .ok st)
    (hg : st.session.groups ≠ [])
    (he : current_is_empty st.session.groups st.current = true) :
    parse_session_file cfg file =
        .error (set_error_line (file.count 10 + 2) "last group has no items") ∧
      parse_session_file cfg0 (ascii "[A|5]") = .error "Line 2: last group has no items" ∧
      parse_session_file cfg0 (ascii "[A|5]\n") =
        .error "Line 3: last group has no items" := by
  refine ⟨?_, rfl, rfl⟩
  have hfin : Final file st := by
    rcases parse_loop_BInv hF hfile (BInv_start file) hrun with h | h
    · have := h.i_le
      omega
    · exact h.1
  unfold parse_session_file
  rw [if_neg (by omega), hrun]
  simp only
  rw [if_neg (by simpa using hg), if_pos he, hfin.lineno]

theorem C8_line_number_past_last_line_witness :
    parse_loop cfg0 (cfg0.MAX_FILE_BYTES + 1) 0 (start_state (ascii "[A|5]")) =
        .ok lone_header_state ∧
      parse_session_file cfg0 (ascii "[A|5]") =
        .error (set_error_line ((ascii "[A|5]").count 10 + 2) "last group has no items") ∧
      parse_session_file cfg0 (ascii "[A|5]") = .error "Line 2: last group has no items" ∧
      parse_session_file cfg0 (ascii "[A|5]\n") =
        .error "Line 3: last group has no items" :=
  ⟨rfl, C8_line_number_past_last_line cfg0 (ascii "[A|5]") lone_header_state (by decide)
    (by decide) rfl (by decide) rfl⟩

/-- C9 (as stated, refuted): with `MAX_GROUPS = 1`, line 2 of `"[A|5]\n[B|5]"`
is a valid header met when one group exists, yet the error is
`"Line 2: previous group has no items"`, not `"Line 2: too many groups"`; and
with `MAX_ITEMS_TOTAL = 0` the item line `"x"`, met when `MAX_ITEMS_TOTAL`
items exist, fails with `"Line 1: item before any group header"`. -/
theorem C9_empty_group_before_capacity :
    parse_session_file cfg_small (ascii "[A|5]\n[B|5]") =
        .error "Line 2: previous group has no items" ∧
      parse_session_file cfg_small (ascii "[A|5]\n[B|5]") ≠
        .error (set_error_line 2 "too many groups") ∧
      parse_session_file { cfg_small with MAX_ITEMS_TOTAL := 0 } (ascii "x") =
        .error "Line 1: item before any group header" := by
  have h : parse_session_file cfg_small (ascii "[A|5]\n[B|5]") =
      .error "Line 2: previous group has no items" := rfl
  refine ⟨h, fun hc => ?_, rfl⟩
  rw [h] at hc
  exact absurd (Except.error.inj hc) (by decide)

/-- C9 (amended): for all limits, let line N be reached without an earlier
error.  (a) If the line without its trailing carriage return is longer than
`MAX_LINE_LEN`, the parse fails with `"Line N: line too long"`, whatever the
line holds.  (b) If the line fits, is a valid header (a name with a trimmed
core, seconds whose trimmed core is digits of a value in `[1, 86400]`), the
group opened before it, if any, has an item, and `MAX_GROUPS` groups exist, the
parse fails with `"Line N: too many groups"`.  (c) If the line fits, is an item
line, `MAX_ITEMS_TOTAL` is not zero and `MAX_ITEMS_TOTAL` items exist, the
parse fails with `"Line N: too many items"`.  A successful parse has
`group_count ≤ MAX_GROUPS` and `item_count ≤ MAX_ITEMS_TOTAL`. -/
theorem C9_capacity_limits (cfg : Config) (file pre ln post : List Nat) (st : LoopState)
    (hF : cfg.MAX_FILE_BYTES < 2 ^ 32) (hI : cfg.MAX_ITEMS_TOTAL < 2 ^ 32)
    (hat : AtLine cfg file pre ln post st) :
    (cfg.MAX_LINE_LEN < (strip_cr ln).length →
      parse_session_file cfg file =
        .error (set_error_line (pre.count 10 + 1) "line too long")) ∧
    (∀ wl t wr vl ds vr : List Nat,
      strip_cr ln = 91 :: ((wl ++ t ++ wr) ++ 124 :: ((vl ++ ds ++ vr) ++ [93])) →
      (strip_cr ln).length ≤ cfg.MAX_LINE_LEN → 124 ∉ wl ++ t ++ wr →
      all_space wl → all_space wr → Trimmed t → all_space vl → all_space vr →
      ds ≠ [] → (∀ c ∈ ds, isdigit c = true) → 1 ≤ digits_value ds →
      digits_value ds ≤ 86400 →
      current_is_empty st.session.groups st.current = false →
      cfg.MAX_GROUPS ≤ st.session.groups.length →
      parse_session_file cfg file =
        .error (set_error_line (pre.count 10 + 1) "too many groups")) ∧
    (∀ c, (strip_cr ln).length ≤ cfg.MAX_LINE_LEN → first_nonspace ln = some c → c ≠ 35 →
      ln.head? ≠ some 91 → 0 < cfg.MAX_ITEMS_TOTAL →
      cfg.MAX_ITEMS_TOTAL ≤ st.session.items.length →
      parse_session_file cfg file =
        .error (set_error_line (pre.count 10 + 1) "too many items")) ∧
    (∀ s, parse_session_file cfg file = .ok s →
      s.group_count ≤ cfg.MAX_GROUPS ∧ s.item_count ≤ cfg.MAX_ITEMS_TOTAL) := by
  refine ⟨fun hlong => hat.parse_error hF hI (hat.too_long hF hI hlong), ?_, ?_, ?_⟩
  · intro wl t wr vl ds vr hbody hlen hpipe hwl hwr ht hvl hvr hne hd h1 h2 hprev hfull
    obtain ⟨hds, hnul, hminus, hsd⟩ := digits_trimmed hne hd
    have hacc : seconds_accepted ds :=
      (seconds_accepted_iff hds hnul hminus).1.2 ⟨by rw [hsd]; exact hne,
        by rw [hsd]; exact hd, by rw [hsd]; exact h1, by rw [hsd]; exact h2⟩
    exact hat.parse_error hF hI
      ((hat.header_fields hF hI hbody hlen hpipe hwl hwr ht hvl hvr hds hprev).2.1 hacc hfull)
  · intro c hlen hc hc35 h91 hpos hfull
    obtain ⟨-, hg, -, -⟩ := hat.reach hF hI
    apply hat.parse_error hF hI
    rw [hat.item_step hF hI hlen hc hc35 h91]
    have hcur := hg.cur
    have hch := hg.chained
    cases hgs : st.session.groups with
    | nil =>
      rw [hgs] at hch
      have := chain_nil_items hch
      omega
    | cons x xs =>
      rw [hgs] at hcur
      simp only [reduceCtorEq, if_false] at hcur
      rw [hcur]
      simp only
      rw [if_pos hfull]
  · intro s hs
    obtain ⟨-, -, -, -, h1, h2⟩ := parse_session_file_GInv hI hs
    exact ⟨h1, h2⟩

theorem C9_capacity_limits_witness :
    AtLine cfg_small long_comment_file [] (ascii "# 3456789") (ascii "\n[A|5]\nx")
        (start_state long_comment_file) ∧
      parse_session_file cfg_small long_comment_file =
        .error (set_error_line (([] : List Nat).count 10 + 1) "line too long") ∧
      AtLine cfg_small two_group_file (ascii "[A|5]\nx\n") (ascii "[B|5]") (ascii "\ny")
        two_group_state ∧
      parse_session_file cfg_small two_group_file =
        .error (set_error_line ((ascii "[A|5]\nx\n").count 10 + 1) "too many groups") ∧
      AtLine cfg_small full_file (ascii "[A|5]\nx\ny\n") (ascii "z") [] full_state ∧
      parse_session_file cfg_small full_file =
        .error (set_error_line ((ascii "[A|5]\nx\ny\n").count 10 + 1) "too many items") :=
  ⟨long_comment_at_line,
    (C9_capacity_limits cfg_small long_comment_file [] (ascii "# 3456789")
      (ascii "\n[A|5]\nx") (start_state long_comment_file) (by decide) (by decide)
      long_comment_at_line).1 (by decide),
    two_group_at_line_small,
    (C9_capacity_limits cfg_small two_group_file (ascii "[A|5]\nx\n") (ascii "[B|5]")
      (ascii "\ny") two_group_state (by decide) (by decide) two_group_at_line_small).2.1
      [] (ascii "B") [] [] (ascii "5") [] (by decide) (by decide) (by decide)
      (by unfold all_space; decide) (by unfold all_space; decide)
      ⟨⟨66, rfl, rfl⟩, ⟨66, rfl, rfl⟩⟩ (by unfold all_space; decide)
      (by unfold all_space; decide) (by decide) (by decide) (by decide) (by decide) rfl
      (by decide),
    full_at_line,
    (C9_capacity_limits cfg_small full_file (ascii "[A|5]\nx\ny\n") (ascii "z") []
      full_state (by decide) (by decide) full_at_line).2.2.1 122 (by decide) rfl
      (by decide) (by decide) (by decide) (by decide)⟩

/-- C10 (as stated, refuted): with `MAX_LINE_LEN = 8` the header
`"[  A  |  5  ]"`, of 13 bytes, is rejected: `"Line 1: line too long"`; with
`MAX_GROUPS = 1` the header `"[ B|5 ]"` after a full group is rejected:
`"Line 3: too many groups"`; and after an empty group it is rejected:
`"Line 2: previous group has no items"`. -/
theorem C10_long_padding_rejected :
    parse_session_file cfg_small (ascii "[  A  |  5  ]") = .error "Line 1: line too long" ∧
      parse_session_file cfg_small (ascii "[A|5]\nx\n[ B|5 ]") =
        .error "Line 3: too many groups" ∧
      parse_session_file cfg0 (ascii "[A|5]\n[ B|5 ]") =
        .error "Line 2: previous group has no items" :=
  ⟨rfl, rfl, rfl⟩

/-- C10 (amended): let the line `"[" w1 n w2 "|" w3 s w4 "]"` be reached without
an earlier error, where `w1 .. w4` are runs of white space, the name `n` has no
`'|'` and no `'\0'` and is not empty after trimming, and `s` is a non-empty
sequence of digits with a value in `[1, 86400]`.  If the line has at most
`MAX_LINE_LEN` bytes, no empty group is open and fewer than `MAX_GROUPS` groups
exist, the line is accepted and opens a group whose name bytes
`buffer[name_offset, name_offset + name_length)` are `n` without its leading
and trailing white space, with `name_length > 0`, and whose seconds are the
value of `s`: what the header `"[" trim(n) "|" s "]"` gives. -/
theorem C10_header_field_trimming (cfg : Config) (file pre ln post : List Nat)
    (st : LoopState) (w1 n w2 w3 s w4 : List Nat)
    (hF : cfg.MAX_FILE_BYTES < 2 ^ 32) (hI : cfg.MAX_ITEMS_TOTAL < 2 ^ 32)
    (hat : AtLine cfg file pre ln post st)
    (hbody : strip_cr ln = 91 :: ((w1 ++ n ++ w2) ++ 124 :: ((w3 ++ s ++ w4) ++ [93])))
    (hw1 : all_space w1) (hw2 : all_space w2) (hw3 : all_space w3) (hw4 : all_space w4)
    (hpipe : 124 ∉ n) (hnul : 0 ∉ n) (hname : trim n ≠ [])
    (hs : s ≠ []) (hd : ∀ c ∈ s, isdigit c = true)
    (h1 : 1 ≤ digits_value s) (h2 : digits_value s ≤ 86400)
    (hlen : (strip_cr ln).length ≤ cfg.MAX_LINE_LEN)
    (hprev : current_is_empty st.session.groups st.current = false)
    (hroom : st.session.groups.length < cfg.MAX_GROUPS) :
    ∃ st1 g, line_step cfg st (pre.length + ln.length) = .ok st1 ∧
      st1.session.groups = st.session.groups ++ [g] ∧
      span st1.session.buffer g.name_offset g.name_length = trim n ∧
      0 < g.name_length ∧ g.seconds = digits_value s := by
  obtain ⟨a, b, hn, ha, hb, ht⟩ := trim_decomp n hname
  generalize trim n = t at hn ht hname ⊢
  subst hn
  have hre : w1 ++ (a ++ t ++ b) ++ w2 = (w1 ++ a) ++ t ++ (b ++ w2) := by simp
  rw [hre] at hbody
  obtain ⟨hds, hsnul, hminus, hsd⟩ := digits_trimmed hs hd
  obtain ⟨hiff, hval⟩ := seconds_accepted_iff hds hsnul hminus
  have hvalid : sec_valid s := ⟨by rw [hsd]; exact hs, by rw [hsd]; exact hd,
    by rw [hsd]; exact h1, by rw [hsd]; exact h2⟩
  have hp : 124 ∉ (w1 ++ a) ++ t ++ (b ++ w2) := by
    rw [← hre]
    intro hc
    rcases List.mem_append.1 hc with hc | hc
    · rcases List.mem_append.1 hc with hc | hc
      · exact not_mem_all_space hw1 (by decide) hc
      · exact hpipe hc
    · exact not_mem_all_space hw2 (by decide) hc
  have hnt : 0 ∉ t := fun hc => hnul (by simp [hc])
  obtain ⟨-, -, hok⟩ := hat.header_fields hF hI hbody hlen hp (all_space_append hw1 ha)
    (all_space_append hb hw2) ht hw3 hw4 hds hprev
  obtain ⟨st1, g, hstep, hg, -, -, hnl, hsp, hsec, -, -⟩ := hok (hiff.2 hvalid) hroom hnt
  refine ⟨st1, g, hstep, hg, hsp, ?_, ?_⟩
  · rw [hnl]; exact List.length_pos.2 ht.ne_nil
  · rw [hsec, hval hvalid, hsd]

theorem C10_header_field_trimming_witness :
    AtLine cfg0 padded_file [] (ascii "[ A b |\t 0042 ]\r") (ascii "\nx")
        (start_state padded_file) ∧
      ∃ st1 g, line_step cfg0 (start_state padded_file)
          (([] : List Nat).length + (ascii "[ A b |\t 0042 ]\r").length) = .ok st1 ∧
        st1.session.groups = (start_state padded_file).session.groups ++ [g] ∧
        span st1.session.buffer g.name_offset g.name_length = trim (ascii "A b") ∧
        0 < g.name_length ∧ g.seconds = digits_value (ascii "0042") :=
  ⟨padded_at_line,
    C10_header_field_trimming cfg0 padded_file [] (ascii "[ A b |\t 0042 ]\r") (ascii "\nx")
      (start_state padded_file) (ascii " ") (ascii "A b") (ascii " ") (ascii "\t ")
      (ascii "0042") (ascii " ") (by decide) (by decide) padded_at_line (by decide)
      (by unfold all_space; decide) (by unfold all_space; decide)
      (by unfold all_space; decide) (by unfold all_space; decide) (by decide) (by decide)
      (by decide) (by decide) (by decide) (by decide) (by decide) (by decide) rfl
      (by decide)⟩

/-! ### Claims C11 to C15: the generator and the shuffles -/

/-- **C11** (range bound).  For every generator state, every retry limit and
every `upper > 0`, `rng_range` returns a value below `upper`; the same holds
for the retry loop started with any threshold and any number of retries left,
so for the draw taken once the retries are used up as for an accepted one. -/
theorem C11_rng_range_below_upper (cfg : RunConfig) (rng : Rng) (upper : Nat)
    (h : 0 < upper) :
    (rng_range cfg rng upper).1 < upper ∧
      ∀ (threshold fuel : Nat) (g : Rng), (rng_range_loop upper threshold fuel g).1 < upper :=
  ⟨rng_range_lt cfg rng upper h, fun threshold fuel g => rng_range_loop_lt upper threshold h fuel g⟩

theorem C11_rng_range_below_upper_witness :
    0 < 10 ∧ (rng_range run_small { state := 12345 } 10).1 < 10 :=
  ⟨by decide, (C11_rng_range_below_upper run_small { state := 12345 } 10 (by decide)).1⟩

/-- **C12** (uniformity of the rejection rule).  For `1 ≤ upper < 2^64` the
threshold `(uint64_t)(-upper) % upper` is `2^64 mod upper`; every `k < upper`
is the image of the same number `(2^64 - threshold) / upper` of accepted
64-bit words; and a first draw at or above the threshold is returned reduced
modulo `upper`. -/
theorem C12_rejection_rule_uniform (upper k : Nat) (h1 : 1 ≤ upper) (h2 : upper < U64)
    (hk : k < upper) :
    rng_threshold upper = U64 % upper ∧
      accepted_count upper k = (U64 - rng_threshold upper) / upper ∧
      ∀ (cfg : RunConfig) (rng : Rng), 0 < cfg.RNG_RETRY_LIMIT →
        rng_threshold upper ≤ (rng_next_u64 rng).1 →
        rng_range cfg rng upper = ((rng_next_u64 rng).1 % upper, (rng_next_u64 rng).2) :=
  ⟨rng_threshold_eq upper h1 h2, accepted_count_eq upper k h1 h2 hk,
    fun cfg rng hl ha => rng_range_accept cfg rng upper h1 hl ha⟩

theorem C12_rejection_rule_uniform_witness :
    rng_threshold 10 = U64 % 10 ∧ accepted_count 10 7 = (U64 - rng_threshold 10) / 10 :=
  ⟨(C12_rejection_rule_uniform 10 7 (by decide) (by decide) (by decide)).1,
    (C12_rejection_rule_uniform 10 7 (by decide) (by decide) (by decide)).2.1⟩

/-- **C13** (bijective mix).  The state update of `rng_next_u64` is a bijection
of the 64-bit words; the new state and the returned word are functions of the
old state alone, the returned word being the new state times
`0x2545F4914F6CDD1D` modulo `2^64`; and the map from the old state to the
returned word is a bijection of the 64-bit words. -/
theorem C13_next_u64_bijective :
    Set.BijOn rng_next_state {x | x < U64} {x | x < U64} ∧
      (∀ rng : Rng, rng_next_u64 rng =
        ((rng_next_state rng.state * 0x2545F4914F6CDD1D) % U64,
          { state := rng_next_state rng.state })) ∧
      Set.BijOn (fun s => (rng_next_u64 { state := s }).1) {x | x < U64} {x | x < U64} :=
  ⟨word_bijOn rng_next_state rng_next_state_lt rng_next_state_inj, fun _ => rfl,
    word_bijOn _ (fun _ _ => Nat.mod_lt _ (by decide))
      (fun x y hx hy h => rng_next_state_inj x y hx hy
        (mul_odd_inj _ star_coprime _ _ (rng_next_state_lt x hx) (rng_next_state_lt y hy) h))⟩

/-- **C14** (the state is never zero).  `rng_init` leaves a nonzero state
whatever the entropy word, the clock and the process id are; from state zero
every call of `rng_next_u64` returns zero and leaves the state zero; and a
nonzero 64-bit state stays a nonzero 64-bit state under `rng_next_u64`,
`rng_range` and both shuffles. -/
theorem C14_state_never_zero :
    (∀ (entropy : Option Nat) (tv_sec tv_nsec pid : Nat),
        (rng_init entropy tv_sec tv_nsec pid).state ≠ 0) ∧
      (∀ n : Nat, rng_after n { state := 0 } = { state := 0 } ∧
        rng_outputs n { state := 0 } = List.replicate n 0) ∧
      ∀ rng : Rng, rng.live →
        (rng_next_u64 rng).2.live ∧
        ∀ cfg : RunConfig, (∀ upper : Nat, (rng_range cfg rng upper).2.live) ∧
          ∀ (values : List Nat) (count : Nat),
            (rng_shuffle_groups cfg rng values count).2.live ∧
            (rng_shuffle_items cfg rng values count).2.live :=
  ⟨fun entropy tv_sec tv_nsec pid => (rng_init_live entropy tv_sec tv_nsec pid).1,
    fun n => ⟨rng_after_zero n, rng_outputs_zero n⟩,
    fun rng h => ⟨rng_next_live rng h, fun cfg => ⟨fun upper => rng_range_live cfg rng upper h,
      fun values count => ⟨rng_shuffle_live cfg _ rng values count h,
        rng_shuffle_live cfg _ rng values count h⟩⟩⟩⟩

theorem C14_state_never_zero_witness :
    Rng.live { state := 1 } ∧ (rng_next_u64 { state := 1 }).2.live :=
  ⟨⟨by decide, by decide⟩, (C14_state_never_zero.2.2 { state := 1 } ⟨by decide, by decide⟩).1⟩

/-- **C15** (a shuffle is a permutation).  For every generator, every array
and every `count` within the array, after `rng_shuffle_groups` and after
`rng_shuffle_items` the array has its length, its first `count` elements are a
rearrangement of the first `count` elements before the call and the elements
from index `count` on are unchanged; for `count < 2` the array and the
generator are returned as they were.  The capacity bound on `count` is not
needed for any of this. -/
theorem C15_shuffle_is_permutation (cfg : RunConfig) (rng : Rng) (values : List Nat)
    (count : Nat) (hc : count ≤ values.length) :
    ((rng_shuffle_groups cfg rng values count).1.length = values.length ∧
        ((rng_shuffle_groups cfg rng values count).1.take count).Perm (values.take count) ∧
        (rng_shuffle_groups cfg rng values count).1.drop count = values.drop count) ∧
      ((rng_shuffle_items cfg rng values count).1.length = values.length ∧
        ((rng_shuffle_items cfg rng values count).1.take count).Perm (values.take count) ∧
        (rng_shuffle_items cfg rng values count).1.drop count = values.drop count) ∧
      (count < 2 → rng_shuffle_groups cfg rng values count = (values, rng) ∧
        rng_shuffle_items cfg rng values count = (values, rng)) :=
  ⟨rng_shuffle_spec cfg _ rng values count hc, rng_shuffle_spec cfg _ rng values count hc,
    fun h => ⟨rng_shuffle_small cfg _ rng values count h,
      rng_shuffle_small cfg _ rng values count h⟩⟩

theorem C15_shuffle_is_permutation_witness :
    4 ≤ [10, 11, 12, 13, 14].length ∧
      ((rng_shuffle_groups run_small { state := 12345 } [10, 11, 12, 13, 14] 4).1.take 4).Perm
        ([10, 11, 12, 13, 14].take 4) :=
  ⟨by decide,
    (C15_shuffle_is_permutation run_small { state := 12345 } [10, 11, 12, 13, 14] 4
      (by decide)).1.2.1⟩

/-! ### Claims C16 to C20: the scheduler -/

/-- **C16** (advancing keys).  Among the byte values `0 .. 255` the advancing
keys are exactly space, carriage return, line feed, the digits and the
letters; no negative key and not the interrupt byte 3 is advancing; and
`handle_key` returns the runtime as it received it, cursor, orderings and
generator included, for every key that is neither advancing nor the
interrupt byte. -/
theorem C16_advancing_key_set :
    (∀ k : Nat, k < 256 → (is_advance_key (k : Int) = true ↔
        (k = 32 ∨ k = 13 ∨ k = 10 ∨ (48 ≤ k ∧ k ≤ 57) ∨ (65 ≤ k ∧ k ≤ 90) ∨
          (97 ≤ k ∧ k ≤ 122)))) ∧
      (∀ key : Int, key < 0 → is_advance_key key = false) ∧
      is_advance_key 3 = false ∧
      ∀ (cfg : RunConfig) (rt : Runtime) (key adv : Int) (env : Tick),
        is_advance_key key = false → key ≠ 3 → (handle_key cfg rt key adv env).2.1 = rt :=
  ⟨is_advance_key_byte, is_advance_key_neg, is_advance_key_interrupt,
    fun cfg rt key adv env hk _ => handle_key_ignored cfg rt key adv env hk⟩

theorem C16_advancing_key_set_witness :
    (65 < 256 ∧ is_advance_key ((65 : Nat) : Int) = true) ∧
      (handle_key run_small three_item_runtime 27 0 (key_tick 0 27)).2.1 = three_item_runtime :=
  ⟨⟨by decide, (C16_advancing_key_set.1 65 (by decide)).2 (by decide)⟩,
    C16_advancing_key_set.2.2.2 run_small three_item_runtime 27 0 (key_tick 0 27)
      (by decide) (by decide)⟩

/-- **C17**, counterexample.  With a log open and the write of the key to it
failing, `handle_key` answers the interrupt byte with `-1`, not with a positive
code, and `run_loop` returns `-1`. -/
theorem C17_unlogged_interrupt_fails :
    logged_runtime.group ≠ none ∧
      (handle_key run_small logged_runtime 3 0 (unlogged_key_tick 0 3)).1 = -1 ∧
      (run_loop run_small logged_runtime (fun _ => unlogged_key_tick 0 3)).rc = -1 := by
  decide

/-- **C17** (interrupt terminates), amended.  In a runtime with an active
group, pending switch or not, in which no log is open or the key is written to
the log, `handle_key` answers the key 3 with the code 1 and the runtime
unmodified; and when a pass of the wait loop hands that key to `handle_key`,
`run_loop` returns 0 with that pass as its last one. -/
theorem C17_interrupt_terminates (cfg : RunConfig) (rt : Runtime) (adv : Int) (env : Tick)
    (hg : rt.group ≠ none) (hlog : rt.log = false ∨ env.log_key = true) :
    handle_key cfg rt 3 adv env = (1, rt, 0) ∧
      ∀ (envs : Nat → Tick) (n step t rem : Nat) (rt0 : Runtime),
        0 < cfg.MAX_WAIT_LOOPS → envs t = env →
        update_expiry rt0 0 env.clock env.log_expired = (0, rt, rem) →
        read_key rt rem 0 env.read = (1, 3) →
        run_steps cfg envs (n + 1) step t rt0 = ⟨0, rt, t + 1, step⟩ :=
  ⟨handle_key_interrupt cfg rt adv env hg hlog,
    fun envs n step t rem rt0 hw he hu hr =>
      run_steps_interrupt cfg envs n step t rem rt0 rt hw (he ▸ hu) (he ▸ hr) hg (he ▸ hlog)⟩

theorem C17_interrupt_terminates_witness :
    (three_item_runtime.group ≠ none ∧
        (three_item_runtime.log = false ∨ (key_tick 0 3).log_key = true)) ∧
      handle_key run_small three_item_runtime 3 0 (key_tick 0 3) = (1, three_item_runtime, 0) :=
  ⟨⟨by decide, by decide⟩,
    (C17_interrupt_terminates run_small three_item_runtime 0 (key_tick 0 3) (by decide)
      (by decide)).1⟩

/-- **C18** (an advancing key keeps the group).  With no switch pending,
`handle_key` leaves the group index, the active group, the position in the
group ordering, the group ordering, the deadline and the pending flag as they
were, for an advancing key as for any other; and unless the item position
wraps around, the item ordering and the generator are unchanged too. -/
theorem C18_advance_keeps_group (cfg : RunConfig) (rt : Runtime) (key adv : Int) (env : Tick)
    (hp : rt.pending_switch = 0) :
    GroupFrame rt (handle_key cfg rt key adv env).2.1 ∧
      ∀ g : Group, rt.group = some g → (rt.item_pos + 1) % U64 < g.item_count →
        (handle_key cfg rt key adv env).2.1.item_order = rt.item_order ∧
        (handle_key cfg rt key adv env).2.1.rng = rt.rng :=
  ⟨handle_key_frame cfg rt key adv env hp,
    fun g hg hw => handle_key_no_wrap cfg rt key adv env g hp hg hw⟩

theorem C18_advance_keeps_group_witness :
    (three_item_runtime.pending_switch = 0 ∧ is_advance_key 32 = true) ∧
      GroupFrame three_item_runtime
        (handle_key run_small three_item_runtime 32 0 (key_tick 0 32)).2.1 :=
  ⟨⟨by decide, by decide⟩,
    (C18_advance_keeps_group run_small three_item_runtime 32 0 (key_tick 0 32) (by decide)).1⟩

/-- **C19** (deadline expiry).  Let the active group have `seconds = s`, the
deadline be `group_end = t + 1000 * s` and no switch be pending.  Then
`update_expiry` at the clock value `now` sets the pending flag with remaining
time 0 exactly when `now ≥ t + 1000 * s`, and otherwise returns 0, leaves the
runtime alone and reports the positive remaining time `t + 1000 * s - now`.
`update_group_timer` at the clock value `t` sets that deadline (when it fits
64 bits).  Once the flag is 1, no `update_expiry`, no key that is not
advancing and no pass that reads nothing clears it. -/
theorem C19_deadline_expiry (rt : Runtime) (g : Group) (t s now rem : Nat) (log_ok : Bool)
    (hg : rt.group = some g) (hs : g.seconds = s) (harm : rt.group_end = t + 1000 * s)
    (hp : rt.pending_switch = 0) :
    (((update_expiry rt rem (some now) log_ok).2.1.pending_switch = 1 ∧
        (update_expiry rt rem (some now) log_ok).2.2 = 0) ↔ t + 1000 * s ≤ now) ∧
      (now < t + 1000 * s →
        update_expiry rt rem (some now) log_ok = (0, rt, t + 1000 * s - now) ∧
        0 < t + 1000 * s - now) ∧
      (∀ rt0 : Runtime, rt0.group = some g → 0 < s → t + 1000 * s < U64 →
        update_group_timer rt0 (some t) = (0, { rt0 with group_end := t + 1000 * s })) ∧
      ∀ r : Runtime, r.pending_switch = 1 →
        (∀ (m : Nat) (clock : Option Nat) (ok : Bool), (update_expiry r m clock ok).2.1 = r) ∧
        (∀ (cfg : RunConfig) (key adv : Int) (env : Tick), is_advance_key key = false →
          (handle_key cfg r key adv env).2.1 = r) ∧
        ∀ (cfg : RunConfig) (envs : Nat → Tick) (fuel p : Nat) (a : Int), r.group ≠ none →
          (envs p).read = ReadEvent.nothing →
          wait_loop cfg envs (fuel + 1) p r a = wait_loop cfg envs fuel (p + 1) r a := by
  refine ⟨?_, ?_, ?_, ?_⟩
  · constructor
    · intro h
      by_contra hn
      have he := update_expiry_early rt g rem now log_ok hg hp (by omega)
      rw [he] at h
      rw [hp] at h
      exact absurd h.1 (by decide)
    · intro hn
      rw [update_expiry_due rt g rem now log_ok hg hp (by omega)]
      exact ⟨rfl, rfl⟩
  · intro hn
    have he := update_expiry_early rt g rem now log_ok hg hp (by omega)
    rw [harm] at he
    exact ⟨he, by omega⟩
  · intro rt0 hg0 hs0 hw
    subst hs
    exact update_group_timer_arm rt0 g t hg0 hs0 hw
  · intro r hr
    have hr0 : r.pending_switch ≠ 0 := by rw [hr]; decide
    exact ⟨fun m clock ok => update_expiry_pending r m clock ok hr0,
      fun cfg key adv env hk => handle_key_ignored cfg r key adv env hk,
      fun cfg envs fuel p a hgr hread => wait_loop_timeout cfg envs fuel p r a hgr hr0 hread⟩

theorem C19_deadline_expiry_witness :
    (three_item_runtime.group = some ⟨1, 1, 5, 0, 3⟩ ∧
        three_item_runtime.group_end = 0 + 1000 * 5 ∧ three_item_runtime.pending_switch = 0) ∧
      (((update_expiry three_item_runtime 0 (some 5000) true).2.1.pending_switch = 1 ∧
        (update_expiry three_item_runtime 0 (some 5000) true).2.2 = 0) ↔ 0 + 1000 * 5 ≤ 5000) :=
  ⟨⟨rfl, rfl, rfl⟩,
    (C19_deadline_expiry three_item_runtime ⟨1, 1, 5, 0, 3⟩ 0 5 5000 0 true rfl rfl rfl rfl).1⟩

/-- **C20**, counterexample.  With `MAX_PROMPTS_PER_RUN = 3`, two spaces and
nothing else make `run_loop` return 0: the last key it handled is the space. -/
theorem C20_advancing_keys_end_run :
    (run_loop run_small one_item_runtime (fun _ => key_tick 0 32)).rc = 0 ∧
      last_key (fun _ => key_tick 0 32)
        (run_loop run_small one_item_runtime (fun _ => key_tick 0 32)) = some 32 := by
  decide

/-- **C20** (return 0 only by interrupt or by the prompt bound), amended.
When `run_loop` returns 0, either the last key it handled was the interrupt
byte 3, or its loop over the prompts ran to its bound (`step` is no longer
below `MAX_PROMPTS_PER_RUN`).  The second case is met by advancing keys alone
whatever the bound is: on `one_item_runtime`, with at least one pass allowed
per wait, `MAX_PROMPTS_PER_RUN - 1` spaces end the run with 0. -/
theorem C20_zero_by_interrupt_or_bound (cfg : RunConfig) (rt : Runtime) (env : Nat → Tick)
    (h : (run_loop cfg rt env).rc = 0) :
    (last_key env (run_loop cfg rt env) = some 3 ∨
        ¬ (run_loop cfg rt env).step < cfg.MAX_PROMPTS_PER_RUN) ∧
      ∀ c : RunConfig, 0 < c.MAX_WAIT_LOOPS →
        run_loop c one_item_runtime (fun _ => key_tick 0 32) =
          ⟨0, one_item_runtime, 0 + (c.MAX_PROMPTS_PER_RUN - 1),
            1 + (c.MAX_PROMPTS_PER_RUN - 1)⟩ :=
  ⟨run_loop_zero cfg rt env h, fun c hw => one_item_run c hw _ _ _⟩

theorem C20_zero_by_interrupt_or_bound_witness :
    (run_loop run_small three_item_runtime (fun _ => key_tick 0 3)).rc = 0 ∧
      (last_key (fun _ => key_tick 0 3)
          (run_loop run_small three_item_runtime (fun _ => key_tick 0 3)) = some 3 ∨
        ¬ (run_loop run_small three_item_runtime (fun _ => key_tick 0 3)).step
            < run_small.MAX_PROMPTS_PER_RUN) :=
  ⟨by decide,
    (C20_zero_by_interrupt_or_bound run_small three_item_runtime (fun _ => key_tick 0 3)
      (by decide)).1⟩

/-! ### Claims C21 to C28: waits, the group switch, the orderings, the shuffle algorithm -/

/-- **C21** (wait bound).  Whenever `read_key` calls the terminal adapter, the
timeout it passes is -1 exactly when a switch is pending, and is the remaining
time otherwise.  Let the active group have at most 86400 seconds, the deadline
be the one `update_group_timer` sets at the clock value `t`, and the clock
show `now ≥ t`.  After `update_expiry`, with a switch pending the timeout is
-1; with none pending the remaining time is `group_end - now`, it is positive
and at most `1000 * seconds ≤ 86400000`, the guard of `read_key` does not fire
and the timeout passed is that number, unchanged by the cast to `int`. -/
theorem C21_wait_bound (rt : Runtime) (g : Group) (t now : Nat) (ok : Bool)
    (hg : rt.group = some g) (hs : g.seconds ≤ 86400)
    (harm : rt.group_end = (t + g.seconds * 1000) % U64) (ht : t ≤ now) (hn : now < U64)
    (hp : rt.pending_switch = 0) :
    (∀ (r : Runtime) (rem : Nat) (τ : Int), read_key_timeout r rem = some τ →
        (τ = -1 ↔ r.pending_switch ≠ 0) ∧ (r.pending_switch = 0 → τ = (rem : Int))) ∧
      (∀ r0 : Runtime, r0.group = some g → g.seconds ≠ 0 →
        (update_group_timer r0 (some t)).2.group_end = (t + g.seconds * 1000) % U64) ∧
      ((update_expiry rt 0 (some now) ok).2.1.pending_switch ≠ 0 →
        read_key_timeout (update_expiry rt 0 (some now) ok).2.1
          (update_expiry rt 0 (some now) ok).2.2 = some (-1)) ∧
      ((update_expiry rt 0 (some now) ok).2.1.pending_switch = 0 →
        (update_expiry rt 0 (some now) ok).2.2 = rt.group_end - now ∧
        0 < (update_expiry rt 0 (some now) ok).2.2 ∧
        (update_expiry rt 0 (some now) ok).2.2 ≤ 1000 * g.seconds ∧
        1000 * g.seconds ≤ 86400000 ∧
        read_key_timeout (update_expiry rt 0 (some now) ok).2.1
          (update_expiry rt 0 (some now) ok).2.2 =
            some (((update_expiry rt 0 (some now) ok).2.2 : Nat) : Int) ∧
        ∀ ev : ReadEvent,
          read_key (update_expiry rt 0 (some now) ok).2.1
            (update_expiry rt 0 (some now) ok).2.2 0 ev =
          if (term_read_key_timeout ev 0).1 < 0 then (-1, (term_read_key_timeout ev 0).2)
          else term_read_key_timeout ev 0) := by
  refine ⟨read_key_timeout_spec, ?_, fun h => read_key_timeout_pending _ _ h, ?_⟩
  · intro r0 h0 hsec
    rw [update_group_timer_some g t hsec r0 h0]
  · intro h
    obtain ⟨hlt, e⟩ := update_expiry_open rt g now ok hg hp h
    rw [e]
    rw [harm] at hlt
    obtain ⟨a1, a2, a3, a4⟩ := armed_remaining g t now hs ht hn hlt
    have hrem : rt.group_end - now ≤ 86400000 := by rw [harm, a1]; omega
    refine ⟨rfl, by show 0 < rt.group_end - now; rw [harm, a1]; exact a2,
      by show rt.group_end - now ≤ 1000 * g.seconds; rw [harm, a1]; exact a3, a4, ?_,
      fun ev => read_key_open rt _ 0 ev hrem⟩
    show read_key_timeout rt (rt.group_end - now) = some ((rt.group_end - now : Nat) : Int)
    unfold read_key_timeout
    have hd : (decide (rt.group_end - now > 86400000) && (rt.pending_switch == 0)) = false := by
      simp; intro hc; omega
    have hb : (rt.pending_switch != 0) = false := by simpa using hp
    rw [hd, hb]
    simp only [Bool.false_eq_true, if_false]
    rw [to_int_small _ (by omega)]

theorem C21_wait_bound_witness :
    (three_item_runtime.group = some ⟨1, 1, 5, 0, 3⟩ ∧
        three_item_runtime.group_end = (0 + 5 * 1000) % U64 ∧
        three_item_runtime.pending_switch = 0) ∧
      read_key_timeout (update_expiry three_item_runtime 0 (some 1200) true).2.1
        (update_expiry three_item_runtime 0 (some 1200) true).2.2 =
          some (((update_expiry three_item_runtime 0 (some 1200) true).2.2 : Nat) : Int) :=
  ⟨⟨rfl, by decide, rfl⟩,
    ((C21_wait_bound three_item_runtime ⟨1, 1, 5, 0, 3⟩ 0 1200 true rfl (by decide) (by decide)
      (by decide) (by decide) rfl).2.2.2 (by decide)).2.2.2.2.1⟩

/-- **C22** (the switch to the next group).  Let a switch be pending in a
state that satisfies the ordering invariant over a parsed session, and let
`handle_key` process an advancing key, the clock showing `now`: it returns 0.
Then the runtime it leaves is the old one with (a) the group ordering
reshuffled and the cursor reset when the cursor had reached `group_count`,
`group_index` read from the ordering at the cursor and `order_pos` one past
it; (b) `pending_switch` cleared; (c) `item_order` set to the shuffle of the
ordering whose first `item_count` entries are the indices `item_start ..
item_start + item_count - 1` of the new group; (d) `item_pos = 0` and
`item_index = item_order[0]`; (e) `group_end = now + 1000 * seconds` of the new
group, reduced modulo `2^64`. -/
theorem C22_pending_switch_transition (cfg : RunConfig) (rt : Runtime) (key adv : Int)
    (env : Tick) (now : Nat) (hs : SessionOK cfg rt.session) (hinv : RtInv cfg rt)
    (hp : rt.pending_switch = 1) (hk : is_advance_key key = true)
    (hclock : env.timer_clock = some now) (hrc : (handle_key cfg rt key adv env).1 = 0) :
    ∃ g, rt.session.groups[(next_group_order cfg rt).getD (next_cursor rt) 0]? = some g ∧
      (handle_key cfg rt key adv env).2.1 =
        { rt with
          group_order := next_group_order cfg rt,
          group_index := (next_group_order cfg rt).getD (next_cursor rt) 0,
          order_pos := next_cursor rt + 1,
          group := some g,
          pending_switch := 0,
          item_order := (rng_shuffle_items cfg (next_group_rng cfg rt)
            (init_item_order cfg g rt.item_order) g.item_count).1,
          rng := (rng_shuffle_items cfg (next_group_rng cfg rt)
            (init_item_order cfg g rt.item_order) g.item_count).2,
          item_pos := 0,
          group_end := (now + g.seconds * 1000) % U64,
          item_index := (rng_shuffle_items cfg (next_group_rng cfg rt)
            (init_item_order cfg g rt.item_order) g.item_count).1.getD 0 0 } ∧
      (init_item_order cfg g rt.item_order).take g.item_count =
        List.range' g.item_start g.item_count ∧
      ((rng_shuffle_items cfg (next_group_rng cfg rt)
          (init_item_order cfg g rt.item_order) g.item_count).1.take g.item_count).Perm
        (List.range' g.item_start g.item_count) ∧
      (now + g.seconds * 1000 < U64 →
        (handle_key cfg rt key adv env).2.1.group_end = now + 1000 * g.seconds) := by
  obtain ⟨g0, hg0, -⟩ := hinv.has_group cfg rt
  have hp0 : rt.pending_switch ≠ 0 := by rw [hp]; decide
  obtain ⟨hsel, ha, e, -⟩ := handle_key_switched cfg rt key adv env g0 hg0 hp0 hk hrc
  obtain ⟨g, hg, e1⟩ := switch_state cfg rt env now hs hinv hsel ha hclock
  have hmem : g ∈ rt.session.groups := List.getElem?_mem hg
  have hfill := hs.filled g hmem
  have hcnt : g.item_count ≤ cfg.MAX_ITEMS_TOTAL := by
    have := hs.icap
    omega
  obtain ⟨hi1, hi2⟩ := init_item_order_spec cfg g rt.item_order hinv.io_len hcnt (by
    have := hs.icap
    have := hs.ismall
    omega)
  obtain ⟨-, h2⟩ := shuffled_items_spec cfg (next_group_rng cfg rt)
    (init_item_order cfg g rt.item_order) g hi1 hcnt (by rw [hi2])
  refine ⟨g, hg, e.trans e1, hi2, h2, fun hfit => ?_⟩
  rw [e, e1]
  show (now + g.seconds * 1000) % U64 = now + 1000 * g.seconds
  rw [Nat.mod_eq_of_lt hfit, Nat.mul_comm]

theorem C22_pending_switch_transition_witness :
    (greetings_expired.pending_switch = 1 ∧ is_advance_key 32 = true ∧
        (key_tick 6000 32).timer_clock = some 6000 ∧
        (handle_key run_demo greetings_expired 32 0 (key_tick 6000 32)).1 = 0) ∧
      ∃ g, greetings_expired.session.groups[
          (next_group_order run_demo greetings_expired).getD (next_cursor greetings_expired) 0]?
          = some g ∧
        (handle_key run_demo greetings_expired 32 0 (key_tick 6000 32)).2.1.group = some g ∧
        (handle_key run_demo greetings_expired 32 0 (key_tick 6000 32)).2.1.pending_switch = 0 ∧
        (handle_key run_demo greetings_expired 32 0 (key_tick 6000 32)).2.1.group_end =
          6000 + 1000 * g.seconds :=
  ⟨⟨by decide, by decide, rfl, by decide⟩,
    (C22_pending_switch_transition run_demo greetings_expired 32 0 (key_tick 6000 32) 6000
      greetings_session_ok greetings_expired_inv (by decide) (by decide) rfl (by decide)).elim
      (fun g h => ⟨g, h.1, by rw [h.2.1], by rw [h.2.1], h.2.2.2.2 (by
        have hm := greetings_session_ok.secs g (List.getElem?_mem h.1)
        have hU : U64 = 18446744073709551616 := by decide
        omega)⟩)⟩

/-- **C24** (a full cycle shows every item once).  Let the state satisfy the
ordering invariant over a parsed session, no switch be pending, the active
group have `n = item_count` items and the item position be 0, as it is after a
shuffle of the item ordering.  If the next `n - 1` keys are handled as
advances, the item shown at the start followed by the items they show are
`item_order[0 .. n)`: pairwise distinct and a rearrangement of the indices
`item_start .. item_start + n - 1` of the active group; the group, the item
ordering and the generator are unchanged.  A further key handled as an
advance leaves the same group with the item ordering reshuffled, the position
0 and the first item of the new ordering shown. -/
theorem C24_full_cycle_of_items (cfg : RunConfig) (rt : Runtime) (g : Group)
    (keys : List (Int × Tick)) (r : List Nat × Runtime) (hs : SessionOK cfg rt.session)
    (hinv : RtInv cfg rt) (hp : rt.pending_switch = 0) (hg : rt.group = some g)
    (hpos : rt.item_pos = 0) (hlen : keys.length + 1 = g.item_count)
    (hshown : shown_items cfg keys rt = some r) :
    rt.item_index :: r.1 = rt.item_order.take g.item_count ∧
      (rt.item_index :: r.1).Nodup ∧
      (rt.item_index :: r.1).Perm (List.range' g.item_start g.item_count) ∧
      r.2.group = some g ∧ r.2.group_index = rt.group_index ∧
      r.2.item_order = rt.item_order ∧ r.2.rng = rt.rng ∧
      ∀ (key : Int) (env : Tick),
        (handle_key cfg r.2 key 0 env).1 = 0 ∧ (handle_key cfg r.2 key 0 env).2.2 = 1 →
        (handle_key cfg r.2 key 0 env).2.1 =
          { r.2 with
            item_pos := 0,
            item_order := (rng_shuffle_items cfg r.2.rng r.2.item_order g.item_count).1,
            rng := (rng_shuffle_items cfg r.2.rng r.2.item_order g.item_count).2,
            item_index :=
              (rng_shuffle_items cfg r.2.rng r.2.item_order g.item_count).1.getD 0 0 } := by
  obtain ⟨a1, a2, a3, a4, a5, a6, a7, a8, a9⟩ :=
    shown_items_run cfg g keys rt r hs hinv hp hg (by omega) hshown
  have hmem := hinv.group_mem cfg rt g hg
  have hfill := hs.filled g hmem
  have hl : 0 < rt.item_order.length := by
    rw [hinv.io_len]
    have := hs.icap
    omega
  have hlist : rt.item_index :: r.1 = rt.item_order.take g.item_count := by
    rw [a1, hinv.shown, hpos, ← hlen, take_eq_head_cons _ _ hl]
  have hperm := hinv.io_perm g hg
  rw [← hlist] at hperm
  refine ⟨hlist, hperm.nodup_iff.mpr (List.nodup_range' _ _), hperm, a5, a6, a8, a9, ?_⟩
  intro key env hok
  have hU : g.item_count < U64 := by
    have := hs.icap
    have := hs.ismall
    omega
  exact handle_key_wrap cfg r.2 key env g a4 a5
    (by rw [a7, hpos, Nat.zero_add, hlen, Nat.mod_eq_of_lt hU]) hok

theorem C24_full_cycle_of_items_witness :
    (greetings_runtime.pending_switch = 0 ∧
        greetings_runtime.group = some ⟨29, 7, 5, 2, 2⟩ ∧ greetings_runtime.item_pos = 0 ∧
        shown_items run_demo [(32, key_tick 10 32)] greetings_runtime =
          some ([2], (handle_key run_demo greetings_runtime 32 0 (key_tick 10 32)).2.1)) ∧
      (greetings_runtime.item_index :: [2]).Perm (List.range' 2 2) ∧
      (shown_items run_demo [(32, key_tick 10 32), (32, key_tick 20 32), (32, key_tick 30 32)]
        greetings_runtime).map (fun x => greetings_runtime.item_index :: x.1) =
          some [3, 2, 2, 3] :=
  ⟨⟨by decide, by decide, by decide, by decide⟩,
    (C24_full_cycle_of_items run_demo greetings_runtime ⟨29, 7, 5, 2, 2⟩
      [(32, key_tick 10 32)]
      ([2], (handle_key run_demo greetings_runtime 32 0 (key_tick 10 32)).2.1)
      greetings_session_ok greetings_inv (by decide) (by decide) (by decide) (by decide)
      (by decide)).2.2.1,
    by decide⟩

/-- **C25** (the shuffle loop is a bijection on choices).  For an array `v`
of distinct elements, run the loop of the shuffles with the draws given, `j_i`
at index `i` for `i = 1, .., length - 1`, each `j_i ≤ i`.  Every such sequence
of draws yields a rearrangement of `v`; every rearrangement of `v` is the
result of exactly one such sequence; and what `rng_shuffle_groups` and
`rng_shuffle_items` compute for an array within their capacity is the result
of such a sequence, the one drawn from the generator. -/
theorem C25_shuffle_choices_bijective (v : List Nat) (hv : v.Nodup) :
    (∀ js : List Nat, js.length = v.length - 1 → valid_choices js 1 = true →
        (shuffle_choices js 1 v).Perm v) ∧
      (∀ p : List Nat, p.Perm v →
        ∃! js, js.length = v.length - 1 ∧ valid_choices js 1 = true ∧
          shuffle_choices js 1 v = p) ∧
      ∀ (cfg : RunConfig) (rng : Rng),
        (v.length ≤ cfg.MAX_GROUPS →
          (rng_shuffle_groups cfg rng v v.length).1 =
              shuffle_choices (shuffle_draws cfg v.length (cfg.MAX_GROUPS - 1) 1 rng) 1 v ∧
            valid_choices (shuffle_draws cfg v.length (cfg.MAX_GROUPS - 1) 1 rng) 1 = true ∧
            (shuffle_draws cfg v.length (cfg.MAX_GROUPS - 1) 1 rng).length = v.length - 1) ∧
        (v.length ≤ cfg.MAX_ITEMS_TOTAL →
          (rng_shuffle_items cfg rng v v.length).1 =
              shuffle_choices (shuffle_draws cfg v.length (cfg.MAX_ITEMS_TOTAL - 1) 1 rng) 1 v ∧
            valid_choices (shuffle_draws cfg v.length (cfg.MAX_ITEMS_TOTAL - 1) 1 rng) 1 = true ∧
            (shuffle_draws cfg v.length (cfg.MAX_ITEMS_TOTAL - 1) 1 rng).length =
              v.length - 1) :=
  ⟨fun js hl hj => shuffle_choices_perm_full v js hl hj,
    shuffle_choices_unique v hv,
    fun cfg rng => ⟨fun hc => rng_shuffle_choices cfg _ rng v hc,
      fun hc => rng_shuffle_choices cfg _ rng v hc⟩⟩

theorem C25_shuffle_choices_bijective_witness :
    [10, 11, 12].Nodup ∧ (shuffle_choices [1, 0] 1 [10, 11, 12]).Perm [10, 11, 12] ∧
      ∃! js, js.length = [10, 11, 12].length - 1 ∧ valid_choices js 1 = true ∧
        shuffle_choices js 1 [10, 11, 12] = [12, 10, 11] :=
  ⟨by decide, (C25_shuffle_choices_bijective [10, 11, 12] (by decide)).1 [1, 0] rfl rfl,
    (C25_shuffle_choices_bijective [10, 11, 12] (by decide)).2.1 [12, 10, 11] (by decide)⟩

/-- **C26**, counterexample.  With `MAX_WAIT_LOOPS = 2`, pass 0 reads ESC, a
key that is neither advancing nor the interrupt byte, and is handled without
error; pass 1 reads the space bar, an advancing key, but the screen write of
the prompt fails there: `handle_key` returns -1 and `run_loop` returns -1
after these two passes.  One such attempt, fewer than `MAX_WAIT_LOOPS`,
followed by an advancing key has ended in a failure. -/
theorem C26_failed_draw_ends_run :
    1 < run_small.MAX_WAIT_LOOPS ∧
      quiet_read (esc_then_undrawn_space 0).read ∧
      quiet_passes run_small esc_then_undrawn_space 1 0 three_item_runtime =
        some three_item_runtime ∧
      (esc_then_undrawn_space 1).read = ReadEvent.byte 32 ∧
      is_advance_key 32 = true ∧
      (handle_key run_small three_item_runtime 32 0 (esc_then_undrawn_space 1)).1 = -1 ∧
      (run_loop run_small three_item_runtime esc_then_undrawn_space).rc = -1 ∧
      (run_loop run_small three_item_runtime esc_then_undrawn_space).ticks = 2 :=
  ⟨by decide, Or.inr ⟨27, rfl, by decide, by decide⟩, by decide, by decide, by decide,
    by decide, by decide, by decide⟩

/-- **C26** (liveness guard), amended.  Within one step of `run_loop`: if the
`MAX_WAIT_LOOPS` passes of the wait loop each read nothing or a byte that is
neither advancing nor the interrupt byte, `run_loop` returns -1.  If `k`
passes, fewer than `MAX_WAIT_LOOPS`, are quiet passes that complete without a
failing call (`quiet_passes`: each of them reads nothing or such a byte), and
the next pass reads an advancing key with `update_expiry`, `read_key` and
`handle_key` returning without error, then the wait loop is left after that
pass with the flag `advanced` set to 1, and `run_loop` goes on with the next
step, whose wait loop has all `MAX_WAIT_LOOPS` passes again. -/
theorem C26_liveness_guard (cfg : RunConfig) (env : Nat → Tick) (n step t : Nat)
    (rt : Runtime) :
    ((∀ p, t ≤ p → p < t + cfg.MAX_WAIT_LOOPS → quiet_read (env p).read) →
        (run_steps cfg env (n + 1) step t rt).rc = -1) ∧
      ∀ (k rem : Nat) (rtk rtu rta : Runtime) (key adv : Int), k < cfg.MAX_WAIT_LOOPS →
        quiet_passes cfg env k t rt = some rtk →
        update_expiry rtk 0 (env (t + k)).clock (env (t + k)).log_expired = (0, rtu, rem) →
        read_key rtu rem 0 (env (t + k)).read = (1, key) →
        is_advance_key key = true →
        handle_key cfg rtu key 0 (env (t + k)) = (0, rta, adv) →
        (∀ p, t ≤ p → p < t + k → quiet_read (env p).read) ∧
          wait_loop cfg env cfg.MAX_WAIT_LOOPS t rt 0 = WaitResult.left 1 rta (t + k + 1) ∧
          run_steps cfg env (n + 1) step t rt =
            run_steps cfg env n (step + 1) (t + k + 1) rta := by
  refine ⟨fun hq => run_steps_quiet cfg env n step t rt hq, ?_⟩
  intro k rem rtk rtu rta key adv hk hq hu hr hadv hh
  obtain ⟨f, hf⟩ : ∃ f, cfg.MAX_WAIT_LOOPS = k + (f + 1) := ⟨cfg.MAX_WAIT_LOOPS - k - 1, by omega⟩
  have hw : wait_loop cfg env cfg.MAX_WAIT_LOOPS t rt 0 = WaitResult.left 1 rta (t + k + 1) := by
    rw [hf, quiet_passes_wait cfg env k (f + 1) t rt rtk hq,
      wait_loop_advance_pass cfg env f (t + k) rtk key (by rw [hu]) (by rw [hu]; exact hr) hadv
        (by rw [hu]; dsimp only; rw [hh])]
    rw [hu]
    dsimp only
    rw [hh]
  refine ⟨quiet_passes_read cfg env k t rt rtk hq, hw, ?_⟩
  rw [run_steps, hw]
  rfl

theorem C26_liveness_guard_witness :
    (∀ p, 0 ≤ p → p < 0 + run_small.MAX_WAIT_LOOPS → quiet_read (key_tick 0 27).read) ∧
      (run_steps run_small (fun _ => key_tick 0 27) (0 + 1) 1 0 three_item_runtime).rc = -1 ∧
      (1 < run_small.MAX_WAIT_LOOPS ∧
        quiet_passes run_small esc_then_space 1 0 three_item_runtime = some three_item_runtime ∧
        update_expiry three_item_runtime 0 (esc_then_space (0 + 1)).clock
          (esc_then_space (0 + 1)).log_expired = (0, three_item_runtime, 5000) ∧
        read_key three_item_runtime 5000 0 (esc_then_space (0 + 1)).read = (1, 32) ∧
        is_advance_key 32 = true ∧
        handle_key run_small three_item_runtime 32 0 (esc_then_space (0 + 1)) =
          (0, (handle_key run_small three_item_runtime 32 0 (key_tick 0 32)).2.1, 1)) ∧
      wait_loop run_small esc_then_space run_small.MAX_WAIT_LOOPS 0 three_item_runtime 0 =
        WaitResult.left 1 (handle_key run_small three_item_runtime 32 0 (key_tick 0 32)).2.1
          (0 + 1 + 1) ∧
      (run_steps run_small esc_then_space (0 + 1) 1 0 three_item_runtime).rc = 0 :=
  ⟨fun _ _ _ => Or.inr ⟨27, rfl, by decide, by decide⟩,
    (C26_liveness_guard run_small (fun _ => key_tick 0 27) 0 1 0 three_item_runtime).1
      (fun _ _ _ => Or.inr ⟨27, rfl, by decide, by decide⟩),
    ⟨by decide, by decide, by decide, by decide, by decide, by decide⟩,
    ((C26_liveness_guard run_small esc_then_space 0 1 0 three_item_runtime).2 1 5000
      three_item_runtime three_item_runtime
      (handle_key run_small three_item_runtime 32 0 (key_tick 0 32)).2.1 32 1
      (by decide) (by decide) (by decide) (by decide) (by decide) (by decide)).2.1,
    by decide⟩

/-- **C27** (bounded rejection sampling).  For `upper > 0` let `k` be the
number of leading draws below the threshold among the first `RNG_RETRY_LIMIT`
draws.  Then `k ≤ RNG_RETRY_LIMIT`, `rng_range` leaves the generator where
`k + 1` calls of `rng_next_u64` leave it, and it returns draw number `k + 1`
reduced modulo `upper`: an accepted draw when `k < RNG_RETRY_LIMIT`, and for
`k = RNG_RETRY_LIMIT` the one further draw, taken untested.  For `upper = 0` it
returns 0 and the generator as it was. -/
theorem C27_bounded_rejection (cfg : RunConfig) (rng : Rng) (upper : Nat) (h : 0 < upper) :
    leading_rejects cfg rng upper ≤ cfg.RNG_RETRY_LIMIT ∧
      (rng_range cfg rng upper).2 = rng_after (leading_rejects cfg rng upper + 1) rng ∧
      (rng_range cfg rng upper).1 =
        (rng_next_u64 (rng_after (leading_rejects cfg rng upper) rng)).1 % upper ∧
      (leading_rejects cfg rng upper < cfg.RNG_RETRY_LIMIT →
        rng_threshold upper ≤ (rng_next_u64 (rng_after (leading_rejects cfg rng upper) rng)).1) ∧
      rng_range cfg rng 0 = (0, rng) := by
  obtain ⟨h1, h2⟩ := rng_range_draws cfg rng upper h
  refine ⟨h1, by rw [h2], by rw [h2], fun hk => leading_rejects_accept cfg rng upper hk, rfl⟩

theorem C27_bounded_rejection_witness :
    0 < 10 ∧ (rng_range run_small { state := 12345 } 10).2 =
      rng_after (leading_rejects run_small { state := 12345 } 10 + 1) { state := 12345 } :=
  ⟨by decide, (C27_bounded_rejection run_small { state := 12345 } 10 (by decide)).2.1⟩

/-- **C28** (the two shuffles agree below their caps).  For `count` up to
both capacities `rng_shuffle_groups` and `rng_shuffle_items` return the same
array and the same generator.  For `count` above the capacity of a routine
(and an array of at least that capacity) the first `cap` elements are
rearranged among themselves and the elements from index `cap` on stay in
place. -/
theorem C28_shuffles_agree (cfg : RunConfig) (rng : Rng) (values : List Nat) (count : Nat) :
    (count ≤ min cfg.MAX_GROUPS cfg.MAX_ITEMS_TOTAL →
        rng_shuffle_groups cfg rng values count = rng_shuffle_items cfg rng values count) ∧
      (cfg.MAX_GROUPS < count → cfg.MAX_GROUPS ≤ values.length →
        (rng_shuffle_groups cfg rng values count).1.length = values.length ∧
        ((rng_shuffle_groups cfg rng values count).1.take cfg.MAX_GROUPS).Perm
          (values.take cfg.MAX_GROUPS) ∧
        (rng_shuffle_groups cfg rng values count).1.drop cfg.MAX_GROUPS =
          values.drop cfg.MAX_GROUPS) ∧
      (cfg.MAX_ITEMS_TOTAL < count → cfg.MAX_ITEMS_TOTAL ≤ values.length →
        (rng_shuffle_items cfg rng values count).1.length = values.length ∧
        ((rng_shuffle_items cfg rng values count).1.take cfg.MAX_ITEMS_TOTAL).Perm
          (values.take cfg.MAX_ITEMS_TOTAL) ∧
        (rng_shuffle_items cfg rng values count).1.drop cfg.MAX_ITEMS_TOTAL =
          values.drop cfg.MAX_ITEMS_TOTAL) :=
  ⟨fun h => rng_shuffle_cap cfg _ _ rng values count (by omega) (by omega),
    fun hc hl => rng_shuffle_above cfg _ rng values count hc hl,
    fun hc hl => rng_shuffle_above cfg _ rng values count hc hl⟩

theorem C28_shuffles_agree_witness :
    3 ≤ min run_demo.MAX_GROUPS run_demo.MAX_ITEMS_TOTAL ∧
      rng_shuffle_groups run_demo { state := 12345 } [10, 11, 12, 13, 14] 3 =
        rng_shuffle_items run_demo { state := 12345 } [10, 11, 12, 13, 14] 3 :=
  ⟨by decide,
    (C28_shuffles_agree run_demo { state := 12345 } [10, 11, 12, 13, 14] 3).1 (by decide)⟩

end Cram
